import Mathlib

/-!
Conflux tick engine (medium-term supply): verification development.

Shallow embedding of `dev/Basic/medium/entities/conflux/Conflux.cpp`.

Objects that the C++ code reaches through pointers live in arenas keyed by
identifiers (`World`); a pointer that may be null is an `Option` of an
identifier.  A method that mutates state returns the state it leaves behind,
also when it throws: the result of such a method is a pair of an
`Except Fault _` and the state at the point of return or throw.
-/

namespace SimMobility

/-! ## Identifiers -/

abbrev PersonId := Nat
abbrev LinkId := Nat
abbrev LaneId := Nat
abbrev SegmentId := Nat
abbrev SegStatsId := Nat
abbrev ConfluxId := Nat
abbrev WorkerId := Nat
abbrev NodeId := Nat
abbrev BusStopId := Nat
abbrev AgentId := Nat

/-- Ways in which a call can leave by an exception (or by undefined behaviour). -/
inductive Fault where
  /-- `std::runtime_error` raised in the catch block of `hasSpaceInVirtualQueue`. -/
  | vqOutOfRange
  /-- `std::runtime_error("lastUpdatedFrame of confluxes are managed incorrectly")`. -/
  | lastUpdatedFrameMismanaged
  /-- `std::runtime_error("Error: Person has moved from one virtual queue to another. ...")`. -/
  | movedBetweenVirtualQueues
  /-- an uncaught `std::out_of_range` of `std::map::at`. -/
  | mapAtOutOfRange
  /-- a null (or otherwise missing) object is dereferenced: undefined behaviour in C++. -/
  | nullDereference
  /-- a fatal error raised inside `SegmentStats` (its code is outside this file). -/
  | segmentStatsError
  /-- a fatal error raised by a collaborator (role, trip chain, bus stop agent). -/
  | collaboratorError
  /-- the model of a `while` loop ran out of iterations (the C++ loop would still run). -/
  | outOfFuel
  /-- `std::runtime_error("cmp_person_remainingTimeThisTick: Comparison failed because at
  least one of the arguments is null ...")`. -/
  | comparisonWithNull
  /-- `std::runtime_error("Person not found in MRT list")`. -/
  | personNotInMrt
  /-- `std::runtime_error("Person not found in Car list")`. -/
  | personNotInCarList
  /-- `std::runtime_error("both twin stops are SINKs")`. -/
  | bothTwinStopsSinks
  /-- `std::runtime_error("Person ... has no Role.")`. -/
  | personWithoutRole
  /-- `std::runtime_error("Conflux::killAgent(): Attempt to remove non-existent person in
  Lane")`. -/
  | removeNonExistentPerson
  /-- `std::runtime_error("Starting road segment cannot be NULL for drivers")`. -/
  | nullStartingSegment
  /-- `std::runtime_error("person cannot start as a passenger")`. -/
  | startAsPassenger
  /-- an unsigned division by zero: undefined behaviour in C++. -/
  | divisionByZero
  /-- a `double` is converted to `int` and its truncated value is outside the range of
  `int`: undefined behaviour in C++. -/
  | intOutOfRange
  deriving DecidableEq, Repr

/-- `Role<Person_MT>::Type`; `RL_UNKNOWN` is the value 0 that `PersonProps` starts from. -/
inductive RoleType where
  | RL_UNKNOWN
  | RL_DRIVER
  | RL_BIKER
  | RL_PEDESTRIAN
  | RL_BUSDRIVER
  | RL_ACTIVITY
  | RL_PASSENGER
  | RL_WAITBUSACTITITY
  | RL_TRAINPASSENGER
  | RL_CARPASSENGER
  deriving DecidableEq, Repr

/-- `Person_MT::Permission`, the answer to a cross-link request. -/
inductive Permission where
  | NONE
  | GRANTED
  | DENIED
  deriving DecidableEq, Repr

/-- `Entity::UpdateStatus::status`. -/
inductive UpdateStatus where
  | RS_CONTINUE
  | RS_DONE
  deriving DecidableEq, Repr

/-! ## Association lists standing for `std::map` -/

/-- `std::map::at`: the value stored under `k`, `none` where `at` throws `std::out_of_range`. -/
def mapAt {α : Type} : List (Nat × α) → Nat → Option α
  | [], _ => none
  | (k', v) :: rest, k => if k' = k then some v else mapAt rest k

/-- Replaces the value stored under `k`, which is how a write through the reference
returned by `std::map::at` shows; a map without `k` is left as it is. -/
def mapSet {α : Type} : List (Nat × α) → Nat → α → List (Nat × α)
  | [], _, _ => []
  | (k', v) :: rest, k, x => if k' = k then (k', x) :: rest else (k', v) :: mapSet rest k x

/-- `std::map::insert`: adds the pair unless the key is already there. -/
def mapInsert {α : Type} (m : List (Nat × α)) (k : Nat) (x : α) : List (Nat × α) :=
  match mapAt m k with
  | some _ => m
  | none => m ++ [(k, x)]

/-! ## Road network (read-only) -/

/-- The part of `RoadSegment` that the conflux reads. Lengths are in centimetres; a C++
`double` is the rational it stands for. -/
structure RoadSegment where
  link : LinkId
  polylineLength : ℚ
  lanes : List LaneId
  parentConflux : ConfluxId
  deriving DecidableEq, Repr

/-- The part of `Link` that the conflux reads. -/
structure Link where
  segments : List SegmentId
  deriving DecidableEq, Repr

/-! ## Conflux -/

/-- The data members of `Conflux` that `Conflux.cpp` reads or writes. -/
structure Conflux where
  isLoader : Bool
  initialized : Bool
  /-- `currFrame.frame()` -/
  currFrame : Nat
  /-- `long lastUpdatedFrame` -/
  lastUpdatedFrame : Int
  tickTimeInS : ℚ
  parentWorker : Option WorkerId
  /-- link → its segment stats, upstream first -/
  upstreamSegStatsMap : List (LinkId × List SegStatsId)
  /-- road segment → its segment stats -/
  segmentAgents : List (SegmentId × List SegStatsId)
  virtualQueuesMap : List (LinkId × List PersonId)
  vqBounds : List (LinkId × Nat)
  activityPerformers : List PersonId
  pedestrianList : List PersonId
  mrt : List PersonId
  carSharing : List PersonId
  loadingQueue : List PersonId
  deriving DecidableEq, Repr

namespace Conflux

/-- `Conflux::hasSpaceInVirtualQueue` on the conflux `cfx`: the answer, or the
`runtime_error` of the catch block, together with the conflux as the call leaves it.
The lock taken for the duration of the call is released on both ways out. -/
def hasSpaceInVirtualQueue (cfx : Conflux) (lnk : LinkId) : Except Fault Bool × Conflux :=
  match mapAt cfx.vqBounds lnk, mapAt cfx.virtualQueuesMap lnk with
  | some bound, some queue => (.ok (decide (bound > queue.length)), cfx)
  | _, _ => (.error .vqOutOfRange, cfx)

/-- `Conflux::pushBackOntoVirtualQueue`: `virtualQueuesMap.at(lnk).push_back(p)`. -/
def pushBackOntoVirtualQueue (cfx : Conflux) (lnk : LinkId) (p : PersonId) :
    Except Fault Unit × Conflux :=
  match mapAt cfx.virtualQueuesMap lnk with
  | some queue =>
      (.ok (), { cfx with virtualQueuesMap := mapSet cfx.virtualQueuesMap lnk (queue ++ [p]) })
  | none => (.error .mapAtOutOfRange, cfx)

end Conflux

/-! ## Persons -/

/-- The part of `VehicleBase` (the role's resource) that the conflux reads. -/
structure VehicleBase where
  moving : Bool
  lengthCm : ℚ
  deriving DecidableEq, Repr

/-- A node of the road network, as far as the conflux tells nodes apart: whether it is a
`MultiNode` decides the `dynamic_cast<MultiNode*>`. -/
structure Node where
  id : NodeId
  isMultiNode : Bool
  deriving DecidableEq, Repr

/-- The part of `Role<Person_MT>` that the conflux reads or writes through setters. Times
are `DailyTime` values, in milliseconds (32 bits, unsigned). -/
structure Role where
  roleType : RoleType
  resource : Option VehicleBase
  /-- `ActivityPerformer::setActivityStartTime` -/
  activityStartTime : Nat := 0
  /-- `ActivityPerformer::setActivityEndTime` -/
  activityEndTime : Nat := 0
  /-- `ActivityPerformer::getLocation`, `setLocation` -/
  location : Option Node := none
  /-- `Role::setTravelTime` -/
  travelTime : Nat := 0
  deriving DecidableEq, Repr

/-- `TripChainItem::ItemType`, as far as the conflux tells the items apart: an activity,
or anything else. -/
inductive ItemType where
  | IT_TRIP
  | IT_ACTIVITY
  deriving DecidableEq, Repr

/-- The part of `TripChainItem` (and of `Activity`) that the conflux reads; the times are
the values of `DailyTime::getValue()`, in milliseconds. -/
structure TripChainItem where
  itemType : ItemType
  startTime : Nat
  endTime : Nat
  /-- `Activity::destination.node_` -/
  destination : Option Node
  deriving DecidableEq, Repr

/-- The part of `WayPoint` that the conflux reads: `busStop_` is meant only when `type_`
is `WayPoint::BUS_STOP`. -/
structure WayPoint where
  isBusStop : Bool
  busStop_ : Option BusStopId
  deriving DecidableEq, Repr

/-- The part of `SubTrip` that the conflux reads. -/
structure SubTrip where
  /-- `endTime.getValue()`, in milliseconds -/
  endTime : Nat
  origin : WayPoint
  deriving DecidableEq, Repr

/-- The data members of `Person_MT` that `Conflux.cpp` reads or writes. Times are in
seconds and distances in centimetres; a C++ `double` is the rational it stands for. -/
structure Person_MT where
  role : Option Role
  currSegStats : Option SegStatsId
  currLane : Option LaneId
  isQueuing : Bool
  distanceToEndOfSegment : ℚ
  remainingTimeThisTick : ℚ
  drivingTimeToEndOfLink : ℚ
  requestedNextSegStats : Option SegStatsId
  canMoveToNextSegment : Permission
  nextLinkRequired : Option LinkId
  lastUpdatedFrame : Int
  toBeRemoved : Bool
  initialized : Bool
  resetParamsRequired : Bool
  currWorkerProvider : Option WorkerId
  /-- `setStartTime`, in milliseconds -/
  startTime : Nat := 0
  /-- `*currTripChainItem`; `none` where the iterator cannot be dereferenced -/
  currTripChainItem : Option TripChainItem := none
  currSubTrip : Option SubTrip := none
  originNode : WayPoint := { isBusStop := false, busStop_ := none }
  /-- whether `GetContext()` is non-null: the person is registered with the message bus -/
  hasContext : Bool := true
  deriving DecidableEq, Repr

/-! ## Segment stats -/

/-- `LaneParams`: of the flow-rate parameters of a lane only the output counter is read
by the conflux. -/
structure LaneParams where
  /-- `int outputCounter` -/
  outputCounter : Int
  deriving DecidableEq, Repr

namespace LaneParams

/-- `LaneParams::getOutputCounter`. -/
def getOutputCounter (lp : LaneParams) : Int := lp.outputCounter

/-- Modelled from the spec: `LaneParams::decrementOutputCounter` is declared in
`SegmentStats.hpp`, which is not among the sources; the spec has the output counter
"decrement on each admitted crossing", so the call takes one off the counter. -/
def decrementOutputCounter (lp : LaneParams) : LaneParams :=
  { lp with outputCounter := lp.outputCounter - 1 }

end LaneParams

/-- Modelled from the spec: `LaneStats` is declared in `SegmentStats.hpp`, which is not
among the sources; the spec gives every lane an ordered deque of persons, a count of
the queuing ones among them (the others are moving), its lane parameters and the
recorded trailing edge of the most recently updated vehicle. -/
structure LaneStats where
  laneAgents : List PersonId
  queueCount : Nat
  laneParams : LaneParams
  positionOfLastUpdatedAgent : ℚ
  deriving DecidableEq, Repr

/-- The data members of `SegmentStats` that the conflux reads or writes. The lane
statistics include the entry of the lane-infinity pseudo-lane. -/
structure SegmentStats where
  roadSegment : SegmentId
  statsNumberInSegment : Nat
  parentConflux : ConfluxId
  length : ℚ
  laneInfinity : LaneId
  laneStatsMap : List (LaneId × LaneStats)
  deriving DecidableEq, Repr

namespace SegmentStats

/-- `SegmentStats::getLaneParams(lane)`; `none` where the C++ call has no lane statistics
to look into (a null lane, or a lane that is not of this segment). -/
def getLaneParams (ss : SegmentStats) (lane : Option LaneId) : Option LaneParams :=
  match lane with
  | none => none
  | some ln => (mapAt ss.laneStatsMap ln).map LaneStats.laneParams

/-- A write through the `LaneParams*` that `getLaneParams(lane)` returned. -/
def setLaneParams (ss : SegmentStats) (ln : LaneId) (lp : LaneParams) : SegmentStats :=
  match mapAt ss.laneStatsMap ln with
  | some st => { ss with laneStatsMap := mapSet ss.laneStatsMap ln { st with laneParams := lp } }
  | none => ss

end SegmentStats

/-! ## The world: arenas of the objects that the conflux code reaches -/

/-- Calls that the engine makes on its collaborators and that leave no mark on the state
modelled here. -/
inductive Event where
  /-- `personRole->Movement()->frame_tick()` for the person -/
  | frameTick (p : PersonId)
  /-- `personRole->make_frame_tick_params(now)` for the person -/
  | makeFrameTickParams (p : PersonId)
  /-- `MessageBus::PostMessage(conflux, MSG_PEDESTRIAN_TRANSFER_REQUEST, person)` -/
  | postPedestrianTransferRequest (dest : ConfluxId) (p : PersonId)
  /-- `MessageBus::PostMessage(conflux, MSG_PERSON_LOAD, person)` -/
  | postPersonLoad (dest : ConfluxId) (p : PersonId)
  /-- `MessageBus::ReRegisterHandler(person, conflux->GetContext())` -/
  | reRegisterHandler (p : PersonId) (dest : ConfluxId)
  /-- `MessageBus::RegisterHandler(this)` of a conflux -/
  | registerConflux (c : ConfluxId)
  /-- `MessageBus::RegisterHandler(person)` -/
  | registerPerson (p : PersonId)
  /-- `person->getRole()->collectTravelTime()` -/
  | collectTravelTime (p : PersonId)
  /-- `person->checkTripChain()` -/
  | checkTripChain (p : PersonId)
  /-- `person->getRole()->Movement()->frame_init()` -/
  | frameInit (p : PersonId)
  /-- `MessageBus::PostMessage(conflux, MSG_WAKE_UP, person, false, offset)` -/
  | postWakeUp (dest : ConfluxId) (p : PersonId) (offset : Nat)
  /-- `MessageBus::PostMessage(conflux, MSG_WAKEUP_CAR_PASSENGER_TELEPORTATION, person,
  false, offset)` -/
  | postWakeUpCarPassenger (dest : ConfluxId) (p : PersonId) (offset : Nat)
  /-- `MessageBus::SendMessage(busStopAgent, MSG_WAITING_PERSON_ARRIVAL, person)` -/
  | sendWaitingPersonArrival (agent : AgentId) (p : PersonId)
  /-- `parentWorker->remEntity(person)` -/
  | remEntity (worker : WorkerId) (p : PersonId)
  /-- `parentWorker->scheduleForRemoval(person)` -/
  | scheduleForRemoval (worker : WorkerId) (p : PersonId)
  deriving DecidableEq, Repr

/-- Every object of the simulation that `Conflux.cpp` reaches, by identifier, and the
log of the calls made on collaborators. -/
structure World where
  person : PersonId → Person_MT
  segStats : SegStatsId → SegmentStats
  conflux : ConfluxId → Conflux
  roadSegment : SegmentId → RoadSegment
  link : LinkId → Link
  trace : List Event

namespace World

/-- A write to the members of person `p`. -/
def modifyPerson (w : World) (p : PersonId) (f : Person_MT → Person_MT) : World :=
  { w with person := Function.update w.person p (f (w.person p)) }

/-- A write to the members of segment stats `s`. -/
def modifySegStats (w : World) (s : SegStatsId) (f : SegmentStats → SegmentStats) : World :=
  { w with segStats := Function.update w.segStats s (f (w.segStats s)) }

/-- A write to the members of conflux `c`. -/
def modifyConflux (w : World) (c : ConfluxId) (f : Conflux → Conflux) : World :=
  { w with conflux := Function.update w.conflux c (f (w.conflux c)) }

/-- Appends a call on a collaborator to the log. -/
def record (w : World) (e : Event) : World :=
  { w with trace := w.trace ++ [e] }

/-- `person->getCurrSegStats()->getLaneParams(person->getCurrLane())`: the segment stats,
the lane and the lane parameters; `none` where the C++ expression dereferences null. -/
def currLaneParams (w : World) (p : PersonId) : Option (SegStatsId × LaneId × LaneParams) :=
  match (w.person p).currSegStats, (w.person p).currLane with
  | some cur, some ln =>
      ((w.segStats cur).getLaneParams (some ln)).map (fun lp => (cur, ln, lp))
  | _, _ => none

/-- The output counter of lane `ln` of segment stats `s`, when that lane has statistics. -/
def outputCounter (w : World) (s : SegStatsId) (ln : LaneId) : Option Int :=
  ((w.segStats s).getLaneParams (some ln)).map LaneParams.getOutputCounter

end World

/-! ## Cross-link admission and the per-tick loop of `callMovementFrameTick` -/

/-- How one pass through the body of the `while` loop of `callMovementFrameTick` ends. -/
inductive LoopCtl where
  /-- the body ran to its end: the loop condition is tested again -/
  | goOn
  /-- `break` -/
  | breakLoop
  /-- `return` of the given status from inside the loop -/
  | returnWith (s : UpdateStatus)
  deriving DecidableEq, Repr

/-- The statement `person->canMoveToNextSegment = Person_MT::GRANTED` that opens the
admission block. -/
def World.presumeGranted (w : World) (p : PersonId) : World :=
  w.modifyPerson p (fun x => { x with canMoveToNextSegment := .GRANTED })

/-- The grant when the next conflux is not yet processed for the tick:
`currLnParams->decrementOutputCounter(); person->setCurrSegStats(person->requestedNextSegStats);
person->setCurrLane(nullptr); person->requestedNextSegStats = nullptr;`. -/
def World.grantIntoVirtualQueue (w : World) (p : PersonId) (nxt cur : SegStatsId) (ln : LaneId)
    (currLnParams : LaneParams) : World :=
  (w.modifySegStats cur (fun ss => ss.setLaneParams ln currLnParams.decrementOutputCounter)).modifyPerson p
    (fun x => { x with currSegStats := some nxt, currLane := none, requestedNextSegStats := none })

/-- The grant when the next conflux is already processed for the tick:
`currLnParams->decrementOutputCounter(); person->requestedNextSegStats = nullptr;`. -/
def World.grantAndProceed (w : World) (p : PersonId) (cur : SegStatsId) (ln : LaneId)
    (currLnParams : LaneParams) : World :=
  (w.modifySegStats cur (fun ss => ss.setLaneParams ln currLnParams.decrementOutputCounter)).modifyPerson p
    (fun x => { x with requestedNextSegStats := none })

/-- The denial: `person->canMoveToNextSegment = Person_MT::DENIED;
person->requestedNextSegStats = nullptr;`. -/
def World.denyAdmission (w : World) (p : PersonId) : World :=
  w.modifyPerson p (fun x => { x with canMoveToNextSegment := .DENIED, requestedNextSegStats := none })

/-- The block of `Conflux::callMovementFrameTick` guarded by
`if (person->requestedNextSegStats)`, for a person whose request is `nxt`, in the tick
`now.frame()`. -/
def admission (w : World) (now : Nat) (p : PersonId) (nxt : SegStatsId) :
    Except Fault LoopCtl × World :=
  let nxtSegment := (w.segStats nxt).roadSegment
  let nxtConflux := (w.segStats nxt).parentConflux
  -- grant permission. But check whether the subsequent frame_tick can be called now.
  let w1 := w.presumeGranted p
  let currentFrame : Int := (now : Int)
  match w1.currLaneParams p with
  | none => (.error .nullDereference, w1)
  | some (cur, ln, currLnParams) =>
    if currentFrame > (w1.conflux nxtConflux).lastUpdatedFrame then
      -- nxtConflux is not processed for the current tick yet
      match ((w1.conflux nxtConflux).hasSpaceInVirtualQueue (w1.roadSegment nxtSegment).link).1 with
      | .error f => (.error f, w1)
      | .ok hasSpace =>
        if hasSpace && decide (currLnParams.getOutputCounter > 0) then
          (.ok .breakLoop, w1.grantIntoVirtualQueue p nxt cur ln currLnParams)
        else
          (.ok .goOn, w1.denyAdmission p)
    else if currentFrame = (w1.conflux nxtConflux).lastUpdatedFrame then
      -- nxtConflux is processed for the current tick. Can move to the next link.
      if currLnParams.getOutputCounter > 0 then
        (.ok .goOn, w1.grantAndProceed p cur ln currLnParams)
      else
        (.ok .goOn, w1.denyAdmission p)
    else
      (.error .lastUpdatedFrameMismanaged, w1)

/-- What a denial of the request of person `p` leaves behind in `w'`, starting from `w`:
the permission is `DENIED`, the request is cleared, and no segment stats (hence no output
counter), nor the person's current segment stats and lane, have changed. -/
def IsDenial (w w' : World) (p : PersonId) : Prop :=
  (w'.person p).canMoveToNextSegment = .DENIED ∧
  (w'.person p).requestedNextSegStats = none ∧
  w'.segStats = w.segStats ∧
  (w'.person p).currSegStats = (w.person p).currSegStats ∧
  (w'.person p).currLane = (w.person p).currLane

/-- `Conflux::PersonProps`, the snapshot of a person taken before and after its update. -/
structure PersonProps where
  segment : Option SegmentId
  lane : Option LaneId
  isQueuing : Bool
  isMoving : Bool
  roleType : RoleType
  vehicleLength : ℚ
  segStats : Option SegStatsId
  conflux : Option ConfluxId
  deriving DecidableEq, Repr

/-- What the conflux calls without the body of the callee being embedded here: the
movement facet of the role and the methods of `SegmentStats` for bus stops (external
collaborators), and procedures of the conflux of their own (trip-chain switch, frame
initialisation, removal of a finished person, TopCMerge ordering, starting conflux).
Each is an arbitrary, possibly failing state transformer, so that what is proved of the
callers holds whatever the callees do. -/
structure Collaborators where
  /-- `personRole->Movement()->frame_tick()` -/
  frame_tick : World → PersonId → Except Fault Unit × World
  /-- `personRole->make_frame_tick_params(now)` -/
  make_frame_tick_params : World → Nat → PersonId → Except Fault Unit × World
  /-- `Conflux::switchTripChainItem(person)` -/
  switchTripChainItem : World → ConfluxId → PersonId → Except Fault UpdateStatus × World
  /-- `Conflux::callMovementFrameInit(now, person)` -/
  callMovementFrameInit : World → ConfluxId → Nat → PersonId → Except Fault Bool × World
  /-- `Conflux::killAgent(person, beforeUpdate)` -/
  killAgent : World → ConfluxId → PersonId → PersonProps → Except Fault Unit × World
  /-- `Conflux::getAllPersonsUsingTopCMerge(orderedPersons)` -/
  getAllPersonsUsingTopCMerge : World → ConfluxId → Except Fault (List PersonId) × World
  /-- `Conflux::updateBusStopAgents()` -/
  updateBusStopAgents : World → ConfluxId → Except Fault Unit × World
  /-- `Conflux::findStartingConflux(person, nextTickMS)` -/
  findStartingConflux : World → PersonId → Nat → Except Fault (Option ConfluxId) × World
  /-- `(*segIt)->initializeBusStops()` -/
  initializeBusStops : World → SegStatsId → Except Fault Unit × World
  /-- `(*segIt)->resetPositionOfLastUpdatedAgentOnLanes()` -/
  resetPositionOfLastUpdatedAgentOnLanes : SegmentStats → SegmentStats

/-- A call on a collaborator: the call is logged, and the log is out of the reach of the
collaborator. -/
def callOut {α : Type} (w : World) (e : Event) (f : World → Except Fault α × World) :
    Except Fault α × World :=
  let r := f w
  (r.1, { r.2 with trace := w.trace ++ [e] })

/-- The first part of the body of the `while` loop of `callMovementFrameTick`: the frame
tick of the role, unless the person is to be removed. -/
def frameTickStage (col : Collaborators) (p : PersonId) (w : World) : Except Fault Unit × World :=
  if (w.person p).toBeRemoved then (.ok (), w)
  else callOut w (.frameTick p) (fun v => col.frame_tick v p)

/-- The second part of the loop body: `if (person->isToBeRemoved()) { retVal =
switchTripChainItem(person); ... }`. The first component of the answer is the status
returned from inside the loop, if any; the second is the value of `retVal`. -/
def tripChainStage (col : Collaborators) (cfx : ConfluxId) (p : PersonId) (retVal : UpdateStatus)
    (w : World) : Except Fault (Option UpdateStatus × UpdateStatus) × World :=
  if (w.person p).toBeRemoved then
    match col.switchTripChainItem w cfx p with
    | (.error f, w1) => (.error f, w1)
    | (.ok .RS_DONE, w1) => (.ok (some .RS_DONE, .RS_DONE), w1)
    | (.ok .RS_CONTINUE, w1) => (.ok (none, .RS_CONTINUE), w1)
  else (.ok (none, retVal), w)

/-- The third part of the loop body: `if (person->getNextLinkRequired()) { ... return
UpdateStatus::Continue; }`, the hand-off of a pedestrian to the conflux of the next
link. The answer is the status returned from inside the loop, if any. -/
def nextLinkStage (cfx : ConfluxId) (p : PersonId) (w : World) :
    Except Fault (Option UpdateStatus) × World :=
  match (w.person p).nextLinkRequired with
  | none => (.ok none, w)
  | some lnk =>
    match (w.link lnk).segments with
    | [] => (.error .nullDereference, w)
    | seg :: _ =>
      let nextConflux := (w.roadSegment seg).parentConflux
      let w1 := w.record (.postPedestrianTransferRequest nextConflux p)
      let w2 := w1.modifyPerson p (fun x => { x with nextLinkRequired := none })
      if p ∈ (w2.conflux cfx).pedestrianList then
        let w3 := w2.modifyConflux cfx (fun c => { c with pedestrianList := c.pedestrianList.erase p })
        (.ok (some .RS_CONTINUE),
          w3.modifyPerson p (fun x => { x with currWorkerProvider := none }))
      else (.ok (some .RS_CONTINUE), w2)

/-- The last part of the loop body: `if (person->requestedNextSegStats) { ... }`. -/
def admissionStage (now : Nat) (p : PersonId) (w : World) : Except Fault LoopCtl × World :=
  match (w.person p).requestedNextSegStats with
  | some nxt => admission w now p nxt
  | none => (.ok .goOn, w)

/-- The loop body up to the test `if (person->requestedNextSegStats)`: frame tick, trip
chain, hand-off of a pedestrian. The first component of the answer is the status
returned from inside the loop, if any; the second is the value of `retVal`. -/
def stagesBeforeAdmission (col : Collaborators) (cfx : ConfluxId) (p : PersonId)
    (retVal : UpdateStatus) (w : World) : Except Fault (Option UpdateStatus × UpdateStatus) × World :=
  match frameTickStage col p w with
  | (.error f, w1) => (.error f, w1)
  | (.ok _, w1) =>
    match tripChainStage col cfx p retVal w1 with
    | (.error f, w2) => (.error f, w2)
    | (.ok (some s, r), w2) => (.ok (some s, r), w2)
    | (.ok (none, r), w2) =>
      match nextLinkStage cfx p w2 with
      | (.error f, w3) => (.error f, w3)
      | (.ok ret, w3) => (.ok (ret, r), w3)

/-- One pass through the body of the `while` loop of `callMovementFrameTick`; the second
component of the answer is the value of `retVal` after the pass. -/
def loopBody (col : Collaborators) (cfx : ConfluxId) (now : Nat) (p : PersonId)
    (retVal : UpdateStatus) (w : World) : Except Fault (LoopCtl × UpdateStatus) × World :=
  match stagesBeforeAdmission col cfx p retVal w with
  | (.error f, w3) => (.error f, w3)
  | (.ok (some s, r), w3) => (.ok (.returnWith s, r), w3)
  | (.ok (none, r), w3) =>
    match admissionStage now p w3 with
    | (.error f, w4) => (.error f, w4)
    | (.ok ctl, w4) => (.ok (ctl, r), w4)

/-- The `while (person->remainingTimeThisTick > 0.0)` loop of `callMovementFrameTick`
and the `return retVal` after it, run for at most `fuel` passes. -/
def tickLoop (col : Collaborators) (cfx : ConfluxId) (now : Nat) (p : PersonId) :
    Nat → UpdateStatus → World → Except Fault UpdateStatus × World
  | 0, retVal, w =>
    if (w.person p).remainingTimeThisTick > 0 then (.error .outOfFuel, w) else (.ok retVal, w)
  | fuel + 1, retVal, w =>
    if (w.person p).remainingTimeThisTick > 0 then
      match loopBody col cfx now p retVal w with
      | (.error f, w1) => (.error f, w1)
      | (.ok (.goOn, r), w1) => tickLoop col cfx now p fuel r w1
      | (.ok (.breakLoop, r), w1) => (.ok r, w1)
      | (.ok (.returnWith s, _), w1) => (.ok s, w1)
    else (.ok retVal, w)

/-- `Conflux::callMovementFrameTick(now, person)` on the conflux `cfx`. -/
def callMovementFrameTick (col : Collaborators) (fuel : Nat) (cfx : ConfluxId) (now : Nat)
    (p : PersonId) (w : World) : Except Fault UpdateStatus × World :=
  let afterParams : Except Fault Unit × World :=
    if (w.person p).resetParamsRequired then
      match callOut w (.makeFrameTickParams p) (fun v => col.make_frame_tick_params v now p) with
      | (.error f, w1) => (.error f, w1)
      | (.ok _, w1) => (.ok (), w1.modifyPerson p (fun x => { x with resetParamsRequired := false }))
    else (.ok (), w)
  match afterParams with
  | (.error f, w1) => (.error f, w1)
  | (.ok _, w1) =>
    let w2 := w1.modifyPerson p
      (fun x => { x with lastUpdatedFrame := ((w1.conflux cfx).currFrame : Int) })
    tickLoop col cfx now p fuel .RS_CONTINUE w2

/-- Every output counter that `getLaneParams` can reach is at least 0. -/
def CountersNonneg (w : World) : Prop :=
  ∀ s ln c, w.outputCounter s ln = some c → 0 ≤ c

/-- A sequence of admission evaluations, each for a person in a tick, in the order in
which the per-tick loops make them; a fatal error ends the sequence. -/
def admissionSequence : List (Nat × PersonId) → World → Except Fault Unit × World
  | [], w => (.ok (), w)
  | (now, p) :: rest, w =>
    match admissionStage now p w with
    | (.error f, w1) => (.error f, w1)
    | (.ok _, w1) => admissionSequence rest w1

/-- The collaborators that `callMovementFrameTick` calls keep the property `P` of the
state. -/
def Collaborators.Keep (col : Collaborators) (P : World → Prop) : Prop :=
  (∀ v q, P v → P (col.frame_tick v q).2) ∧
  (∀ v n q, P v → P (col.make_frame_tick_params v n q).2) ∧
  (∀ v c q, P v → P (col.switchTripChainItem v c q).2)

/-! ## Occupancy of segment stats and the bounds of the virtual queues -/

namespace SegmentStats

/-- The statistics of the lanes of the segment proper: every lane but lane infinity. -/
def realLaneStats (ss : SegmentStats) : List LaneStats :=
  (ss.laneStatsMap.filter (fun e => decide (e.1 ≠ ss.laneInfinity))).map Prod.snd

/-- Modelled from the spec: `SegmentStats::numAgentsInLane(lane)` is defined in
`SegmentStats.cpp`, which is not among the sources; by the spec it is the length of the
deque of the lane (0 for a lane without statistics). -/
def numAgentsInLane (ss : SegmentStats) (lane : LaneId) : Nat :=
  match mapAt ss.laneStatsMap lane with
  | some st => st.laneAgents.length
  | none => 0

/-- Modelled from the spec: `SegmentStats::numQueuingInSegment(true)` is defined in
`SegmentStats.cpp`, which is not among the sources; by the spec it is the number of
queuing persons in the lanes of the segment. -/
def numQueuingInSegment (ss : SegmentStats) : Nat :=
  (ss.realLaneStats.map (fun st => st.queueCount)).sum

/-- Modelled from the spec: `SegmentStats::numMovingInSegment(true)` is defined in
`SegmentStats.cpp`, which is not among the sources; by the spec it is the number of
persons in the lanes of the segment that are not queuing. -/
def numMovingInSegment (ss : SegmentStats) : Nat :=
  (ss.realLaneStats.map (fun st => st.laneAgents.length - st.queueCount)).sum

end SegmentStats

/-- `PASSENGER_CAR_UNIT = 400.0` (cm). -/
def PASSENGER_CAR_UNIT : ℚ := 400

/-! ### The double-precision arithmetic of `resetOutputBounds`

A `double` is the rational it stands for. The result of an operation on `double`s is the
exact result rounded to the nearest `double` (IEEE 754 binary64, ties to even). -/

/-- The quotient `num / den` rounded to the nearest natural number, a tie going to the
even one. -/
def roundHalfEven (num den : Nat) : Nat :=
  let q := num / den
  let r := num % den
  if 2 * r < den then q
  else if den < 2 * r then q + 1
  else if q % 2 = 0 then q else q + 1

/-- The number of times `b` can be doubled and stay at most `a`, counted up to `fuel`:
for `0 < b ≤ a` the floor of the binary logarithm of `a / b`. -/
def doublingsBelow : Nat → Nat → Nat → Nat
  | 0, _, _ => 0
  | fuel + 1, a, b => if 2 * b ≤ a then doublingsBelow fuel a (2 * b) + 1 else 0

/-- The number of times `a` has to be doubled to reach `b`, counted up to `fuel`: for
`0 < a < b` the ceiling of the binary logarithm of `b / a`. -/
def doublingsToReach : Nat → Nat → Nat → Nat
  | 0, _, _ => 0
  | fuel + 1, a, b => if b ≤ a then 0 else doublingsToReach fuel (2 * a) b + 1

/-- The floor of the binary logarithm of `a / b` for `a, b > 0`, between -2200 and 2200
(the exponents of the `double`s lie between -1074 and 1023). -/
def binaryExponent (a b : Nat) : Int :=
  if b ≤ a then (doublingsBelow 2200 a b : Int) else - (doublingsToReach 2200 a b : Int)

/-- The significand `m` and the exponent `x` of the `double` nearest to `a / b` for
`a, b > 0`, which is `m * 2 ^ x`: 53 significant bits, and below `2 ^ (-1022)` the
exponent of the subnormal numbers. -/
def roundRatio (a b : Nat) : Nat × Int :=
  let e := max (binaryExponent a b) (-1022)
  (if e ≤ 52 then roundHalfEven (a * 2 ^ (52 - e).toNat) b
    else roundHalfEven a (b * 2 ^ (e - 52).toNat),
   e - 52)

/-- The `double` nearest to the rational `q`. There is no infinity among the rationals:
a result of `2 ^ 1024` or more stands for `+∞` and one of `-(2 ^ 1024)` or less for
`-∞`. -/
def roundToDouble (q : ℚ) : ℚ :=
  if q = 0 then 0
  else
    let s := roundRatio q.num.natAbs q.den
    let r : ℚ := (s.1 : ℚ) * 2 ^ s.2
    if q < 0 then -r else r

/-- The conversion of an unsigned integer (`size_t`, `unsigned int`) to `double`. -/
def toDouble (n : Nat) : ℚ := roundToDouble (n : ℚ)

/-- The conversion of a `double` to `int`: the value truncated towards zero, and nothing
where the truncated value is outside the range of `int` (undefined behaviour in C++). -/
def doubleToInt (x : ℚ) : Option Int :=
  let t : Int := if 0 ≤ x then ⌊x⌋ else ⌈x⌉
  if -2 ^ 31 ≤ t ∧ t < 2 ^ 31 then some t else none

/-- The `double` of `std::ceil(getPolylineLength() * getLanes().size() / PASSENGER_CAR_UNIT)`
in line 664: the product and the quotient are each rounded to a `double`, and the
ceiling of a `double` is a `double`. -/
def vehicleCapacity (w : World) (segStats : SegmentStats) : Int :=
  ⌈roundToDouble
    (roundToDouble ((w.roadSegment segStats.roadSegment).polylineLength
        * toDouble (w.roadSegment segStats.roadSegment).lanes.length)
      / PASSENGER_CAR_UNIT)⌉

/-- The `double` that is converted to the `int num_emptySpaces` in lines 664 and 665:
`std::ceil(...) - numMovingInSegment(true) - numQueuingInSegment(true)`, where each
count is converted to `double` and each difference is rounded to a `double`. -/
def numEmptySpaces (w : World) (segStats : SegmentStats) : ℚ :=
  roundToDouble
    (roundToDouble ((vehicleCapacity w segStats : ℚ) - toDouble segStats.numMovingInSegment)
      - toDouble segStats.numQueuingInSegment)

/-- The value of `outputEstimate` that `resetOutputBounds` computes for the first segment
stats of a link (lines 664 to 669). The conversion of the `double` of lines 664 and 665
to `int` fails where the value is outside the range of `int`. After it `outputEstimate`
lies between 0 and `2 ^ 31 - 1` and the number of persons in lane infinity is the length
of a deque, far below `2 ^ 31`: the subtraction of line 668 is taken as exact. -/
def outputEstimate (w : World) (segStats : SegmentStats) : Except Fault Int :=
  match doubleToInt (numEmptySpaces w segStats) with
  | none => .error .intOutOfRange
  | some num_emptySpaces =>
    let outputEstimate : Int := if num_emptySpaces ≥ 0 then num_emptySpaces else 0
    let outputEstimate : Int :=
      outputEstimate - (segStats.numAgentsInLane segStats.laneInfinity : Int)
    .ok (if outputEstimate > 0 then outputEstimate else 0)

/-- The `for` loop of `Conflux::resetOutputBounds` over the entries of the virtual-queue
map that are still to be visited, with the value of `vqCount` and the conflux so far. -/
def resetOutputBoundsLoop (w : World) :
    List (LinkId × List PersonId) → Nat → Conflux → Except Fault Nat × Conflux
  | [], vqCount, cfx => (.ok vqCount, cfx)
  | (lnk, _) :: rest, vqCount, cfx =>
    match mapAt cfx.upstreamSegStatsMap lnk with
    | none => (.error .mapAtOutOfRange, cfx)
    | some [] => (.error .nullDereference, cfx)
    | some (first :: _) =>
      match outputEstimate w (w.segStats first) with
      | .error f => (.error f, cfx)
      | .ok outputEstimate =>
        let cfx1 := { cfx with
          vqBounds := mapInsert cfx.vqBounds lnk outputEstimate.toNat }
        match mapAt cfx1.virtualQueuesMap lnk with
        | none => (.error .mapAtOutOfRange, cfx1)
        | some queue => resetOutputBoundsLoop w rest (vqCount + queue.length) cfx1

/-- `Conflux::resetOutputBounds()` on the conflux `c`: the returned `vqCount` (an
`unsigned int`, taken as unbounded) and the world with the new bounds. -/
def resetOutputBounds (w : World) (c : ConfluxId) : Except Fault Nat × World :=
  let cleared : Conflux := { w.conflux c with vqBounds := [] }
  let r := resetOutputBoundsLoop w cleared.virtualQueuesMap 0 cleared
  (r.1, w.modifyConflux c (fun _ => r.2))

/-- The bound that `resetOutputBounds` stores for the link `lnk`: the output estimate of
the first segment stats of the link, as an `unsigned int`; `none` where the link has no
first segment stats or the output estimate is not computed. -/
def boundOfLink (w : World) (upstreamSegStatsMap : List (LinkId × List SegStatsId))
    (lnk : LinkId) : Option Nat :=
  match mapAt upstreamSegStatsMap lnk with
  | some (first :: _) =>
    match outputEstimate w (w.segStats first) with
    | .ok outputEstimate => some outputEstimate.toNat
    | .error _ => none
  | _ => none

/-! ## Snapshots of a person and housekeeping after the update -/

namespace SegmentStats

/-- `SegmentStats::getLength()`. -/
def getLength (ss : SegmentStats) : ℚ := ss.length

/-- A write to the statistics of a lane. -/
def setLaneStats (ss : SegmentStats) (lane : LaneId) (st : LaneStats) : SegmentStats :=
  { ss with laneStatsMap := mapSet ss.laneStatsMap lane st }

/-- Modelled from the spec: `SegmentStats::getPersons(lane)` is defined in
`SegmentStats.cpp`, which is not among the sources; by the spec it is the deque of the
lane (empty for a lane without statistics). -/
def getPersons (ss : SegmentStats) (lane : LaneId) : List PersonId :=
  match mapAt ss.laneStatsMap lane with
  | some st => st.laneAgents
  | none => []

/-- Modelled from the spec: `SegmentStats::addAgent(lane, person)` is defined in
`SegmentStats.cpp`, which is not among the sources; by the spec (`addPerson`) the person
goes to the back of the deque of the lane, and is counted as queuing if it is queuing.
A lane without statistics cannot be written to. -/
def addAgent (ss : SegmentStats) (lane : LaneId) (p : PersonId) (isQueuing : Bool) :
    Except Fault SegmentStats :=
  match mapAt ss.laneStatsMap lane with
  | none => .error .nullDereference
  | some st =>
    .ok (ss.setLaneStats lane
      { st with laneAgents := st.laneAgents ++ [p],
                queueCount := if isQueuing then st.queueCount + 1 else st.queueCount })

/-- Modelled from the spec: `SegmentStats::dequeue(person, lane, wasQueuing,
vehicleLength)` is defined in `SegmentStats.cpp`, which is not among the sources; by the
spec the person leaves the deque of the lane (and the count of queuing persons, if it was
queuing), and the dequeue of a person that is not in the lane is fatal, except for a bus
driver, whose absence after serving a stop is expected. -/
def dequeue (ss : SegmentStats) (p : PersonId) (lane : LaneId) (wasQueuing : Bool)
    (isBusDriver : Bool) : Except Fault SegmentStats :=
  match mapAt ss.laneStatsMap lane with
  | none => .error .nullDereference
  | some st =>
    if p ∈ st.laneAgents then
      .ok (ss.setLaneStats lane
        { st with laneAgents := st.laneAgents.erase p,
                  queueCount := if wasQueuing then st.queueCount - 1 else st.queueCount })
    else if isBusDriver then .ok ss
    else .error .segmentStatsError

/-- Modelled from the spec: `SegmentStats::updateQueueStatus(lane, person)` is defined in
`SegmentStats.cpp`, which is not among the sources; by the spec it moves the person
between the moving and the queuing bookkeeping of the lane when `isQueuing` has flipped. -/
def updateQueueStatus (ss : SegmentStats) (lane : LaneId) (isQueuing : Bool) :
    Except Fault SegmentStats :=
  match mapAt ss.laneStatsMap lane with
  | none => .error .nullDereference
  | some st =>
    .ok (ss.setLaneStats lane
      { st with queueCount := if isQueuing then st.queueCount + 1 else st.queueCount - 1 })

/-- Modelled from the spec: `SegmentStats::setPositionOfLastUpdatedAgentInLane(
distFromSegmentEnd, lane)` is defined in `SegmentStats.cpp`, which is not among the
sources; by the spec it records the trailing edge of the most recently updated vehicle of
the lane. -/
def setPositionOfLastUpdatedAgentInLane (ss : SegmentStats) (positionOfLastUpdatedAgent : ℚ)
    (lane : LaneId) : Except Fault SegmentStats :=
  match mapAt ss.laneStatsMap lane with
  | none => .error .nullDereference
  | some st =>
    .ok (ss.setLaneStats lane
      { st with positionOfLastUpdatedAgent := positionOfLastUpdatedAgent })

end SegmentStats

/-- `Conflux::findSegStats(rdSeg, statsNum)`. A road segment that is not a key of
`segmentAgents` makes the C++ code dereference `end()`. -/
def Conflux.findSegStats (cfx : Conflux) (rdSeg : Option SegmentId) (statsNum : Nat) :
    Except Fault (Option SegStatsId) :=
  match rdSeg with
  | none => .ok none
  | some seg =>
    if statsNum = 0 then .ok none
    else
      match mapAt cfx.segmentAgents seg with
      | none => .error .nullDereference
      | some statsList =>
        if statsList.length < statsNum then .ok none
        else .ok (statsList.get? (statsNum - 1))

/-- The constructor `PersonProps(person, cnflx)`. The member `vehicleLength`, which the
constructor leaves uninitialised for a person without a role, is 0 then. -/
def PersonProps.capture (w : World) (person : PersonId) (cnflx : ConfluxId) :
    Except Fault PersonProps :=
  let x := w.person person
  let isMoving : Bool :=
    match x.role with
    | some role => (role.resource.map VehicleBase.moving).getD true
    | none => true
  let roleType : RoleType := (x.role.map Role.roleType).getD .RL_UNKNOWN
  let vehicleLength : ℚ :=
    match x.role with
    | some role => (role.resource.map VehicleBase.lengthCm).getD 0
    | none => 0
  match x.currSegStats with
  | some cur =>
    let segment := (w.segStats cur).roadSegment
    match (w.conflux (w.segStats cur).parentConflux).findSegStats (some segment)
        (w.segStats cur).statsNumberInSegment with
    | .error f => .error f
    | .ok found =>
      .ok { segment := some segment, lane := x.currLane, isQueuing := x.isQueuing,
            isMoving := isMoving, roleType := roleType, vehicleLength := vehicleLength,
            segStats := found, conflux := some (w.segStats cur).parentConflux }
  | none =>
    .ok { segment := none, lane := x.currLane, isQueuing := x.isQueuing,
          isMoving := isMoving, roleType := roleType, vehicleLength := vehicleLength,
          segStats := none, conflux := some cnflx }

namespace World

/-- A call of a method of segment stats `s` that may fail; a failed call leaves the
segment stats as they were. -/
def onSegStats (w : World) (s : Option SegStatsId) (f : SegmentStats → Except Fault SegmentStats) :
    Except Fault Unit × World :=
  match s with
  | none => (.error .nullDereference, w)
  | some sid =>
    match f (w.segStats sid) with
    | .ok ss => (.ok (), w.modifySegStats sid (fun _ => ss))
    | .error e => (.error e, w)

/-- `segStats->addAgent(lane, person)`. -/
def addAgent (w : World) (s : Option SegStatsId) (lane : LaneId) (p : PersonId) :
    Except Fault Unit × World :=
  w.onSegStats s (fun ss => ss.addAgent lane p (w.person p).isQueuing)

/-- `segStats->dequeue(person, lane, isQueuing, vehicleLength)`. -/
def dequeue (w : World) (s : Option SegStatsId) (p : PersonId) (lane : LaneId)
    (wasQueuing : Bool) : Except Fault Unit × World :=
  w.onSegStats s (fun ss => ss.dequeue p lane wasQueuing
    (decide (((w.person p).role.map Role.roleType) = some .RL_BUSDRIVER)))

/-- `conflux->pushBackOntoVirtualQueue(lnk, person)` on conflux `c`. -/
def pushBackOntoVirtualQueue (w : World) (c : ConfluxId) (lnk : LinkId) (p : PersonId) :
    Except Fault Unit × World :=
  ((w.conflux c).pushBackOntoVirtualQueue lnk p |>.1,
    w.modifyConflux c (fun cfx => (cfx.pushBackOntoVirtualQueue lnk p).2))

/-- The three statements that put a person at the back of the virtual queue of the link
of its segment after the update:
`person->distanceToEndOfSegment = afterUpdate.segStats->getLength();
afterUpdate.segStats->getParentConflux()->pushBackOntoVirtualQueue(
afterUpdate.segment->getLink(), person);`. -/
def enqueueOnVirtualQueue (w : World) (afterUpdate : PersonProps) (person : PersonId) :
    Except Fault Unit × World :=
  match afterUpdate.segStats, afterUpdate.segment with
  | some s, some seg =>
    let w1 := w.modifyPerson person
      (fun x => { x with distanceToEndOfSegment := (w.segStats s).getLength })
    w1.pushBackOntoVirtualQueue (w1.segStats s).parentConflux (w1.roadSegment seg).link person
  | some s, none =>
    (.error .nullDereference, w.modifyPerson person
      (fun x => { x with distanceToEndOfSegment := (w.segStats s).getLength }))
  | none, _ => (.error .nullDereference, w)

end World

/-- The first block of `Conflux::housekeep` (lines 367 to 388): a person that has left
an activity. The boolean tells whether `housekeep` has returned. -/
def housekeepActivityExit (w : World) (cfx : ConfluxId) (beforeUpdate afterUpdate : PersonProps)
    (person : PersonId) : Bool × World :=
  if beforeUpdate.roleType = .RL_ACTIVITY ∧ afterUpdate.roleType ≠ .RL_ACTIVITY then
    let w1 := w.modifyConflux cfx
      (fun c => { c with activityPerformers := c.activityPerformers.erase person })
    if afterUpdate.roleType = .RL_PEDESTRIAN then
      if person ∈ (w1.conflux cfx).pedestrianList then (true, w1)
      else (true, w1.modifyConflux cfx
        (fun c => { c with pedestrianList := c.pedestrianList ++ [person] }))
    else (false, w1)
  else (false, w)

/-- The case `RL_BUSDRIVER` of the `switch` of `Conflux::housekeep` (lines 438 to 488).
The boolean tells whether `housekeep` has returned. -/
def housekeepBusDriver (w : World) (beforeUpdate afterUpdate : PersonProps) (person : PersonId) :
    Except Fault Bool × World :=
  if beforeUpdate.isMoving && !afterUpdate.isMoving then
    match beforeUpdate.lane with
    | some ln =>
      match w.dequeue beforeUpdate.segStats person ln beforeUpdate.isQueuing with
      | (.error f, w1) => (.error f, w1)
      | (.ok _, w1) => (.ok true, w1)
    | none => (.ok true, w)
  else if !beforeUpdate.isMoving && afterUpdate.isMoving then
    match afterUpdate.lane with
    | some ln =>
      match w.addAgent afterUpdate.segStats ln person with
      | (.error f, w1) => (.error f, w1)
      | (.ok _, w1) => (.ok true, w1)
    | none =>
      match w.enqueueOnVirtualQueue afterUpdate person with
      | (.error f, w1) => (.error f, w1)
      | (.ok _, w1) => (.ok true, w1)
  else if !beforeUpdate.isMoving && !afterUpdate.isMoving
      && decide (beforeUpdate.segStats ≠ afterUpdate.segStats) then
    (.ok true, w)
  else (.ok false, w)

/-- The `switch (afterUpdate.roleType)` of `Conflux::housekeep` (lines 392 to 489). The
boolean tells whether `housekeep` has returned. -/
def housekeepRole (w : World) (cfx : ConfluxId) (beforeUpdate afterUpdate : PersonProps)
    (person : PersonId) : Except Fault Bool × World :=
  match afterUpdate.roleType with
  | .RL_WAITBUSACTITITY => (.ok true, w)
  | .RL_TRAINPASSENGER => (.ok true, w)
  | .RL_CARPASSENGER => (.ok true, w)
  | .RL_ACTIVITY =>
    if beforeUpdate.roleType = .RL_ACTIVITY then (.ok true, w)
    else
      let left : Except Fault Unit × World :=
        if beforeUpdate.roleType = .RL_PEDESTRIAN then
          (.ok (), w.modifyConflux cfx
            (fun c => { c with pedestrianList := c.pedestrianList.erase person }))
        else
          match beforeUpdate.lane with
          | some ln => w.dequeue beforeUpdate.segStats person ln beforeUpdate.isQueuing
          | none => (.ok (), w)
      match left with
      | (.error f, w1) => (.error f, w1)
      | (.ok _, w1) =>
        (.ok true, w1.modifyConflux cfx
          (fun c => { c with activityPerformers := c.activityPerformers ++ [person] }))
  | .RL_PEDESTRIAN =>
    if beforeUpdate.roleType = .RL_PEDESTRIAN then (.ok true, w) else (.ok false, w)
  | .RL_BUSDRIVER => housekeepBusDriver w beforeUpdate afterUpdate person
  | _ => (.ok false, w)

/-- The condition `(beforeUpdate.segStats != afterUpdate.segStats) || (beforeUpdate.lane
== beforeUpdate.segStats->laneInfinity && beforeUpdate.lane != afterUpdate.lane)` of
line 520, for a non-null `beforeUpdate.lane`. -/
def movedOrLeftLaneInfinity (w : World) (beforeUpdate afterUpdate : PersonProps) (bl : LaneId) :
    Except Fault Bool :=
  if beforeUpdate.segStats ≠ afterUpdate.segStats then .ok true
  else
    match beforeUpdate.segStats with
    | none => .error .nullDereference
    | some bs => .ok (decide (bl = (w.segStats bs).laneInfinity ∧ some bl ≠ afterUpdate.lane))

/-- The placement of a person on the road in `Conflux::housekeep` (lines 493 to 551). -/
def housekeepOnRoad (w : World) (beforeUpdate afterUpdate : PersonProps) (person : PersonId) :
    Except Fault Unit × World :=
  match beforeUpdate.lane with
  | none =>
    -- the person was in virtual queue or was performing an activity
    match afterUpdate.lane with
    | some ln => w.addAgent afterUpdate.segStats ln person
    | none =>
      if beforeUpdate.segStats ≠ afterUpdate.segStats then
        -- the message of the error reads both segments
        match beforeUpdate.segment, afterUpdate.segment with
        | some _, some _ => (.error .movedBetweenVirtualQueues, w)
        | _, _ => (.error .nullDereference, w)
      else w.enqueueOnVirtualQueue afterUpdate person
  | some bl =>
    match movedOrLeftLaneInfinity w beforeUpdate afterUpdate bl with
    | .error f => (.error f, w)
    | .ok true =>
      let left : Except Fault Unit × World :=
        if beforeUpdate.roleType ≠ .RL_ACTIVITY then
          w.dequeue beforeUpdate.segStats person bl beforeUpdate.isQueuing
        else (.ok (), w)
      match left with
      | (.error f, w1) => (.error f, w1)
      | (.ok _, w1) =>
        match afterUpdate.lane with
        | some ln => w1.addAgent afterUpdate.segStats ln person
        | none => w1.enqueueOnVirtualQueue afterUpdate person
    | .ok false =>
      -- here beforeUpdate.segStats == afterUpdate.segStats, and it is not null
      match afterUpdate.segStats, afterUpdate.lane with
      | some s, some ln =>
        if ln = (w.segStats s).laneInfinity then
          match w.dequeue beforeUpdate.segStats person bl beforeUpdate.isQueuing with
          | (.error f, w1) => (.error f, w1)
          | (.ok _, w1) => w1.addAgent afterUpdate.segStats ln person
        else if beforeUpdate.isQueuing ≠ afterUpdate.isQueuing then
          w.onSegStats afterUpdate.segStats
            (fun ss => ss.updateQueueStatus ln (w.person person).isQueuing)
        else (.ok (), w)
      | some _, none =>
        if beforeUpdate.isQueuing ≠ afterUpdate.isQueuing then (.error .nullDereference, w)
        else (.ok (), w)
      | none, _ => (.error .nullDereference, w)

/-- The end of `Conflux::housekeep` (lines 553 to 559): the trailing edge of the person's
vehicle is recorded in its lane, unless the lane is null or lane infinity. -/
def housekeepTrailingEdge (w : World) (afterUpdate : PersonProps) (person : PersonId) :
    Except Fault Unit × World :=
  match afterUpdate.lane with
  | none => (.ok (), w)
  | some ln =>
    match afterUpdate.segStats with
    | none => (.error .nullDereference, w)
    | some s =>
      if ln ≠ (w.segStats s).laneInfinity then
        match (w.person person).role with
        | some role =>
          match role.resource with
          | some vehicle =>
            let lengthToVehicleEnd := (w.person person).distanceToEndOfSegment + vehicle.lengthCm
            w.onSegStats afterUpdate.segStats
              (fun ss => ss.setPositionOfLastUpdatedAgentInLane lengthToVehicleEnd ln)
          | none => (.error .nullDereference, w)
        | none => (.error .nullDereference, w)
      else (.ok (), w)

/-- `Conflux::housekeep(beforeUpdate, afterUpdate, person)` on the conflux `cfx`. -/
def housekeep (w : World) (cfx : ConfluxId) (beforeUpdate afterUpdate : PersonProps)
    (person : PersonId) : Except Fault Unit × World :=
  match housekeepActivityExit w cfx beforeUpdate afterUpdate person with
  | (true, w1) => (.ok (), w1)
  | (false, w1) =>
    match housekeepRole w1 cfx beforeUpdate afterUpdate person with
    | (.error f, w2) => (.error f, w2)
    | (.ok true, w2) => (.ok (), w2)
    | (.ok false, w2) =>
      match housekeepOnRoad w2 beforeUpdate afterUpdate person with
      | (.error f, w3) => (.error f, w3)
      | (.ok _, w3) => housekeepTrailingEdge w3 afterUpdate person

/-- `Conflux::updateAgentContext(beforeUpdate, afterUpdate, person)`. -/
def updateAgentContext (w : World) (beforeUpdate afterUpdate : PersonProps) (person : PersonId) :
    World :=
  match beforeUpdate.conflux, afterUpdate.conflux with
  | some b, some a => if b ≠ a then w.record (.reRegisterHandler person a) else w
  | _, _ => w

/-! ## The update of a person and of a conflux -/

/-- `Conflux::movePerson(now, person)` on the conflux `cfx`. -/
def movePerson (col : Collaborators) (fuel : Nat) (cfx : ConfluxId) (now : Nat) (person : PersonId)
    (w : World) : Except Fault UpdateStatus × World :=
  let init : Except Fault Bool × World :=
    if (w.person person).initialized then (.ok true, w)
    else
      match col.callMovementFrameInit w cfx now person with
      | (.error f, w1) => (.error f, w1)
      | (.ok false, w1) => (.ok false, w1)
      | (.ok true, w1) => (.ok true, w1.modifyPerson person (fun x => { x with initialized := true }))
  match init with
  | (.error f, w1) => (.error f, w1)
  | (.ok false, w1) => (.ok .RS_DONE, w1)
  | (.ok true, w1) =>
    -- Perform the main update tick
    match callMovementFrameTick col fuel cfx now person w1 with
    | (.error f, w2) => (.error f, w2)
    | (.ok retVal, w2) =>
      if retVal ≠ .RS_DONE ∧ (w2.person person).remainingTimeThisTick ≤ 0 then
        (.ok retVal, w2.modifyPerson person (fun x => { x with resetParamsRequired := true }))
      else (.ok retVal, w2)

/-- `Conflux::updateAgent(person)` on the conflux `cfx`. -/
def updateAgent (col : Collaborators) (fuel : Nat) (cfx : ConfluxId) (person : PersonId)
    (w : World) : Except Fault Unit × World :=
  let w1 :=
    if (w.person person).lastUpdatedFrame < ((w.conflux cfx).currFrame : Int) then
      w.modifyPerson person (fun x => { x with remainingTimeThisTick := (w.conflux cfx).tickTimeInS })
    else w
  let w2 := w1.modifyPerson person
    (fun x => { x with currWorkerProvider := (w1.conflux cfx).parentWorker })
  match PersonProps.capture w2 person cfx with
  | .error f => (.error f, w2)
  | .ok beforeUpdate =>
    match movePerson col fuel cfx (w2.conflux cfx).currFrame person w2 with
    | (.error f, w3) => (.error f, w3)
    | (.ok .RS_DONE, w3) => col.killAgent w3 cfx person beforeUpdate
    | (.ok .RS_CONTINUE, w3) =>
      match PersonProps.capture w3 person cfx with
      | .error f => (.error f, w3)
      | .ok afterUpdate =>
        match housekeep w3 cfx beforeUpdate afterUpdate person with
        | (.error f, w4) => (.error f, w4)
        | (.ok _, w4) => (.ok (), updateAgentContext w4 beforeUpdate afterUpdate person)

/-- The `for` loop of `Conflux::processAgents` over the ordered persons. -/
def updateAgents (col : Collaborators) (fuel : Nat) (cfx : ConfluxId) :
    List PersonId → World → Except Fault Unit × World
  | [], w => (.ok (), w)
  | person :: rest, w =>
    match updateAgent col fuel cfx person w with
    | (.error f, w1) => (.error f, w1)
    | (.ok _, w1) => updateAgents col fuel cfx rest w1

/-- `Conflux::processAgents()` on the conflux `cfx`. -/
def processAgents (col : Collaborators) (fuel : Nat) (cfx : ConfluxId) (w : World) :
    Except Fault Unit × World :=
  match col.getAllPersonsUsingTopCMerge w cfx with
  | (.error f, w1) => (.error f, w1)
  | (.ok merged, w1) =>
    let orderedPersons :=
      merged ++ (w1.conflux cfx).activityPerformers ++ (w1.conflux cfx).pedestrianList
    match updateAgents col fuel cfx orderedPersons w1 with
    | (.error f, w2) => (.error f, w2)
    | (.ok _, w2) => col.updateBusStopAgents w2 cfx

/-- The segment stats of the conflux, link by link, upstream first. -/
def Conflux.allSegStats (cfx : Conflux) : List SegStatsId :=
  cfx.upstreamSegStatsMap.flatMap (fun e => e.2)

/-- `Conflux::resetPositionOfLastUpdatedAgentOnLanes()` on the conflux `cfx`. -/
def resetPositionOfLastUpdatedAgentOnLanes (col : Collaborators) (cfx : ConfluxId) (w : World) :
    World :=
  (w.conflux cfx).allSegStats.foldl
    (fun v s => v.modifySegStats s col.resetPositionOfLastUpdatedAgentOnLanes) w

/-- The body of both loops of `resetPersonRemTimes`: a person that is going to be moved
for the first time in this tick gets the whole tick. -/
def resetRemTime (cfx : ConfluxId) (w : World) (p : PersonId) : World :=
  if (w.person p).lastUpdatedFrame < ((w.conflux cfx).currFrame : Int) then
    w.modifyPerson p (fun x => { x with remainingTimeThisTick := (w.conflux cfx).tickTimeInS })
  else w

/-- `Conflux::resetPersonRemTimes()` on the conflux `cfx`: the persons in lane infinity of
every segment stats, then the persons in the virtual queues. -/
def resetPersonRemTimes (cfx : ConfluxId) (w : World) : World :=
  let inLaneInfinity := (w.conflux cfx).allSegStats.flatMap
    (fun s => (w.segStats s).getPersons (w.segStats s).laneInfinity)
  let inVirtualQueues := (w.conflux cfx).virtualQueuesMap.flatMap (fun e => e.2)
  (inLaneInfinity ++ inVirtualQueues).foldl (resetRemTime cfx) w

/-- The configuration values read by `loadPersons`: `MT_Config::granPersonTicks` and
`ConfigParams::baseGranMS()`. -/
structure Config where
  granPersonTicks : Nat
  baseGranMS : Nat
  deriving DecidableEq, Repr

/-- The `while (!loadingQueue.empty())` loop of `Conflux::loadPersons`, run for at most
`fuel` passes. -/
def loadPersonsLoop (col : Collaborators) (cfx : ConfluxId) (nextTickMS : Nat) :
    Nat → World → Except Fault Unit × World
  | 0, w =>
    match (w.conflux cfx).loadingQueue with
    | [] => (.ok (), w)
    | _ :: _ => (.error .outOfFuel, w)
  | fuel + 1, w =>
    match (w.conflux cfx).loadingQueue with
    | [] => (.ok (), w)
    | person :: rest =>
      let w1 := w.modifyConflux cfx (fun c => { c with loadingQueue := rest })
      match col.findStartingConflux w1 person nextTickMS with
      | (.error f, w2) => (.error f, w2)
      | (.ok (some conflux), w2) =>
        loadPersonsLoop col cfx nextTickMS fuel (w2.record (.postPersonLoad conflux person))
      | (.ok none, w2) => loadPersonsLoop col cfx nextTickMS fuel w2

/-- `Conflux::loadPersons()` on the conflux `cfx`; `nextTickMS` is an `unsigned int`. -/
def loadPersons (col : Collaborators) (cfg : Config) (fuel : Nat) (cfx : ConfluxId) (w : World) :
    Except Fault Unit × World :=
  let nextTickMS := (((w.conflux cfx).currFrame + cfg.granPersonTicks) * cfg.baseGranMS) % 2 ^ 32
  loadPersonsLoop col cfx nextTickMS fuel w

/-- The loop of `Conflux::frame_init` over the segment stats of the conflux. -/
def initializeBusStopsOf (col : Collaborators) : List SegStatsId → World → Except Fault Unit × World
  | [], w => (.ok (), w)
  | s :: rest, w =>
    match col.initializeBusStops w s with
    | (.error f, w1) => (.error f, w1)
    | (.ok _, w1) => initializeBusStopsOf col rest w1

/-- `Conflux::frame_init(now)` on the conflux `cfx`. -/
def frame_init (col : Collaborators) (cfx : ConfluxId) (w : World) : Except Fault Bool × World :=
  let w1 := w.record (.registerConflux cfx)
  match initializeBusStopsOf col (w1.conflux cfx).allSegStats w1 with
  | (.error f, w2) => (.error f, w2)
  | (.ok _, w2) => (.ok true, w2)

/-- The opening of `Conflux::update(frameNumber)` (lines 282 to 288): the conflux is
initialised if it was not, and `currFrame` is set. -/
def updatePrologue (col : Collaborators) (cfx : ConfluxId) (frameNumber : Nat) (w : World) :
    Except Fault Unit × World :=
  let initialised : Except Fault Unit × World :=
    if (w.conflux cfx).initialized then (.ok (), w)
    else
      match frame_init col cfx w with
      | (.error f, w1) => (.error f, w1)
      | (.ok _, w1) => (.ok (), w1.modifyConflux cfx (fun c => { c with initialized := true }))
  match initialised with
  | (.error f, w1) => (.error f, w1)
  | (.ok _, w1) => (.ok (), w1.modifyConflux cfx (fun c => { c with currFrame := frameNumber }))

/-- `Conflux::update(frameNumber)` on the conflux `cfx`; `fuel` bounds the passes of the
`while` loops. -/
def update (col : Collaborators) (cfg : Config) (fuel : Nat) (cfx : ConfluxId) (frameNumber : Nat)
    (w : World) : Except Fault UpdateStatus × World :=
  match updatePrologue col cfx frameNumber w with
  | (.error f, w1) => (.error f, w1)
  | (.ok _, w1) =>
    if (w1.conflux cfx).isLoader then
      match loadPersons col cfg fuel cfx w1 with
      | (.error f, w2) => (.error f, w2)
      | (.ok _, w2) => (.ok .RS_CONTINUE, w2)
    else
      let w2 := resetPositionOfLastUpdatedAgentOnLanes col cfx w1
      -- reset the remaining times of persons in lane infinity and VQ if required.
      let w3 := resetPersonRemTimes cfx w2
      -- process all agents in this conflux for this tick
      match processAgents col fuel cfx w3 with
      | (.error f, w4) => (.error f, w4)
      | (.ok _, w4) =>
        (.ok .RS_CONTINUE, w4.modifyConflux cfx (fun c => { c with lastUpdatedFrame := (frameNumber : Int) }))

/-! ## The virtual queues within one tick -/

namespace World

/-- The number of persons in the virtual queue of link `l` on conflux `c` (0 if the link
has no virtual queue there). -/
def vqLength (w : World) (c : ConfluxId) (l : LinkId) : Nat :=
  ((mapAt (w.conflux c).virtualQueuesMap l).map List.length).getD 0

/-- The bound `vqBounds[l]` on conflux `c` (0 if the link has no bound there). -/
def vqBound (w : World) (c : ConfluxId) (l : LinkId) : Nat :=
  (mapAt (w.conflux c).vqBounds l).getD 0

/-- `i->second.front(); i->second.pop_front();` of `Conflux::processVirtualQueues`, on
the virtual queue of link `l` of conflux `c`: the person popped and the world without it
in the queue; `none` if the link has no queue or the queue is empty. -/
def popFrontOfVirtualQueue (w : World) (c : ConfluxId) (l : LinkId) : Option (PersonId × World) :=
  match mapAt (w.conflux c).virtualQueuesMap l with
  | some (p :: rest) =>
    some (p, w.modifyConflux c (fun x => { x with virtualQueuesMap := mapSet x.virtualQueuesMap l rest }))
  | _ => none

end World

/-- From `w` to `w'` no virtual queue has changed its length, no bound has changed, and
the network is wired as before (every segment stats has the parent conflux it had, every
road segment is what it was). -/
def SameQueues (w w' : World) : Prop :=
  (∀ c l, w'.vqLength c l = w.vqLength c l) ∧
  (∀ c l, w'.vqBound c l = w.vqBound c l) ∧
  (∀ s, (w'.segStats s).parentConflux = (w.segStats s).parentConflux) ∧
  w'.roadSegment = w.roadSegment

/-- From `w` to `w'` the virtual queue of link `l` on conflux `c` has grown by one
person, and nothing else has changed among the lengths of the queues, the bounds and the
wiring of the network. -/
def OnePush (c : ConfluxId) (l : LinkId) (w w' : World) : Prop :=
  (∀ c' l', w'.vqLength c' l' = w.vqLength c' l' + if c' = c ∧ l' = l then 1 else 0) ∧
  (∀ c' l', w'.vqBound c' l' = w.vqBound c' l') ∧
  (∀ s, (w'.segStats s).parentConflux = (w.segStats s).parentConflux) ∧
  w'.roadSegment = w.roadSegment

/-- The conflux and the link of the virtual queue that `housekeep` pushes onto for the
snapshot `afterUpdate`: `afterUpdate.segStats->getParentConflux()` and
`afterUpdate.segment->getLink()`. -/
def pushTarget (w : World) (afterUpdate : PersonProps) : Option (ConfluxId × LinkId) :=
  match afterUpdate.segStats, afterUpdate.segment with
  | some s, some seg => some ((w.segStats s).parentConflux, (w.roadSegment seg).link)
  | _, _ => none

/-- What `housekeep` may do to the virtual queues for the snapshot `afterUpdate`, from
`w` to `w'`: nothing, or one push onto the queue of the link of `afterUpdate`. -/
def QueueEffect (afterUpdate : PersonProps) (w w' : World) : Prop :=
  SameQueues w w' ∨ ∃ t, pushTarget w afterUpdate = some t ∧ OnePush t.1 t.2 w w'

/-- One step of the engine within a tick, as far as the virtual queues are concerned. -/
inductive TickStep : World → World → Prop where
  /-- A step that neither pushes nor pops (movement of a role, bookkeeping of persons
  and lanes). -/
  | quiet (w w' : World) : SameQueues w w' → TickStep w w'
  /-- `callMovementFrameTick` grants the request of `p` while the next conflux is not yet
  processed (the loop is broken off), and `housekeep`, called by `updateAgent` with the
  snapshot taken after the update, pushes `p` onto the virtual queue of the link asked for. -/
  | grantAndEnqueue (w w1 w2 w3 : World) (now : Nat) (p : PersonId) (nxt : SegStatsId)
      (cfx : ConfluxId) (beforeUpdate afterUpdate : PersonProps) (r : Except Fault Unit) :
      (w.person p).requestedNextSegStats = some nxt →
      admissionStage now p w = (.ok .breakLoop, w1) →
      SameQueues w1 w2 →
      pushTarget w2 afterUpdate =
        some ((w.segStats nxt).parentConflux, (w.roadSegment (w.segStats nxt).roadSegment).link) →
      housekeep w2 cfx beforeUpdate afterUpdate p = (r, w3) →
      TickStep w w3
  /-- `processVirtualQueues` pops `p` from the virtual queue of link `l` on conflux `c`,
  and `housekeep`, called by `updateAgent`, places `p` in a lane or pushes it back onto
  the same queue. -/
  | popAndPlace (w w1 w2 w3 : World) (c : ConfluxId) (l : LinkId) (p : PersonId)
      (cfx : ConfluxId) (beforeUpdate afterUpdate : PersonProps) (r : Except Fault Unit) :
      w.popFrontOfVirtualQueue c l = some (p, w1) →
      SameQueues w1 w2 →
      (∀ t, pushTarget w2 afterUpdate = some t → t = (c, l)) →
      housekeep w2 cfx beforeUpdate afterUpdate p = (r, w3) →
      TickStep w w3

/-- The states that the engine reaches from `w0` by steps within one tick. -/
inductive TickReach (w0 : World) : World → Prop where
  | start : TickReach w0 w0
  | step (w w' : World) : TickReach w0 w → TickStep w w' → TickReach w0 w'

/-! ## The containers of persons, as `housekeep` leaves them -/

namespace World

/-- The deque of lane `lane` of segment stats `s` (`getPersons`). -/
def laneAgents (w : World) (s : SegStatsId) (lane : LaneId) : List PersonId :=
  (w.segStats s).getPersons lane

/-- The trailing edge last recorded by `setPositionOfLastUpdatedAgentInLane` for lane
`lane` of segment stats `s`; `none` for a lane without statistics. -/
def trailingEdge (w : World) (s : SegStatsId) (lane : LaneId) : Option ℚ :=
  (mapAt (w.segStats s).laneStatsMap lane).map LaneStats.positionOfLastUpdatedAgent

/-- The virtual queue of link `l` on conflux `c`, if the link has one there. -/
def virtualQueue (w : World) (c : ConfluxId) (l : LinkId) : Option (List PersonId) :=
  mapAt (w.conflux c).virtualQueuesMap l

end World

/-- From `w` to `w'` no virtual queue has changed, nor `activityPerformers`,
`pedestrianList`, `mrt` or `carSharing` of any conflux. -/
def SameConfluxContainers (w w' : World) : Prop :=
  ∀ c, (w'.conflux c).virtualQueuesMap = (w.conflux c).virtualQueuesMap ∧
    (w'.conflux c).activityPerformers = (w.conflux c).activityPerformers ∧
    (w'.conflux c).pedestrianList = (w.conflux c).pedestrianList ∧
    (w'.conflux c).mrt = (w.conflux c).mrt ∧
    (w'.conflux c).carSharing = (w.conflux c).carSharing

/-- From `w` to `w'` no lane of any segment stats has a new trailing edge recorded. -/
def SameTrailingEdges (w w' : World) : Prop :=
  ∀ s lane, w'.trailingEdge s lane = w.trailingEdge s lane

/-- From `w` to `w'` the deque of lane `lane` of segment stats `s` has become `agents`,
and no other deque of a lane, no recorded trailing edge, no container of a conflux and
no person has changed. -/
def OnlyLane (s : SegStatsId) (lane : LaneId) (agents : List PersonId) (w w' : World) : Prop :=
  w'.laneAgents s lane = agents ∧
  (∀ t ln, ¬ (t = s ∧ ln = lane) → w'.laneAgents t ln = w.laneAgents t ln) ∧
  SameTrailingEdges w w' ∧ SameConfluxContainers w w' ∧ w'.person = w.person

/-- From `w` to `w'` person `p` has been put at the back of the virtual queue of link `l`
on conflux `c`, which was `queue`, with its distance to the end of the segment set to
`dist`; no other virtual queue, no list of a conflux, no segment stats and no other
member of a person has changed. -/
def OnlyVirtualQueue (c : ConfluxId) (l : LinkId) (queue : List PersonId) (p : PersonId)
    (dist : ℚ) (w w' : World) : Prop :=
  w.virtualQueue c l = some queue ∧
  w'.virtualQueue c l = some (queue ++ [p]) ∧
  (∀ c' l', ¬ (c' = c ∧ l' = l) → w'.virtualQueue c' l' = w.virtualQueue c' l') ∧
  (∀ c', (w'.conflux c').activityPerformers = (w.conflux c').activityPerformers ∧
    (w'.conflux c').pedestrianList = (w.conflux c').pedestrianList ∧
    (w'.conflux c').mrt = (w.conflux c').mrt ∧
    (w'.conflux c').carSharing = (w.conflux c').carSharing) ∧
  w'.segStats = w.segStats ∧
  w'.person = Function.update w.person p { w.person p with distanceToEndOfSegment := dist }

/-- Whether `Conflux::housekeep` gets past its first block (which returns for a person
that has left an activity to walk) and past its `switch` (which returns for the roles
off the road, and for a bus driver that enters, leaves or changes a stop) to the
placement on the road of line 491. -/
def reachesOnRoadPlacement (beforeUpdate afterUpdate : PersonProps) : Bool :=
  match afterUpdate.roleType with
  | .RL_WAITBUSACTITITY => false
  | .RL_TRAINPASSENGER => false
  | .RL_CARPASSENGER => false
  | .RL_ACTIVITY => false
  | .RL_PEDESTRIAN =>
    decide (beforeUpdate.roleType ≠ .RL_PEDESTRIAN ∧ beforeUpdate.roleType ≠ .RL_ACTIVITY)
  | .RL_BUSDRIVER =>
    !(beforeUpdate.isMoving && !afterUpdate.isMoving) &&
    !(!beforeUpdate.isMoving && afterUpdate.isMoving) &&
    !(!beforeUpdate.isMoving && !afterUpdate.isMoving
        && decide (beforeUpdate.segStats ≠ afterUpdate.segStats))
  | _ => true

/-- The world that the first block of `Conflux::housekeep` leaves: the person is out of
`activityPerformers` if it has left an activity, and nothing else has changed unless the
block returns. -/
def afterActivityExit (w : World) (cfx : ConfluxId) (beforeUpdate afterUpdate : PersonProps)
    (person : PersonId) : World :=
  (housekeepActivityExit w cfx beforeUpdate afterUpdate person).2

/-- From `w` to `w'` none of the lists `activityPerformers`, `pedestrianList`, `mrt` and
`carSharing` of any conflux has changed. -/
def SameLists (w w' : World) : Prop :=
  ∀ c, (w'.conflux c).activityPerformers = (w.conflux c).activityPerformers ∧
    (w'.conflux c).pedestrianList = (w.conflux c).pedestrianList ∧
    (w'.conflux c).mrt = (w.conflux c).mrt ∧
    (w'.conflux c).carSharing = (w.conflux c).carSharing

/-- The placement that ends the second branch of the on-road stage of `housekeep` (lines
528 to 538): `addAgent` on the segment stats and the lane of after the update, or, for a
person in no lane, the push onto the virtual queue of its link. -/
def placeAfterUpdate (w : World) (afterUpdate : PersonProps) (person : PersonId) :
    Except Fault Unit × World :=
  match afterUpdate.lane with
  | some ln => w.addAgent afterUpdate.segStats ln person
  | none => w.enqueueOnVirtualQueue afterUpdate person

/-- `MAX_DOUBLE`, that is `std::numeric_limits<double>::max()`: the largest finite
`double`, `(2 - 2^(-52)) * 2^1023`, which is `(2^53 - 1) * 2^971`, written out so that
comparisons with it can be evaluated. -/
def MAX_DOUBLE : ℚ :=
  179769313486231570814527423731704356798070567525844996598917476803157260780028538760589558632766878171540458953514382464234321326889464182768467546703537516986049910576551282076245490090389328944075868508455133942304583236903222948165808559332123348274797826204144723168738177180919299881250404026184124858368

namespace World

/-- `person->drivingTimeToEndOfLink`. -/
def drivingTime (w : World) (p : PersonId) : ℚ := (w.person p).drivingTimeToEndOfLink

end World

/-- The inner loop of `topCMergeDifferentLinksInConflux` (lines 1461 to 1477), from the
deque of index `i` on: `iterators` holds, for each deque still to visit, the part of the
deque from its iterator to its end (empty when the iterator is at `end()`); `minVal` and
`equiTimeList` are the locals of the same names. The result is `equiTimeList` after the
loop. -/
def scanHeads (w : World) : List (List PersonId) → Nat → ℚ → List (Nat × PersonId) →
    List (Nat × PersonId)
  | [], _, _, equiTimeList => equiTimeList
  | [] :: more, i, minVal, equiTimeList => scanHeads w more (i + 1) minVal equiTimeList
  | (currPerson :: _) :: more, i, minVal, equiTimeList =>
    if w.drivingTime currPerson = minVal then
      scanHeads w more (i + 1) minVal (equiTimeList ++ [(i, currPerson)])
    else if w.drivingTime currPerson < minVal then
      scanHeads w more (i + 1) (w.drivingTime currPerson) [(i, currPerson)]
    else scanHeads w more (i + 1) minVal equiTimeList

/-- `iteratorLists.at(i)++`: the iterator of the deque of index `i` moves past its
person. -/
def advance : List (List PersonId) → Nat → List (List PersonId)
  | [], _ => []
  | rest :: more, 0 => rest.tail :: more
  | rest :: more, i + 1 => rest :: advance more i

/-- How the loop "pick the Top C" of `topCMergeDifferentLinksInConflux` ends. -/
structure TopCState where
  /-- `mergedPersonDeque` -/
  mergedPersonDeque : List PersonId
  /-- `iteratorLists`: for every deque, its part from the iterator to the end -/
  iterators : List (List PersonId)
  /-- the number of calls of `rand()` made so far -/
  draws : Nat
  /-- whether the function has returned from within the loop ("no more vehicles") -/
  returned : Bool

/-- The loop "pick the Top C" of `topCMergeDifferentLinksInConflux` (lines 1456 to
1499), with `n` passes still to make. `rand k` is the value of the `k`-th call of
`rand()`. -/
def pickTopC (w : World) (rand : Nat → Nat) : Nat → List (List PersonId) → List PersonId → Nat →
    TopCState
  | 0, iterators, merged, k =>
    { mergedPersonDeque := merged, iterators := iterators, draws := k, returned := false }
  | n + 1, iterators, merged, k =>
    match scanHeads w iterators 0 MAX_DOUBLE [] with
    | [] => { mergedPersonDeque := merged, iterators := iterators, draws := k, returned := true }
    | [chosenPair] =>
      pickTopC w rand n (advance iterators chosenPair.1) (merged ++ [chosenPair.2]) k
    | first :: second :: others =>
      let equiTimeList := first :: second :: others
      let chosenIdx := rand k % equiTimeList.length
      let chosenPair := equiTimeList.getD chosenIdx first
      pickTopC w rand n (advance iterators chosenPair.1) (merged ++ [chosenPair.2]) (k + 1)

/-- The number of passes of `for (size_t c = 0; c < capacity; c++)` when no pass
returns: the `int capacity` is converted to `size_t` (64 bits) for the comparison. -/
def topCPasses (capacity : Int) : Nat := (capacity % 2 ^ 64).toNat

/-- The last loop of `topCMergeDifferentLinksInConflux` (lines 1502 to 1509): what is
left of every deque is appended, in the order of the deques. -/
def appendLeftovers (merged : List PersonId) (iterators : List (List PersonId)) : List PersonId :=
  iterators.foldl (fun acc rest => if rest ≠ [] then acc ++ rest else acc) merged

/-- `Conflux::topCMergeDifferentLinksInConflux(mergedPersonDeque, allPersonLists,
capacity)`: the merged deque, and the number of calls of `rand()` made so far, which is
`k` at the start. -/
def topCMergeDifferentLinksInConflux (w : World) (rand : Nat → Nat) (k : Nat)
    (mergedPersonDeque : List PersonId) (allPersonLists : List (List PersonId))
    (capacity : Int) : List PersonId × Nat :=
  let picked := pickTopC w rand (topCPasses capacity) allPersonLists mergedPersonDeque k
  if picked.returned then (picked.mergedPersonDeque, picked.draws)
  else (appendLeftovers picked.mergedPersonDeque picked.iterators, picked.draws)

/-- The number of persons in the deques. -/
def totalPersons (lists : List (List PersonId)) : Nat := (lists.map List.length).sum

/-- `MinHeadPick w lists p lists'`: person `p` is at the head of one of the deques
`lists`, no deque of `lists` has a head with a smaller driving time to the end of the
link, and `lists'` is `lists` without that head. -/
def MinHeadPick (w : World) (lists : List (List PersonId)) (p : PersonId)
    (lists' : List (List PersonId)) : Prop :=
  ∃ i tail, lists.get? i = some (p :: tail) ∧ lists' = advance lists i ∧
    ∀ j q rest, lists.get? j = some (q :: rest) → w.drivingTime p ≤ w.drivingTime q

/-- `MinHeadPicks w lists picked lists'`: the persons `picked` have been taken one after
the other, each a head of least driving time at its turn, and `lists'` is what is left
of the deques. -/
inductive MinHeadPicks (w : World) : List (List PersonId) → List PersonId →
    List (List PersonId) → Prop where
  | done (lists : List (List PersonId)) : MinHeadPicks w lists [] lists
  | pick (lists lists1 lists2 : List (List PersonId)) (p : PersonId) (ps : List PersonId) :
      MinHeadPick w lists p lists1 → MinHeadPicks w lists1 ps lists2 →
      MinHeadPicks w lists (p :: ps) lists2

/-- The driving times of the heads of the deques that are not exhausted. -/
def headTimes (w : World) (lists : List (List PersonId)) : List ℚ :=
  (lists.filterMap List.head?).map w.drivingTime

/-- `NoEqualHeadsEver w n lists`: in none of the first `n` passes of the loop "pick the
Top C" started on `lists` do two heads of deques have the same driving time to the end
of the link. -/
def NoEqualHeadsEver (w : World) : Nat → List (List PersonId) → Prop
  | 0, _ => True
  | n + 1, lists =>
    (headTimes w lists).Nodup ∧
    match scanHeads w lists 0 MAX_DOUBLE [] with
    | [] => True
    | chosenPair :: _ => NoEqualHeadsEver w n (advance lists chosenPair.1)

/-- Every person of the deques has a driving time to the end of the link that is a finite
`double`, hence at most `MAX_DOUBLE`. -/
def FiniteDrivingTimes (w : World) (lists : List (List PersonId)) : Prop :=
  ∀ l ∈ lists, ∀ p ∈ l, w.drivingTime p ≤ MAX_DOUBLE

/-- Whether two heads of deques ever have the same driving time can be computed along
the passes of the loop. -/
instance decNoEqualHeadsEver (w : World) :
    ∀ (n : Nat) (lists : List (List PersonId)), Decidable (NoEqualHeadsEver w n lists)
  | 0, _ => isTrue trivial
  | n + 1, lists =>
    match h : scanHeads w lists 0 MAX_DOUBLE [] with
    | [] => decidable_of_iff ((headTimes w lists).Nodup) (by simp [NoEqualHeadsEver, h])
    | chosenPair :: _ =>
      have := decNoEqualHeadsEver w n (advance lists chosenPair.1)
      decidable_of_iff
        ((headTimes w lists).Nodup ∧ NoEqualHeadsEver w n (advance lists chosenPair.1))
        (by simp [NoEqualHeadsEver, h])

/-! ## Trip-chain switching, teleport roles and the end of a person -/

/-- `BusStop::TerminusType`. -/
inductive TerminusType where
  | NOT_A_TERMINUS
  | SOURCE_TERMINUS
  | SINK_TERMINUS
  deriving DecidableEq, Repr

/-- The part of `BusStop` that the conflux reads, with the bus stop agent that the street
directory has for the stop. -/
structure BusStop where
  terminusType : TerminusType
  /-- `getTwinStop()` -/
  twinStop : Option BusStopId
  /-- `StreetDirectory::findBusStopAgentByBusStop(stop)` -/
  busStopAgent : Option AgentId
  deriving DecidableEq, Repr

/-- What `Conflux.cpp` calls or reads outside of itself when it switches trip-chain items
and starts persons: methods of `Person_MT` and of the movement facet of the role, the
bus stops of the network and the map from nodes to confluxes. The methods are arbitrary,
possibly failing state transformers. -/
structure TripCollaborators where
  /-- `person->checkTripChain()` -/
  checkTripChain : World → PersonId → Except Fault UpdateStatus × World
  /-- `person->getRole()->Movement()->frame_init()` -/
  frame_init : World → PersonId → Except Fault Unit × World
  /-- `personRole->Movement()->getStartingConflux()` -/
  getStartingConflux : World → PersonId → Option ConfluxId
  /-- `MT_Config::getInstance().getConfluxForNode(node)` -/
  getConfluxForNode : NodeId → Option ConfluxId
  /-- the bus stops of the network -/
  busStop : BusStopId → BusStop

/-- The value of an expression of type `unsigned int` (32 bits). -/
def toUInt32 (n : Nat) : Nat := n % 2 ^ 32

/-- `a - b` on `unsigned int` values. -/
def subUInt32 (a b : Nat) : Nat := (a + 2 ^ 32 - b % 2 ^ 32) % 2 ^ 32

/-- `Conflux::collectTravelTime(person)`: the role, if there is one, collects its travel
time. -/
def collectTravelTime (w : World) (person : PersonId) : World :=
  match (w.person person).role with
  | some _ => w.record (.collectTravelTime person)
  | none => w

/-- The bus stop that `Conflux::assignPersonToBusStopAgent` dispatches the person to
(lines 1245 to 1272): the stop of the origin node or else of the origin of the current
sub-trip, replaced by its twin if it is a sink terminus; `none` if there is no stop. -/
def dispatchStop (ext : TripCollaborators) (x : Person_MT) : Except Fault (Option BusStopId) :=
  let first : Option BusStopId := if x.originNode.isBusStop then x.originNode.busStop_ else none
  let second : Except Fault (Option BusStopId) :=
    match first with
    | some stop => .ok (some stop)
    | none =>
      match x.currSubTrip with
      | none => .error .nullDereference
      | some subTrip => .ok (if subTrip.origin.isBusStop then subTrip.origin.busStop_ else none)
  match second with
  | .error f => .error f
  | .ok none => .ok none
  | .ok (some stop) =>
    -- always make sure we dispatch this person only to SOURCE_TERMINUS or NOT_A_TERMINUS stops
    if (ext.busStop stop).terminusType = .SINK_TERMINUS then
      match (ext.busStop stop).twinStop with
      | none => .error .nullDereference
      | some twin =>
        if (ext.busStop twin).terminusType = .SINK_TERMINUS then .error .bothTwinStopsSinks
        else .ok (some twin)
    else .ok (some stop)

/-- `Conflux::assignPersonToBusStopAgent(person)`. -/
def assignPersonToBusStopAgent (ext : TripCollaborators) (w : World) (person : PersonId) :
    Except Fault Unit × World :=
  match (w.person person).role with
  | none => (.ok (), w)
  | some role =>
    if role.roleType = .RL_WAITBUSACTITITY then
      match dispatchStop ext (w.person person) with
      | .error f => (.error f, w)
      | .ok none => (.ok (), w)
      | .ok (some stop) =>
        match (ext.busStop stop).busStopAgent with
        | some busStopAgent => (.ok (), w.record (.sendWaitingPersonArrival busStopAgent person))
        | none => (.ok (), w)
    else (.ok (), w)

/-- `person->getRole()->setTravelTime(time)`. -/
def setTravelTime (x : Person_MT) (time : Nat) : Person_MT :=
  { x with role := x.role.map (fun r => { r with travelTime := time }) }

/-- `Conflux::assignPersonToMRT(person)` on the conflux `cfx`. -/
def assignPersonToMRT (cfg : Config) (w : World) (cfx : ConfluxId) (person : PersonId) :
    Except Fault Unit × World :=
  match (w.person person).role with
  | none => (.ok (), w)
  | some role =>
    if role.roleType = .RL_TRAINPASSENGER then
      let w1 := w.modifyPerson person
        (fun x => { x with currWorkerProvider := (w.conflux cfx).parentWorker })
      let w2 := w1.record (.reRegisterHandler person cfx)
      let w3 := w2.modifyConflux cfx (fun c => { c with mrt := c.mrt ++ [person] })
      match (w3.person person).currSubTrip with
      | none => (.error .nullDereference, w3)
      | some subTrip =>
        let time := subTrip.endTime
        let w4 := w3.modifyPerson person (fun x => setTravelTime x time)
        let tick := toUInt32 cfg.baseGranMS
        if tick = 0 then (.error .divisionByZero, w4)
        else (.ok (), w4.record (.postWakeUp cfx person (time / tick)))
    else (.ok (), w)

/-- `Conflux::assignPersonToCar(person)` on the conflux `cfx`; `currFrameMs` is
`currFrame.ms()`. -/
def assignPersonToCar (cfg : Config) (currFrameMs : Nat) (w : World) (cfx : ConfluxId)
    (person : PersonId) : Except Fault Unit × World :=
  match (w.person person).role with
  | none => (.ok (), w)
  | some role =>
    if role.roleType = .RL_CARPASSENGER then
      let w1 := w.modifyPerson person
        (fun x => { x with currWorkerProvider := (w.conflux cfx).parentWorker })
      let w2 :=
        if person ∈ (w1.conflux cfx).carSharing then w1
        else w1.modifyConflux cfx (fun c => { c with carSharing := c.carSharing ++ [person] })
      match (w2.person person).currSubTrip with
      | none => (.error .nullDereference, w2)
      | some subTrip =>
        let time := subTrip.endTime
        let w3 := w2.modifyPerson person
          (fun x => setTravelTime { x with startTime := currFrameMs } time)
        let tick := toUInt32 cfg.baseGranMS
        if tick = 0 then (.error .divisionByZero, w3)
        else (.ok (), w3.record (.postWakeUpCarPassenger cfx person (time / tick)))
    else (.ok (), w)

/-- The opening of `Conflux::callMovementFrameInit` (lines 863 to 867): the person is
registered as a message handler if it is not. -/
def registerIfRequired (w : World) (person : PersonId) : World :=
  if (w.person person).hasContext then w
  else (w.modifyPerson person (fun x => { x with hasContext := true })).record
    (.registerPerson person)

/-- The block `if (!person->getRole())` of `Conflux::callMovementFrameInit` (lines 869 to
883): agents may be created with a null role and a valid trip chain. The boolean tells
whether the procedure goes on. -/
def checkTripChainIfNoRole (ext : TripCollaborators) (nowMs : Nat) (w : World)
    (person : PersonId) : Except Fault Bool × World :=
  match (w.person person).role with
  | some _ => (.ok true, w)
  | none =>
    match callOut w (.checkTripChain person) (fun v => ext.checkTripChain v person) with
    | (.error f, w1) => (.error f, w1)
    | (.ok res, w1) =>
      (.ok (decide (res ≠ .RS_DONE)), w1.modifyPerson person (fun x => { x with startTime := nowMs }))

/-- The end of `Conflux::callMovementFrameInit` (lines 884 to 908): the parameters of the
frame tick and the frame initialisation of the role. -/
def initialiseRole (col : Collaborators) (ext : TripCollaborators) (w : World) (now : Nat)
    (person : PersonId) : Except Fault Bool × World :=
  -- Failsafe: no Role at all?
  match (w.person person).role with
  | none => (.error .personWithoutRole, w)
  | some _ =>
    match callOut w (.makeFrameTickParams person)
        (fun v => col.make_frame_tick_params v now person) with
    | (.error f, w1) => (.error f, w1)
    | (.ok _, w1) =>
      -- Now that the Role has been fully constructed, initialize it.
      match (w1.person person).role with
      | none => (.ok true, w1)
      | some _ =>
        match callOut w1 (.frameInit person) (fun v => ext.frame_init v person) with
        | (.error f, w2) => (.error f, w2)
        | (.ok _, w2) =>
          if (w2.person person).toBeRemoved then (.ok false, w2) else (.ok true, w2)

/-- `Conflux::callMovementFrameInit(now, person)`; `nowMs` is `now.ms()`. -/
def callMovementFrameInit (col : Collaborators) (ext : TripCollaborators) (nowMs : Nat)
    (w : World) (now : Nat) (person : PersonId) : Except Fault Bool × World :=
  match checkTripChainIfNoRole ext nowMs (registerIfRequired w person) person with
  | (.error f, w1) => (.error f, w1)
  | (.ok false, w1) => (.ok false, w1)
  | (.ok true, w1) => initialiseRole col ext w1 now person

/-- The erasure `std::find` and `erase` of the person from `pedestrianList`, made by
`switchTripChainItem` for the roles off the road. -/
def eraseFromPedestrianList (w : World) (cfx : ConfluxId) (person : PersonId) : World :=
  w.modifyConflux cfx (fun c => { c with pedestrianList := c.pedestrianList.erase person })

/-- The set-up of an activity in `switchTripChainItem` (lines 1045 to 1058) and in
`findStartingConflux` (lines 1632 to 1637), at the time `now` in milliseconds: the start
and the end of the activity are written to the role, which has to be an activity
performer for the `dynamic_cast` to give an object. The sums are sums of `unsigned int`. -/
def anchorActivity (cfg : Config) (now : Nat) (item : TripChainItem) (x : Person_MT) :
    Except Fault Person_MT :=
  match x.role with
  | none => .error .nullDereference
  | some role =>
    if role.roleType = .RL_ACTIVITY then
      .ok { x with role := some { role with
        activityStartTime := toUInt32 (now + cfg.baseGranMS),
        activityEndTime :=
          toUInt32 (now + cfg.baseGranMS + subUInt32 item.endTime item.startTime) } }
    else .error .nullDereference

/-- `ap->setLocation(acItem->destination.node_)`. -/
def setLocation (x : Person_MT) (node : Option Node) : Person_MT :=
  { x with role := x.role.map (fun r => { r with location := node }) }

/-- The end of `Conflux::switchTripChainItem` (lines 1059 to 1067): the role is
initialised, and `RS_DONE` is returned if that fails. -/
def initialiseAfterSwitch (col : Collaborators) (ext : TripCollaborators) (currFrameMs : Nat)
    (w : World) (cfx : ConfluxId) (person : PersonId) (retVal : UpdateStatus) :
    Except Fault UpdateStatus × World :=
  match callMovementFrameInit col ext currFrameMs w (w.conflux cfx).currFrame person with
  | (.error f, w1) => (.error f, w1)
  | (.ok true, w1) => (.ok retVal, w1.modifyPerson person (fun x => { x with initialized := true }))
  | (.ok false, w1) => (.ok .RS_DONE, w1)

/-- The end of `Conflux::switchTripChainItem` (lines 1045 to 1067), for a role that is
none of the four with a list of their own: the set-up of an activity, and the frame
initialisation of the role. -/
def switchToMovingRole (col : Collaborators) (ext : TripCollaborators) (cfg : Config)
    (currFrameMs : Nat) (w : World) (cfx : ConfluxId) (person : PersonId)
    (retVal : UpdateStatus) : Except Fault UpdateStatus × World :=
  match (w.person person).currTripChainItem with
  | none => (.error .nullDereference, w)
  | some item =>
    if item.itemType = .IT_ACTIVITY then
      match anchorActivity cfg currFrameMs item (w.person person) with
      | .error f => (.error f, w)
      | .ok x =>
        initialiseAfterSwitch col ext currFrameMs
          (w.modifyPerson person (fun _ => setLocation x item.destination)) cfx person retVal
    else initialiseAfterSwitch col ext currFrameMs w cfx person retVal

/-- `Conflux::switchTripChainItem(person)` on the conflux `cfx`; `currFrameMs` is
`currFrame.ms()`. -/
def switchTripChainItem (col : Collaborators) (ext : TripCollaborators) (cfg : Config)
    (currFrameMs : Nat) (w : World) (cfx : ConfluxId) (person : PersonId) :
    Except Fault UpdateStatus × World :=
  let w0 := collectTravelTime w person
  match callOut w0 (.checkTripChain person) (fun v => ext.checkTripChain v person) with
  | (.error f, w1) => (.error f, w1)
  | (.ok .RS_DONE, w1) => (.ok .RS_DONE, w1)
  | (.ok retVal, w1) =>
    let w2 := w1.modifyPerson person (fun x => { x with startTime := currFrameMs })
    match (w2.person person).role.map Role.roleType with
    | some .RL_WAITBUSACTITITY =>
      match assignPersonToBusStopAgent ext w2 person with
      | (.error f, w3) => (.error f, w3)
      | (.ok _, w3) => (.ok retVal, eraseFromPedestrianList w3 cfx person)
    | some .RL_TRAINPASSENGER =>
      match assignPersonToMRT cfg w2 cfx person with
      | (.error f, w3) => (.error f, w3)
      | (.ok _, w3) => (.ok retVal, eraseFromPedestrianList w3 cfx person)
    | some .RL_CARPASSENGER =>
      match assignPersonToCar cfg currFrameMs w2 cfx person with
      | (.error f, w3) => (.error f, w3)
      | (.ok _, w3) => (.ok retVal, eraseFromPedestrianList w3 cfx person)
    | some .RL_PEDESTRIAN =>
      if person ∈ (w2.conflux cfx).pedestrianList then (.ok retVal, w2)
      else (.ok retVal, w2.modifyConflux cfx
        (fun c => { c with pedestrianList := c.pedestrianList ++ [person] }))
    | _ => switchToMovingRole col ext cfg currFrameMs w2 cfx person retVal

/-- The case `MSG_WAKE_UP` of `Conflux::HandleMessage` (lines 948 to 960), for the
person of the message. The status that `switchTripChainItem` returns is dropped. -/
def handleWakeUp (col : Collaborators) (ext : TripCollaborators) (cfg : Config)
    (currFrameMs : Nat) (w : World) (cfx : ConfluxId) (person : PersonId) :
    Except Fault Unit × World :=
  if person ∈ (w.conflux cfx).mrt then
    let w1 := w.modifyConflux cfx (fun c => { c with mrt := c.mrt.erase person })
    -- switch to next trip chain item
    match switchTripChainItem col ext cfg currFrameMs w1 cfx person with
    | (.error f, w2) => (.error f, w2)
    | (.ok _, w2) => (.ok (), w2)
  else (.error .personNotInMrt, w)

/-- The case `MSG_WAKEUP_CAR_PASSENGER_TELEPORTATION` of `Conflux::HandleMessage` (lines
961 to 973). -/
def handleWakeUpCarPassenger (col : Collaborators) (ext : TripCollaborators) (cfg : Config)
    (currFrameMs : Nat) (w : World) (cfx : ConfluxId) (person : PersonId) :
    Except Fault Unit × World :=
  if person ∈ (w.conflux cfx).carSharing then
    let w1 := w.modifyConflux cfx (fun c => { c with carSharing := c.carSharing.erase person })
    match switchTripChainItem col ext cfg currFrameMs w1 cfx person with
    | (.error f, w2) => (.error f, w2)
    | (.ok _, w2) => (.ok (), w2)
  else (.error .personNotInCarList, w)

/-- The case `MSG_PEDESTRIAN_TRANSFER_REQUEST` of `Conflux::HandleMessage` (lines 915 to
922). -/
def handlePedestrianTransferRequest (w : World) (cfx : ConfluxId) (person : PersonId) : World :=
  let w1 := w.modifyPerson person
    (fun x => { x with currWorkerProvider := (w.conflux cfx).parentWorker })
  let w2 := w1.record (.reRegisterHandler person cfx)
  w2.modifyConflux cfx (fun c => { c with pedestrianList := c.pedestrianList ++ [person] })

/-- The case `MSG_MRT_PASSENGER_TELEPORTATION` of `Conflux::HandleMessage` (lines 934 to
947). -/
def handleMrtPassengerTeleportation (cfg : Config) (w : World) (cfx : ConfluxId)
    (person : PersonId) : Except Fault Unit × World :=
  let w1 := w.modifyPerson person
    (fun x => { x with currWorkerProvider := (w.conflux cfx).parentWorker })
  let w2 := w1.record (.reRegisterHandler person cfx)
  let w3 := w2.modifyConflux cfx (fun c => { c with mrt := c.mrt ++ [person] })
  match (w3.person person).currSubTrip with
  | none => (.error .nullDereference, w3)
  | some subTrip =>
    let time := subTrip.endTime
    match (w3.person person).role with
    | none => (.error .nullDereference, w3)
    | some _ =>
      let w4 := w3.modifyPerson person (fun x => setTravelTime x time)
      let tick := toUInt32 cfg.baseGranMS
      if tick = 0 then (.error .divisionByZero, w4)
      else (.ok (), w4.record (.postWakeUp cfx person (time / tick)))

namespace SegmentStats

/-- Modelled from the spec: `SegmentStats::removeAgent(lane, person, wasQueuing,
vehicleLength)` is defined in `SegmentStats.cpp`, which is not among the sources; the
spec names the removal of a person among the methods of the segment stats, and
`killAgent` (lines 781 and 793) reads its `bool` answer, `false` for a person that is not
in the lane. The removal is taken to be that of `dequeue`: the person leaves the deque
of the lane, and the count of queuing persons if it was queuing. -/
def removeAgent (ss : SegmentStats) (lane : LaneId) (p : PersonId) (wasQueuing : Bool) :
    Except Fault (Bool × SegmentStats) :=
  match mapAt ss.laneStatsMap lane with
  | none => .error .nullDereference
  | some st =>
    if p ∈ st.laneAgents then
      .ok (true, ss.setLaneStats lane
        { st with laneAgents := st.laneAgents.erase p,
                  queueCount := if wasQueuing then st.queueCount - 1 else st.queueCount })
    else .ok (false, ss)

end SegmentStats

/-- `bool removed = prevSegStats->removeAgent(prevLane, person, wasQueuing,
vehicleLength)` of `Conflux::killAgent`. -/
def World.removeAgent (w : World) (s : Option SegStatsId) (lane : LaneId) (p : PersonId)
    (wasQueuing : Bool) : Except Fault Bool × World :=
  match s with
  | none => (.error .nullDereference, w)
  | some sid =>
    match (w.segStats sid).removeAgent lane p wasQueuing with
    | .error f => (.error f, w)
    | .ok (removed, ss) => (.ok removed, w.modifySegStats sid (fun _ => ss))

/-- The end of `Conflux::killAgent` (lines 809 to 811): the person is detached from its
worker and scheduled for removal. -/
def terminate (w : World) (cfx : ConfluxId) (person : PersonId) : Except Fault Unit × World :=
  let w1 := w.modifyPerson person (fun x => { x with currWorkerProvider := none })
  match (w1.conflux cfx).parentWorker with
  | none => (.error .nullDereference, w1)
  | some worker =>
    (.ok (), (w1.record (.remEntity worker person)).record (.scheduleForRemoval worker person))

/-- The removal from the lane of before the update in `Conflux::killAgent` (lines 779 to
786 and 791 to 803), for a non-null `prevLane`; `tolerated` says whether a person that is
not found is passed over. -/
def killFromLane (w : World) (beforeUpdate : PersonProps) (prevLane : LaneId)
    (person : PersonId) (tolerated : Bool) : Except Fault Unit × World :=
  match w.removeAgent beforeUpdate.segStats prevLane person beforeUpdate.isQueuing with
  | (.error f, w1) => (.error f, w1)
  | (.ok removed, w1) =>
    if !removed && !tolerated then (.error .removeNonExistentPerson, w1) else (.ok (), w1)

/-- `Conflux::killAgent(person, beforeUpdate)` on the conflux `cfx`. -/
def killAgent (w : World) (cfx : ConfluxId) (person : PersonId) (beforeUpdate : PersonProps) :
    Except Fault Unit × World :=
  let personRoleType : RoleType := ((w.person person).role.map Role.roleType).getD .RL_UNKNOWN
  match personRoleType with
  | .RL_ACTIVITY =>
    terminate (w.modifyConflux cfx
      (fun c => { c with activityPerformers := c.activityPerformers.erase person })) cfx person
  | .RL_PEDESTRIAN =>
    let w1 := w.modifyConflux cfx
      (fun c => { c with pedestrianList := c.pedestrianList.erase person })
    match (w1.person person).nextLinkRequired with
    | some _ => (.ok (), w1)
    | none => terminate w1 cfx person
  | .RL_DRIVER =>
    if person ∈ (w.conflux cfx).activityPerformers then
      -- Check if he was indeed an activity performer and erase him
      terminate (w.modifyConflux cfx
        (fun c => { c with activityPerformers := c.activityPerformers.erase person })) cfx person
    else
      match beforeUpdate.lane with
      | some prevLane =>
        match killFromLane w beforeUpdate prevLane person false with
        | (.error f, w1) => (.error f, w1)
        | (.ok _, w1) => terminate w1 cfx person
      | none => terminate w cfx person
  | _ =>
    -- applies for any other vehicle in a lane (Biker, Busdriver etc.)
    match beforeUpdate.lane with
    | some prevLane =>
      match killFromLane w beforeUpdate prevLane person
          (decide (personRoleType = .RL_BUSDRIVER)) with
      | (.error f, w1) => (.error f, w1)
      | (.ok _, w1) => terminate w1 cfx person
    | none => terminate w cfx person

/-- `dynamic_cast<MultiNode*>(ap->getLocation())` and the look-up of its conflux in
`Conflux::findStartingConflux` (lines 1639 to 1644): a location that is no multi-node has
no conflux. -/
def confluxForLocation (ext : TripCollaborators) (location : Option Node) : Option ConfluxId :=
  match location with
  | some node => if node.isMultiNode then ext.getConfluxForNode node.id else none
  | none => none

/-- `Conflux::findStartingConflux(person, now)`; `now` is in milliseconds. -/
def findStartingConflux (ext : TripCollaborators) (cfg : Config) (w : World) (person : PersonId)
    (now : Nat) : Except Fault (Option ConfluxId) × World :=
  match callOut w (.checkTripChain person) (fun v => ext.checkTripChain v person) with
  | (.error f, w1) => (.error f, w1)
  | (.ok .RS_DONE, w1) => (.ok none, w1)
  | (.ok .RS_CONTINUE, w1) =>
    let w2 := w1.modifyPerson person (fun x => { x with startTime := now })
    match (w2.person person).role with
    | none => (.ok none, w2)
    | some personRole =>
      match (w2.person person).currTripChainItem with
      | none => (.error .nullDereference, w2)
      | some item =>
        if item.itemType = .IT_ACTIVITY then
          match anchorActivity cfg now item (w2.person person) with
          | .error f => (.error f, w2)
          | .ok x =>
            -- activity locations must ideally be multinodes
            (.ok (confluxForLocation ext personRole.location), w2.modifyPerson person (fun _ => x))
        else
          -- Now that the Role has been fully constructed, initialize it.
          match callOut w2 (.frameInit person) (fun v => ext.frame_init v person) with
          | (.error f, w3) => (.error f, w3)
          | (.ok _, w3) =>
            if (w3.person person).toBeRemoved then (.ok none, w3)
            else
              let w4 := w3.modifyPerson person (fun x => { x with initialized := true })
              (.ok (ext.getStartingConflux w4 person), w4)

/-- The procedures of `Conflux.cpp` that the update of a person calls, in the place of
the arbitrary ones of `col`: `switchTripChainItem`, `callMovementFrameInit`, `killAgent`
and `findStartingConflux`. `currFrameMs` is `currFrame.ms()`. -/
def withProcedures (col : Collaborators) (ext : TripCollaborators) (cfg : Config)
    (currFrameMs : Nat) : Collaborators :=
  { col with
    switchTripChainItem := fun w cfx p => switchTripChainItem col ext cfg currFrameMs w cfx p
    callMovementFrameInit := fun w _ now p => callMovementFrameInit col ext currFrameMs w now p
    killAgent := fun w cfx p beforeUpdate => killAgent w cfx p beforeUpdate
    findStartingConflux := fun w p now => findStartingConflux ext cfg w p now }

/-! ## The order of the persons of a virtual queue -/

/-- `GreaterRemainingTimeThisTick::operator()(x, y)`; `none` is the null pointer. -/
def GreaterRemainingTimeThisTick (w : World) (x y : Option PersonId) : Except Fault Bool :=
  match x, y with
  | some a, some b =>
    -- We want greater remaining time in this tick to translate into a higher priority.
    .ok (decide ((w.person a).remainingTimeThisTick > (w.person b).remainingTimeThisTick))
  | _, _ => .error .comparisonWithNull

/-- The type of `std::sort(first, last, comp)` on a deque of pointers to persons, with a
comparison that may throw. -/
abbrev StdSort : Type :=
  (Option PersonId → Option PersonId → Except Fault Bool) → List (Option PersonId) →
    Except Fault (List (Option PersonId))

/-- `sortPersonsDecreasingRemTime(personList)`; `stdSort` is `std::sort`. -/
def sortPersonsDecreasingRemTime (stdSort : StdSort) (w : World)
    (personList : List (Option PersonId)) : Except Fault (List (Option PersonId)) :=
  if personList.length > 1 then
    -- ordering is required only if we have more than 1 person in the deque
    stdSort (GreaterRemainingTimeThisTick w) personList
  else .ok personList

/-- The relation `r` is a strict weak ordering on the elements of `l`: irreflexive,
transitive, and with a transitive incomparability. -/
def StrictWeakOn (r : Option PersonId → Option PersonId → Bool) (l : List (Option PersonId)) :
    Prop :=
  (∀ x ∈ l, r x x = false) ∧
  (∀ x ∈ l, ∀ y ∈ l, ∀ z ∈ l, r x y = true → r y z = true → r x z = true) ∧
  (∀ x ∈ l, ∀ y ∈ l, ∀ z ∈ l, r x y = false → r y z = false → r x z = false)

/-- What the C++ standard asks of `std::sort`. If the comparison answers on the elements
of the range with a strict weak ordering, the range is permuted so that no element is
ordered before an element in front of it (equivalent elements in any order). Every
element of a range of more than one element is compared at least once, so that an
exception that every comparison with some element of the range throws leaves
`std::sort`. -/
def IsStdSort (stdSort : StdSort) : Prop :=
  ∀ comp l,
    (∀ r, (∀ x ∈ l, ∀ y ∈ l, comp x y = .ok (r x y)) → StrictWeakOn r l →
      ∃ sorted, stdSort comp l = .ok sorted ∧ sorted.Perm l ∧
        sorted.Pairwise (fun a b => r b a = false)) ∧
    (∀ f x, 1 < l.length → x ∈ l → (∀ y, comp x y = .error f ∧ comp y x = .error f) →
      (∀ a b g, comp a b = .error g → g = f) → stdSort comp l = .error f)

/-- The `while (counter > 0)` loop of `Conflux::processVirtualQueues` on the virtual queue
of link `l`: the person at the front is popped and updated, `counter` times. -/
def drainVirtualQueue (col : Collaborators) (fuel : Nat) (cfx : ConfluxId) (l : LinkId) :
    Nat → World → Except Fault Unit × World
  | 0, w => (.ok (), w)
  | counter + 1, w =>
    match w.popFrontOfVirtualQueue cfx l with
    | none => (.error .nullDereference, w)
    | some (p, w1) =>
      match updateAgent col fuel cfx p w1 with
      | (.error f, w2) => (.error f, w2)
      | (.ok _, w2) => drainVirtualQueue col fuel cfx l counter w2

/-- The body of the `for` loop of `Conflux::processVirtualQueues` for the virtual queue
of link `l`: the queue is sorted, and as many persons as it holds are popped and updated. -/
def processVirtualQueue (stdSort : StdSort) (col : Collaborators) (fuel : Nat) (cfx : ConfluxId)
    (l : LinkId) (w : World) : Except Fault Unit × World :=
  match mapAt (w.conflux cfx).virtualQueuesMap l with
  | none => (.ok (), w)
  | some queue =>
    let counter := queue.length
    match sortPersonsDecreasingRemTime stdSort w (queue.map some) with
    | .error f => (.error f, w)
    | .ok sorted =>
      let w1 := w.modifyConflux cfx
        (fun c => { c with virtualQueuesMap := mapSet c.virtualQueuesMap l (sorted.filterMap id) })
      drainVirtualQueue col fuel cfx l counter w1

/-- A `std::sort` for the evaluation of the definitions: the insertion of an element
into a sorted list. -/
def insertSorted (comp : Option PersonId → Option PersonId → Except Fault Bool)
    (x : Option PersonId) : List (Option PersonId) → Except Fault (List (Option PersonId))
  | [] => .ok [x]
  | y :: ys =>
    match comp x y with
    | .error f => .error f
    | .ok true => .ok (x :: y :: ys)
    | .ok false =>
      match insertSorted comp x ys with
      | .error f => .error f
      | .ok rest => .ok (y :: rest)

/-- A `std::sort` for the evaluation of the definitions: the insertion sort. -/
def insertionSort : StdSort
  | _, [] => .ok []
  | comp, x :: xs =>
    match insertionSort comp xs with
    | .error f => .error f
    | .ok sorted => insertSorted comp x sorted

/-- The world in which `Conflux::updateAgent` takes the snapshot of before the update and
calls `movePerson` (lines 334 to 341): a person not yet updated in the tick has the whole
tick, and the worker of the conflux is the provider of the person. -/
def enterUpdate (cfx : ConfluxId) (person : PersonId) (w : World) : World :=
  let w1 :=
    if (w.person person).lastUpdatedFrame < ((w.conflux cfx).currFrame : Int) then
      w.modifyPerson person (fun x => { x with remainingTimeThisTick := (w.conflux cfx).tickTimeInS })
    else w
  w1.modifyPerson person (fun x => { x with currWorkerProvider := (w1.conflux cfx).parentWorker })

/-- The persons that `resetPersonRemTimes` walks over on the conflux `cfx`: those in the
deque of lane infinity of a segment stats of the conflux, and those in one of its virtual
queues. -/
def InResetScope (cfx : ConfluxId) (w : World) (q : PersonId) : Prop :=
  (∃ s ∈ (w.conflux cfx).allSegStats, q ∈ (w.segStats s).getPersons (w.segStats s).laneInfinity) ∨
  (∃ e ∈ (w.conflux cfx).virtualQueuesMap, q ∈ e.2)

/-- What `switchTripChainItem`, with the result `result` from the world `w`, does for a
person that has got one of the roles `RL_WAITBUSACTITITY`, `RL_TRAINPASSENGER` and
`RL_CARPASSENGER`, `assigned` being the result of the assignment of the person for that
role: if the assignment returns, the status is `RS_CONTINUE` and the person is erased
from `pedestrianList` and is not in it; if the assignment fails, `switchTripChainItem`
fails with it; and no frame initialisation of the role is called. -/
def OffRoadSwitch (result : Except Fault UpdateStatus × World)
    (assigned : Except Fault Unit × World) (w : World) (cfx : ConfluxId) (p : PersonId) : Prop :=
  (∀ w3, assigned = (.ok (), w3) →
    result = (.ok .RS_CONTINUE, eraseFromPedestrianList w3 cfx p) ∧
    p ∉ (result.2.conflux cfx).pedestrianList) ∧
  (∀ f w3, assigned = (.error f, w3) → result = (.error f, w3)) ∧
  (Event.frameInit p ∈ result.2.trace → Event.frameInit p ∈ w.trace)

/-- The three assignments to `outputEstimate` in `Conflux::resetOutputBounds` (lines 666
to 669), for the values of `num_emptySpaces` and of
`segStats->numAgentsInLane(segStats->laneInfinity)`: the clamp of the empty spaces at 0,
the subtraction of the agents in lane infinity, and the clamp of the difference at 0. -/
def twoStageClamp (num_emptySpaces numAgentsInLaneInfinity : Int) : Int :=
  let outputEstimate : Int := if num_emptySpaces ≥ 0 then num_emptySpaces else 0
  let outputEstimate : Int := outputEstimate - numAgentsInLaneInfinity
  if outputEstimate > 0 then outputEstimate else 0

/-- The single clamp of the specification: `max(0, cap - moving - queuing - laneInf)`. -/
def singleClamp (cap moving queuing laneInf : Int) : Int :=
  max 0 (cap - moving - queuing - laneInf)

/-- The case of `RL_DRIVER`, `RL_BUSDRIVER` and `RL_BIKER` in `Conflux::addAgent` (lines
197 to 216): the person starts in lane infinity of the first segment stats of its road
segment, if the conflux has that segment. The road segment of a segment stats is never
null here, so that the exception of line 201 is not raised. -/
def startInLaneInfinity (w : World) (cfx : ConfluxId) (person : PersonId) :
    Except Fault Unit × World :=
  match (w.person person).currSegStats with
  | none => (.error .nullDereference, w)
  | some cur =>
    let rdSeg := (w.segStats cur).roadSegment
    -- we will always add the Person to the corresponding segment stats in "lane infinity".
    match mapAt (w.conflux cfx).segmentAgents rdSeg with
    | none => (.ok (), w)
    | some [] => (.error .nullDereference, w)
    | some (rdSegStats :: _) =>
      -- we will start the person at the first segment stats of the segment
      let w1 := w.modifyPerson person (fun x =>
        { x with currSegStats := some rdSegStats,
                 currLane := some (w.segStats rdSegStats).laneInfinity,
                 distanceToEndOfSegment := (w.segStats rdSegStats).getLength,
                 remainingTimeThisTick := (w.conflux cfx).tickTimeInS })
      w1.addAgent (some rdSegStats) (w1.segStats rdSegStats).laneInfinity person

/-- `Conflux::addAgent(person)` on the conflux `cfx`; `currFrameMs` is `currFrame.ms()`. -/
def addAgent (ext : TripCollaborators) (cfg : Config) (currFrameMs : Nat) (w : World)
    (cfx : ConfluxId) (person : PersonId) : Except Fault Unit × World :=
  if (w.conflux cfx).isLoader then
    (.ok (), w.modifyConflux cfx (fun c => { c with loadingQueue := c.loadingQueue ++ [person] }))
  else
    match (w.person person).role with
    | none => (.ok (), w)
    | some role =>
      match role.roleType with
      | .RL_DRIVER => startInLaneInfinity w cfx person
      | .RL_BUSDRIVER => startInLaneInfinity w cfx person
      | .RL_BIKER => startInLaneInfinity w cfx person
      | .RL_PEDESTRIAN =>
        (.ok (), w.modifyConflux cfx
          (fun c => { c with pedestrianList := c.pedestrianList ++ [person] }))
      | .RL_WAITBUSACTITITY => assignPersonToBusStopAgent ext w person
      | .RL_TRAINPASSENGER =>
        (.ok (), w.modifyConflux cfx (fun c => { c with mrt := c.mrt ++ [person] }))
      | .RL_CARPASSENGER => assignPersonToCar cfg currFrameMs w cfx person
      | .RL_ACTIVITY =>
        (.ok (), w.modifyConflux cfx
          (fun c => { c with activityPerformers := c.activityPerformers ++ [person] }))
      | .RL_PASSENGER => (.error .startAsPassenger, w)
      | .RL_UNKNOWN => (.ok (), w)

/-- The case `MSG_PERSON_LOAD` of `Conflux::HandleMessage` (lines 974 to 978). -/
def handlePersonLoad (ext : TripCollaborators) (cfg : Config) (currFrameMs : Nat) (w : World)
    (cfx : ConfluxId) (person : PersonId) : Except Fault Unit × World :=
  addAgent ext cfg currFrameMs w cfx person

/-- The message `MSG_PERSON_LOAD` that a call on the message bus posts, as the pair of
the conflux it is addressed to and the person it carries. -/
def Event.personLoad : Event → Option (ConfluxId × PersonId)
  | .postPersonLoad dest p => some (dest, p)
  | _ => none

/-- The messages `MSG_PERSON_LOAD` posted so far, oldest first. -/
def World.personLoads (w : World) : List (ConfluxId × PersonId) :=
  w.trace.filterMap Event.personLoad

/-- A record of the run of the loop of `Conflux::loadPersons`: every person taken from
the front of `loadingQueue` whose call of `findStartingConflux` returned, with the
conflux that the call gave, in the order of the calls. It follows `loadPersonsLoop`
pass by pass. -/
def startingConfluxes (col : Collaborators) (cfx : ConfluxId) (nextTickMS : Nat) :
    Nat → World → List (PersonId × Option ConfluxId)
  | 0, _ => []
  | fuel + 1, w =>
    match (w.conflux cfx).loadingQueue with
    | [] => []
    | person :: rest =>
      let w1 := w.modifyConflux cfx (fun c => { c with loadingQueue := rest })
      match col.findStartingConflux w1 person nextTickMS with
      | (.error _, _) => []
      | (.ok (some conflux), w2) =>
        (person, some conflux) ::
          startingConfluxes col cfx nextTickMS fuel (w2.record (.postPersonLoad conflux person))
      | (.ok none, w2) => (person, none) :: startingConfluxes col cfx nextTickMS fuel w2

/-- The message `MSG_PERSON_LOAD` for a person and the conflux found for it: one message
to that conflux, or none if no conflux was found. -/
def loadMessage (e : PersonId × Option ConfluxId) : Option (ConfluxId × PersonId) :=
  e.2.map (fun conflux => (conflux, e.1))

/-- The value that stands for a driving time `+∞`
(`std::numeric_limits<double>::infinity()`) where the doubles are rationals:
`2^1024`, the least power of two above every finite `double`. The merge compares a
driving time only with `MAX_DOUBLE` and with the driving times of persons it has
selected, and with those this value compares as `+∞` does: it is equal to none of them
and less than none of them. -/
def POSITIVE_INFINITY : ℚ :=
  179769313486231590772930519078902473361797697894230657273430081157732675805500963132708477322407536021120113879871393357658789768814416622492847430639474124377767893424865485276302219601246094119453082952085005768838150682342462881473913110540827237163350510684586298239947245938479716304835356329624224137216

namespace Demo

/-- A driver in a vehicle of 4 m at the end of segment stats 1, asking for segment stats 2. -/
def driver : Person_MT :=
  { role := some { roleType := .RL_DRIVER, resource := some { moving := true, lengthCm := 400 } }
    currSegStats := some 1
    currLane := some 0
    isQueuing := false
    distanceToEndOfSegment := 0
    remainingTimeThisTick := 1
    drivingTimeToEndOfLink := 0
    requestedNextSegStats := some 2
    canMoveToNextSegment := .NONE
    nextLinkRequired := none
    lastUpdatedFrame := 5
    toBeRemoved := false
    initialized := true
    resetParamsRequired := false
    currWorkerProvider := some 0 }

/-- Statistics of a lane that holds the given persons, none of them queuing. -/
def laneOf (agents : List PersonId) (counter : Int) : LaneStats :=
  { laneAgents := agents, queueCount := 0, laneParams := { outputCounter := counter },
    positionOfLastUpdatedAgent := 0 }

/-- Segment stats 1 (upstream, of conflux 0) and 2 (downstream, of conflux 1); lane 0 is
the only real lane and lane 99 is lane infinity. -/
def segStats (counter : Int) (s : SegStatsId) : SegmentStats :=
  if s = 2 then
    { roadSegment := 21, statsNumberInSegment := 1, parentConflux := 1, length := 1000,
      laneInfinity := 99, laneStatsMap := [(0, laneOf [] 1), (99, laneOf [] 0)] }
  else
    { roadSegment := 20, statsNumberInSegment := 1, parentConflux := 0, length := 1000,
      laneInfinity := 99, laneStatsMap := [(0, laneOf [7] counter), (99, laneOf [] 0)] }

/-- Conflux 1 (downstream) with the given `lastUpdatedFrame`, bound and queue for link 11;
every other conflux is conflux 0 (upstream), already updated in tick 5. -/
def conflux (lastUpdated : Int) (bound : Nat) (queue : List PersonId) (c : ConfluxId) : Conflux :=
  if c = 1 then
    { isLoader := false, initialized := true, currFrame := 4, lastUpdatedFrame := lastUpdated,
      tickTimeInS := 1, parentWorker := some 0,
      upstreamSegStatsMap := [(11, [2])], segmentAgents := [(21, [2])],
      virtualQueuesMap := [(11, queue)], vqBounds := [(11, bound)],
      activityPerformers := [], pedestrianList := [], mrt := [], carSharing := [],
      loadingQueue := [] }
  else
    { isLoader := false, initialized := true, currFrame := 5, lastUpdatedFrame := 5,
      tickTimeInS := 1, parentWorker := some 0,
      upstreamSegStatsMap := [(10, [1])], segmentAgents := [(20, [1])],
      virtualQueuesMap := [(10, [])], vqBounds := [(10, 0)],
      activityPerformers := [], pedestrianList := [], mrt := [], carSharing := [],
      loadingQueue := [] }

/-- The road segments 20 (of link 10, into conflux 0) and 21 (of link 11, into conflux 1),
each 10 m long with one lane. -/
def roadSegment (g : SegmentId) : RoadSegment :=
  if g = 21 then { link := 11, polylineLength := 1000, lanes := [0], parentConflux := 1 }
  else { link := 10, polylineLength := 1000, lanes := [0], parentConflux := 0 }

/-- The world in tick 5: conflux 1 with the given `lastUpdatedFrame`, bound and queue of
link 11, and the given output counter on the driver's lane. -/
def world (lastUpdated : Int) (bound : Nat) (queue : List PersonId) (counter : Int) : World :=
  { person := fun _ => driver
    segStats := segStats counter
    conflux := conflux lastUpdated bound queue
    roadSegment := roadSegment
    link := fun l => if l = 11 then { segments := [21] } else { segments := [20] }
    trace := [] }

end Demo

namespace Demo

/-- The demo world with link 11 made of a road segment of 1 m with three lanes, empty of
vehicles, and person 9 waiting in the virtual queue of link 11. -/
def threeLaneWorld : World :=
  { world 4 0 [9] 3 with
    roadSegment := fun _ => { link := 11, polylineLength := 100, lanes := [0, 1, 2], parentConflux := 1 } }

/-- The demo world with link 11 made of a road segment with three lanes whose length is
the `double` `133.33333333333334` (cm), which is `4691249611844267 / 2 ^ 45` and more
than `400 / 3`, empty of vehicles, and person 9 waiting in the virtual queue of link
11. -/
def roundedWorld : World :=
  { world 4 0 [9] 3 with
    roadSegment := fun _ =>
      { link := 11, polylineLength := 4691249611844267 / 35184372088832, lanes := [0, 1, 2],
        parentConflux := 1 } }

end Demo

namespace Demo

/-- Collaborators for the demo: the frame tick of the role uses up the whole tick, the
persons of a conflux are taken lane by lane, every new person starts on conflux 0, and
the trip chain of everybody ends at the first switch. -/
def collaborators : Collaborators :=
  { frame_tick := fun w p => (.ok (), w.modifyPerson p (fun x => { x with remainingTimeThisTick := 0 }))
    make_frame_tick_params := fun w _ _ => (.ok (), w)
    switchTripChainItem := fun w _ _ => (.ok .RS_DONE, w)
    callMovementFrameInit := fun w _ _ _ => (.ok true, w)
    killAgent := fun w _ _ _ => (.ok (), w)
    getAllPersonsUsingTopCMerge := fun w c =>
      (.ok ((w.conflux c).allSegStats.flatMap
        (fun s => (w.segStats s).laneStatsMap.flatMap (fun e => e.2.laneAgents))), w)
    updateBusStopAgents := fun w _ => (.ok (), w)
    findStartingConflux := fun w _ _ => (.ok (some 0), w)
    initializeBusStops := fun w _ => (.ok (), w)
    resetPositionOfLastUpdatedAgentOnLanes := fun ss => ss }

/-- Ticks of one second, persons loaded every tick. -/
def config : Config := { granPersonTicks := 1, baseGranMS := 1000 }

/-- The demo world with conflux 3 a loader that was never updated and has person 7 in
its loading queue. -/
def loaderWorld : World :=
  { world 4 2 [9] 3 with
    conflux := fun c =>
      if c = 3 then
        { isLoader := true, initialized := true, currFrame := 4, lastUpdatedFrame := -1,
          tickTimeInS := 1, parentWorker := some 0,
          upstreamSegStatsMap := [], segmentAgents := [],
          virtualQueuesMap := [], vqBounds := [],
          activityPerformers := [], pedestrianList := [], mrt := [], carSharing := [],
          loadingQueue := [7] }
      else conflux 4 2 [9] c }

end Demo

namespace Demo

/-- The demo world at the start of a tick in which segment stats 2 (10 m, one lane) is
full with the three vehicles 1, 2 and 3, and person 9 is still waiting in the virtual
queue of link 11 since an earlier tick. -/
def fullWorld : World :=
  { world 4 0 [9] 3 with
    segStats := fun s =>
      if s = 2 then
        { roadSegment := 21, statsNumberInSegment := 1, parentConflux := 1, length := 1000,
          laneInfinity := 99, laneStatsMap := [(0, laneOf [1, 2, 3] 1), (99, laneOf [] 0)] }
      else segStats 3 s }

/-- The snapshot of the driver before its update in tick 5: on lane 0 of segment stats 1. -/
def beforeUpdate : PersonProps :=
  { segment := some 20, lane := some 0, isQueuing := false, isMoving := true,
    roleType := .RL_DRIVER, vehicleLength := 400, segStats := some 1, conflux := some 0 }

/-- The snapshot of the driver after a grant into the virtual queue of link 11: on
segment stats 2, in no lane. -/
def afterUpdate : PersonProps :=
  { segment := some 21, lane := none, isQueuing := false, isMoving := true,
    roleType := .RL_DRIVER, vehicleLength := 400, segStats := some 2, conflux := some 1 }

end Demo

namespace Demo

/-- A person on foot or off the road: no vehicle, no segment stats and no lane. -/
def offRoad (roleType : RoleType) : Person_MT :=
  { driver with
    role := some { roleType := roleType, resource := none }
    currSegStats := none
    currLane := none
    requestedNextSegStats := none }

/-- The demo world with person 8 among the activity performers of conflux 0; after its
update in tick 5 it waits for a bus. -/
def performerWorld : World :=
  { world 5 2 [9] 3 with
    person := fun q => if q = 8 then offRoad .RL_WAITBUSACTITITY else driver
    conflux := fun c =>
      if c = 0 then { conflux 5 2 [9] 0 with activityPerformers := [8] } else conflux 5 2 [9] c }

/-- The snapshot of a person off the road, with the given role. -/
def offRoadProps (roleType : RoleType) : PersonProps :=
  { segment := none, lane := none, isQueuing := false, isMoving := true,
    roleType := roleType, vehicleLength := 0, segStats := none, conflux := some 0 }

end Demo

namespace Demo

/-- The demo world in tick 5 with person 7 a bus driver that has just stopped to serve a
stop on segment stats 1: it is still in the deque of lane 0. -/
def busWorld : World :=
  { world 5 2 [9] 3 with
    person := fun _ =>
      { driver with
        role := some { roleType := .RL_BUSDRIVER, resource := some { moving := false, lengthCm := 1200 } }
        requestedNextSegStats := none } }

/-- The snapshot of the bus driver on lane 0 of segment stats 1, moving or serving a stop. -/
def busProps (isMoving : Bool) : PersonProps :=
  { segment := some 20, lane := some 0, isQueuing := false, isMoving := isMoving,
    roleType := .RL_BUSDRIVER, vehicleLength := 1200, segStats := some 1, conflux := some 0 }

end Demo

namespace Demo

/-- The snapshot of person 7 on lane 0 of segment stats 1 while its role was an activity
(the lane of the trip that ended with the activity). -/
def beforeInActivity : PersonProps :=
  { beforeUpdate with roleType := .RL_ACTIVITY }

/-- The snapshot of the driver after a move onto lane 0 of segment stats 2. -/
def afterOnLane : PersonProps :=
  { segment := some 21, lane := some 0, isQueuing := false, isMoving := true,
    roleType := .RL_DRIVER, vehicleLength := 400, segStats := some 2, conflux := some 1 }

end Demo

namespace Demo

/-- The demo world in which person `q` has `q` seconds to drive to the end of its link. -/
def mergeWorld : World :=
  { world 5 2 [9] 3 with
    person := fun q => { driver with drivingTimeToEndOfLink := (q : ℚ) } }

end Demo

namespace Demo

/-- The demo world in tick 5 with person 8 on foot, in `pedestrianList` of conflux 0 and
in no lane, last updated in tick 4. -/
def walkerWorld : World :=
  { world 5 2 [9] 3 with
    person := fun q => if q = 8 then { offRoad .RL_PEDESTRIAN with lastUpdatedFrame := 4 } else driver
    conflux := fun c =>
      if c = 0 then { conflux 5 2 [9] 0 with pedestrianList := [8] } else conflux 5 2 [9] c }

/-- Collaborators for a person whose walk ends in this tick and whose next sub-trip is by
car: the frame tick of the pedestrian role marks the person as to be removed, and the
frame tick of any other role uses up the tick; `switchTripChainItem` finds the next
sub-trip (`checkTripChain` gives the person the role of a driver and clears the mark) and,
the new role being none of `RL_WAITBUSACTITITY`, `RL_TRAINPASSENGER`, `RL_CARPASSENGER`
and `RL_PEDESTRIAN` and the item no activity, goes on to `callMovementFrameInit` (line
1059), where the frame initialisation of the driver puts the person on lane
infinity of segment stats 1; it does not touch `pedestrianList` for this role. -/
def tripCollaborators : Collaborators :=
  { collaborators with
    frame_tick := fun w p =>
      if (w.person p).role.map Role.roleType = some .RL_PEDESTRIAN then
        (.ok (), w.modifyPerson p (fun x => { x with toBeRemoved := true }))
      else (.ok (), w.modifyPerson p (fun x => { x with remainingTimeThisTick := 0 }))
    switchTripChainItem := fun w _ p =>
      (.ok .RS_CONTINUE, w.modifyPerson p (fun x =>
        { x with
          role := some { roleType := .RL_DRIVER, resource := some { moving := true, lengthCm := 400 } }
          currSegStats := some 1
          currLane := some 99
          toBeRemoved := false
          initialized := true })) }

end Demo

namespace Demo

/-- Collaborators of the trip chain for the demo: `checkTripChain` answers with the given
status and leaves the person as it is, the frame initialisation of a role does nothing,
every role starts on conflux 0, node `n` belongs to conflux `n`, and no bus stop is a
terminus or has an agent. -/
def tripChain (status : UpdateStatus) : TripCollaborators :=
  { checkTripChain := fun w _ => (.ok status, w)
    frame_init := fun w _ => (.ok (), w)
    getStartingConflux := fun _ _ => some 0
    getConfluxForNode := fun n => some n
    busStop := fun _ => { terminusType := .NOT_A_TERMINUS, twinStop := none, busStopAgent := none } }

/-- The demo world in tick 5 with person 8 new to the simulation: without a role, not
initialised, in no lane. -/
def newcomerWorld : World :=
  { world 5 2 [9] 3 with
    person := fun q =>
      if q = 8 then
        { offRoad .RL_PEDESTRIAN with role := none, initialized := false, lastUpdatedFrame := 4 }
      else driver }

end Demo

namespace Demo

/-- Collaborators for a pedestrian that reaches the end of its link: the frame tick of
the role asks for link 11 as the next link. -/
def crossingCollaborators : Collaborators :=
  { collaborators with
    frame_tick := fun w p =>
      (.ok (), w.modifyPerson p (fun x => { x with nextLinkRequired := some 11 })) }

end Demo
namespace Demo

/-- The demo world in tick 5 with person 8 a train passenger whose sub-trip ends after
120 s. -/
def passengerWorld : World :=
  { world 5 2 [9] 3 with
    person := fun q =>
      if q = 8 then
        { offRoad .RL_TRAINPASSENGER with
          currSubTrip := some { endTime := 120000, origin := { isBusStop := false, busStop_ := none } } }
      else driver }

end Demo
namespace Demo

/-- The demo world in tick 5 with person 8 an activity performer whose current item is an
activity of one minute at node 0, configured from 1 s to 61 s. -/
def activityWorld : World :=
  { world 5 2 [9] 3 with
    person := fun q =>
      if q = 8 then
        { offRoad .RL_ACTIVITY with
          role := some { roleType := .RL_ACTIVITY, resource := none,
                         location := some { id := 0, isMultiNode := true } }
          currTripChainItem := some { itemType := .IT_ACTIVITY, startTime := 1000, endTime := 61000,
                                      destination := some { id := 1, isMultiNode := true } } }
      else driver }

end Demo
namespace Demo

/-- Collaborators of the trip chain for the demo whose `checkTripChain` finds a next item
and gives the person the role of the given type, without a vehicle. -/
def nextRole (roleType : RoleType) : TripCollaborators :=
  { tripChain .RS_CONTINUE with
    checkTripChain := fun w p =>
      (.ok .RS_CONTINUE, w.modifyPerson p (fun x =>
        { x with role := some { roleType := roleType, resource := none }, toBeRemoved := false })) }

end Demo
namespace Demo

/-- The demo world in which person `q` has `q` seconds left in the tick. -/
def queueWorld : World :=
  { world 5 2 [9] 3 with
    person := fun q => { driver with remainingTimeThisTick := (q : ℚ) } }

end Demo

namespace Demo

/-- The demo world with the persons 7, 8 and 9 in the loading queue of the loader
conflux 3. -/
def loadingWorld : World :=
  { loaderWorld with
    conflux := fun c =>
      if c = 3 then { loaderWorld.conflux 3 with loadingQueue := [7, 8, 9] }
      else loaderWorld.conflux c }

/-- Collaborators for the demo of loading: person 8 has no starting conflux, person 9
starts on conflux 1 and everybody else on conflux 0. -/
def loadingCollaborators : Collaborators :=
  { collaborators with
    findStartingConflux := fun w p _ =>
      (.ok (if p = 8 then none else if p = 9 then some 1 else some 0), w) }

end Demo

namespace Demo

end Demo

namespace Demo

end Demo

namespace Demo

/-- The demo world with person 8 twice among the activity performers of conflux 0. -/
def twicePerformerWorld : World :=
  { performerWorld with
    conflux := fun c =>
      if c = 0 then { conflux 5 2 [9] 0 with activityPerformers := [8, 8] }
      else conflux 5 2 [9] c }

end Demo

namespace Demo

/-- The demo world in which person 1 has an infinite time to drive to the end of its
link (a vehicle that stands still) and every other person `q` has `q` seconds. -/
def stalledWorld : World :=
  { world 5 2 [9] 3 with
    person := fun q =>
      { driver with
        drivingTimeToEndOfLink := if q = 1 then POSITIVE_INFINITY else (q : ℚ) } }

end Demo

namespace Demo

/-- The demo world in tick 5 with person 8 in an activity, among the activity performers
of conflux 0, last updated in tick 4. -/
def activityEndWorld : World :=
  { world 5 2 [9] 3 with
    person := fun q =>
      if q = 8 then { offRoad .RL_ACTIVITY with lastUpdatedFrame := 4 } else driver
    conflux := fun c =>
      if c = 0 then { conflux 5 2 [9] 0 with activityPerformers := [8] } else conflux 5 2 [9] c }

/-- Collaborators for a person whose activity ends in this tick and whose next sub-trip
is a walk that reaches the end of its link in the same tick: the frame tick of the
activity marks the person as to be removed, the frame tick of the pedestrian asks for
link 11 as the next link, and the frame tick of any other role uses up the tick;
`switchTripChainItem`, `callMovementFrameInit`, `killAgent` and `findStartingConflux`
are the procedures of the conflux, with a `checkTripChain` that gives the person the
role of a pedestrian and clears the mark. -/
def activityEndCollaborators : Collaborators :=
  withProcedures
    { collaborators with
      frame_tick := fun w p =>
        if (w.person p).role.map Role.roleType = some .RL_ACTIVITY then
          (.ok (), w.modifyPerson p (fun x => { x with toBeRemoved := true }))
        else if (w.person p).role.map Role.roleType = some .RL_PEDESTRIAN then
          (.ok (), w.modifyPerson p (fun x => { x with nextLinkRequired := some 11 }))
        else (.ok (), w.modifyPerson p (fun x => { x with remainingTimeThisTick := 0 })) }
    (nextRole .RL_PEDESTRIAN) config 5000

end Demo

/-! ## Auxiliary facts -/

section Aux

variable {α : Type}

theorem mapAt_mapSet_self (m : List (Nat × α)) (k : Nat) (x y : α) (h : mapAt m k = some y) :
    mapAt (mapSet m k x) k = some x := by
  induction m with
  | nil => simp [mapAt] at h
  | cons e rest ih =>
    obtain ⟨k', v⟩ := e
    by_cases hk : k' = k
    · simp [mapSet, mapAt, hk]
    · simp only [mapAt, hk, if_false] at h
      simp [mapSet, mapAt, hk, ih h]

theorem mapAt_mapSet_other (m : List (Nat × α)) (k k2 : Nat) (x : α) (h : k2 ≠ k) :
    mapAt (mapSet m k x) k2 = mapAt m k2 := by
  induction m with
  | nil => simp [mapSet, mapAt]
  | cons e rest ih =>
    obtain ⟨k', v⟩ := e
    by_cases hk : k' = k
    · subst hk
      have hne : ¬ k' = k2 := fun e => h e.symm
      simp [mapSet, mapAt, hne]
    · by_cases hk2 : k' = k2
      · subst hk2
        simp [mapSet, mapAt, hk]
      · simp [mapSet, mapAt, hk, hk2, ih]

@[simp] theorem World.modifyPerson_person_self (w : World) (p : PersonId)
    (f : Person_MT → Person_MT) : (w.modifyPerson p f).person p = f (w.person p) := by
  simp [World.modifyPerson]

theorem World.modifyPerson_person_other (w : World) (p q : PersonId)
    (f : Person_MT → Person_MT) (h : q ≠ p) : (w.modifyPerson p f).person q = w.person q := by
  simp [World.modifyPerson, Function.update_noteq h]

@[simp] theorem World.modifyPerson_segStats (w : World) (p : PersonId)
    (f : Person_MT → Person_MT) : (w.modifyPerson p f).segStats = w.segStats := rfl

@[simp] theorem World.modifyPerson_conflux (w : World) (p : PersonId)
    (f : Person_MT → Person_MT) : (w.modifyPerson p f).conflux = w.conflux := rfl

@[simp] theorem World.modifyPerson_roadSegment (w : World) (p : PersonId)
    (f : Person_MT → Person_MT) : (w.modifyPerson p f).roadSegment = w.roadSegment := rfl

@[simp] theorem World.modifyPerson_trace (w : World) (p : PersonId)
    (f : Person_MT → Person_MT) : (w.modifyPerson p f).trace = w.trace := rfl

@[simp] theorem World.modifySegStats_person (w : World) (s : SegStatsId)
    (f : SegmentStats → SegmentStats) : (w.modifySegStats s f).person = w.person := rfl

@[simp] theorem World.modifySegStats_conflux (w : World) (s : SegStatsId)
    (f : SegmentStats → SegmentStats) : (w.modifySegStats s f).conflux = w.conflux := rfl

@[simp] theorem World.modifySegStats_roadSegment (w : World) (s : SegStatsId)
    (f : SegmentStats → SegmentStats) : (w.modifySegStats s f).roadSegment = w.roadSegment := rfl

@[simp] theorem World.modifySegStats_trace (w : World) (s : SegStatsId)
    (f : SegmentStats → SegmentStats) : (w.modifySegStats s f).trace = w.trace := rfl

@[simp] theorem World.modifySegStats_segStats_self (w : World) (s : SegStatsId)
    (f : SegmentStats → SegmentStats) : (w.modifySegStats s f).segStats s = f (w.segStats s) := by
  simp [World.modifySegStats]

theorem World.modifySegStats_segStats_other (w : World) (s t : SegStatsId)
    (f : SegmentStats → SegmentStats) (h : t ≠ s) :
    (w.modifySegStats s f).segStats t = w.segStats t := by
  simp [World.modifySegStats, Function.update_noteq h]

/-- The lane parameters of the person's lane do not depend on the members of the person
other than the current segment stats and the current lane. -/
theorem World.currLaneParams_modifyPerson (w : World) (p : PersonId) (f : Person_MT → Person_MT)
    (hs : (f (w.person p)).currSegStats = (w.person p).currSegStats)
    (hl : (f (w.person p)).currLane = (w.person p).currLane) :
    (w.modifyPerson p f).currLaneParams p = w.currLaneParams p := by
  simp [World.currLaneParams, hs, hl]

/-! ### The admission block, case by case -/

theorem World.currLaneParams_presumeGranted (w : World) (p : PersonId) :
    (w.presumeGranted p).currLaneParams p = w.currLaneParams p :=
  World.currLaneParams_modifyPerson w p _ rfl rfl

/-- The next conflux is not yet processed for the tick and the link has its bound and its
queue: the admission block grants into the virtual queue or denies. -/
theorem admission_not_updated (w : World) (now : Nat) (p : PersonId)
    (nxt cur : SegStatsId) (ln : LaneId) (lp : LaneParams) (bound : Nat) (queue : List PersonId)
    (hlp : w.currLaneParams p = some (cur, ln, lp))
    (hframe : (w.conflux (w.segStats nxt).parentConflux).lastUpdatedFrame < (now : Int))
    (hb : mapAt (w.conflux (w.segStats nxt).parentConflux).vqBounds
      (w.roadSegment (w.segStats nxt).roadSegment).link = some bound)
    (hq : mapAt (w.conflux (w.segStats nxt).parentConflux).virtualQueuesMap
      (w.roadSegment (w.segStats nxt).roadSegment).link = some queue) :
    admission w now p nxt =
      if bound > queue.length ∧ lp.getOutputCounter > 0 then
        (.ok .breakLoop, (w.presumeGranted p).grantIntoVirtualQueue p nxt cur ln lp)
      else (.ok .goOn, (w.presumeGranted p).denyAdmission p) := by
  have hlp1 := (World.currLaneParams_presumeGranted w p).trans hlp
  have hb1 : mapAt ((w.presumeGranted p).conflux ((w.segStats nxt).parentConflux)).vqBounds
      ((w.presumeGranted p).roadSegment (w.segStats nxt).roadSegment).link = some bound := hb
  have hq1 : mapAt ((w.presumeGranted p).conflux ((w.segStats nxt).parentConflux)).virtualQueuesMap
      ((w.presumeGranted p).roadSegment (w.segStats nxt).roadSegment).link = some queue := hq
  have hf1 : ((w.presumeGranted p).conflux ((w.segStats nxt).parentConflux)).lastUpdatedFrame
      < (now : Int) := hframe
  simp only [admission, hlp1, Conflux.hasSpaceInVirtualQueue, hb1, hq1, gt_iff_lt, hf1, if_true]
  by_cases hg : queue.length < bound ∧ 0 < lp.getOutputCounter
  · simp [hg.1, hg.2]
  · rw [if_neg hg]
    by_cases h1 : queue.length < bound
    · have h2 : ¬ 0 < lp.getOutputCounter := fun h => hg ⟨h1, h⟩
      simp [h1, h2]
    · simp [h1]

/-- The next conflux is already processed for the tick: the admission block grants or
denies on the output counter alone. -/
theorem admission_updated (w : World) (now : Nat) (p : PersonId)
    (nxt cur : SegStatsId) (ln : LaneId) (lp : LaneParams)
    (hlp : w.currLaneParams p = some (cur, ln, lp))
    (hframe : (w.conflux (w.segStats nxt).parentConflux).lastUpdatedFrame = (now : Int)) :
    admission w now p nxt =
      if lp.getOutputCounter > 0 then (.ok .goOn, (w.presumeGranted p).grantAndProceed p cur ln lp)
      else (.ok .goOn, (w.presumeGranted p).denyAdmission p) := by
  have hlp1 := (World.currLaneParams_presumeGranted w p).trans hlp
  have hf1 : ((w.presumeGranted p).conflux ((w.segStats nxt).parentConflux)).lastUpdatedFrame
      = (now : Int) := hframe
  simp only [admission, hlp1, hf1, gt_iff_lt, lt_self_iff_false, if_false, if_true]

/-- The next conflux claims a later tick than the current one: the admission block throws. -/
theorem admission_future (w : World) (now : Nat) (p : PersonId)
    (nxt cur : SegStatsId) (ln : LaneId) (lp : LaneParams)
    (hlp : w.currLaneParams p = some (cur, ln, lp))
    (hframe : (now : Int) < (w.conflux (w.segStats nxt).parentConflux).lastUpdatedFrame) :
    admission w now p nxt = (.error .lastUpdatedFrameMismanaged, w.presumeGranted p) := by
  have hlp1 := (World.currLaneParams_presumeGranted w p).trans hlp
  have hf1 : (now : Int) < ((w.presumeGranted p).conflux ((w.segStats nxt).parentConflux)).lastUpdatedFrame :=
    hframe
  have h1 : ¬ ((w.presumeGranted p).conflux ((w.segStats nxt).parentConflux)).lastUpdatedFrame
      < (now : Int) := not_lt.mpr (le_of_lt hf1)
  have h2 : ¬ (now : Int) = ((w.presumeGranted p).conflux ((w.segStats nxt).parentConflux)).lastUpdatedFrame :=
    ne_of_lt hf1
  simp only [admission, hlp1, gt_iff_lt, h1, h2, if_false]

/-- One pass of the loop that reaches the admission test with the state `w` ends as the
admission stage on `w` ends. -/
theorem tickLoop_succ_of_stages (col : Collaborators) (cfx : ConfluxId) (now : Nat) (p : PersonId)
    (fuel : Nat) (r r' : UpdateStatus) (w0 w : World)
    (hrem : 0 < (w0.person p).remainingTimeThisTick)
    (hst : stagesBeforeAdmission col cfx p r w0 = (.ok (none, r'), w)) :
    tickLoop col cfx now p (fuel + 1) r w0 =
      match admissionStage now p w with
      | (.error f, w4) => (.error f, w4)
      | (.ok .goOn, w4) => tickLoop col cfx now p fuel r' w4
      | (.ok .breakLoop, w4) => (.ok r', w4)
      | (.ok (.returnWith s), w4) => (.ok s, w4) := by
  simp only [tickLoop, gt_iff_lt, hrem, if_true, loopBody, hst]
  rcases h : admissionStage now p w with ⟨res, w4⟩
  cases res with
  | error f => rfl
  | ok ctl => cases ctl <;> rfl

/-! ### Lane parameters after a write -/

theorem SegmentStats.getLaneParams_setLaneParams_self (ss : SegmentStats) (ln : LaneId)
    (lp lp' : LaneParams) (h : ss.getLaneParams (some ln) = some lp) :
    (ss.setLaneParams ln lp').getLaneParams (some ln) = some lp' := by
  simp only [SegmentStats.getLaneParams] at h
  cases hst : mapAt ss.laneStatsMap ln with
  | none => simp [hst] at h
  | some st =>
    simp [SegmentStats.getLaneParams, SegmentStats.setLaneParams, hst,
      mapAt_mapSet_self ss.laneStatsMap ln _ st hst]

theorem SegmentStats.getLaneParams_setLaneParams_other (ss : SegmentStats) (ln l2 : LaneId)
    (lp' : LaneParams) (h : l2 ≠ ln) :
    (ss.setLaneParams ln lp').getLaneParams (some l2) = ss.getLaneParams (some l2) := by
  cases hst : mapAt ss.laneStatsMap ln with
  | none => simp [SegmentStats.setLaneParams, hst]
  | some st =>
    simp [SegmentStats.getLaneParams, SegmentStats.setLaneParams, hst,
      mapAt_mapSet_other ss.laneStatsMap ln l2 _ h]

theorem World.currLaneParams_spec (w : World) (p : PersonId) (cur : SegStatsId) (ln : LaneId)
    (lp : LaneParams) (h : w.currLaneParams p = some (cur, ln, lp)) :
    (w.person p).currSegStats = some cur ∧ (w.person p).currLane = some ln ∧
      (w.segStats cur).getLaneParams (some ln) = some lp := by
  unfold World.currLaneParams at h
  cases hs : (w.person p).currSegStats with
  | none => simp [hs] at h
  | some s =>
    cases hl : (w.person p).currLane with
    | none => simp [hs, hl] at h
    | some l =>
      simp only [hs, hl, Option.map_eq_some'] at h
      obtain ⟨a, ha, hEq⟩ := h
      simp only [Prod.mk.injEq] at hEq
      obtain ⟨h1, h2, h3⟩ := hEq
      subst h1; subst h2; subst h3
      exact ⟨rfl, rfl, ha⟩

/-- Taking one off the counter of lane `ln` of segment stats `cur` shows in that lane. -/
theorem World.outputCounter_decrement_self (w : World) (cur : SegStatsId) (ln : LaneId)
    (lp : LaneParams) (h : (w.segStats cur).getLaneParams (some ln) = some lp) :
    (w.modifySegStats cur (fun ss => ss.setLaneParams ln lp.decrementOutputCounter)).outputCounter
      cur ln = some (lp.getOutputCounter - 1) := by
  simp [World.outputCounter, SegmentStats.getLaneParams_setLaneParams_self _ ln lp _ h,
    LaneParams.getOutputCounter, LaneParams.decrementOutputCounter]

/-- Taking one off the counter of lane `ln` of segment stats `cur` shows in no other lane. -/
theorem World.outputCounter_decrement_other (w : World) (cur s : SegStatsId) (ln l : LaneId)
    (lp' : LaneParams) (h : (s, l) ≠ (cur, ln)) :
    (w.modifySegStats cur (fun ss => ss.setLaneParams ln lp')).outputCounter s l =
      w.outputCounter s l := by
  by_cases hs : s = cur
  · subst hs
    have hl : l ≠ ln := fun e => h (by rw [e])
    simp [World.outputCounter, SegmentStats.getLaneParams_setLaneParams_other _ ln l _ hl]
  · simp [World.outputCounter, World.modifySegStats_segStats_other _ _ _ _ hs]

/-- The next conflux is not yet processed for the tick and the link lacks a bound or a
queue: the admission block ends in the error of `hasSpaceInVirtualQueue`. -/
theorem admission_not_updated_missing (w : World) (now : Nat) (p : PersonId)
    (nxt cur : SegStatsId) (ln : LaneId) (lp : LaneParams)
    (hlp : w.currLaneParams p = some (cur, ln, lp))
    (hframe : (w.conflux (w.segStats nxt).parentConflux).lastUpdatedFrame < (now : Int))
    (hm : mapAt (w.conflux (w.segStats nxt).parentConflux).vqBounds
        (w.roadSegment (w.segStats nxt).roadSegment).link = none ∨
      mapAt (w.conflux (w.segStats nxt).parentConflux).virtualQueuesMap
        (w.roadSegment (w.segStats nxt).roadSegment).link = none) :
    admission w now p nxt = (.error .vqOutOfRange, w.presumeGranted p) := by
  have hlp1 := (World.currLaneParams_presumeGranted w p).trans hlp
  have hf1 : ((w.presumeGranted p).conflux ((w.segStats nxt).parentConflux)).lastUpdatedFrame
      < (now : Int) := hframe
  have hsp : ((w.conflux (w.segStats nxt).parentConflux).hasSpaceInVirtualQueue
      (w.roadSegment (w.segStats nxt).roadSegment).link).1 = .error .vqOutOfRange := by
    unfold Conflux.hasSpaceInVirtualQueue
    rcases hm with h | h
    · simp [h]
    · cases hb : mapAt (w.conflux (w.segStats nxt).parentConflux).vqBounds
        (w.roadSegment (w.segStats nxt).roadSegment).link <;> simp [h]
  have hsp1 : (((w.presumeGranted p).conflux (w.segStats nxt).parentConflux).hasSpaceInVirtualQueue
      ((w.presumeGranted p).roadSegment (w.segStats nxt).roadSegment).link).1 =
        .error .vqOutOfRange := hsp
  simp only [admission, hlp1, gt_iff_lt, hf1, if_true, hsp1]

/-- The person has no lane parameters to read: the admission block is undefined. -/
theorem admission_no_lane_params (w : World) (now : Nat) (p : PersonId) (nxt : SegStatsId)
    (hlp : w.currLaneParams p = none) :
    admission w now p nxt = (.error .nullDereference, w.presumeGranted p) := by
  have hlp1 := (World.currLaneParams_presumeGranted w p).trans hlp
  simp only [admission, hlp1]

/-! ### Output counters never go below zero -/

theorem CountersNonneg.of_segStats_eq {w w' : World} (h : w'.segStats = w.segStats)
    (hw : CountersNonneg w) : CountersNonneg w' := by
  intro s ln c hc
  apply hw s ln c
  simpa [World.outputCounter, h] using hc

theorem CountersNonneg.decrement {w : World} (hw : CountersNonneg w) (cur : SegStatsId)
    (ln : LaneId) (lp : LaneParams) (hget : (w.segStats cur).getLaneParams (some ln) = some lp)
    (hpos : lp.getOutputCounter > 0) :
    CountersNonneg (w.modifySegStats cur (fun ss => ss.setLaneParams ln lp.decrementOutputCounter)) := by
  intro s l c hc
  by_cases h : (s, l) = (cur, ln)
  · simp only [Prod.mk.injEq] at h
    obtain ⟨h1, h2⟩ := h
    subst h1; subst h2
    rw [World.outputCounter_decrement_self w s l lp hget] at hc
    simp only [Option.some.injEq] at hc
    omega
  · rw [World.outputCounter_decrement_other w cur s ln l _ h] at hc
    exact hw s l c hc

theorem admission_countersNonneg (w : World) (now : Nat) (p : PersonId) (nxt : SegStatsId)
    (hw : CountersNonneg w) : CountersNonneg (admission w now p nxt).2 := by
  have hpg : CountersNonneg (w.presumeGranted p) := hw.of_segStats_eq rfl
  have hdeny : CountersNonneg ((w.presumeGranted p).denyAdmission p) := hw.of_segStats_eq rfl
  cases hlp : w.currLaneParams p with
  | none => rw [admission_no_lane_params w now p nxt hlp]; exact hpg
  | some t =>
    obtain ⟨cur, ln, lp⟩ := t
    obtain ⟨_, _, hget⟩ := World.currLaneParams_spec w p cur ln lp hlp
    have hgrant : lp.getOutputCounter > 0 → CountersNonneg
        ((w.presumeGranted p).modifySegStats cur
          (fun ss => ss.setLaneParams ln lp.decrementOutputCounter)) :=
      fun hpos => hpg.decrement cur ln lp hget hpos
    rcases lt_trichotomy (w.conflux (w.segStats nxt).parentConflux).lastUpdatedFrame (now : Int)
      with hframe | hframe | hframe
    · cases hb : mapAt (w.conflux (w.segStats nxt).parentConflux).vqBounds
          (w.roadSegment (w.segStats nxt).roadSegment).link with
      | none =>
        rw [admission_not_updated_missing w now p nxt cur ln lp hlp hframe (Or.inl hb)]
        exact hpg
      | some bound =>
        cases hq : mapAt (w.conflux (w.segStats nxt).parentConflux).virtualQueuesMap
            (w.roadSegment (w.segStats nxt).roadSegment).link with
        | none =>
          rw [admission_not_updated_missing w now p nxt cur ln lp hlp hframe (Or.inr hq)]
          exact hpg
        | some queue =>
          rw [admission_not_updated w now p nxt cur ln lp bound queue hlp hframe hb hq]
          by_cases hg : bound > queue.length ∧ lp.getOutputCounter > 0
          · rw [if_pos hg]
            exact (hgrant hg.2).of_segStats_eq rfl
          · rw [if_neg hg]
            exact hdeny
    · rw [admission_updated w now p nxt cur ln lp hlp hframe]
      by_cases hg : lp.getOutputCounter > 0
      · rw [if_pos hg]
        exact (hgrant hg).of_segStats_eq rfl
      · rw [if_neg hg]
        exact hdeny
    · rw [admission_future w now p nxt cur ln lp hlp hframe]
      exact hpg

theorem admissionStage_countersNonneg (w : World) (now : Nat) (p : PersonId)
    (hw : CountersNonneg w) : CountersNonneg (admissionStage now p w).2 := by
  unfold admissionStage
  cases (w.person p).requestedNextSegStats with
  | none => exact hw
  | some nxt => exact admission_countersNonneg w now p nxt hw

theorem admissionSequence_countersNonneg (evs : List (Nat × PersonId)) (w : World)
    (hw : CountersNonneg w) : CountersNonneg (admissionSequence evs w).2 := by
  induction evs generalizing w with
  | nil => exact hw
  | cons e rest ih =>
    obtain ⟨now, p⟩ := e
    have h1 := admissionStage_countersNonneg w now p hw
    unfold admissionSequence
    rcases hres : admissionStage now p w with ⟨res, w1⟩
    rw [hres] at h1
    cases res with
    | error f => exact h1
    | ok ctl => exact ih w1 h1

theorem callOut_countersNonneg {α : Type} (w : World) (e : Event)
    (f : World → Except Fault α × World) (h : CountersNonneg (f w).2) :
    CountersNonneg (callOut w e f).2 :=
  h.of_segStats_eq rfl

theorem stagesBeforeAdmission_countersNonneg (col : Collaborators) (cfx : ConfluxId)
    (p : PersonId) (r : UpdateStatus) (w : World) (hcol : col.Keep CountersNonneg)
    (hw : CountersNonneg w) : CountersNonneg (stagesBeforeAdmission col cfx p r w).2 := by
  have h1 : CountersNonneg (frameTickStage col p w).2 := by
    unfold frameTickStage
    split
    · exact hw
    · exact callOut_countersNonneg w _ _ (hcol.1 w p hw)
  have h2 : ∀ v, CountersNonneg v → CountersNonneg (tripChainStage col cfx p r v).2 := by
    intro v hv
    have hs := hcol.2.2 v cfx p hv
    unfold tripChainStage
    split
    · rcases hres : col.switchTripChainItem v cfx p with ⟨res, v1⟩
      rw [hres] at hs
      cases res with
      | error f => exact hs
      | ok st => cases st <;> exact hs
    · exact hv
  have h3 : ∀ v, CountersNonneg v → CountersNonneg (nextLinkStage cfx p v).2 := by
    intro v hv
    unfold nextLinkStage
    split
    · exact hv
    · split
      · exact hv
      · dsimp only
        split <;> exact hv.of_segStats_eq rfl
  unfold stagesBeforeAdmission
  rcases hA : frameTickStage col p w with ⟨resA, wA⟩
  rw [hA] at h1
  cases resA with
  | error f => exact h1
  | ok u =>
    have hB := h2 wA h1
    dsimp only
    rcases hBres : tripChainStage col cfx p r wA with ⟨resB, wB⟩
    rw [hBres] at hB
    cases resB with
    | error f => exact hB
    | ok t =>
      obtain ⟨ret, r2⟩ := t
      cases ret with
      | some s => exact hB
      | none =>
        have hC := h3 wB hB
        dsimp only
        rcases hCres : nextLinkStage cfx p wB with ⟨resC, wC⟩
        rw [hCres] at hC
        cases resC with
        | error f => exact hC
        | ok ret => exact hC

theorem loopBody_countersNonneg (col : Collaborators) (cfx : ConfluxId) (now : Nat)
    (p : PersonId) (r : UpdateStatus) (w : World) (hcol : col.Keep CountersNonneg)
    (hw : CountersNonneg w) : CountersNonneg (loopBody col cfx now p r w).2 := by
  have h1 := stagesBeforeAdmission_countersNonneg col cfx p r w hcol hw
  unfold loopBody
  rcases hA : stagesBeforeAdmission col cfx p r w with ⟨resA, wA⟩
  rw [hA] at h1
  cases resA with
  | error f => exact h1
  | ok t =>
    obtain ⟨ret, r2⟩ := t
    cases ret with
    | some s => exact h1
    | none =>
      have h2 := admissionStage_countersNonneg wA now p h1
      dsimp only
      rcases hB : admissionStage now p wA with ⟨resB, wB⟩
      rw [hB] at h2
      cases resB with
      | error f => exact h2
      | ok ctl => exact h2

theorem tickLoop_countersNonneg (col : Collaborators) (cfx : ConfluxId) (now : Nat)
    (p : PersonId) (fuel : Nat) (r : UpdateStatus) (w : World) (hcol : col.Keep CountersNonneg)
    (hw : CountersNonneg w) : CountersNonneg (tickLoop col cfx now p fuel r w).2 := by
  induction fuel generalizing r w with
  | zero =>
    unfold tickLoop
    split <;> exact hw
  | succ n ih =>
    unfold tickLoop
    split
    · have h1 := loopBody_countersNonneg col cfx now p r w hcol hw
      rcases hA : loopBody col cfx now p r w with ⟨resA, wA⟩
      rw [hA] at h1
      cases resA with
      | error f => exact h1
      | ok t =>
        obtain ⟨ctl, r2⟩ := t
        cases ctl with
        | goOn => exact ih r2 wA h1
        | breakLoop => exact h1
        | returnWith s => exact h1
    · exact hw

theorem callMovementFrameTick_countersNonneg (col : Collaborators) (fuel : Nat) (cfx : ConfluxId)
    (now : Nat) (p : PersonId) (w : World) (hcol : col.Keep CountersNonneg)
    (hw : CountersNonneg w) : CountersNonneg (callMovementFrameTick col fuel cfx now p w).2 := by
  unfold callMovementFrameTick
  by_cases hr : (w.person p).resetParamsRequired = true
  · simp only [hr, if_true]
    have h1 : CountersNonneg (callOut w (.makeFrameTickParams p)
        (fun v => col.make_frame_tick_params v now p)).2 :=
      callOut_countersNonneg w _ _ (hcol.2.1 w now p hw)
    rcases hA : callOut w (.makeFrameTickParams p)
        (fun v => col.make_frame_tick_params v now p) with ⟨resA, wA⟩
    rw [hA] at h1
    cases resA with
    | error f => exact h1
    | ok u =>
      exact tickLoop_countersNonneg col cfx now p fuel _ _ hcol (h1.of_segStats_eq rfl)
  · simp only [hr]
    exact tickLoop_countersNonneg col cfx now p fuel _ _ hcol (hw.of_segStats_eq rfl)

/-! ### `std::map::insert` and the loop of `resetOutputBounds` -/

theorem mapAt_append_singleton (m : List (Nat × α)) (k k2 : Nat) (x : α) :
    mapAt (m ++ [(k, x)]) k2 =
      match mapAt m k2 with
      | some v => some v
      | none => if k = k2 then some x else none := by
  induction m with
  | nil => simp [mapAt]
  | cons e rest ih =>
    obtain ⟨k', v⟩ := e
    by_cases hk : k' = k2
    · simp [mapAt, hk]
    · simp [mapAt, hk, ih]

theorem mapAt_mapInsert_self (m : List (Nat × α)) (k : Nat) (x : α) :
    mapAt (mapInsert m k x) k = some ((mapAt m k).getD x) := by
  unfold mapInsert
  cases h : mapAt m k with
  | some v => simp [h]
  | none => simp [mapAt_append_singleton, h]

theorem mapAt_mapInsert_other (m : List (Nat × α)) (k k2 : Nat) (x : α) (h : k2 ≠ k) :
    mapAt (mapInsert m k x) k2 = mapAt m k2 := by
  unfold mapInsert
  cases hk : mapAt m k with
  | some v => rfl
  | none =>
    have hne : ¬ k = k2 := fun e => h e.symm
    simp only [mapAt_append_singleton, hne, if_false]
    cases mapAt m k2 <;> rfl

theorem mapAt_of_mem_nodup (m : List (Nat × α)) (hnd : (m.map Prod.fst).Nodup)
    (e : Nat × α) (he : e ∈ m) : mapAt m e.1 = some e.2 := by
  induction m with
  | nil => simp at he
  | cons e0 rest ih =>
    obtain ⟨k0, v0⟩ := e0
    simp only [List.map_cons, List.nodup_cons] at hnd
    rcases List.mem_cons.mp he with h | h
    · subst h
      simp [mapAt]
    · have hne : ¬ k0 = e.1 := by
        intro hk
        apply hnd.1
        rw [hk]
        exact List.mem_map_of_mem Prod.fst h
      simp [mapAt, hne, ih hnd.2 h]

theorem mapAt_isSome_of_mem_keys (m : List (Nat × α)) (k : Nat) (h : k ∈ m.map Prod.fst) :
    ∃ v, mapAt m k = some v := by
  induction m with
  | nil => simp at h
  | cons e0 rest ih =>
    obtain ⟨k0, v0⟩ := e0
    by_cases hk : k0 = k
    · exact ⟨v0, by simp [mapAt, hk]⟩
    · simp only [List.map_cons, List.mem_cons] at h
      rcases h with h | h
      · exact absurd h.symm hk
      · obtain ⟨v, hv⟩ := ih h
        exact ⟨v, by simp [mapAt, hk, hv]⟩

/-! ### The double-precision arithmetic of `resetOutputBounds` -/

/-- The `double` nearest to a positive rational, from its significand and exponent. -/
theorem roundToDouble_eval (q : ℚ) (a b n : Nat) (x : Int) (hpos : 0 < q)
    (hnum : q.num = (a : Int)) (hden : q.den = b) (hr : roundRatio a b = (n, x)) :
    roundToDouble q = (n : ℚ) * 2 ^ x := by
  unfold roundToDouble
  rw [if_neg (ne_of_gt hpos), hnum, hden, Int.natAbs_ofNat, hr]
  simp only [if_neg (not_lt.mpr (le_of_lt hpos))]

/-- Doubling `b` as often as `doublingsBelow` counts stays at most `a`. -/
theorem doublingsBelow_le (fuel a b : Nat) (h : b ≤ a) :
    b * 2 ^ doublingsBelow fuel a b ≤ a := by
  induction fuel generalizing b with
  | zero => simpa [doublingsBelow] using h
  | succ fuel ih =>
    unfold doublingsBelow
    split
    · rename_i h2
      have := ih (2 * b) h2
      calc b * 2 ^ (doublingsBelow fuel a (2 * b) + 1)
          = 2 * b * 2 ^ doublingsBelow fuel a (2 * b) := by ring
        _ ≤ a := this
    · simpa using h

/-- A whole number is rounded to itself. -/
theorem roundHalfEven_one (x : Nat) : roundHalfEven x 1 = x := by
  simp [roundHalfEven, Nat.mod_one]

/-- A natural number below `2 ^ 53` is a `double`. -/
theorem roundToDouble_natCast (n : Nat) (h : n < 2 ^ 53) : roundToDouble (n : ℚ) = n := by
  by_cases h0 : n = 0
  · subst h0
    simp [roundToDouble]
  · have hpos : (0 : ℚ) < (n : ℚ) := by exact_mod_cast Nat.pos_of_ne_zero h0
    have h1 : 1 ≤ n := Nat.pos_of_ne_zero h0
    have hk := doublingsBelow_le 2200 n 1 h1
    rw [one_mul] at hk
    have hk52 : doublingsBelow 2200 n 1 ≤ 52 := by
      by_contra hc
      have : 2 ^ 53 ≤ 2 ^ doublingsBelow 2200 n 1 :=
        Nat.pow_le_pow_right (by decide) (by omega)
      omega
    have hr : roundRatio n 1
        = (n * 2 ^ (52 - doublingsBelow 2200 n 1), (doublingsBelow 2200 n 1 : Int) - 52) := by
      unfold roundRatio binaryExponent
      rw [if_pos h1]
      have hmax : max (doublingsBelow 2200 n 1 : Int) (-1022) = (doublingsBelow 2200 n 1 : Int) := by
        omega
      simp only [hmax]
      have hle : (doublingsBelow 2200 n 1 : Int) ≤ 52 := by exact_mod_cast hk52
      have htn : (52 - (doublingsBelow 2200 n 1 : Int)).toNat = 52 - doublingsBelow 2200 n 1 := by
        omega
      rw [if_pos hle, roundHalfEven_one, htn]
    rw [roundToDouble_eval (n : ℚ) n 1 _ _ hpos (by simp) (by simp) hr]
    push_cast
    rw [mul_assoc, ← zpow_natCast, ← zpow_add₀ (by norm_num : (2 : ℚ) ≠ 0)]
    have : ((52 - doublingsBelow 2200 n 1 : ℕ) : Int) + ((doublingsBelow 2200 n 1 : Int) - 52)
        = 0 := by omega
    rw [this, zpow_zero, mul_one]


/-- Rounding to the nearest `double` is symmetric about 0. -/
theorem roundToDouble_neg (q : ℚ) : roundToDouble (-q) = - roundToDouble q := by
  unfold roundToDouble
  by_cases h0 : q = 0
  · subst h0; simp
  · have h0n : -q ≠ 0 := neg_ne_zero.mpr h0
    rw [if_neg h0, if_neg h0n, Rat.neg_num, Rat.neg_den, Int.natAbs_neg]
    rcases lt_or_gt_of_ne h0 with hlt | hgt
    · have h1 : ¬ (-q < 0) := by simp only [neg_lt_zero, not_lt]; exact le_of_lt hlt
      simp only [if_neg h1, if_pos hlt, neg_neg]
    · have h1 : -q < 0 := by simpa using hgt
      have h2 : ¬ (q < 0) := not_lt.mpr (le_of_lt hgt)
      simp only [if_pos h1, if_neg h2]

/-- An integer between `-(2 ^ 53)` and `2 ^ 53` is a `double`. -/
theorem roundToDouble_intCast (z : Int) (hlo : -2 ^ 53 < z) (hhi : z < 2 ^ 53) :
    roundToDouble (z : ℚ) = z := by
  rcases Int.lt_or_le z 0 with hneg | hpos
  · obtain ⟨n, hn⟩ := Int.eq_ofNat_of_zero_le (by omega : 0 ≤ -z)
    have hz : z = -(n : Int) := by omega
    have hn53 : n < 2 ^ 53 := by omega
    rw [hz]
    push_cast
    rw [roundToDouble_neg, roundToDouble_natCast n hn53]
  · obtain ⟨n, hn⟩ := Int.eq_ofNat_of_zero_le hpos
    have hn53 : n < 2 ^ 53 := by omega
    rw [hn]
    push_cast
    exact roundToDouble_natCast n hn53

/-- The conversion of an unsigned integer below `2 ^ 53` to `double` is exact. -/
theorem toDouble_eq (n : Nat) (h : n < 2 ^ 53) : toDouble n = n :=
  roundToDouble_natCast n h

/-- The conversion to `int` of a `double` that is a whole number. -/
theorem doubleToInt_intCast (z : Int) :
    doubleToInt (z : ℚ) = if -2 ^ 31 ≤ z ∧ z < 2 ^ 31 then some z else none := by
  unfold doubleToInt
  simp only [Int.floor_intCast, Int.ceil_intCast, ite_self]

/-- What the loop of `resetOutputBounds` has done when it ends normally: only the bounds
have changed, a link that had a bound kept it, every other visited link got the bound of
its first segment stats, and the count grew by the lengths of the visited queues. -/
theorem resetOutputBoundsLoop_ok (w : World) (entries : List (LinkId × List PersonId))
    (n : Nat) (cfx : Conflux) (n' : Nat) (cfx' : Conflux)
    (h : resetOutputBoundsLoop w entries n cfx = (.ok n', cfx')) :
    (∃ b, cfx' = { cfx with vqBounds := b }) ∧
    (∀ l, mapAt cfx'.vqBounds l =
      match mapAt cfx.vqBounds l with
      | some b => some b
      | none => if l ∈ entries.map Prod.fst then boundOfLink w cfx.upstreamSegStatsMap l else none) ∧
    (∀ l ∈ entries.map Prod.fst, ∃ b, boundOfLink w cfx.upstreamSegStatsMap l = some b) ∧
    n' = n + (entries.map (fun e => ((mapAt cfx.virtualQueuesMap e.1).getD []).length)).sum := by
  induction entries generalizing n cfx with
  | nil =>
    simp only [resetOutputBoundsLoop, Prod.mk.injEq, Except.ok.injEq] at h
    obtain ⟨h1, h2⟩ := h
    subst h1; subst h2
    refine ⟨⟨cfx.vqBounds, rfl⟩, ?_, ?_, ?_⟩
    · intro l
      cases mapAt cfx.vqBounds l <;> simp
    · intro l hl
      simp at hl
    · simp
  | cons e rest ih =>
    obtain ⟨lnk, q0⟩ := e
    unfold resetOutputBoundsLoop at h
    cases hup : mapAt cfx.upstreamSegStatsMap lnk with
    | none => simp [hup] at h
    | some lst =>
      cases lst with
      | nil => simp [hup] at h
      | cons first others =>
        simp only [hup] at h
        cases hoe : outputEstimate w (w.segStats first) with
        | error f => simp [hoe] at h
        | ok est =>
        simp only [hoe] at h
        cases hq : mapAt cfx.virtualQueuesMap lnk with
        | none => simp [hq] at h
        | some queue =>
          simp only [hq] at h
          obtain ⟨ih1, ih2, ih3, ih4⟩ := ih _ _ h
          have hlnk : boundOfLink w cfx.upstreamSegStatsMap lnk = some est.toNat := by
            simp [boundOfLink, hup, hoe]
          refine ⟨?_, ?_, ?_, ?_⟩
          · obtain ⟨b, hb⟩ := ih1
            exact ⟨b, hb⟩
          · intro l
            rw [ih2 l]
            dsimp only
            by_cases hl : l = lnk
            · subst hl
              simp only [mapAt_mapInsert_self, List.map_cons, List.mem_cons, true_or, if_true, hlnk]
              cases mapAt cfx.vqBounds l <;> simp
            · simp only [mapAt_mapInsert_other _ _ _ _ hl, List.map_cons, List.mem_cons, hl,
                false_or]
          · intro l hl
            simp only [List.map_cons, List.mem_cons] at hl
            rcases hl with hl | hl
            · subst hl
              exact ⟨_, hlnk⟩
            · obtain ⟨b, hb⟩ := ih3 l hl
              exact ⟨b, hb⟩
          · rw [ih4]
            simp only [List.map_cons, List.sum_cons, hq, Option.getD_some]
            omega

/-- The loop of `resetOutputBounds` ends normally when every visited link has a first
segment stats and a virtual queue. -/
theorem resetOutputBoundsLoop_total (w : World) (entries : List (LinkId × List PersonId))
    (n : Nat) (cfx : Conflux)
    (hup : ∀ l ∈ entries.map Prod.fst, ∃ b, boundOfLink w cfx.upstreamSegStatsMap l = some b)
    (hvq : ∀ l ∈ entries.map Prod.fst, ∃ q, mapAt cfx.virtualQueuesMap l = some q) :
    ∃ n' cfx', resetOutputBoundsLoop w entries n cfx = (.ok n', cfx') := by
  induction entries generalizing n cfx with
  | nil => exact ⟨n, cfx, rfl⟩
  | cons e rest ih =>
    obtain ⟨lnk, q0⟩ := e
    obtain ⟨b, hb⟩ := hup lnk (by simp)
    obtain ⟨q, hq⟩ := hvq lnk (by simp)
    unfold resetOutputBoundsLoop
    cases hu : mapAt cfx.upstreamSegStatsMap lnk with
    | none => simp [boundOfLink, hu] at hb
    | some lst =>
      cases lst with
      | nil => simp [boundOfLink, hu] at hb
      | cons first others =>
        cases hoe : outputEstimate w (w.segStats first) with
        | error f => simp [boundOfLink, hu, hoe] at hb
        | ok est =>
        simp only [hq, hoe]
        apply ih
        · intro l hl
          exact hup l (by simp only [List.map_cons, List.mem_cons]; exact Or.inr hl)
        · intro l hl
          exact hvq l (by simp only [List.map_cons, List.mem_cons]; exact Or.inr hl)

/-- The two clamps of `resetOutputBounds` amount to one: the output estimate is computed
exactly where the conversion to `int` is, from the converted value. -/
theorem outputEstimate_of_spaces (w : World) (segStats : SegmentStats) (n : Int)
    (h : doubleToInt (numEmptySpaces w segStats) = some n) :
    outputEstimate w segStats =
      .ok (max 0 (n - (segStats.numAgentsInLane segStats.laneInfinity : Int))) := by
  unfold outputEstimate
  rw [h]
  simp only []
  congr 1
  split_ifs <;> omega

/-- An output estimate that is computed comes from a converted value. -/
theorem outputEstimate_ok (w : World) (segStats : SegmentStats) (e : Int)
    (h : outputEstimate w segStats = .ok e) :
    ∃ n, doubleToInt (numEmptySpaces w segStats) = some n ∧
      e = max 0 (n - (segStats.numAgentsInLane segStats.laneInfinity : Int)) := by
  cases hd : doubleToInt (numEmptySpaces w segStats) with
  | none =>
    unfold outputEstimate at h
    rw [hd] at h
    cases h
  | some n =>
    rw [outputEstimate_of_spaces w segStats n hd] at h
    exact ⟨n, rfl, by cases h; rfl⟩

/-- Where the counts are in the range of `unsigned int` and the difference of lines 664
and 665 is in the range of `int`, its conversion to `int` is exact. -/
theorem numEmptySpaces_exact (w : World) (segStats : SegmentStats)
    (hm : segStats.numMovingInSegment < 2 ^ 32) (hq : segStats.numQueuingInSegment < 2 ^ 32)
    (hlo : -2 ^ 31 ≤ vehicleCapacity w segStats - (segStats.numMovingInSegment : Int)
      - (segStats.numQueuingInSegment : Int))
    (hhi : vehicleCapacity w segStats - (segStats.numMovingInSegment : Int)
      - (segStats.numQueuingInSegment : Int) < 2 ^ 31) :
    doubleToInt (numEmptySpaces w segStats) =
      some (vehicleCapacity w segStats - (segStats.numMovingInSegment : Int)
        - (segStats.numQueuingInSegment : Int)) := by
  unfold numEmptySpaces
  rw [toDouble_eq _ (by omega), toDouble_eq _ (by omega)]
  have h1 : ((vehicleCapacity w segStats : ℚ) - ((segStats.numMovingInSegment : ℕ) : ℚ))
      = ((vehicleCapacity w segStats - (segStats.numMovingInSegment : Int) : Int) : ℚ) := by
    push_cast; rfl
  rw [h1, roundToDouble_intCast _ (by omega) (by omega)]
  have h2 : (((vehicleCapacity w segStats - (segStats.numMovingInSegment : Int) : Int) : ℚ)
        - ((segStats.numQueuingInSegment : ℕ) : ℚ))
      = ((vehicleCapacity w segStats - (segStats.numMovingInSegment : Int)
          - (segStats.numQueuingInSegment : Int) : Int) : ℚ) := by
    push_cast; rfl
  rw [h2, roundToDouble_intCast _ (by omega) (by omega), doubleToInt_intCast,
    if_pos ⟨hlo, hhi⟩]

/-- The output estimate in the range of `int`: the single clamp of the capacity, the
counts and the persons in lane infinity. -/
theorem outputEstimate_eq (w : World) (segStats : SegmentStats)
    (hm : segStats.numMovingInSegment < 2 ^ 32) (hq : segStats.numQueuingInSegment < 2 ^ 32)
    (hlo : -2 ^ 31 ≤ vehicleCapacity w segStats - (segStats.numMovingInSegment : Int)
      - (segStats.numQueuingInSegment : Int))
    (hhi : vehicleCapacity w segStats - (segStats.numMovingInSegment : Int)
      - (segStats.numQueuingInSegment : Int) < 2 ^ 31) :
    outputEstimate w segStats =
      .ok (max 0 (vehicleCapacity w segStats - (segStats.numMovingInSegment : Int)
          - (segStats.numQueuingInSegment : Int)
          - (segStats.numAgentsInLane segStats.laneInfinity : Int))) :=
  outputEstimate_of_spaces w segStats _ (numEmptySpaces_exact w segStats hm hq hlo hhi)

/-- The capacity of line 664 from the values of its steps. -/
theorem vehicleCapacity_eval (w : World) (segStats : SegmentStats) (L : ℚ) (n : Nat)
    (p d : ℚ) (c : Int)
    (hL : (w.roadSegment segStats.roadSegment).polylineLength = L)
    (hn : (w.roadSegment segStats.roadSegment).lanes.length = n)
    (hp : roundToDouble (L * toDouble n) = p)
    (hd : roundToDouble (p / PASSENGER_CAR_UNIT) = d) (hc : ⌈d⌉ = c) :
    vehicleCapacity w segStats = c := by
  unfold vehicleCapacity
  rw [hL, hn, hp, hd, hc]

/-- The unsigned integers 1 and 3 as `double`s. -/
theorem toDouble_one_three : toDouble 1 = 1 ∧ toDouble 3 = 3 := by
  have h1 := toDouble_eq 1 (by norm_num)
  have h3 := toDouble_eq 3 (by norm_num)
  exact ⟨by exact_mod_cast h1, by exact_mod_cast h3⟩

/-- The capacity of a segment of 10 m with one lane: `ceil(1000 * 1 / 400) = 3`. -/
theorem vehicleCapacity_tenMetres (w : World) (segStats : SegmentStats)
    (hL : (w.roadSegment segStats.roadSegment).polylineLength = 1000)
    (hn : (w.roadSegment segStats.roadSegment).lanes.length = 1) :
    vehicleCapacity w segStats = 3 := by
  have hp : roundToDouble ((1000 : ℚ) * toDouble 1) = 1000 := by
    rw [toDouble_one_three.1, mul_one]
    have h := roundToDouble_natCast 1000 (by norm_num)
    exact_mod_cast h
  have hd : roundToDouble ((1000 : ℚ) / PASSENGER_CAR_UNIT) = 5 / 2 := by
    have hr : roundRatio 5 2 = (5 * 2 ^ 50, -51) := by decide
    rw [roundToDouble_eval _ 5 2 _ _ (by norm_num [PASSENGER_CAR_UNIT])
      (by norm_num [PASSENGER_CAR_UNIT]) (by norm_num [PASSENGER_CAR_UNIT]) hr]
    norm_num
  exact vehicleCapacity_eval w segStats 1000 1 1000 (5 / 2) 3 hL hn hp hd
    (by rw [Int.ceil_eq_iff]; norm_num)

/-! ### What the steps of the engine do to the virtual queues -/

theorem SameQueues.refl (w : World) : SameQueues w w :=
  ⟨fun _ _ => rfl, fun _ _ => rfl, fun _ => rfl, rfl⟩

theorem SameQueues.trans {w w1 w2 : World} (h1 : SameQueues w w1) (h2 : SameQueues w1 w2) :
    SameQueues w w2 :=
  ⟨fun c l => (h2.1 c l).trans (h1.1 c l), fun c l => (h2.2.1 c l).trans (h1.2.1 c l),
    fun s => (h2.2.2.1 s).trans (h1.2.2.1 s), h2.2.2.2.trans h1.2.2.2⟩

theorem OnePush.after_sameQueues {c : ConfluxId} {l : LinkId} {w w1 w2 : World}
    (h1 : SameQueues w w1) (h2 : OnePush c l w1 w2) : OnePush c l w w2 :=
  ⟨fun c' l' => by rw [h2.1 c' l', h1.1 c' l'], fun c' l' => (h2.2.1 c' l').trans (h1.2.1 c' l'),
    fun s => (h2.2.2.1 s).trans (h1.2.2.1 s), h2.2.2.2.trans h1.2.2.2⟩

theorem OnePush.before_sameQueues {c : ConfluxId} {l : LinkId} {w w1 w2 : World}
    (h1 : OnePush c l w w1) (h2 : SameQueues w1 w2) : OnePush c l w w2 :=
  ⟨fun c' l' => by rw [h2.1 c' l', h1.1 c' l'], fun c' l' => (h2.2.1 c' l').trans (h1.2.1 c' l'),
    fun s => (h2.2.2.1 s).trans (h1.2.2.1 s), h2.2.2.2.trans h1.2.2.2⟩

theorem sameQueues_modifyPerson (w : World) (p : PersonId) (f : Person_MT → Person_MT) :
    SameQueues w (w.modifyPerson p f) :=
  ⟨fun _ _ => rfl, fun _ _ => rfl, fun _ => rfl, rfl⟩

theorem sameQueues_record (w : World) (e : Event) : SameQueues w (w.record e) :=
  ⟨fun _ _ => rfl, fun _ _ => rfl, fun _ => rfl, rfl⟩

theorem sameQueues_modifySegStats (w : World) (s : SegStatsId) (f : SegmentStats → SegmentStats)
    (h : (f (w.segStats s)).parentConflux = (w.segStats s).parentConflux) :
    SameQueues w (w.modifySegStats s f) := by
  refine ⟨fun _ _ => rfl, fun _ _ => rfl, fun t => ?_, rfl⟩
  by_cases ht : t = s
  · subst ht
    simp [h]
  · rw [World.modifySegStats_segStats_other _ _ _ _ ht]

theorem sameQueues_modifyConflux (w : World) (c : ConfluxId) (f : Conflux → Conflux)
    (h1 : (f (w.conflux c)).virtualQueuesMap = (w.conflux c).virtualQueuesMap)
    (h2 : (f (w.conflux c)).vqBounds = (w.conflux c).vqBounds) :
    SameQueues w (w.modifyConflux c f) := by
  refine ⟨fun c' l => ?_, fun c' l => ?_, fun _ => rfl, rfl⟩
  · by_cases hc : c' = c
    · subst hc
      simp [World.vqLength, World.modifyConflux, h1]
    · simp [World.vqLength, World.modifyConflux, Function.update_noteq hc]
  · by_cases hc : c' = c
    · subst hc
      simp [World.vqBound, World.modifyConflux, h2]
    · simp [World.vqBound, World.modifyConflux, Function.update_noteq hc]

theorem sameQueues_setLists (w : World) (c : ConfluxId) (f : Conflux → Conflux)
    (h : ∀ x, (f x).virtualQueuesMap = x.virtualQueuesMap ∧ (f x).vqBounds = x.vqBounds) :
    SameQueues w (w.modifyConflux c f) :=
  sameQueues_modifyConflux w c f (h _).1 (h _).2

theorem sameQueues_onSegStats (w : World) (s : Option SegStatsId)
    (f : SegmentStats → Except Fault SegmentStats)
    (hf : ∀ ss ss', f ss = .ok ss' → ss'.parentConflux = ss.parentConflux) :
    SameQueues w (w.onSegStats s f).2 := by
  unfold World.onSegStats
  cases s with
  | none => exact SameQueues.refl w
  | some sid =>
    dsimp only
    cases hres : f (w.segStats sid) with
    | error e => exact SameQueues.refl w
    | ok ss => exact sameQueues_modifySegStats w sid (fun _ => ss) (hf _ _ hres)

theorem SegmentStats.addAgent_parentConflux (lane : LaneId) (p : PersonId) (q : Bool)
    (ss ss' : SegmentStats) (h : ss.addAgent lane p q = .ok ss') :
    ss'.parentConflux = ss.parentConflux := by
  unfold SegmentStats.addAgent at h
  cases hst : mapAt ss.laneStatsMap lane with
  | none => simp [hst] at h
  | some st =>
    simp only [hst, Except.ok.injEq] at h
    rw [← h]
    rfl

theorem SegmentStats.dequeue_parentConflux (p : PersonId) (lane : LaneId) (q b : Bool)
    (ss ss' : SegmentStats) (h : ss.dequeue p lane q b = .ok ss') :
    ss'.parentConflux = ss.parentConflux := by
  unfold SegmentStats.dequeue at h
  cases hst : mapAt ss.laneStatsMap lane with
  | none => simp [hst] at h
  | some st =>
    simp only [hst] at h
    by_cases hp : p ∈ st.laneAgents
    · simp only [hp, if_true, Except.ok.injEq] at h
      rw [← h]
      rfl
    · by_cases hb : b = true
      · simp only [hp, hb, if_true, if_false, Except.ok.injEq] at h
        rw [← h]
      · simp [hp, hb] at h

theorem SegmentStats.updateQueueStatus_parentConflux (lane : LaneId) (q : Bool)
    (ss ss' : SegmentStats) (h : ss.updateQueueStatus lane q = .ok ss') :
    ss'.parentConflux = ss.parentConflux := by
  unfold SegmentStats.updateQueueStatus at h
  cases hst : mapAt ss.laneStatsMap lane with
  | none => simp [hst] at h
  | some st =>
    simp only [hst, Except.ok.injEq] at h
    rw [← h]
    rfl

theorem SegmentStats.setPosition_parentConflux (lane : LaneId) (d : ℚ)
    (ss ss' : SegmentStats) (h : ss.setPositionOfLastUpdatedAgentInLane d lane = .ok ss') :
    ss'.parentConflux = ss.parentConflux := by
  unfold SegmentStats.setPositionOfLastUpdatedAgentInLane at h
  cases hst : mapAt ss.laneStatsMap lane with
  | none => simp [hst] at h
  | some st =>
    simp only [hst, Except.ok.injEq] at h
    rw [← h]
    rfl

theorem sameQueues_addAgent (w : World) (s : Option SegStatsId) (lane : LaneId) (p : PersonId) :
    SameQueues w (w.addAgent s lane p).2 :=
  sameQueues_onSegStats w s _ (fun ss ss' h => SegmentStats.addAgent_parentConflux _ _ _ ss ss' h)

theorem sameQueues_dequeue (w : World) (s : Option SegStatsId) (p : PersonId) (lane : LaneId)
    (q : Bool) : SameQueues w (w.dequeue s p lane q).2 :=
  sameQueues_onSegStats w s _ (fun ss ss' h => SegmentStats.dequeue_parentConflux _ _ _ _ ss ss' h)

theorem Conflux.pushBackOntoVirtualQueue_snd_none (cfx : Conflux) (lnk : LinkId) (p : PersonId)
    (h : mapAt cfx.virtualQueuesMap lnk = none) : (cfx.pushBackOntoVirtualQueue lnk p).2 = cfx := by
  simp [Conflux.pushBackOntoVirtualQueue, h]

theorem Conflux.pushBackOntoVirtualQueue_snd_some (cfx : Conflux) (lnk : LinkId) (p : PersonId)
    (queue : List PersonId) (h : mapAt cfx.virtualQueuesMap lnk = some queue) :
    (cfx.pushBackOntoVirtualQueue lnk p).2 =
      { cfx with virtualQueuesMap := mapSet cfx.virtualQueuesMap lnk (queue ++ [p]) } := by
  simp [Conflux.pushBackOntoVirtualQueue, h]

/-- A push onto the virtual queue of link `lnk` of conflux `c` makes that queue one
longer, or fails and changes nothing. -/
theorem pushBackOntoVirtualQueue_effect (w : World) (c : ConfluxId) (lnk : LinkId) (p : PersonId) :
    SameQueues w (w.pushBackOntoVirtualQueue c lnk p).2 ∨
      OnePush c lnk w (w.pushBackOntoVirtualQueue c lnk p).2 := by
  unfold World.pushBackOntoVirtualQueue
  cases hq : mapAt (w.conflux c).virtualQueuesMap lnk with
  | none =>
    left
    exact sameQueues_modifyConflux w c (fun cfx => (cfx.pushBackOntoVirtualQueue lnk p).2)
      (by dsimp only; rw [Conflux.pushBackOntoVirtualQueue_snd_none _ _ _ hq])
      (by dsimp only; rw [Conflux.pushBackOntoVirtualQueue_snd_none _ _ _ hq])
  | some queue =>
    right
    have hnew := Conflux.pushBackOntoVirtualQueue_snd_some (w.conflux c) lnk p queue hq
    refine ⟨fun c' l' => ?_, fun c' l' => ?_, fun _ => rfl, rfl⟩
    · by_cases hc : c' = c
      · subst hc
        by_cases hl : l' = lnk
        · subst hl
          simp [World.vqLength, World.modifyConflux, hnew, hq,
            mapAt_mapSet_self (w.conflux c').virtualQueuesMap l' _ queue hq]
        · simp [World.vqLength, World.modifyConflux, hnew, hl,
            mapAt_mapSet_other (w.conflux c').virtualQueuesMap lnk l' _ hl]
      · simp [World.vqLength, World.modifyConflux, Function.update_noteq hc, hc]
    · by_cases hc : c' = c
      · subst hc
        simp [World.vqBound, World.modifyConflux, hnew]
      · simp [World.vqBound, World.modifyConflux, Function.update_noteq hc]

theorem pushTarget_of_sameQueues {w w1 : World} (h : SameQueues w w1) (a : PersonProps) :
    pushTarget w1 a = pushTarget w a := by
  unfold pushTarget
  cases a.segStats with
  | none => rfl
  | some s =>
    cases a.segment with
    | none => rfl
    | some seg => simp [h.2.2.1 s, h.2.2.2]

theorem QueueEffect.of_same {a : PersonProps} {w w' : World} (h : SameQueues w w') :
    QueueEffect a w w' := Or.inl h

theorem QueueEffect.after_quiet {a : PersonProps} {w w1 w2 : World} (h1 : SameQueues w w1)
    (h2 : QueueEffect a w1 w2) : QueueEffect a w w2 := by
  rcases h2 with h2 | ⟨t, ht, h2⟩
  · exact Or.inl (h1.trans h2)
  · exact Or.inr ⟨t, by rw [← pushTarget_of_sameQueues h1 a]; exact ht, h2.after_sameQueues h1⟩

theorem QueueEffect.before_quiet {a : PersonProps} {w w1 w2 : World} (h1 : QueueEffect a w w1)
    (h2 : SameQueues w1 w2) : QueueEffect a w w2 := by
  rcases h1 with h1 | ⟨t, ht, h1⟩
  · exact Or.inl (h1.trans h2)
  · exact Or.inr ⟨t, ht, h1.before_sameQueues h2⟩

theorem enqueueOnVirtualQueue_effect (w : World) (a : PersonProps) (p : PersonId) :
    QueueEffect a w (w.enqueueOnVirtualQueue a p).2 := by
  unfold World.enqueueOnVirtualQueue
  cases hs : a.segStats with
  | none => exact Or.inl (SameQueues.refl w)
  | some s =>
    cases hg : a.segment with
    | none => exact Or.inl (sameQueues_modifyPerson w p _)
    | some seg =>
      dsimp only
      have hsame := sameQueues_modifyPerson w p
        (fun x => { x with distanceToEndOfSegment := (w.segStats s).getLength })
      rcases pushBackOntoVirtualQueue_effect
          (w.modifyPerson p (fun x => { x with distanceToEndOfSegment := (w.segStats s).getLength }))
          ((w.segStats s).parentConflux) ((w.roadSegment seg).link) p with h | h
      · exact Or.inl (hsame.trans h)
      · exact Or.inr ⟨((w.segStats s).parentConflux, (w.roadSegment seg).link),
          by simp [pushTarget, hs, hg], h.after_sameQueues hsame⟩

theorem housekeepActivityExit_effect (w : World) (cfx : ConfluxId) (b a : PersonProps)
    (p : PersonId) : SameQueues w (housekeepActivityExit w cfx b a p).2 := by
  unfold housekeepActivityExit
  have h1 : SameQueues w (w.modifyConflux cfx
      (fun c => { c with activityPerformers := c.activityPerformers.erase p })) :=
    sameQueues_setLists w cfx _ (fun _ => ⟨rfl, rfl⟩)
  split
  · dsimp only
    split
    · split
      · exact h1
      · dsimp only
        exact h1.trans (sameQueues_setLists _ cfx _ (fun _ => ⟨rfl, rfl⟩))
    · exact h1
  · exact SameQueues.refl w

theorem housekeepBusDriver_effect (w : World) (b a : PersonProps) (p : PersonId) :
    QueueEffect a w (housekeepBusDriver w b a p).2 := by
  unfold housekeepBusDriver
  split
  · cases b.lane with
    | none => exact Or.inl (SameQueues.refl w)
    | some ln =>
      dsimp only
      have h := sameQueues_dequeue w b.segStats p ln b.isQueuing
      rcases hres : w.dequeue b.segStats p ln b.isQueuing with ⟨res, w1⟩
      rw [hres] at h
      cases res <;> exact Or.inl h
  · split
    · cases a.lane with
      | some ln =>
        dsimp only
        have h := sameQueues_addAgent w a.segStats ln p
        rcases hres : w.addAgent a.segStats ln p with ⟨res, w1⟩
        rw [hres] at h
        cases res <;> exact Or.inl h
      | none =>
        dsimp only
        have h := enqueueOnVirtualQueue_effect w a p
        rcases hres : w.enqueueOnVirtualQueue a p with ⟨res, w1⟩
        rw [hres] at h
        cases res <;> exact h
    · split <;> exact Or.inl (SameQueues.refl w)

theorem housekeepRole_effect (w : World) (cfx : ConfluxId) (b a : PersonProps) (p : PersonId) :
    QueueEffect a w (housekeepRole w cfx b a p).2 := by
  unfold housekeepRole
  split
  · exact Or.inl (SameQueues.refl w)
  · exact Or.inl (SameQueues.refl w)
  · exact Or.inl (SameQueues.refl w)
  · split
    · exact Or.inl (SameQueues.refl w)
    · dsimp only
      have hleft : SameQueues w
          (if b.roleType = .RL_PEDESTRIAN then
            ((.ok (), w.modifyConflux cfx
              (fun c => { c with pedestrianList := c.pedestrianList.erase p })) :
              Except Fault Unit × World)
          else
            match b.lane with
            | some ln => w.dequeue b.segStats p ln b.isQueuing
            | none => (.ok (), w)).2 := by
        split
        · dsimp only
          exact sameQueues_setLists w cfx _ (fun _ => ⟨rfl, rfl⟩)
        · cases b.lane with
          | none => exact SameQueues.refl w
          | some ln => exact sameQueues_dequeue w b.segStats p ln b.isQueuing
      rcases hres : (if b.roleType = .RL_PEDESTRIAN then
            ((.ok (), w.modifyConflux cfx
              (fun c => { c with pedestrianList := c.pedestrianList.erase p })) :
              Except Fault Unit × World)
          else
            match b.lane with
            | some ln => w.dequeue b.segStats p ln b.isQueuing
            | none => (.ok (), w)) with ⟨res, w1⟩
      rw [hres] at hleft
      cases res with
      | error f => exact Or.inl hleft
      | ok u =>
        dsimp only
        exact Or.inl (hleft.trans (sameQueues_setLists w1 cfx _ (fun _ => ⟨rfl, rfl⟩)))
  · split <;> exact Or.inl (SameQueues.refl w)
  · exact housekeepBusDriver_effect w b a p
  · exact Or.inl (SameQueues.refl w)

theorem housekeepOnRoad_effect (w : World) (b a : PersonProps) (p : PersonId) :
    QueueEffect a w (housekeepOnRoad w b a p).2 := by
  unfold housekeepOnRoad
  cases hbl : b.lane with
  | none =>
    dsimp only
    cases hal : a.lane with
    | some ln => exact Or.inl (sameQueues_addAgent w a.segStats ln p)
    | none =>
      dsimp only
      split
      · split <;> exact Or.inl (SameQueues.refl w)
      · exact enqueueOnVirtualQueue_effect w a p
  | some bl =>
    dsimp only
    cases hm : movedOrLeftLaneInfinity w b a bl with
    | error f => exact Or.inl (SameQueues.refl w)
    | ok moved =>
      cases moved with
      | true =>
        dsimp only
        have hleft : SameQueues w
            (if b.roleType ≠ .RL_ACTIVITY then w.dequeue b.segStats p bl b.isQueuing
              else ((.ok (), w) : Except Fault Unit × World)).2 := by
          split
          · exact sameQueues_dequeue w b.segStats p bl b.isQueuing
          · exact SameQueues.refl w
        rcases hres : (if b.roleType ≠ .RL_ACTIVITY then w.dequeue b.segStats p bl b.isQueuing
              else ((.ok (), w) : Except Fault Unit × World)) with ⟨res, w1⟩
        rw [hres] at hleft
        cases res with
        | error f => exact Or.inl hleft
        | ok u =>
          dsimp only
          cases hal : a.lane with
          | some ln => exact Or.inl (hleft.trans (sameQueues_addAgent w1 a.segStats ln p))
          | none => exact (enqueueOnVirtualQueue_effect w1 a p).after_quiet hleft
      | false =>
        dsimp only
        cases has : a.segStats with
        | none => exact Or.inl (SameQueues.refl w)
        | some s =>
          cases hal : a.lane with
          | none =>
            dsimp only
            split <;> exact Or.inl (SameQueues.refl w)
          | some ln =>
            dsimp only
            split
            · have h := sameQueues_dequeue w b.segStats p bl b.isQueuing
              rcases hres : w.dequeue b.segStats p bl b.isQueuing with ⟨res, w1⟩
              rw [hres] at h
              cases res with
              | error f => exact Or.inl h
              | ok u => exact Or.inl (h.trans (sameQueues_addAgent w1 (some s) ln p))
            · split
              · exact Or.inl (sameQueues_onSegStats w (some s) _
                  (fun ss ss' h => SegmentStats.updateQueueStatus_parentConflux _ _ ss ss' h))
              · exact Or.inl (SameQueues.refl w)

theorem housekeepTrailingEdge_effect (w : World) (a : PersonProps) (p : PersonId) :
    SameQueues w (housekeepTrailingEdge w a p).2 := by
  unfold housekeepTrailingEdge
  cases a.lane with
  | none => exact SameQueues.refl w
  | some ln =>
    dsimp only
    cases hs : a.segStats with
    | none => exact SameQueues.refl w
    | some s =>
      dsimp only
      split
      · cases (w.person p).role with
        | none => exact SameQueues.refl w
        | some role =>
          dsimp only
          cases role.resource with
          | none => exact SameQueues.refl w
          | some vehicle =>
            exact sameQueues_onSegStats w (some s) _
              (fun ss ss' h => SegmentStats.setPosition_parentConflux _ _ ss ss' h)
      · exact SameQueues.refl w

theorem housekeepBusDriver_not_returned (w w2 : World) (b a : PersonProps) (p : PersonId)
    (h : housekeepBusDriver w b a p = (.ok false, w2)) : w2 = w := by
  unfold housekeepBusDriver at h
  split at h
  · cases hbl : b.lane with
    | none => simp [hbl] at h
    | some ln =>
      simp only [hbl] at h
      rcases hres : w.dequeue b.segStats p ln b.isQueuing with ⟨res, w1⟩
      rw [hres] at h
      cases res <;> simp at h
  · split at h
    · cases hal : a.lane with
      | some ln =>
        simp only [hal] at h
        rcases hres : w.addAgent a.segStats ln p with ⟨res, w1⟩
        rw [hres] at h
        cases res <;> simp at h
      | none =>
        simp only [hal] at h
        rcases hres : w.enqueueOnVirtualQueue a p with ⟨res, w1⟩
        rw [hres] at h
        cases res <;> simp at h
    · split at h
      · simp at h
      · simp only [Prod.mk.injEq, true_and] at h
        exact h.symm

theorem housekeepRole_not_returned (w w2 : World) (cfx : ConfluxId) (b a : PersonProps)
    (p : PersonId) (h : housekeepRole w cfx b a p = (.ok false, w2)) : w2 = w := by
  unfold housekeepRole at h
  split at h
  · simp at h
  · simp at h
  · simp at h
  · split at h
    · simp at h
    · dsimp only at h
      split at h
      · simp at h
      · simp at h
  · split at h
    · simp at h
    · simp only [Prod.mk.injEq, true_and] at h
      exact h.symm
  · exact housekeepBusDriver_not_returned w w2 b a p h
  · simp only [Prod.mk.injEq, true_and] at h
    exact h.symm

/-- `housekeep` pushes at most one person, and only onto the virtual queue of the link
of the snapshot taken after the update; it writes no bound. -/
theorem housekeep_effect (w : World) (cfx : ConfluxId) (b a : PersonProps) (p : PersonId) :
    QueueEffect a w (housekeep w cfx b a p).2 := by
  unfold housekeep
  have h1 := housekeepActivityExit_effect w cfx b a p
  rcases hA : housekeepActivityExit w cfx b a p with ⟨ret, w1⟩
  rw [hA] at h1
  cases ret with
  | true => exact Or.inl h1
  | false =>
    dsimp only
    have h2 := (housekeepRole_effect w1 cfx b a p).after_quiet h1
    rcases hB : housekeepRole w1 cfx b a p with ⟨res, w2⟩
    rw [hB] at h2
    cases res with
    | error f => exact h2
    | ok ret2 =>
      cases ret2 with
      | true => exact h2
      | false =>
        dsimp only
        have hw2 := housekeepRole_not_returned w1 w2 cfx b a p hB
        subst hw2
        have h3 := (housekeepOnRoad_effect w2 b a p).after_quiet h1
        rcases hC : housekeepOnRoad w2 b a p with ⟨res3, w3⟩
        rw [hC] at h3
        cases res3 with
        | error f => exact h3
        | ok u => exact h3.before_quiet (housekeepTrailingEdge_effect w3 a p)

theorem SegmentStats.setLaneParams_parentConflux (ss : SegmentStats) (ln : LaneId) (lp : LaneParams) :
    (ss.setLaneParams ln lp).parentConflux = ss.parentConflux := by
  unfold SegmentStats.setLaneParams
  cases mapAt ss.laneStatsMap ln <;> rfl

/-- A grant that breaks off the per-tick loop was made with room in the virtual queue of
the link asked for, and has changed no queue and no bound. -/
theorem admissionStage_breakLoop (w w1 : World) (now : Nat) (p : PersonId) (nxt : SegStatsId)
    (hreq : (w.person p).requestedNextSegStats = some nxt)
    (h : admissionStage now p w = (.ok .breakLoop, w1)) :
    SameQueues w w1 ∧
      w.vqLength (w.segStats nxt).parentConflux (w.roadSegment (w.segStats nxt).roadSegment).link <
        w.vqBound (w.segStats nxt).parentConflux (w.roadSegment (w.segStats nxt).roadSegment).link := by
  simp only [admissionStage, hreq] at h
  cases hlp : w.currLaneParams p with
  | none =>
    rw [admission_no_lane_params w now p nxt hlp] at h
    simp at h
  | some t =>
    obtain ⟨cur, ln, lp⟩ := t
    rcases lt_trichotomy (w.conflux (w.segStats nxt).parentConflux).lastUpdatedFrame (now : Int)
      with hframe | hframe | hframe
    · cases hb : mapAt (w.conflux (w.segStats nxt).parentConflux).vqBounds
          (w.roadSegment (w.segStats nxt).roadSegment).link with
      | none =>
        rw [admission_not_updated_missing w now p nxt cur ln lp hlp hframe (Or.inl hb)] at h
        simp at h
      | some bound =>
        cases hq : mapAt (w.conflux (w.segStats nxt).parentConflux).virtualQueuesMap
            (w.roadSegment (w.segStats nxt).roadSegment).link with
        | none =>
          rw [admission_not_updated_missing w now p nxt cur ln lp hlp hframe (Or.inr hq)] at h
          simp at h
        | some queue =>
          rw [admission_not_updated w now p nxt cur ln lp bound queue hlp hframe hb hq] at h
          by_cases hg : bound > queue.length ∧ lp.getOutputCounter > 0
          · rw [if_pos hg] at h
            simp only [Prod.mk.injEq, true_and] at h
            subst h
            refine ⟨?_, ?_⟩
            · unfold World.grantIntoVirtualQueue World.presumeGranted
              exact ((sameQueues_modifyPerson w p _).trans
                (sameQueues_modifySegStats _ cur _
                  (SegmentStats.setLaneParams_parentConflux _ ln _))).trans
                (sameQueues_modifyPerson _ p _)
            · simp only [World.vqLength, World.vqBound, hb, hq, Option.map_some', Option.getD_some]
              exact hg.1
          · rw [if_neg hg] at h
            simp at h
    · rw [admission_updated w now p nxt cur ln lp hlp hframe] at h
      split at h <;> simp at h
    · rw [admission_future w now p nxt cur ln lp hlp hframe] at h
      simp at h

/-- Popping the front of the virtual queue of link `l` on conflux `c` makes that queue,
which was not empty, one shorter and changes nothing else. -/
theorem popFrontOfVirtualQueue_effect (w w1 : World) (c : ConfluxId) (l : LinkId) (p : PersonId)
    (h : w.popFrontOfVirtualQueue c l = some (p, w1)) :
    (∀ c' l', w1.vqLength c' l' + (if c' = c ∧ l' = l then 1 else 0) = w.vqLength c' l') ∧
    (∀ c' l', w1.vqBound c' l' = w.vqBound c' l') ∧
    (∀ s, (w1.segStats s).parentConflux = (w.segStats s).parentConflux) ∧
    w1.roadSegment = w.roadSegment := by
  unfold World.popFrontOfVirtualQueue at h
  cases hq : mapAt (w.conflux c).virtualQueuesMap l with
  | none => simp [hq] at h
  | some queue =>
    cases queue with
    | nil => simp [hq] at h
    | cons p0 rest =>
      simp only [hq, Option.some.injEq, Prod.mk.injEq] at h
      obtain ⟨_, hw⟩ := h
      subst hw
      refine ⟨fun c' l' => ?_, fun c' l' => ?_, fun _ => rfl, rfl⟩
      · by_cases hc : c' = c
        · subst hc
          by_cases hl : l' = l
          · subst hl
            simp [World.vqLength, World.modifyConflux, hq,
              mapAt_mapSet_self (w.conflux c').virtualQueuesMap l' _ _ hq]
          · simp [World.vqLength, World.modifyConflux, hl,
              mapAt_mapSet_other (w.conflux c').virtualQueuesMap l l' _ hl]
        · simp [World.vqLength, World.modifyConflux, Function.update_noteq hc, hc]
      · by_cases hc : c' = c
        · subst hc
          simp [World.vqBound, World.modifyConflux]
        · simp [World.vqBound, World.modifyConflux, Function.update_noteq hc]

/-- One step of the engine keeps every bound and lets no virtual queue grow beyond the
larger of its bound and its length before the step. -/
theorem TickStep.bounded {w w' : World} (h : TickStep w w') :
    (∀ c l, w'.vqBound c l = w.vqBound c l) ∧
    (∀ c l, w'.vqLength c l ≤ max (w.vqBound c l) (w.vqLength c l)) := by
  cases h with
  | quiet _ hs =>
    exact ⟨hs.2.1, fun c l => by rw [hs.1 c l]; exact le_max_right _ _⟩
  | grantAndEnqueue w1 w2 _ now p nxt cfx b a r hreq hadm hs12 htarget hk =>
    obtain ⟨hs01, hroom⟩ := admissionStage_breakLoop w w1 now p nxt hreq hadm
    have hs02 := hs01.trans hs12
    have heff := housekeep_effect w2 cfx b a p
    rw [hk] at heff
    rcases heff with heff | ⟨t, ht, heff⟩
    · have hs := hs02.trans heff
      exact ⟨hs.2.1, fun c l => by rw [hs.1 c l]; exact le_max_right _ _⟩
    · rw [htarget] at ht
      simp only [Option.some.injEq] at ht
      subst ht
      have hp := heff.after_sameQueues hs02
      refine ⟨hp.2.1, fun c l => ?_⟩
      rw [hp.1 c l]
      by_cases hcl : c = (w.segStats nxt).parentConflux ∧
          l = (w.roadSegment (w.segStats nxt).roadSegment).link
      · obtain ⟨hc, hl⟩ := hcl
        subst hc; subst hl
        simp only [and_self, if_true]
        exact le_max_of_le_left hroom
      · simp only [hcl, if_false, Nat.add_zero]
        exact le_max_right _ _
  | popAndPlace w1 w2 _ c0 l0 p cfx b a r hpop hs12 htarget hk =>
    obtain ⟨hlen, hbound, hnet, hroad⟩ := popFrontOfVirtualQueue_effect w w1 c0 l0 p hpop
    have heff := housekeep_effect w2 cfx b a p
    rw [hk] at heff
    rcases heff with heff | ⟨t, ht, heff⟩
    · have hs := hs12.trans heff
      refine ⟨fun c l => (hs.2.1 c l).trans (hbound c l), fun c l => ?_⟩
      rw [hs.1 c l]
      have := hlen c l
      exact le_trans (by omega) (le_max_right _ _)
    · have ht0 := htarget t ht
      subst ht0
      have hp := heff.after_sameQueues hs12
      refine ⟨fun c l => (hp.2.1 c l).trans (hbound c l), fun c l => ?_⟩
      rw [hp.1 c l]
      have := hlen c l
      dsimp only
      exact le_trans (by omega) (le_max_right _ _)

/-! ### What the calls on segment stats and on virtual queues do to the containers -/

theorem sameConfluxContainers_refl (w : World) : SameConfluxContainers w w :=
  fun _ => ⟨rfl, rfl, rfl, rfl, rfl⟩

theorem sameConfluxContainers_of_conflux_eq {w w' : World} (h : w'.conflux = w.conflux) :
    SameConfluxContainers w w' := by
  intro c
  rw [h]
  exact ⟨rfl, rfl, rfl, rfl, rfl⟩

theorem sameTrailingEdges_refl (w : World) : SameTrailingEdges w w :=
  fun _ _ => rfl

theorem sameTrailingEdges_of_segStats_eq {w w' : World} (h : w'.segStats = w.segStats) :
    SameTrailingEdges w w' := by
  intro s lane
  simp [World.trailingEdge, h]

theorem World.onSegStats_error {w w' : World} {s : Option SegStatsId}
    {f : SegmentStats → Except Fault SegmentStats} {e : Fault}
    (h : w.onSegStats s f = (.error e, w')) : w' = w := by
  unfold World.onSegStats at h
  cases s with
  | none =>
    simp only [Prod.mk.injEq] at h
    exact h.2.symm
  | some sid =>
    dsimp only at h
    cases hres : f (w.segStats sid) with
    | error e2 =>
      rw [hres] at h
      simp only [Prod.mk.injEq] at h
      exact h.2.symm
    | ok ss =>
      rw [hres] at h
      simp at h

theorem World.onSegStats_ok {w w' : World} {s : Option SegStatsId}
    {f : SegmentStats → Except Fault SegmentStats}
    (h : w.onSegStats s f = (.ok (), w')) :
    ∃ sid ss, s = some sid ∧ f (w.segStats sid) = .ok ss ∧
      w' = w.modifySegStats sid (fun _ => ss) := by
  unfold World.onSegStats at h
  cases s with
  | none => simp at h
  | some sid =>
    dsimp only at h
    cases hres : f (w.segStats sid) with
    | error e2 =>
      rw [hres] at h
      simp at h
    | ok ss =>
      rw [hres] at h
      simp only [Prod.mk.injEq, true_and] at h
      exact ⟨sid, ss, rfl, hres, h.symm⟩

theorem SegmentStats.getPersons_setLaneStats_self (ss : SegmentStats) (lane : LaneId)
    (st st0 : LaneStats) (h : mapAt ss.laneStatsMap lane = some st0) :
    (ss.setLaneStats lane st).getPersons lane = st.laneAgents := by
  simp [SegmentStats.getPersons, SegmentStats.setLaneStats, mapAt_mapSet_self _ _ _ _ h]

theorem SegmentStats.getPersons_setLaneStats_other (ss : SegmentStats) (lane ln : LaneId)
    (st : LaneStats) (h : ln ≠ lane) :
    (ss.setLaneStats lane st).getPersons ln = ss.getPersons ln := by
  simp [SegmentStats.getPersons, SegmentStats.setLaneStats, mapAt_mapSet_other _ _ _ _ h]

/-- The recorded trailing edges of the lanes of a segment stats do not change when the
statistics of a lane are replaced by statistics with the same trailing edge. -/
theorem SegmentStats.trailingEdge_setLaneStats (ss : SegmentStats) (lane ln : LaneId)
    (st st0 : LaneStats) (h : mapAt ss.laneStatsMap lane = some st0)
    (hp : st.positionOfLastUpdatedAgent = st0.positionOfLastUpdatedAgent) :
    (mapAt (ss.setLaneStats lane st).laneStatsMap ln).map LaneStats.positionOfLastUpdatedAgent
      = (mapAt ss.laneStatsMap ln).map LaneStats.positionOfLastUpdatedAgent := by
  by_cases hl : ln = lane
  · subst hl
    simp [SegmentStats.setLaneStats, mapAt_mapSet_self _ _ _ _ h, h, hp]
  · simp [SegmentStats.setLaneStats, mapAt_mapSet_other _ _ _ _ hl]

/-- What a successful `addAgent` does to a segment stats. -/
theorem SegmentStats.addAgent_ok {ss ss' : SegmentStats} {lane : LaneId} {p : PersonId}
    {q : Bool} (h : ss.addAgent lane p q = .ok ss') :
    ss'.getPersons lane = ss.getPersons lane ++ [p] ∧
    (∀ ln, ln ≠ lane → ss'.getPersons ln = ss.getPersons ln) ∧
    (∀ ln, (mapAt ss'.laneStatsMap ln).map LaneStats.positionOfLastUpdatedAgent
      = (mapAt ss.laneStatsMap ln).map LaneStats.positionOfLastUpdatedAgent) ∧
    ss'.laneInfinity = ss.laneInfinity ∧ ss'.length = ss.length := by
  unfold SegmentStats.addAgent at h
  cases hst : mapAt ss.laneStatsMap lane with
  | none => rw [hst] at h; simp at h
  | some st =>
    rw [hst] at h
    simp only [Except.ok.injEq] at h
    subst h
    refine ⟨?_, ?_, ?_, rfl, rfl⟩
    · rw [SegmentStats.getPersons_setLaneStats_self _ _ _ _ hst]
      simp [SegmentStats.getPersons, hst]
    · intro ln hln
      exact SegmentStats.getPersons_setLaneStats_other _ _ _ _ hln
    · intro ln
      exact SegmentStats.trailingEdge_setLaneStats _ _ _ _ _ hst rfl

/-- What a successful `dequeue` does to a segment stats. -/
theorem SegmentStats.dequeue_ok {ss ss' : SegmentStats} {lane : LaneId} {p : PersonId}
    {q d : Bool} (h : ss.dequeue p lane q d = .ok ss') :
    ss'.getPersons lane = (ss.getPersons lane).erase p ∧
    (∀ ln, ln ≠ lane → ss'.getPersons ln = ss.getPersons ln) ∧
    (∀ ln, (mapAt ss'.laneStatsMap ln).map LaneStats.positionOfLastUpdatedAgent
      = (mapAt ss.laneStatsMap ln).map LaneStats.positionOfLastUpdatedAgent) ∧
    ss'.laneInfinity = ss.laneInfinity ∧ ss'.length = ss.length := by
  unfold SegmentStats.dequeue at h
  cases hst : mapAt ss.laneStatsMap lane with
  | none => rw [hst] at h; simp at h
  | some st =>
    rw [hst] at h
    dsimp only at h
    by_cases hmem : p ∈ st.laneAgents
    · rw [if_pos hmem] at h
      simp only [Except.ok.injEq] at h
      subst h
      refine ⟨?_, ?_, ?_, rfl, rfl⟩
      · rw [SegmentStats.getPersons_setLaneStats_self _ _ _ _ hst]
        simp [SegmentStats.getPersons, hst]
      · intro ln hln
        exact SegmentStats.getPersons_setLaneStats_other _ _ _ _ hln
      · intro ln
        exact SegmentStats.trailingEdge_setLaneStats _ _ _ _ _ hst rfl
    · rw [if_neg hmem] at h
      by_cases hd : d = true
      · rw [if_pos hd] at h
        simp only [Except.ok.injEq] at h
        subst h
        refine ⟨?_, fun _ _ => rfl, fun _ => rfl, rfl, rfl⟩
        simp only [SegmentStats.getPersons, hst]
        exact (List.erase_of_not_mem hmem).symm
      · rw [if_neg hd] at h
        simp at h

theorem OnlyLane.of_modifySegStats (w : World) (sid : SegStatsId) (lane : LaneId)
    (ss : SegmentStats) (agents : List PersonId)
    (h1 : ss.getPersons lane = agents)
    (h2 : ∀ ln, ln ≠ lane → ss.getPersons ln = (w.segStats sid).getPersons ln)
    (h3 : ∀ ln, (mapAt ss.laneStatsMap ln).map LaneStats.positionOfLastUpdatedAgent
      = (mapAt (w.segStats sid).laneStatsMap ln).map LaneStats.positionOfLastUpdatedAgent) :
    OnlyLane sid lane agents w (w.modifySegStats sid (fun _ => ss)) := by
  refine ⟨?_, ?_, ?_, sameConfluxContainers_of_conflux_eq rfl, rfl⟩
  · simp [World.laneAgents, h1]
  · intro t ln hne
    by_cases ht : t = sid
    · subst ht
      have hln : ln ≠ lane := fun hl => hne ⟨rfl, hl⟩
      simp [World.laneAgents, h2 ln hln]
    · simp [World.laneAgents, World.modifySegStats_segStats_other _ _ _ _ ht]
  · intro t ln
    by_cases ht : t = sid
    · subst ht
      simp [World.trailingEdge, h3 ln]
    · simp [World.trailingEdge, World.modifySegStats_segStats_other _ _ _ _ ht]

/-- A successful `addAgent` puts the person at the back of the deque of the lane and
changes nothing else. -/
theorem World.addAgent_onlyLane {w w' : World} {s : Option SegStatsId} {lane : LaneId}
    {p : PersonId} (h : w.addAgent s lane p = (.ok (), w')) :
    ∃ sid, s = some sid ∧ OnlyLane sid lane (w.laneAgents sid lane ++ [p]) w w' := by
  obtain ⟨sid, ss, hs, hf, hw⟩ := World.onSegStats_ok h
  obtain ⟨h1, h2, h3, _, _⟩ := SegmentStats.addAgent_ok hf
  subst hw
  exact ⟨sid, hs, OnlyLane.of_modifySegStats w sid lane ss _ h1 h2 h3⟩

/-- A successful `dequeue` takes the person out of the deque of the lane and changes
nothing else. -/
theorem World.dequeue_onlyLane {w w' : World} {s : Option SegStatsId} {lane : LaneId}
    {p : PersonId} {q : Bool} (h : w.dequeue s p lane q = (.ok (), w')) :
    ∃ sid, s = some sid ∧ OnlyLane sid lane ((w.laneAgents sid lane).erase p) w w' := by
  obtain ⟨sid, ss, hs, hf, hw⟩ := World.onSegStats_ok h
  obtain ⟨h1, h2, h3, _, _⟩ := SegmentStats.dequeue_ok hf
  subst hw
  exact ⟨sid, hs, OnlyLane.of_modifySegStats w sid lane ss _ h1 h2 h3⟩

theorem World.addAgent_error {w w' : World} {s : Option SegStatsId} {lane : LaneId}
    {p : PersonId} {e : Fault} (h : w.addAgent s lane p = (.error e, w')) : w' = w :=
  World.onSegStats_error h

theorem World.dequeue_error {w w' : World} {s : Option SegStatsId} {lane : LaneId}
    {p : PersonId} {q : Bool} {e : Fault} (h : w.dequeue s p lane q = (.error e, w')) :
    w' = w :=
  World.onSegStats_error h

theorem sameLists_refl (w : World) : SameLists w w :=
  fun _ => ⟨rfl, rfl, rfl, rfl⟩

theorem sameLists_trans {w w1 w2 : World} (h1 : SameLists w w1) (h2 : SameLists w1 w2) :
    SameLists w w2 := fun c =>
  ⟨(h2 c).1.trans (h1 c).1, (h2 c).2.1.trans (h1 c).2.1, (h2 c).2.2.1.trans (h1 c).2.2.1,
    (h2 c).2.2.2.trans (h1 c).2.2.2⟩

theorem sameLists_of_conflux_eq {w w' : World} (h : w'.conflux = w.conflux) :
    SameLists w w' := by
  intro c
  rw [h]
  exact ⟨rfl, rfl, rfl, rfl⟩

theorem sameLists_onSegStats (w : World) (s : Option SegStatsId)
    (f : SegmentStats → Except Fault SegmentStats) : SameLists w (w.onSegStats s f).2 := by
  unfold World.onSegStats
  cases s with
  | none => exact sameLists_refl w
  | some sid =>
    dsimp only
    cases f (w.segStats sid) with
    | error e => exact sameLists_refl w
    | ok ss => exact sameLists_of_conflux_eq rfl

theorem sameLists_pushBack (w : World) (c : ConfluxId) (lnk : LinkId) (p : PersonId) :
    SameLists w (w.pushBackOntoVirtualQueue c lnk p).2 := by
  intro c'
  unfold World.pushBackOntoVirtualQueue
  by_cases hc : c' = c
  · subst hc
    cases hq : mapAt (w.conflux c').virtualQueuesMap lnk with
    | none =>
      simp [World.modifyConflux, Conflux.pushBackOntoVirtualQueue_snd_none _ _ _ hq]
    | some queue =>
      simp [World.modifyConflux, Conflux.pushBackOntoVirtualQueue_snd_some _ _ _ _ hq]
  · simp [World.modifyConflux, Function.update_noteq hc]

theorem sameLists_enqueue (w : World) (a : PersonProps) (p : PersonId) :
    SameLists w (w.enqueueOnVirtualQueue a p).2 := by
  unfold World.enqueueOnVirtualQueue
  cases a.segStats with
  | none => exact sameLists_refl w
  | some s =>
    cases a.segment with
    | none => exact sameLists_of_conflux_eq rfl
    | some seg =>
      dsimp only
      exact sameLists_trans (sameLists_of_conflux_eq rfl) (sameLists_pushBack _ _ _ _)

/-- The push of `housekeep` onto a virtual queue, when the snapshot has its segment
stats and its segment: it succeeds if the link has a virtual queue on the parent conflux,
and it stops after the write of the distance if the link has none. -/
theorem World.enqueueOnVirtualQueue_spec (w : World) (a : PersonProps) (p : PersonId)
    (s : SegStatsId) (seg : SegmentId) (hs : a.segStats = some s) (hg : a.segment = some seg) :
    (∀ queue, w.virtualQueue (w.segStats s).parentConflux (w.roadSegment seg).link = some queue →
      ∃ w', w.enqueueOnVirtualQueue a p = (.ok (), w') ∧
        OnlyVirtualQueue (w.segStats s).parentConflux (w.roadSegment seg).link queue p
          (w.segStats s).length w w') ∧
    (w.virtualQueue (w.segStats s).parentConflux (w.roadSegment seg).link = none →
      w.enqueueOnVirtualQueue a p = (.error .mapAtOutOfRange,
        w.modifyPerson p (fun x => { x with distanceToEndOfSegment := (w.segStats s).length }))) := by
  constructor
  · intro queue hq
    have hq2 := hq
    simp only [World.virtualQueue] at hq2
    refine ⟨(w.modifyPerson p
        (fun x => { x with distanceToEndOfSegment := (w.segStats s).length })).modifyConflux
        (w.segStats s).parentConflux
        (fun cfx => { cfx with virtualQueuesMap := mapSet cfx.virtualQueuesMap (w.roadSegment seg).link (queue ++ [p]) }),
      ?_, hq, ?_, ?_, ?_, ?_, ?_⟩
    · simp only [World.enqueueOnVirtualQueue, hs, hg, World.pushBackOntoVirtualQueue,
        World.modifyPerson_segStats, World.modifyPerson_roadSegment, World.modifyPerson_conflux,
        SegmentStats.getLength]
      simp [Conflux.pushBackOntoVirtualQueue, hq2, World.modifyConflux]
    · simp [World.virtualQueue, World.modifyConflux, mapAt_mapSet_self _ _ _ _ hq2]
    · intro c' l' hne
      by_cases hc : c' = (w.segStats s).parentConflux
      · subst hc
        have hl : l' ≠ (w.roadSegment seg).link := fun hl => hne ⟨rfl, hl⟩
        simp [World.virtualQueue, World.modifyConflux, mapAt_mapSet_other _ _ _ _ hl]
      · simp [World.virtualQueue, World.modifyConflux, Function.update_noteq hc]
    · intro c'
      by_cases hc : c' = (w.segStats s).parentConflux
      · subst hc
        simp [World.modifyConflux]
      · simp [World.modifyConflux, Function.update_noteq hc]
    · rfl
    · rfl
  · intro hq
    simp only [World.virtualQueue] at hq
    simp only [World.enqueueOnVirtualQueue, hs, hg, World.pushBackOntoVirtualQueue,
      World.modifyPerson_segStats, World.modifyPerson_roadSegment, World.modifyPerson_conflux,
      SegmentStats.getLength]
    simp [Conflux.pushBackOntoVirtualQueue, hq, World.modifyConflux, World.modifyPerson]

/-! ### Relations between worlds that the stages of `housekeep` keep -/

theorem housekeepBusDriver_preserves (R : World → World → Prop) (hrefl : ∀ w, R w w)
    (hdeq : ∀ w s p ln q, R w (World.dequeue w s p ln q).2)
    (hadd : ∀ w s ln p, R w (World.addAgent w s ln p).2)
    (henq : ∀ w a p, R w (World.enqueueOnVirtualQueue w a p).2)
    (w : World) (b a : PersonProps) (p : PersonId) : R w (housekeepBusDriver w b a p).2 := by
  unfold housekeepBusDriver
  split
  · cases b.lane with
    | none => exact hrefl w
    | some ln =>
      dsimp only
      have h := hdeq w b.segStats p ln b.isQueuing
      rcases hres : w.dequeue b.segStats p ln b.isQueuing with ⟨res, w1⟩
      rw [hres] at h
      cases res <;> exact h
  · split
    · cases a.lane with
      | some ln =>
        dsimp only
        have h := hadd w a.segStats ln p
        rcases hres : w.addAgent a.segStats ln p with ⟨res, w1⟩
        rw [hres] at h
        cases res <;> exact h
      | none =>
        dsimp only
        have h := henq w a p
        rcases hres : w.enqueueOnVirtualQueue a p with ⟨res, w1⟩
        rw [hres] at h
        cases res <;> exact h
    · split <;> exact hrefl w

theorem housekeepOnRoad_preserves (R : World → World → Prop) (hrefl : ∀ w, R w w)
    (htrans : ∀ w w1 w2, R w w1 → R w1 w2 → R w w2)
    (hdeq : ∀ w s p ln q, R w (World.dequeue w s p ln q).2)
    (hadd : ∀ w s ln p, R w (World.addAgent w s ln p).2)
    (henq : ∀ w a p, R w (World.enqueueOnVirtualQueue w a p).2)
    (hupd : ∀ w s ln q,
      R w (World.onSegStats w s (fun ss => ss.updateQueueStatus ln q)).2)
    (w : World) (b a : PersonProps) (p : PersonId) : R w (housekeepOnRoad w b a p).2 := by
  unfold housekeepOnRoad
  cases hbl : b.lane with
  | none =>
    dsimp only
    cases hal : a.lane with
    | some ln => exact hadd w a.segStats ln p
    | none =>
      dsimp only
      split
      · split <;> exact hrefl w
      · exact henq w a p
  | some bl =>
    dsimp only
    cases hm : movedOrLeftLaneInfinity w b a bl with
    | error f => exact hrefl w
    | ok moved =>
      cases moved with
      | true =>
        dsimp only
        have hleft : R w
            (if b.roleType ≠ .RL_ACTIVITY then w.dequeue b.segStats p bl b.isQueuing
              else ((.ok (), w) : Except Fault Unit × World)).2 := by
          split
          · exact hdeq w b.segStats p bl b.isQueuing
          · exact hrefl w
        rcases hres : (if b.roleType ≠ .RL_ACTIVITY then w.dequeue b.segStats p bl b.isQueuing
              else ((.ok (), w) : Except Fault Unit × World)) with ⟨res, w1⟩
        rw [hres] at hleft
        cases res with
        | error f => exact hleft
        | ok u =>
          dsimp only
          cases hal : a.lane with
          | some ln => exact htrans _ _ _ hleft (hadd w1 a.segStats ln p)
          | none => exact htrans _ _ _ hleft (henq w1 a p)
      | false =>
        dsimp only
        cases has : a.segStats with
        | none => exact hrefl w
        | some s =>
          cases hal : a.lane with
          | none =>
            dsimp only
            split <;> exact hrefl w
          | some ln =>
            dsimp only
            split
            · have h := hdeq w b.segStats p bl b.isQueuing
              rcases hres : w.dequeue b.segStats p bl b.isQueuing with ⟨res, w1⟩
              rw [hres] at h
              cases res with
              | error f => exact h
              | ok u => exact htrans _ _ _ h (hadd w1 (some s) ln p)
            · split
              · exact hupd w (some s) ln _
              · exact hrefl w

theorem housekeepTrailingEdge_preserves (R : World → World → Prop) (hrefl : ∀ w, R w w)
    (hpos : ∀ w s d ln,
      R w (World.onSegStats w s (fun ss => ss.setPositionOfLastUpdatedAgentInLane d ln)).2)
    (w : World) (a : PersonProps) (p : PersonId) : R w (housekeepTrailingEdge w a p).2 := by
  unfold housekeepTrailingEdge
  cases a.lane with
  | none => exact hrefl w
  | some ln =>
    dsimp only
    cases hs : a.segStats with
    | none => exact hrefl w
    | some s =>
      dsimp only
      split
      · cases (w.person p).role with
        | none => exact hrefl w
        | some role =>
          dsimp only
          cases role.resource with
          | none => exact hrefl w
          | some vehicle => exact hpos w (some s) _ ln
      · exact hrefl w

/-! ### The way of `housekeep` to the placement on the road -/

theorem afterActivityExit_of_not_activity (w : World) (cfx : ConfluxId) (b a : PersonProps)
    (p : PersonId) (hb : b.roleType ≠ .RL_ACTIVITY) : afterActivityExit w cfx b a p = w := by
  simp [afterActivityExit, housekeepActivityExit, hb]

theorem afterActivityExit_of_activity (w : World) (cfx : ConfluxId) (b a : PersonProps)
    (p : PersonId) (hb : b.roleType = .RL_ACTIVITY) (ha : a.roleType ≠ .RL_ACTIVITY)
    (hp : a.roleType ≠ .RL_PEDESTRIAN) :
    afterActivityExit w cfx b a p = w.modifyConflux cfx
      (fun c => { c with activityPerformers := c.activityPerformers.erase p }) := by
  simp [afterActivityExit, housekeepActivityExit, hb, ha, hp]

theorem housekeepActivityExit_not_returned (w : World) (cfx : ConfluxId) (b a : PersonProps)
    (p : PersonId) (h : ¬ (b.roleType = .RL_ACTIVITY ∧ a.roleType = .RL_PEDESTRIAN)) :
    housekeepActivityExit w cfx b a p = (false, afterActivityExit w cfx b a p) := by
  unfold afterActivityExit housekeepActivityExit
  split
  · rename_i hc
    have hp : a.roleType ≠ .RL_PEDESTRIAN := fun hp => h ⟨hc.1, hp⟩
    simp [hp]
  · rfl

theorem housekeepRole_of_reaches (w : World) (cfx : ConfluxId) (b a : PersonProps)
    (p : PersonId) (h : reachesOnRoadPlacement b a = true) :
    housekeepRole w cfx b a p = (.ok false, w) := by
  unfold reachesOnRoadPlacement at h
  unfold housekeepRole
  cases hr : a.roleType <;> rw [hr] at h <;> dsimp only at h ⊢
  case RL_PEDESTRIAN =>
    simp only [decide_eq_true_eq] at h
    simp [h.1]
  case RL_BUSDRIVER =>
    unfold housekeepBusDriver
    cases hbm : b.isMoving <;> cases ham : a.isMoving <;> simp_all
  all_goals first
    | rfl
    | exact absurd h (by decide)

theorem housekeep_of_reaches (w : World) (cfx : ConfluxId) (b a : PersonProps) (p : PersonId)
    (h : reachesOnRoadPlacement b a = true) :
    housekeep w cfx b a p =
      match housekeepOnRoad (afterActivityExit w cfx b a p) b a p with
      | (.error f, w3) => (.error f, w3)
      | (.ok _, w3) => housekeepTrailingEdge w3 a p := by
  have hexit : ¬ (b.roleType = .RL_ACTIVITY ∧ a.roleType = .RL_PEDESTRIAN) := by
    rintro ⟨hb, ha⟩
    simp [reachesOnRoadPlacement, ha, hb] at h
  unfold housekeep
  rw [housekeepActivityExit_not_returned w cfx b a p hexit]
  dsimp only
  rw [housekeepRole_of_reaches _ cfx b a p h]

theorem sameLists_dequeue (w : World) (s : Option SegStatsId) (p : PersonId) (ln : LaneId)
    (q : Bool) : SameLists w (w.dequeue s p ln q).2 :=
  sameLists_onSegStats w s _

theorem sameLists_addAgent (w : World) (s : Option SegStatsId) (ln : LaneId) (p : PersonId) :
    SameLists w (w.addAgent s ln p).2 :=
  sameLists_onSegStats w s _

theorem housekeepOnRoad_sameLists (w : World) (b a : PersonProps) (p : PersonId) :
    SameLists w (housekeepOnRoad w b a p).2 :=
  housekeepOnRoad_preserves SameLists sameLists_refl (fun _ _ _ h1 h2 => sameLists_trans h1 h2)
    sameLists_dequeue sameLists_addAgent sameLists_enqueue
    (fun w s _ _ => sameLists_onSegStats w s _) w b a p

theorem housekeepTrailingEdge_sameLists (w : World) (a : PersonProps) (p : PersonId) :
    SameLists w (housekeepTrailingEdge w a p).2 :=
  housekeepTrailingEdge_preserves SameLists sameLists_refl
    (fun w s _ _ => sameLists_onSegStats w s _) w a p

theorem housekeepBusDriver_sameLists (w : World) (b a : PersonProps) (p : PersonId) :
    SameLists w (housekeepBusDriver w b a p).2 :=
  housekeepBusDriver_preserves SameLists sameLists_refl
    sameLists_dequeue sameLists_addAgent sameLists_enqueue w b a p

/-- Unless the person is in an activity after the update, the `switch` of `housekeep`
leaves the lists of the confluxes alone. -/
theorem housekeepRole_sameLists (w : World) (cfx : ConfluxId) (b a : PersonProps)
    (p : PersonId) (ha : a.roleType ≠ .RL_ACTIVITY) :
    SameLists w (housekeepRole w cfx b a p).2 := by
  unfold housekeepRole
  cases hr : a.roleType <;> dsimp only
  case RL_ACTIVITY => exact absurd hr ha
  case RL_PEDESTRIAN => split <;> exact sameLists_refl w
  case RL_BUSDRIVER => exact housekeepBusDriver_sameLists w b a p
  all_goals exact sameLists_refl w

/-- Unless the person is in an activity after the update, `housekeep` does not touch
the lists of the confluxes after its first block. -/
theorem housekeep_sameLists_after_exit (w : World) (cfx : ConfluxId) (b a : PersonProps)
    (p : PersonId) (ha : a.roleType ≠ .RL_ACTIVITY) :
    SameLists (housekeepActivityExit w cfx b a p).2 (housekeep w cfx b a p).2 := by
  unfold housekeep
  rcases hexit : housekeepActivityExit w cfx b a p with ⟨ret, w1⟩
  cases ret with
  | true => exact sameLists_refl w1
  | false =>
    dsimp only
    have hrole := housekeepRole_sameLists w1 cfx b a p ha
    rcases hr : housekeepRole w1 cfx b a p with ⟨res, w2⟩
    rw [hr] at hrole
    cases res with
    | error f => exact hrole
    | ok ret2 =>
      cases ret2 with
      | true => exact hrole
      | false =>
        dsimp only
        have hroad := housekeepOnRoad_sameLists w2 b a p
        rcases hro : housekeepOnRoad w2 b a p with ⟨res3, w3⟩
        rw [hro] at hroad
        cases res3 with
        | error f => exact sameLists_trans hrole hroad
        | ok u =>
          exact sameLists_trans (sameLists_trans hrole hroad)
            (housekeepTrailingEdge_sameLists w3 a p)

/-! ### Recorded trailing edges -/

theorem sameTrailingEdges_trans {w w1 w2 : World} (h1 : SameTrailingEdges w w1)
    (h2 : SameTrailingEdges w1 w2) : SameTrailingEdges w w2 :=
  fun s lane => (h2 s lane).trans (h1 s lane)

theorem sameTrailingEdges_dequeue (w : World) (s : Option SegStatsId) (p : PersonId)
    (ln : LaneId) (q : Bool) : SameTrailingEdges w (w.dequeue s p ln q).2 := by
  rcases hres : w.dequeue s p ln q with ⟨res, w1⟩
  cases res with
  | error f => rw [World.dequeue_error hres]; exact sameTrailingEdges_refl w
  | ok u =>
    obtain ⟨sid, _, h⟩ := World.dequeue_onlyLane hres
    exact h.2.2.1

theorem sameTrailingEdges_addAgent (w : World) (s : Option SegStatsId) (ln : LaneId)
    (p : PersonId) : SameTrailingEdges w (w.addAgent s ln p).2 := by
  rcases hres : w.addAgent s ln p with ⟨res, w1⟩
  cases res with
  | error f => rw [World.addAgent_error hres]; exact sameTrailingEdges_refl w
  | ok u =>
    obtain ⟨sid, _, h⟩ := World.addAgent_onlyLane hres
    exact h.2.2.1

theorem segStats_pushBack (w : World) (c : ConfluxId) (lnk : LinkId) (p : PersonId) :
    (w.pushBackOntoVirtualQueue c lnk p).2.segStats = w.segStats := rfl

theorem segStats_enqueue (w : World) (a : PersonProps) (p : PersonId) :
    (w.enqueueOnVirtualQueue a p).2.segStats = w.segStats := by
  unfold World.enqueueOnVirtualQueue
  cases a.segStats with
  | none => rfl
  | some s =>
    cases a.segment with
    | none => rfl
    | some seg => rfl

theorem sameTrailingEdges_enqueue (w : World) (a : PersonProps) (p : PersonId) :
    SameTrailingEdges w (w.enqueueOnVirtualQueue a p).2 :=
  sameTrailingEdges_of_segStats_eq (segStats_enqueue w a p)

theorem housekeepBusDriver_sameTrailingEdges (w : World) (b a : PersonProps) (p : PersonId) :
    SameTrailingEdges w (housekeepBusDriver w b a p).2 :=
  housekeepBusDriver_preserves SameTrailingEdges sameTrailingEdges_refl
    sameTrailingEdges_dequeue sameTrailingEdges_addAgent sameTrailingEdges_enqueue w b a p

theorem sameTrailingEdges_afterActivityExit (w : World) (cfx : ConfluxId) (b a : PersonProps)
    (p : PersonId) : SameTrailingEdges w (afterActivityExit w cfx b a p) := by
  apply sameTrailingEdges_of_segStats_eq
  unfold afterActivityExit housekeepActivityExit
  split
  · dsimp only
    split
    · split <;> rfl
    · rfl
  · rfl

/-- The three cases in which the `switch` of `housekeep` returns for a bus driver. -/
theorem housekeepBusDriver_returns (w : World) (b a : PersonProps) (p : PersonId)
    (h : (b.isMoving = true ∧ a.isMoving = false) ∨ (b.isMoving = false ∧ a.isMoving = true) ∨
      (b.isMoving = false ∧ a.isMoving = false ∧ b.segStats ≠ a.segStats)) :
    (housekeepBusDriver w b a p).1 ≠ .ok false := by
  unfold housekeepBusDriver
  rcases h with ⟨hb, ha⟩ | ⟨hb, ha⟩ | ⟨hb, ha, hs⟩
  · simp only [hb, ha, Bool.not_false, Bool.and_self, if_true]
    cases b.lane with
    | none => simp
    | some ln =>
      dsimp only
      rcases w.dequeue b.segStats p ln b.isQueuing with ⟨res, w1⟩
      cases res <;> simp
  · simp only [hb, ha, Bool.not_true, Bool.and_false, Bool.false_and, Bool.false_eq_true,
      if_false, Bool.not_false, Bool.and_self, if_true]
    cases a.lane with
    | none =>
      dsimp only
      rcases w.enqueueOnVirtualQueue a p with ⟨res, w1⟩
      cases res <;> simp
    | some ln =>
      dsimp only
      rcases w.addAgent a.segStats ln p with ⟨res, w1⟩
      cases res <;> simp
  · simp [hb, ha, hs]

/-- In the three cases in which the `switch` returns for a bus driver, `housekeep` ends
with what the case `RL_BUSDRIVER` did to the world left by the first block. -/
theorem housekeep_busDriver_snd (w : World) (cfx : ConfluxId) (b a : PersonProps)
    (p : PersonId) (ha : a.roleType = .RL_BUSDRIVER)
    (h : (b.isMoving = true ∧ a.isMoving = false) ∨ (b.isMoving = false ∧ a.isMoving = true) ∨
      (b.isMoving = false ∧ a.isMoving = false ∧ b.segStats ≠ a.segStats)) :
    (housekeep w cfx b a p).2 = (housekeepBusDriver (afterActivityExit w cfx b a p) b a p).2 := by
  have hexit : ¬ (b.roleType = .RL_ACTIVITY ∧ a.roleType = .RL_PEDESTRIAN) := by
    rintro ⟨_, hp⟩
    rw [ha] at hp
    exact absurd hp (by decide)
  have hret := housekeepBusDriver_returns (afterActivityExit w cfx b a p) b a p h
  unfold housekeep
  rw [housekeepActivityExit_not_returned w cfx b a p hexit]
  dsimp only
  have hrole : housekeepRole (afterActivityExit w cfx b a p) cfx b a p
      = housekeepBusDriver (afterActivityExit w cfx b a p) b a p := by
    simp [housekeepRole, ha]
  rw [hrole]
  rcases hres : housekeepBusDriver (afterActivityExit w cfx b a p) b a p with ⟨res, w2⟩
  rw [hres] at hret
  cases res with
  | error f => rfl
  | ok r =>
    cases r with
    | true => rfl
    | false => exact absurd rfl hret

theorem afterActivityExit_segStats (w : World) (cfx : ConfluxId) (b a : PersonProps)
    (p : PersonId) : (afterActivityExit w cfx b a p).segStats = w.segStats := by
  unfold afterActivityExit housekeepActivityExit
  split
  · dsimp only
    split
    · split <;> rfl
    · rfl
  · rfl

theorem afterActivityExit_roadSegment (w : World) (cfx : ConfluxId) (b a : PersonProps)
    (p : PersonId) : (afterActivityExit w cfx b a p).roadSegment = w.roadSegment := by
  unfold afterActivityExit housekeepActivityExit
  split
  · dsimp only
    split
    · split <;> rfl
    · rfl
  · rfl

theorem afterActivityExit_person (w : World) (cfx : ConfluxId) (b a : PersonProps)
    (p : PersonId) : (afterActivityExit w cfx b a p).person = w.person := by
  unfold afterActivityExit housekeepActivityExit
  split
  · dsimp only
    split
    · split <;> rfl
    · rfl
  · rfl

/-- The first block of `housekeep` writes no virtual queue. -/
theorem afterActivityExit_virtualQueue (w : World) (cfx : ConfluxId) (b a : PersonProps)
    (p : PersonId) (c : ConfluxId) (l : LinkId) :
    (afterActivityExit w cfx b a p).virtualQueue c l = w.virtualQueue c l := by
  unfold afterActivityExit housekeepActivityExit World.virtualQueue
  by_cases hc : c = cfx
  · subst hc
    split
    · dsimp only
      split
      · split <;> simp [World.modifyConflux]
      · simp [World.modifyConflux]
    · rfl
  · split
    · dsimp only
      split
      · split <;> simp [World.modifyConflux, Function.update_noteq hc]
      · simp [World.modifyConflux, Function.update_noteq hc]
    · rfl

/-! ### Lane infinity -/

/-- The condition of line 520, read on the world that the first block of `housekeep`
leaves. -/
theorem movedOrLeftLaneInfinity_of (w : World) (cfx : ConfluxId) (b a : PersonProps)
    (p : PersonId) (bl : LaneId)
    (h : b.segStats ≠ a.segStats ∨
      ∃ bs, b.segStats = some bs ∧ bl = (w.segStats bs).laneInfinity ∧ a.lane ≠ some bl) :
    movedOrLeftLaneInfinity (afterActivityExit w cfx b a p) b a bl = .ok true := by
  unfold movedOrLeftLaneInfinity
  by_cases hne : b.segStats ≠ a.segStats
  · simp [hne]
  · rcases h with h | ⟨bs, hbs, hinf, hl⟩
    · exact absurd h hne
    · rw [if_neg hne, hbs]
      simp only [afterActivityExit_segStats]
      have hl2 : some bl ≠ a.lane := fun e => hl e.symm
      simp [hinf, hl2]
      rw [← hinf]
      exact hl2

/-! ### The merge across links: the scan of the heads -/

/-- What the inner loop of the merge leaves in `equiTimeList`: all its persons have the
same driving time `m`, which no head visited by the loop undercuts; every entry was in
the list at the start (and then `m` is the `minVal` of the start) or is the head of the
deque of its index; and the list is not empty if it was not at the start or if some head
visited has a driving time of at most the `minVal` of the start. -/
theorem scanHeads_spec (w : World) :
    ∀ (more : List (List PersonId)) (i : Nat) (minVal : ℚ) (equi : List (Nat × PersonId)),
    (∀ e ∈ equi, w.drivingTime e.2 = minVal) →
    ∃ m, m ≤ minVal ∧
      (∀ e ∈ scanHeads w more i minVal equi, w.drivingTime e.2 = m) ∧
      (∀ j q rest, more.get? j = some (q :: rest) → m ≤ w.drivingTime q) ∧
      (∀ e ∈ scanHeads w more i minVal equi,
        (e ∈ equi ∧ m = minVal) ∨
        (i ≤ e.1 ∧ ∃ rest, more.get? (e.1 - i) = some (e.2 :: rest))) ∧
      ((equi ≠ [] ∨ ∃ j q rest, more.get? j = some (q :: rest) ∧ w.drivingTime q ≤ minVal) →
        scanHeads w more i minVal equi ≠ []) := by
  intro more
  induction more with
  | nil =>
    intro i minVal equi hequi
    refine ⟨minVal, le_refl _, ?_, ?_, ?_, ?_⟩
    · intro e he
      exact hequi e he
    · intro j q rest h
      simp at h
    · intro e he
      exact Or.inl ⟨he, rfl⟩
    · intro h
      rcases h with h | ⟨j, q, rest, h, _⟩
      · exact h
      · simp at h
  | cons first more ih =>
    intro i minVal equi hequi
    cases first with
    | nil =>
      obtain ⟨m, hm, hall, hheads, hfrom, hne⟩ := ih (i + 1) minVal equi hequi
      refine ⟨m, hm, ?_, ?_, ?_, ?_⟩
      · intro e he
        exact hall e he
      · intro j q rest h
        cases j with
        | zero => simp at h
        | succ j => exact hheads j q rest (by simpa using h)
      · intro e he
        rcases hfrom e he with h | ⟨hi, rest, h⟩
        · exact Or.inl h
        · refine Or.inr ⟨by omega, rest, ?_⟩
          have : e.1 - i = (e.1 - (i + 1)) + 1 := by omega
          rw [this]
          simpa using h
      · intro h
        apply hne
        rcases h with h | ⟨j, q, rest, h, hq⟩
        · exact Or.inl h
        · cases j with
          | zero => simp at h
          | succ j => exact Or.inr ⟨j, q, rest, by simpa using h, hq⟩
    | cons p tl =>
      by_cases heq : w.drivingTime p = minVal
      · have hequi2 : ∀ e ∈ equi ++ [(i, p)], w.drivingTime e.2 = minVal := by
          intro e he
          rcases List.mem_append.mp he with h | h
          · exact hequi e h
          · simp only [List.mem_singleton] at h
            rw [h]
            exact heq
        obtain ⟨m, hm, hall, hheads, hfrom, hne⟩ := ih (i + 1) minVal (equi ++ [(i, p)]) hequi2
        have hscan : scanHeads w ((p :: tl) :: more) i minVal equi
            = scanHeads w more (i + 1) minVal (equi ++ [(i, p)]) := by
          simp [scanHeads, heq]
        rw [hscan]
        refine ⟨m, hm, hall, ?_, ?_, ?_⟩
        · intro j q rest h
          cases j with
          | zero =>
            simp only [List.get?_cons_zero, Option.some.injEq, List.cons.injEq] at h
            rw [← h.1, heq]
            exact hm
          | succ j => exact hheads j q rest (by simpa using h)
        · intro e he
          rcases hfrom e he with ⟨h, hmm⟩ | ⟨hi, rest, h⟩
          · rcases List.mem_append.mp h with h | h
            · exact Or.inl ⟨h, hmm⟩
            · simp only [List.mem_singleton] at h
              subst h
              exact Or.inr ⟨le_refl _, tl, by simp⟩
          · refine Or.inr ⟨by omega, rest, ?_⟩
            have : e.1 - i = (e.1 - (i + 1)) + 1 := by omega
            rw [this]
            simpa using h
        · intro _
          exact hne (Or.inl (by simp))
      · by_cases hlt : w.drivingTime p < minVal
        · have hequi2 : ∀ e ∈ [(i, p)], w.drivingTime e.2 = w.drivingTime p := by
            intro e he
            simp only [List.mem_singleton] at he
            rw [he]
          obtain ⟨m, hm, hall, hheads, hfrom, hne⟩ :=
            ih (i + 1) (w.drivingTime p) [(i, p)] hequi2
          have hscan : scanHeads w ((p :: tl) :: more) i minVal equi
              = scanHeads w more (i + 1) (w.drivingTime p) [(i, p)] := by
            simp [scanHeads, heq, hlt]
          rw [hscan]
          refine ⟨m, le_trans hm (le_of_lt hlt), hall, ?_, ?_, ?_⟩
          · intro j q rest h
            cases j with
            | zero =>
              simp only [List.get?_cons_zero, Option.some.injEq, List.cons.injEq] at h
              rw [← h.1]
              exact hm
            | succ j => exact hheads j q rest (by simpa using h)
          · intro e he
            rcases hfrom e he with ⟨h, _⟩ | ⟨hi, rest, h⟩
            · simp only [List.mem_singleton] at h
              subst h
              exact Or.inr ⟨le_refl _, tl, by simp⟩
            · refine Or.inr ⟨by omega, rest, ?_⟩
              have : e.1 - i = (e.1 - (i + 1)) + 1 := by omega
              rw [this]
              simpa using h
          · intro _
            exact hne (Or.inl (by simp))
        · obtain ⟨m, hm, hall, hheads, hfrom, hne⟩ := ih (i + 1) minVal equi hequi
          have hscan : scanHeads w ((p :: tl) :: more) i minVal equi
              = scanHeads w more (i + 1) minVal equi := by
            simp [scanHeads, heq, hlt]
          rw [hscan]
          refine ⟨m, hm, hall, ?_, ?_, ?_⟩
          · intro j q rest h
            cases j with
            | zero =>
              simp only [List.get?_cons_zero, Option.some.injEq, List.cons.injEq] at h
              rw [← h.1]
              exact le_trans hm (not_lt.mp hlt)
            | succ j => exact hheads j q rest (by simpa using h)
          · intro e he
            rcases hfrom e he with h | ⟨hi, rest, h⟩
            · exact Or.inl h
            · refine Or.inr ⟨by omega, rest, ?_⟩
              have : e.1 - i = (e.1 - (i + 1)) + 1 := by omega
              rw [this]
              simpa using h
          · intro h
            apply hne
            rcases h with h | ⟨j, q, rest, h, hq⟩
            · exact Or.inl h
            · cases j with
              | zero =>
                simp only [List.get?_cons_zero, Option.some.injEq, List.cons.injEq] at h
                rw [← h.1] at hq
                exact absurd (lt_of_le_of_ne hq heq) hlt
              | succ j => exact Or.inr ⟨j, q, rest, by simpa using h, hq⟩

/-- The driving times of the entries of `equiTimeList` after the inner loop are, in
order, among those of the entries at the start followed by those of the heads visited. -/
theorem scanHeads_sublist (w : World) :
    ∀ (more : List (List PersonId)) (i : Nat) (minVal : ℚ) (equi : List (Nat × PersonId)),
    ((scanHeads w more i minVal equi).map (fun e => w.drivingTime e.2)).Sublist
      (equi.map (fun e => w.drivingTime e.2) ++ headTimes w more) := by
  intro more
  induction more with
  | nil =>
    intro i minVal equi
    simp [scanHeads, headTimes]
  | cons first more ih =>
    intro i minVal equi
    cases first with
    | nil =>
      have h := ih (i + 1) minVal equi
      simpa [scanHeads, headTimes] using h
    | cons p tl =>
      have hhead : headTimes w ((p :: tl) :: more) = w.drivingTime p :: headTimes w more := by
        simp [headTimes]
      rw [hhead]
      by_cases heq : w.drivingTime p = minVal
      · have h := ih (i + 1) minVal (equi ++ [(i, p)])
        have hscan : scanHeads w ((p :: tl) :: more) i minVal equi
            = scanHeads w more (i + 1) minVal (equi ++ [(i, p)]) := by
          simp [scanHeads, heq]
        rw [hscan]
        simpa using h
      · by_cases hlt : w.drivingTime p < minVal
        · have h := ih (i + 1) (w.drivingTime p) [(i, p)]
          have hscan : scanHeads w ((p :: tl) :: more) i minVal equi
              = scanHeads w more (i + 1) (w.drivingTime p) [(i, p)] := by
            simp [scanHeads, heq, hlt]
          rw [hscan]
          exact h.trans (List.sublist_append_right _ _)
        · have h := ih (i + 1) minVal equi
          have hscan : scanHeads w ((p :: tl) :: more) i minVal equi
              = scanHeads w more (i + 1) minVal equi := by
            simp [scanHeads, heq, hlt]
          rw [hscan]
          exact h.trans (List.Sublist.append_left (List.sublist_cons_self _ _) _)

/-- If no two heads have the same driving time, the inner loop leaves at most one entry
in `equiTimeList`. -/
theorem scanHeads_length_le_one (w : World) (lists : List (List PersonId))
    (h : (headTimes w lists).Nodup) : (scanHeads w lists 0 MAX_DOUBLE []).length ≤ 1 := by
  obtain ⟨m, _, hall, _, _, _⟩ := scanHeads_spec w lists 0 MAX_DOUBLE [] (by simp)
  have hsub := scanHeads_sublist w lists 0 MAX_DOUBLE []
  simp only [List.map_nil, List.nil_append] at hsub
  have hnd := hsub.nodup h
  cases hs : scanHeads w lists 0 MAX_DOUBLE [] with
  | nil => simp
  | cons e1 rest =>
    cases rest with
    | nil => simp
    | cons e2 rest2 =>
      exfalso
      rw [hs] at hnd hall
      have h1 := hall e1 (by simp)
      have h2 := hall e2 (by simp)
      simp only [List.map_cons, List.nodup_cons, List.mem_cons, not_or] at hnd
      exact hnd.1.1 (h1.trans h2.symm)

/-- An entry that the inner loop leaves in `equiTimeList` is a head of least driving
time. -/
theorem scanHeads_minHeadPick (w : World) (lists : List (List PersonId)) (e : Nat × PersonId)
    (he : e ∈ scanHeads w lists 0 MAX_DOUBLE []) :
    MinHeadPick w lists e.2 (advance lists e.1) := by
  obtain ⟨m, _, hall, hheads, hfrom, _⟩ := scanHeads_spec w lists 0 MAX_DOUBLE [] (by simp)
  rcases hfrom e he with ⟨h, _⟩ | ⟨_, rest, h⟩
  · simp at h
  · refine ⟨e.1, rest, by simpa using h, rfl, ?_⟩
    intro j q rest2 hj
    rw [hall e he]
    exact hheads j q rest2 hj

/-- With finite driving times, an empty `equiTimeList` after the inner loop means that
every deque is exhausted. -/
theorem scanHeads_nil (w : World) (lists : List (List PersonId))
    (hfin : FiniteDrivingTimes w lists) (h : scanHeads w lists 0 MAX_DOUBLE [] = []) :
    ∀ l ∈ lists, l = [] := by
  obtain ⟨m, _, _, _, _, hne⟩ := scanHeads_spec w lists 0 MAX_DOUBLE [] (by simp)
  intro l hl
  cases l with
  | nil => rfl
  | cons q rest =>
    exfalso
    obtain ⟨j, hj⟩ := List.get?_of_mem hl
    exact hne (Or.inr ⟨j, q, rest, hj, hfin _ hl q (by simp)⟩) h

theorem totalPersons_advance (lists : List (List PersonId)) (i : Nat) (p : PersonId)
    (tail : List PersonId) (h : lists.get? i = some (p :: tail)) :
    totalPersons (advance lists i) + 1 = totalPersons lists := by
  induction lists generalizing i with
  | nil => simp at h
  | cons first more ih =>
    cases i with
    | zero =>
      simp only [List.get?_cons_zero, Option.some.injEq] at h
      subst h
      simp [advance, totalPersons]
      omega
    | succ i =>
      have h2 : more.get? i = some (p :: tail) := by simpa using h
      have := ih i h2
      simp only [advance, totalPersons, List.map_cons, List.sum_cons] at this ⊢
      omega

theorem finiteDrivingTimes_advance {w : World} {lists : List (List PersonId)}
    (h : FiniteDrivingTimes w lists) (i : Nat) : FiniteDrivingTimes w (advance lists i) := by
  induction lists generalizing i with
  | nil => exact h
  | cons first more ih =>
    have hmore : FiniteDrivingTimes w more := fun l hl => h l (List.mem_cons_of_mem _ hl)
    cases i with
    | zero =>
      intro l hl p hp
      simp only [advance, List.mem_cons] at hl
      rcases hl with hl | hl
      · subst hl
        exact h first (by simp) p (List.mem_of_mem_tail hp)
      · exact hmore l hl p hp
    | succ i =>
      intro l hl p hp
      simp only [advance, List.mem_cons] at hl
      rcases hl with hl | hl
      · subst hl
        exact h l (by simp) p hp
      · exact ih hmore i l hl p hp

theorem totalPersons_eq_zero (lists : List (List PersonId)) (h : ∀ l ∈ lists, l = []) :
    totalPersons lists = 0 := by
  induction lists with
  | nil => rfl
  | cons first more ih =>
    have h1 : first = [] := h first (by simp)
    have h2 := ih (fun l hl => h l (List.mem_cons_of_mem _ hl))
    simp only [totalPersons, List.map_cons, List.sum_cons] at h2 ⊢
    rw [h1, h2]
    rfl

theorem appendLeftovers_eq (merged : List PersonId) (iterators : List (List PersonId)) :
    appendLeftovers merged iterators = merged ++ iterators.flatten := by
  unfold appendLeftovers
  induction iterators generalizing merged with
  | nil => simp
  | cons first more ih =>
    simp only [List.foldl_cons, List.flatten_cons]
    by_cases hf : first = []
    · subst hf
      rw [if_neg (not_not.mpr rfl), ih]
      simp
    · rw [if_pos hf, ih]
      simp

theorem flatten_eq_nil_of_totalPersons (lists : List (List PersonId))
    (h : totalPersons lists = 0) : lists.flatten = [] := by
  induction lists with
  | nil => rfl
  | cons first more ih =>
    simp only [totalPersons, List.map_cons, List.sum_cons] at h
    have h1 : first = [] := List.length_eq_zero.mp (by omega)
    have h2 : totalPersons more = 0 := by
      simp only [totalPersons]
      omega
    simp [h1, ih h2]

/-! ### The merge across links: the loop "pick the Top C" -/

theorem pickTopC_step (w : World) (rand : Nat → Nat) (n : Nat) (lists : List (List PersonId))
    (merged : List PersonId) (k : Nat) (e : Nat × PersonId) (rest : List (Nat × PersonId))
    (hscan : scanHeads w lists 0 MAX_DOUBLE [] = e :: rest) :
    ∃ c k', c ∈ e :: rest ∧ k ≤ k' ∧
      pickTopC w rand (n + 1) lists merged k
        = pickTopC w rand n (advance lists c.1) (merged ++ [c.2]) k' := by
  cases rest with
  | nil =>
    refine ⟨e, k, by simp, le_refl _, ?_⟩
    simp only [pickTopC, hscan]
  | cons e2 others =>
    refine ⟨(e :: e2 :: others).getD (rand k % (e :: e2 :: others).length) e, k + 1, ?_,
      Nat.le_succ _, ?_⟩
    · have hlt : rand k % (e :: e2 :: others).length < (e :: e2 :: others).length :=
        Nat.mod_lt _ (by simp)
      rw [List.getD_eq_getElem _ _ hlt]
      exact List.getElem_mem _
    · simp only [pickTopC, hscan]

/-- The loop "pick the Top C" takes, pass after pass, a head of least driving time, as
many times as it has passes to make or persons to take, whichever is less; if it returns
from within, no person is left. -/
theorem pickTopC_spec (w : World) (rand : Nat → Nat) :
    ∀ (n : Nat) (lists : List (List PersonId)) (merged : List PersonId) (k : Nat),
    FiniteDrivingTimes w lists →
    ∃ picked lists', MinHeadPicks w lists picked lists' ∧
      picked.length = min n (totalPersons lists) ∧
      (pickTopC w rand n lists merged k).mergedPersonDeque = merged ++ picked ∧
      (pickTopC w rand n lists merged k).iterators = lists' ∧
      ((pickTopC w rand n lists merged k).returned = true → totalPersons lists' = 0) := by
  intro n
  induction n with
  | zero =>
    intro lists merged k _
    exact ⟨[], lists, MinHeadPicks.done lists, by simp, by simp [pickTopC], rfl,
      by simp [pickTopC]⟩
  | succ n ih =>
    intro lists merged k hfin
    cases hscan : scanHeads w lists 0 MAX_DOUBLE [] with
    | nil =>
      have hzero := totalPersons_eq_zero lists (scanHeads_nil w lists hfin hscan)
      refine ⟨[], lists, MinHeadPicks.done lists, by simp [hzero], ?_, ?_, ?_⟩
      · simp only [pickTopC, hscan, List.append_nil]
      · simp only [pickTopC, hscan]
      · intro _
        exact hzero
    | cons e rest =>
      obtain ⟨c, k', hc, _, hstep⟩ := pickTopC_step w rand n lists merged k e rest hscan
      rw [← hscan] at hc
      obtain ⟨picked, lists', hpicks, hlen, hmerged, hiter, hret⟩ :=
        ih (advance lists c.1) (merged ++ [c.2]) k' (finiteDrivingTimes_advance hfin c.1)
      have htotal : totalPersons (advance lists c.1) + 1 = totalPersons lists := by
        obtain ⟨m, _, _, _, hfrom, _⟩ := scanHeads_spec w lists 0 MAX_DOUBLE [] (by simp)
        rcases hfrom c hc with ⟨h, _⟩ | ⟨_, rest2, h⟩
        · simp at h
        · exact totalPersons_advance lists c.1 c.2 rest2 (by simpa using h)
      refine ⟨c.2 :: picked, lists', MinHeadPicks.pick lists _ lists' c.2 picked
        (scanHeads_minHeadPick w lists c hc) hpicks, ?_, ?_, ?_, ?_⟩
      · simp only [List.length_cons, hlen]
        omega
      · rw [hstep, hmerged]
        simp
      · rw [hstep, hiter]
      · rw [hstep]
        exact hret

/-- Calls of `rand()` are only ever added to the count. -/
theorem pickTopC_draws_ge (w : World) (rand : Nat → Nat) :
    ∀ (n : Nat) (lists : List (List PersonId)) (merged : List PersonId) (k : Nat),
    k ≤ (pickTopC w rand n lists merged k).draws := by
  intro n
  induction n with
  | zero =>
    intro lists merged k
    simp [pickTopC]
  | succ n ih =>
    intro lists merged k
    cases hscan : scanHeads w lists 0 MAX_DOUBLE [] with
    | nil => simp [pickTopC, hscan]
    | cons e rest =>
      obtain ⟨c, k', _, hk, hstep⟩ := pickTopC_step w rand n lists merged k e rest hscan
      rw [hstep]
      exact le_trans hk (ih _ _ _)

/-- Without two heads of equal driving time in any pass, the loop "pick the Top C" never
calls `rand()`, and what it does is the same for every random sequence. -/
theorem pickTopC_noEqualHeads (w : World) :
    ∀ (n : Nat) (lists : List (List PersonId)) (merged : List PersonId),
    NoEqualHeadsEver w n lists →
    ∃ out lists' r, ∀ (rand : Nat → Nat) (k : Nat),
      pickTopC w rand n lists merged k
        = { mergedPersonDeque := out, iterators := lists', draws := k, returned := r } := by
  intro n
  induction n with
  | zero =>
    intro lists merged _
    exact ⟨merged, lists, false, fun _ _ => rfl⟩
  | succ n ih =>
    intro lists merged h
    obtain ⟨hnd, hrest⟩ := h
    have hlen := scanHeads_length_le_one w lists hnd
    cases hscan : scanHeads w lists 0 MAX_DOUBLE [] with
    | nil =>
      refine ⟨merged, lists, true, fun rand k => ?_⟩
      simp only [pickTopC, hscan]
    | cons e rest =>
      cases rest with
      | nil =>
        rw [hscan] at hrest
        obtain ⟨out, lists', r, hall⟩ := ih (advance lists e.1) (merged ++ [e.2]) hrest
        refine ⟨out, lists', r, fun rand k => ?_⟩
        simp only [pickTopC, hscan]
        exact hall rand k
      | cons e2 others =>
        rw [hscan] at hlen
        simp at hlen

/-- The loop "pick the Top C" reads the random sequence only at the calls it makes: two
sequences that agree on these calls give the same run. -/
theorem pickTopC_congr (w : World) (rand1 rand2 : Nat → Nat) :
    ∀ (n : Nat) (lists : List (List PersonId)) (merged : List PersonId) (k : Nat),
    (∀ j, k ≤ j → j < (pickTopC w rand1 n lists merged k).draws → rand1 j = rand2 j) →
    pickTopC w rand2 n lists merged k = pickTopC w rand1 n lists merged k := by
  intro n
  induction n with
  | zero =>
    intro lists merged k _
    rfl
  | succ n ih =>
    intro lists merged k h
    cases hscan : scanHeads w lists 0 MAX_DOUBLE [] with
    | nil => simp only [pickTopC, hscan]
    | cons e rest =>
      cases rest with
      | nil =>
        have h1 : pickTopC w rand1 (n + 1) lists merged k
            = pickTopC w rand1 n (advance lists e.1) (merged ++ [e.2]) k := by
          simp only [pickTopC, hscan]
        have h2 : pickTopC w rand2 (n + 1) lists merged k
            = pickTopC w rand2 n (advance lists e.1) (merged ++ [e.2]) k := by
          simp only [pickTopC, hscan]
        rw [h1] at h
        rw [h1, h2]
        exact ih _ _ _ h
      | cons e2 others =>
        have h1 : pickTopC w rand1 (n + 1) lists merged k
            = pickTopC w rand1 n
                (advance lists ((e :: e2 :: others).getD
                  (rand1 k % (e :: e2 :: others).length) e).1)
                (merged ++ [((e :: e2 :: others).getD
                  (rand1 k % (e :: e2 :: others).length) e).2]) (k + 1) := by
          simp only [pickTopC, hscan]
        have h2 : pickTopC w rand2 (n + 1) lists merged k
            = pickTopC w rand2 n
                (advance lists ((e :: e2 :: others).getD
                  (rand2 k % (e :: e2 :: others).length) e).1)
                (merged ++ [((e :: e2 :: others).getD
                  (rand2 k % (e :: e2 :: others).length) e).2]) (k + 1) := by
          simp only [pickTopC, hscan]
        rw [h1] at h
        have hk : rand1 k = rand2 k :=
          h k (le_refl _) (lt_of_lt_of_le (Nat.lt_succ_self k) (pickTopC_draws_ge w rand1 _ _ _ _))
        rw [h1, h2, ← hk]
        exact ih _ _ _ (fun j hj hlt => h j (by omega) hlt)

theorem MAX_DOUBLE_eq : MAX_DOUBLE = (2 ^ 53 - 1) * 2 ^ 971 := by
  unfold MAX_DOUBLE
  norm_num

theorem topCPasses_of_nonneg (capacity : Int) (h0 : 0 ≤ capacity) (h1 : capacity < 2 ^ 31) :
    topCPasses capacity = capacity.toNat := by
  unfold topCPasses
  rw [Int.emod_eq_of_lt h0 (by omega)]

theorem advance_suffix (lists : List (List PersonId)) (i : Nat) :
    List.Forall₂ (fun rest l => rest <:+ l) (advance lists i) lists := by
  induction lists generalizing i with
  | nil => exact List.Forall₂.nil
  | cons first more ih =>
    have hrefl : List.Forall₂ (fun rest l : List PersonId => rest <:+ l) more more := by
      clear ih
      induction more with
      | nil => exact List.Forall₂.nil
      | cons a b ihb => exact List.Forall₂.cons (List.suffix_refl a) ihb
    cases i with
    | zero => exact List.Forall₂.cons (List.tail_suffix first) hrefl
    | succ i => exact List.Forall₂.cons (List.suffix_refl first) (ih i)

theorem suffixes_refl (lists : List (List PersonId)) :
    List.Forall₂ (fun rest l => rest <:+ l) lists lists := by
  induction lists with
  | nil => exact List.Forall₂.nil
  | cons a b ihb => exact List.Forall₂.cons (List.suffix_refl a) ihb

theorem suffixes_trans {a b c : List (List PersonId)}
    (h1 : List.Forall₂ (fun rest l => rest <:+ l) a b)
    (h2 : List.Forall₂ (fun rest l => rest <:+ l) b c) :
    List.Forall₂ (fun rest l => rest <:+ l) a c := by
  induction h1 generalizing c with
  | nil =>
    cases h2
    exact List.Forall₂.nil
  | cons hab _ ih =>
    cases h2 with
    | cons hbc hrest => exact List.Forall₂.cons (hab.trans hbc) (ih hrest)

/-- What is left of the deques after some picks is, deque by deque, a tail of the deque. -/
theorem MinHeadPicks.suffix {w : World} {lists lists' : List (List PersonId)}
    {picked : List PersonId} (h : MinHeadPicks w lists picked lists') :
    List.Forall₂ (fun rest l => rest <:+ l) lists' lists := by
  induction h with
  | done lists => exact suffixes_refl lists
  | pick lists lists1 lists2 p ps hpick _ ih =>
    obtain ⟨i, tail, _, hadv, _⟩ := hpick
    have h1 := advance_suffix lists i
    rw [← hadv] at h1
    exact suffixes_trans ih h1

theorem SegmentStats.setPosition_getPersons {ss ss' : SegmentStats} {d : ℚ} {l : LaneId}
    (h : ss.setPositionOfLastUpdatedAgentInLane d l = .ok ss') (ln : LaneId) :
    ss'.getPersons ln = ss.getPersons ln := by
  unfold SegmentStats.setPositionOfLastUpdatedAgentInLane at h
  cases hst : mapAt ss.laneStatsMap l with
  | none => rw [hst] at h; simp at h
  | some st =>
    rw [hst] at h
    simp only [Except.ok.injEq] at h
    subst h
    by_cases hl : ln = l
    · subst hl
      rw [SegmentStats.getPersons_setLaneStats_self _ _ _ _ hst]
      simp [SegmentStats.getPersons, hst]
    · exact SegmentStats.getPersons_setLaneStats_other _ _ _ _ hl

/-- The recording of the trailing edge changes no deque of a lane. -/
theorem housekeepTrailingEdge_laneAgents (w : World) (a : PersonProps) (p : PersonId)
    (s : SegStatsId) (ln : LaneId) :
    (housekeepTrailingEdge w a p).2.laneAgents s ln = w.laneAgents s ln :=
  housekeepTrailingEdge_preserves
    (fun v v' => v'.laneAgents s ln = v.laneAgents s ln) (fun _ => rfl)
    (fun v t d l => by
      rcases hres : v.onSegStats t
        (fun ss => ss.setPositionOfLastUpdatedAgentInLane d l) with ⟨r, v'⟩
      cases r with
      | error f => rw [World.onSegStats_error hres]
      | ok u2 =>
        obtain ⟨sid2, ss, _, hf, hv⟩ := World.onSegStats_ok hres
        subst hv
        by_cases hs2 : s = sid2
        · subst hs2
          simp [World.laneAgents, SegmentStats.setPosition_getPersons hf]
        · simp [World.laneAgents, World.modifySegStats_segStats_other _ _ _ _ hs2])
    w a p

/-- A person that walked before the update and is placed in a lane by the on-road stage
of `housekeep` stays in `pedestrianList`: no statement of `housekeep` takes it out of
that list unless its role after the update is `RL_ACTIVITY`. -/
theorem housekeep_keeps_pedestrianList (w : World) (cfx : ConfluxId) (b a : PersonProps)
    (p : PersonId) (hb : b.roleType = .RL_PEDESTRIAN) (ha : a.roleType ≠ .RL_ACTIVITY) :
    ((housekeep w cfx b a p).2.conflux cfx).pedestrianList = (w.conflux cfx).pedestrianList := by
  rw [(housekeep_sameLists_after_exit w cfx b a p ha cfx).2.1]
  have hna : b.roleType ≠ .RL_ACTIVITY := by
    rw [hb]
    decide
  simp [housekeepActivityExit, hna]

/-- A person that walked before the update, in no lane, and that has an on-road role and
a lane after the update is added to the deque of that lane by `housekeep`, and is still
in `pedestrianList` if it was: it is in two containers. -/
theorem housekeep_pedestrian_to_lane (w w' : World) (cfx : ConfluxId) (b a : PersonProps)
    (p : PersonId) (s : SegStatsId) (ln : LaneId)
    (hb : b.roleType = .RL_PEDESTRIAN) (hroad : reachesOnRoadPlacement b a = true)
    (hbl : b.lane = none) (hal : a.lane = some ln) (has : a.segStats = some s)
    (hmem : p ∈ (w.conflux cfx).pedestrianList)
    (hk : housekeep w cfx b a p = (.ok (), w')) :
    p ∈ (w'.conflux cfx).pedestrianList ∧ p ∈ w'.laneAgents s ln := by
  have hna : a.roleType ≠ .RL_ACTIVITY := by
    intro h
    simp [reachesOnRoadPlacement, h] at hroad
  have hnb : b.roleType ≠ .RL_ACTIVITY := by
    rw [hb]
    decide
  constructor
  · have h := housekeep_keeps_pedestrianList w cfx b a p hb hna
    rw [hk] at h
    rw [h]
    exact hmem
  · have hk2 := housekeep_of_reaches w cfx b a p hroad
    rw [afterActivityExit_of_not_activity w cfx b a p hnb] at hk2
    have hroadEq : housekeepOnRoad w b a p = w.addAgent a.segStats ln p := by
      unfold housekeepOnRoad
      rw [hbl, hal]
    rw [hroadEq] at hk2
    rcases hadd : w.addAgent a.segStats ln p with ⟨res, w3⟩
    rw [hadd] at hk2
    cases res with
    | error f =>
      rw [hk] at hk2
      simp at hk2
    | ok u =>
      dsimp only at hk2
      obtain ⟨sid, hsid, honly⟩ := World.addAgent_onlyLane hadd
      rw [has] at hsid
      simp only [Option.some.injEq] at hsid
      subst hsid
      have hmem3 : p ∈ w3.laneAgents s ln := by
        rw [honly.1]
        simp
      have htrail := housekeepTrailingEdge_laneAgents w3 a p s ln
      rw [← hk2, hk] at htrail
      rw [htrail]
      exact hmem3

/-- The reset of the remaining time of one person writes to that person only. -/
theorem resetRemTime_arenas (cfx : ConfluxId) (w : World) (p : PersonId) :
    (resetRemTime cfx w p).segStats = w.segStats ∧ (resetRemTime cfx w p).conflux = w.conflux ∧
    (resetRemTime cfx w p).roadSegment = w.roadSegment ∧ (resetRemTime cfx w p).link = w.link ∧
    (resetRemTime cfx w p).trace = w.trace := by
  unfold resetRemTime
  split <;> simp [World.modifyPerson]

/-- The person `q` after the reset of the remaining time of `p`. -/
theorem resetRemTime_person (cfx : ConfluxId) (w : World) (p q : PersonId) :
    (resetRemTime cfx w p).person q =
      if q = p ∧ (w.person q).lastUpdatedFrame < ((w.conflux cfx).currFrame : Int) then
        { w.person q with remainingTimeThisTick := (w.conflux cfx).tickTimeInS }
      else w.person q := by
  unfold resetRemTime
  by_cases hq : q = p
  · subst hq
    by_cases hl : (w.person q).lastUpdatedFrame < ((w.conflux cfx).currFrame : Int)
    · simp [hl, World.modifyPerson]
    · simp [hl]
  · by_cases hl : (w.person p).lastUpdatedFrame < ((w.conflux cfx).currFrame : Int)
    · simp [hl, hq, World.modifyPerson, Function.update_noteq hq]
    · simp [hl, hq]

/-- The resets of the remaining times of a list of persons, one after the other. -/
theorem foldl_resetRemTime (cfx : ConfluxId) (persons : List PersonId) (w : World) :
    (persons.foldl (resetRemTime cfx) w).segStats = w.segStats ∧
    (persons.foldl (resetRemTime cfx) w).conflux = w.conflux ∧
    (persons.foldl (resetRemTime cfx) w).roadSegment = w.roadSegment ∧
    (persons.foldl (resetRemTime cfx) w).link = w.link ∧
    (persons.foldl (resetRemTime cfx) w).trace = w.trace ∧
    ∀ q, (persons.foldl (resetRemTime cfx) w).person q =
      if q ∈ persons ∧ (w.person q).lastUpdatedFrame < ((w.conflux cfx).currFrame : Int) then
        { w.person q with remainingTimeThisTick := (w.conflux cfx).tickTimeInS }
      else w.person q := by
  induction persons generalizing w with
  | nil => simp
  | cons p rest ih =>
    obtain ⟨h1, h2, h3, h4, h5, h6⟩ := ih (resetRemTime cfx w p)
    obtain ⟨a1, a2, a3, a4, a5⟩ := resetRemTime_arenas cfx w p
    rw [List.foldl_cons]
    refine ⟨h1.trans a1, h2.trans a2, h3.trans a3, h4.trans a4, h5.trans a5, ?_⟩
    intro q
    rw [h6 q, a2, resetRemTime_person]
    by_cases hq : q = p
    · subst hq
      by_cases hl : (w.person q).lastUpdatedFrame < ((w.conflux cfx).currFrame : Int)
      · simp [hl]
      · simp [hl]
    · by_cases hl : (w.person q).lastUpdatedFrame < ((w.conflux cfx).currFrame : Int)
      · simp [hl, hq]
      · simp [hl, hq]

/-- The persons that `resetPersonRemTimes` walks over are those in its scope. -/
theorem mem_resetScope (cfx : ConfluxId) (w : World) (q : PersonId) :
    q ∈ (w.conflux cfx).allSegStats.flatMap
          (fun s => (w.segStats s).getPersons (w.segStats s).laneInfinity) ++
        (w.conflux cfx).virtualQueuesMap.flatMap (fun e => e.2) ↔ InResetScope cfx w q := by
  simp only [List.mem_append, List.mem_flatMap, InResetScope]
/-- `updateAgent` from the world in which it calls `movePerson`. -/
theorem updateAgent_eq (col : Collaborators) (fuel : Nat) (cfx : ConfluxId) (p : PersonId)
    (w : World) :
    updateAgent col fuel cfx p w =
      match PersonProps.capture (enterUpdate cfx p w) p cfx with
      | .error f => (.error f, enterUpdate cfx p w)
      | .ok beforeUpdate =>
        match movePerson col fuel cfx ((enterUpdate cfx p w).conflux cfx).currFrame p
            (enterUpdate cfx p w) with
        | (.error f, w3) => (.error f, w3)
        | (.ok .RS_DONE, w3) => col.killAgent w3 cfx p beforeUpdate
        | (.ok .RS_CONTINUE, w3) =>
          match PersonProps.capture w3 p cfx with
          | .error f => (.error f, w3)
          | .ok afterUpdate =>
            match housekeep w3 cfx beforeUpdate afterUpdate p with
            | (.error f, w4) => (.error f, w4)
            | (.ok _, w4) => (.ok (), updateAgentContext w4 beforeUpdate afterUpdate p) := rfl

/-- The start of `updateAgent` writes to the person only. -/
theorem enterUpdate_arenas (cfx : ConfluxId) (p : PersonId) (w : World) :
    (enterUpdate cfx p w).segStats = w.segStats ∧ (enterUpdate cfx p w).conflux = w.conflux ∧
    (enterUpdate cfx p w).roadSegment = w.roadSegment ∧ (enterUpdate cfx p w).link = w.link ∧
    (enterUpdate cfx p w).trace = w.trace := by
  unfold enterUpdate
  split <;> simp [World.modifyPerson]

/-- The person at the start of `updateAgent`: the remaining time and the provider apart,
it is as it was. -/
theorem enterUpdate_person (cfx : ConfluxId) (p : PersonId) (w : World) :
    (enterUpdate cfx p w).person p =
      { w.person p with
        remainingTimeThisTick :=
          if (w.person p).lastUpdatedFrame < ((w.conflux cfx).currFrame : Int) then
            (w.conflux cfx).tickTimeInS
          else (w.person p).remainingTimeThisTick
        currWorkerProvider := (w.conflux cfx).parentWorker } := by
  unfold enterUpdate
  split <;> simp [World.modifyPerson]

/-- The log after a call on a collaborator. -/
theorem callOut_trace {α : Type} (w : World) (e : Event) (f : World → Except Fault α × World) :
    (callOut w e f).2.trace = w.trace ++ [e] := rfl

/-- The log after the registration of the person. -/
theorem registerIfRequired_trace (w : World) (p : PersonId) :
    ∀ e ∈ (registerIfRequired w p).trace, e ∈ w.trace ∨ e = Event.registerPerson p := by
  intro e he
  unfold registerIfRequired at he
  split at he
  · exact Or.inl he
  · simpa [World.record, World.modifyPerson] using he

/-- The log after the check of the trip chain of a person without a role. -/
theorem checkTripChainIfNoRole_trace (ext : TripCollaborators) (nowMs : Nat) (w : World)
    (p : PersonId) :
    ∀ e ∈ (checkTripChainIfNoRole ext nowMs w p).2.trace,
      e ∈ w.trace ∨ e = Event.checkTripChain p := by
  intro e he
  unfold checkTripChainIfNoRole at he
  split at he
  · exact Or.inl he
  · have ht := callOut_trace w (.checkTripChain p) (fun v => ext.checkTripChain v p)
    rcases hc : callOut w (.checkTripChain p) (fun v => ext.checkTripChain v p) with ⟨r, v⟩
    rw [hc] at he ht
    cases r <;> simp only [World.modifyPerson] at he ht <;> rw [ht] at he <;>
      simpa using he

/-- The log after the initialisation of the role. -/
theorem initialiseRole_trace (col : Collaborators) (ext : TripCollaborators) (w : World)
    (now : Nat) (p : PersonId) :
    ∀ e ∈ (initialiseRole col ext w now p).2.trace,
      e ∈ w.trace ∨ e = Event.makeFrameTickParams p ∨ e = Event.frameInit p := by
  intro e he
  unfold initialiseRole at he
  split at he
  · exact Or.inl he
  · have ht := callOut_trace w (.makeFrameTickParams p)
      (fun v => col.make_frame_tick_params v now p)
    rcases hc : callOut w (.makeFrameTickParams p)
      (fun v => col.make_frame_tick_params v now p) with ⟨r, v⟩
    rw [hc] at he ht
    have hv : ∀ e ∈ v.trace, e ∈ w.trace ∨ e = Event.makeFrameTickParams p := by
      intro e he
      simp only at ht
      rw [ht] at he
      simpa using he
    cases r
    · rcases hv e he with h | h
      · exact Or.inl h
      · exact Or.inr (Or.inl h)
    · dsimp only at he
      split at he
      · rcases hv e he with h | h
        · exact Or.inl h
        · exact Or.inr (Or.inl h)
      · have ht2 := callOut_trace v (.frameInit p) (fun u => ext.frame_init u p)
        rcases hc2 : callOut v (.frameInit p) (fun u => ext.frame_init u p) with ⟨r2, v2⟩
        rw [hc2] at he ht2
        have hv2 : e ∈ v2.trace → e ∈ w.trace ∨ e = Event.makeFrameTickParams p ∨
            e = Event.frameInit p := by
          intro h2
          simp only at ht2
          rw [ht2] at h2
          rcases List.mem_append.mp h2 with h3 | h3
          · rcases hv e h3 with h | h
            · exact Or.inl h
            · exact Or.inr (Or.inl h)
          · exact Or.inr (Or.inr (by simpa using h3))
        cases r2
        · exact hv2 he
        · dsimp only at he
          split at he <;> exact hv2 he

/-- The calls that `callMovementFrameInit` makes for the person: the registration as a
handler, the check of the trip chain, the parameters of the frame tick and the frame
initialisation, and no other. -/
theorem callMovementFrameInit_trace (col : Collaborators) (ext : TripCollaborators)
    (nowMs : Nat) (w : World) (now : Nat) (p : PersonId) :
    ∀ e ∈ (callMovementFrameInit col ext nowMs w now p).2.trace, e ∈ w.trace ∨
      e ∈ [Event.registerPerson p, Event.checkTripChain p,
        Event.makeFrameTickParams p, Event.frameInit p] := by
  intro e he
  have h1 := registerIfRequired_trace w p
  have h2 := checkTripChainIfNoRole_trace ext nowMs (registerIfRequired w p) p
  have h12 : ∀ e ∈ (checkTripChainIfNoRole ext nowMs (registerIfRequired w p) p).2.trace,
      e ∈ w.trace ∨ e ∈ [Event.registerPerson p, Event.checkTripChain p,
        Event.makeFrameTickParams p, Event.frameInit p] := by
    intro e he
    rcases h2 e he with h | h
    · rcases h1 e h with h | h
      · exact Or.inl h
      · exact Or.inr (by simp [h])
    · exact Or.inr (by simp [h])
  unfold callMovementFrameInit at he
  rcases hc : checkTripChainIfNoRole ext nowMs (registerIfRequired w p) p with ⟨r, v⟩
  rw [hc] at he h12
  cases r with
  | error f => exact h12 e he
  | ok b =>
    cases b
    · exact h12 e he
    · dsimp only at he
      rcases initialiseRole_trace col ext v now p e he with h | h | h
      · exact h12 e h
      · exact Or.inr (by simp [h])
      · exact Or.inr (by simp [h])

/-- When `callMovementFrameInit` answers `false`: the person had no role and its trip
chain is done, or the frame initialisation of the role has run and the person is to be
removed. -/
theorem callMovementFrameInit_false (col : Collaborators) (ext : TripCollaborators)
    (nowMs : Nat) (w w' : World) (now : Nat) (p : PersonId)
    (h : callMovementFrameInit col ext nowMs w now p = (.ok false, w')) :
    (∃ u v, (u.person p).role = none ∧
      callOut u (.checkTripChain p) (fun x => ext.checkTripChain x p) = (.ok .RS_DONE, v) ∧
      w' = v.modifyPerson p (fun x => { x with startTime := nowMs })) ∨
    (∃ u, callOut u (.frameInit p) (fun x => ext.frame_init x p) = (.ok (), w') ∧
      (w'.person p).toBeRemoved = true) := by
  unfold callMovementFrameInit at h
  rcases hc : checkTripChainIfNoRole ext nowMs (registerIfRequired w p) p with ⟨r, v⟩
  rw [hc] at h
  cases r with
  | error f => simp at h
  | ok b =>
    cases b
    · left
      simp only [Prod.mk.injEq, true_and] at h
      subst h
      unfold checkTripChainIfNoRole at hc
      split at hc
      · simp at hc
      · rename_i hrole
        rcases hk : callOut (registerIfRequired w p) (.checkTripChain p)
          (fun x => ext.checkTripChain x p) with ⟨r, u⟩
        rw [hk] at hc
        cases r with
        | error f => simp at hc
        | ok res =>
          simp only [Prod.mk.injEq, Except.ok.injEq, decide_eq_false_iff_not, not_not] at hc
          refine ⟨registerIfRequired w p, u, hrole, ?_, hc.2.symm⟩
          rw [hk, hc.1]
    · right
      dsimp only at h
      unfold initialiseRole at h
      split at h
      · simp at h
      · rcases hk : callOut v (.makeFrameTickParams p)
          (fun x => col.make_frame_tick_params x now p) with ⟨r, u⟩
        rw [hk] at h
        cases r with
        | error f => simp at h
        | ok _ =>
          dsimp only at h
          split at h
          · simp at h
          · rcases hk2 : callOut u (.frameInit p) (fun x => ext.frame_init x p) with ⟨r2, u2⟩
            rw [hk2] at h
            cases r2 with
            | error f => simp at h
            | ok _ =>
              dsimp only at h
              split at h
              · rename_i hrem
                simp only [Prod.mk.injEq, true_and] at h
                subst h
                exact ⟨u, hk2, hrem⟩
              · simp at h

/-- The log after the end of `killAgent`: the removal of the person from its worker. -/
theorem terminate_trace (w : World) (cfx : ConfluxId) (p : PersonId) :
    ∀ e ∈ (terminate w cfx p).2.trace, e ∈ w.trace ∨
      ∃ worker, e = Event.remEntity worker p ∨ e = Event.scheduleForRemoval worker p := by
  intro e he
  unfold terminate at he
  dsimp only at he
  split at he
  · exact Or.inl (by simpa [World.modifyPerson] using he)
  · rename_i worker _
    simp only [World.record, World.modifyPerson, List.mem_append, List.mem_singleton] at he
    rcases he with (h | h) | h
    · exact Or.inl h
    · exact Or.inr ⟨worker, Or.inl h⟩
    · exact Or.inr ⟨worker, Or.inr h⟩

/-- The removal from a lane makes no call on a collaborator. -/
theorem killFromLane_trace (w : World) (b : PersonProps) (ln : LaneId) (p : PersonId)
    (tolerated : Bool) : (killFromLane w b ln p tolerated).2.trace = w.trace := by
  have hr : (w.removeAgent b.segStats ln p b.isQueuing).2.trace = w.trace := by
    unfold World.removeAgent
    split
    · rfl
    · split
      · rfl
      · rfl
  unfold killFromLane
  rcases hk : w.removeAgent b.segStats ln p b.isQueuing with ⟨r, v⟩
  rw [hk] at hr
  cases r with
  | error f => exact hr
  | ok removed =>
    dsimp only
    split <;> exact hr

/-- The calls that `killAgent` makes: the removal of the person from its worker, and no
other. -/
theorem killAgent_trace (w : World) (cfx : ConfluxId) (p : PersonId) (b : PersonProps) :
    ∀ e ∈ (killAgent w cfx p b).2.trace, e ∈ w.trace ∨
      ∃ worker, e = Event.remEntity worker p ∨ e = Event.scheduleForRemoval worker p := by
  intro e he
  have hlane : ∀ tolerated ln,
      e ∈ (match killFromLane w b ln p tolerated with
        | (.error f, w1) => ((.error f : Except Fault Unit), w1)
        | (.ok _, w1) => terminate w1 cfx p).2.trace → e ∈ w.trace ∨
      ∃ worker, e = Event.remEntity worker p ∨ e = Event.scheduleForRemoval worker p := by
    intro tolerated ln h
    have ht := killFromLane_trace w b ln p tolerated
    rcases hk : killFromLane w b ln p tolerated with ⟨r, v⟩
    rw [hk] at h ht
    cases r with
    | error f => exact Or.inl (ht ▸ h)
    | ok _ =>
      rcases terminate_trace v cfx p e h with h1 | h1
      · exact Or.inl (ht ▸ h1)
      · exact Or.inr h1
  have hterm : ∀ v : World, v.trace = w.trace → e ∈ (terminate v cfx p).2.trace → e ∈ w.trace ∨
      ∃ worker, e = Event.remEntity worker p ∨ e = Event.scheduleForRemoval worker p := by
    intro v hv h
    rcases terminate_trace v cfx p e h with h1 | h1
    · exact Or.inl (hv ▸ h1)
    · exact Or.inr h1
  unfold killAgent at he
  dsimp only at he
  split at he
  · exact hterm _ (by rfl) he
  · split at he
    · exact Or.inl he
    · exact hterm _ (by rfl) he
  · split at he
    · exact hterm _ (by rfl) he
    · split at he
      · exact hlane _ _ he
      · exact hterm _ (by rfl) he
  · split at he
    · exact hlane _ _ he
    · exact hterm _ (by rfl) he

/-- A person that walks before and after its update: `housekeep` returns with the world
as it is. -/
theorem housekeep_pedestrian_stable (w : World) (cfx : ConfluxId) (b a : PersonProps)
    (p : PersonId) (hb : b.roleType = .RL_PEDESTRIAN) (ha : a.roleType = .RL_PEDESTRIAN) :
    housekeep w cfx b a p = (.ok (), w) := by
  simp [housekeep, housekeepActivityExit, housekeepRole, hb, ha]

/-- A person that is at most once in a list is not in the list after its erasure. -/
theorem not_mem_erase_of_count_le_one (l : List PersonId) (p : PersonId)
    (h : l.count p ≤ 1) : p ∉ l.erase p := by
  rw [← List.count_eq_zero, List.count_erase_self]
  omega

/-- The hand-off of a pedestrian to the conflux of the next link (lines 1120 to 1132). -/
theorem nextLinkStage_handoff (cfx : ConfluxId) (p : PersonId) (w : World) (l : LinkId)
    (seg : SegmentId) (rest : List SegmentId)
    (hnext : (w.person p).nextLinkRequired = some l)
    (hseg : (w.link l).segments = seg :: rest) :
    ∃ w', nextLinkStage cfx p w = (.ok (some .RS_CONTINUE), w') ∧
      w'.trace = w.trace ++
        [Event.postPedestrianTransferRequest (w.roadSegment seg).parentConflux p] ∧
      (w'.person p).nextLinkRequired = none ∧
      (w'.person p).remainingTimeThisTick = (w.person p).remainingTimeThisTick ∧
      (w'.conflux cfx).pedestrianList = (w.conflux cfx).pedestrianList.erase p := by
  unfold nextLinkStage
  rw [hnext]
  dsimp only
  rw [hseg]
  dsimp only
  split
  · refine ⟨_, rfl, ?_, ?_, ?_, ?_⟩
    · simp [World.modifyPerson, World.modifyConflux, World.record]
    · simp [World.modifyPerson, World.modifyConflux, World.record]
    · simp [World.modifyPerson, World.modifyConflux, World.record]
    · simp [World.modifyPerson, World.modifyConflux, World.record]
  · rename_i hmem
    refine ⟨_, rfl, ?_, ?_, ?_, ?_⟩
    · simp [World.modifyPerson, World.record]
    · simp [World.modifyPerson, World.record]
    · simp [World.modifyPerson, World.record]
    · have hm : p ∉ (w.conflux cfx).pedestrianList := by
        simpa [World.modifyPerson, World.record] using hmem
      simp [World.modifyPerson, World.record, List.erase_of_not_mem hm]

/-- A pass of the loop of `callMovementFrameTick` in which the frame tick of the role
asks for the next link: the person is handed off and the loop is left with
`RS_CONTINUE`. -/
theorem tickLoop_handoff (col : Collaborators) (cfx : ConfluxId) (now : Nat) (p : PersonId)
    (fuel : Nat) (retVal : UpdateStatus) (w v : World) (l : LinkId) (seg : SegmentId)
    (rest : List SegmentId)
    (hpos : 0 < (w.person p).remainingTimeThisTick)
    (hkeep : (w.person p).toBeRemoved = false)
    (hft : col.frame_tick w p = (.ok (), v))
    (hstay : (v.person p).toBeRemoved = false)
    (hnext : (v.person p).nextLinkRequired = some l)
    (hseg : (v.link l).segments = seg :: rest) :
    ∃ w', tickLoop col cfx now p (fuel + 1) retVal w = (.ok .RS_CONTINUE, w') ∧
      w'.trace = w.trace ++ [Event.frameTick p,
        Event.postPedestrianTransferRequest (v.roadSegment seg).parentConflux p] ∧
      (w'.person p).nextLinkRequired = none ∧
      (w'.person p).remainingTimeThisTick = (v.person p).remainingTimeThisTick ∧
      (w'.conflux cfx).pedestrianList = (v.conflux cfx).pedestrianList.erase p := by
  have hstage : frameTickStage col p w = (.ok (), { v with trace := w.trace ++ [.frameTick p] }) := by
    simp [frameTickStage, hkeep, callOut, hft]
  obtain ⟨w', h1, h2, h3, h4, h5⟩ := nextLinkStage_handoff cfx p
    { v with trace := w.trace ++ [.frameTick p] } l seg rest hnext hseg
  refine ⟨w', ?_, ?_, h3, h4, h5⟩
  · have hbody : loopBody col cfx now p retVal w = (.ok (.returnWith .RS_CONTINUE, retVal), w') := by
      simp only [loopBody, stagesBeforeAdmission, hstage, tripChainStage, hstay]
      simp only [Bool.false_eq_true, if_false]
      rw [h1]
    simp only [tickLoop, hpos, if_true, hbody]
  · rw [h2]
    simp
/-- The difference of two `unsigned int` sums with the same first term is the second
term. -/
theorem subUInt32_add_left (a d : Nat) (hd : d < 2 ^ 32) :
    subUInt32 (toUInt32 (a + d)) (toUInt32 a) = d := by
  unfold subUInt32 toUInt32
  have h : (2 : ℕ) ^ 32 = 4294967296 := by norm_num
  rw [h] at hd ⊢
  omega

/-- A difference of `unsigned int` values is an `unsigned int`. -/
theorem subUInt32_lt (a b : Nat) : subUInt32 a b < 2 ^ 32 :=
  Nat.mod_lt _ (by norm_num)

/-- The difference of `unsigned int` values that are in order. -/
theorem subUInt32_of_le (a b : Nat) (hab : b ≤ a) (ha : a < 2 ^ 32) : subUInt32 a b = a - b := by
  unfold subUInt32
  have h : (2 : ℕ) ^ 32 = 4294967296 := by norm_num
  rw [h] at ha ⊢
  omega

/-- The set-up of an activity for an activity performer. -/
theorem anchorActivity_ok (cfg : Config) (now : Nat) (item : TripChainItem) (x : Person_MT)
    (role : Role) (hrole : x.role = some role) (hact : role.roleType = .RL_ACTIVITY) :
    anchorActivity cfg now item x = .ok { x with role := some { role with
      activityStartTime := toUInt32 (now + cfg.baseGranMS),
      activityEndTime := toUInt32 (now + cfg.baseGranMS + subUInt32 item.endTime item.startTime) } } := by
  simp only [anchorActivity, hrole, hact, if_true]

/-- `switchTripChainItem` for a person whose trip chain is done. -/
theorem switchTripChainItem_done (col : Collaborators) (ext : TripCollaborators) (cfg : Config)
    (ms : Nat) (w w1 : World) (cfx : ConfluxId) (p : PersonId)
    (hcheck : callOut (collectTravelTime w p) (.checkTripChain p)
      (fun v => ext.checkTripChain v p) = (.ok .RS_DONE, w1)) :
    switchTripChainItem col ext cfg ms w cfx p = (.ok .RS_DONE, w1) := by
  simp only [switchTripChainItem, hcheck]

/-- `switchTripChainItem` for a person whose trip chain goes on: the dispatch on the role
that `checkTripChain` has given to the person. -/
theorem switchTripChainItem_continue (col : Collaborators) (ext : TripCollaborators)
    (cfg : Config) (ms : Nat) (w w1 : World) (cfx : ConfluxId) (p : PersonId)
    (hcheck : callOut (collectTravelTime w p) (.checkTripChain p)
      (fun v => ext.checkTripChain v p) = (.ok .RS_CONTINUE, w1)) :
    switchTripChainItem col ext cfg ms w cfx p =
      match ((w1.modifyPerson p (fun x => { x with startTime := ms })).person p).role.map
          Role.roleType with
      | some .RL_WAITBUSACTITITY =>
        match assignPersonToBusStopAgent ext
            (w1.modifyPerson p (fun x => { x with startTime := ms })) p with
        | (.error f, w3) => (.error f, w3)
        | (.ok _, w3) => (.ok .RS_CONTINUE, eraseFromPedestrianList w3 cfx p)
      | some .RL_TRAINPASSENGER =>
        match assignPersonToMRT cfg (w1.modifyPerson p (fun x => { x with startTime := ms }))
            cfx p with
        | (.error f, w3) => (.error f, w3)
        | (.ok _, w3) => (.ok .RS_CONTINUE, eraseFromPedestrianList w3 cfx p)
      | some .RL_CARPASSENGER =>
        match assignPersonToCar cfg ms (w1.modifyPerson p (fun x => { x with startTime := ms }))
            cfx p with
        | (.error f, w3) => (.error f, w3)
        | (.ok _, w3) => (.ok .RS_CONTINUE, eraseFromPedestrianList w3 cfx p)
      | some .RL_PEDESTRIAN =>
        if p ∈ ((w1.modifyPerson p (fun x => { x with startTime := ms })).conflux cfx).pedestrianList
        then (.ok .RS_CONTINUE, w1.modifyPerson p (fun x => { x with startTime := ms }))
        else (.ok .RS_CONTINUE,
          (w1.modifyPerson p (fun x => { x with startTime := ms })).modifyConflux cfx
            (fun c => { c with pedestrianList := c.pedestrianList ++ [p] }))
      | _ => switchToMovingRole col ext cfg ms
          (w1.modifyPerson p (fun x => { x with startTime := ms })) cfx p .RS_CONTINUE := by
  simp only [switchTripChainItem, hcheck]

/-- The role of a person after a write to its start time. -/
theorem role_setStartTime (w : World) (p : PersonId) (ms : Nat) :
    ((w.modifyPerson p (fun x => { x with startTime := ms })).person p).role
      = (w.person p).role := by
  simp [World.modifyPerson]

/-- `switchTripChainItem` for a person whose trip chain goes on with a role that has no
list of its own: the set-up of an activity, and the frame initialisation of the role. -/
theorem switchTripChainItem_moving (col : Collaborators) (ext : TripCollaborators)
    (cfg : Config) (ms : Nat) (w w1 : World) (cfx : ConfluxId) (p : PersonId)
    (hcheck : callOut (collectTravelTime w p) (.checkTripChain p)
      (fun v => ext.checkTripChain v p) = (.ok .RS_CONTINUE, w1))
    (h1 : (w1.person p).role.map Role.roleType ≠ some .RL_WAITBUSACTITITY)
    (h2 : (w1.person p).role.map Role.roleType ≠ some .RL_TRAINPASSENGER)
    (h3 : (w1.person p).role.map Role.roleType ≠ some .RL_CARPASSENGER)
    (h4 : (w1.person p).role.map Role.roleType ≠ some .RL_PEDESTRIAN) :
    switchTripChainItem col ext cfg ms w cfx p =
      switchToMovingRole col ext cfg ms
        (w1.modifyPerson p (fun x => { x with startTime := ms })) cfx p .RS_CONTINUE := by
  rw [switchTripChainItem_continue col ext cfg ms w w1 cfx p hcheck, role_setStartTime]
  split
  · rename_i h; exact absurd h h1
  · rename_i h; exact absurd h h2
  · rename_i h; exact absurd h h3
  · rename_i h; exact absurd h h4
  · rfl

/-- The end of `switchTripChainItem` for an activity performer whose item is an
activity: the activity is anchored and located, and the role is initialised. -/
theorem switchToMovingRole_activity (col : Collaborators) (ext : TripCollaborators)
    (cfg : Config) (ms : Nat) (w : World) (cfx : ConfluxId) (p : PersonId) (retVal : UpdateStatus)
    (role : Role) (item : TripChainItem)
    (hrole : (w.person p).role = some role) (hact : role.roleType = .RL_ACTIVITY)
    (hitem : (w.person p).currTripChainItem = some item)
    (hkind : item.itemType = .IT_ACTIVITY) :
    switchToMovingRole col ext cfg ms w cfx p retVal =
      initialiseAfterSwitch col ext ms
        (w.modifyPerson p (fun _ => setLocation { (w.person p) with role := some { role with
          activityStartTime := toUInt32 (ms + cfg.baseGranMS),
          activityEndTime :=
            toUInt32 (ms + cfg.baseGranMS + subUInt32 item.endTime item.startTime) } }
          item.destination)) cfx p retVal := by
  simp only [switchToMovingRole, hitem, hkind, if_true,
    anchorActivity_ok cfg ms item (w.person p) role hrole hact]
/-- `findStartingConflux` for a person whose trip chain is done. -/
theorem findStartingConflux_done (ext : TripCollaborators) (cfg : Config) (w w1 : World)
    (p : PersonId) (now : Nat)
    (hcheck : callOut w (.checkTripChain p) (fun v => ext.checkTripChain v p)
      = (.ok .RS_DONE, w1)) :
    findStartingConflux ext cfg w p now = (.ok none, w1) := by
  simp only [findStartingConflux, hcheck]

/-- `findStartingConflux` for a person without a role. -/
theorem findStartingConflux_noRole (ext : TripCollaborators) (cfg : Config) (w w1 : World)
    (p : PersonId) (now : Nat)
    (hcheck : callOut w (.checkTripChain p) (fun v => ext.checkTripChain v p)
      = (.ok .RS_CONTINUE, w1))
    (hrole : (w1.person p).role = none) :
    findStartingConflux ext cfg w p now
      = (.ok none, w1.modifyPerson p (fun x => { x with startTime := now })) := by
  simp only [findStartingConflux, hcheck, role_setStartTime, hrole]

/-- The current item of the trip chain of a person after a write to its start time. -/
theorem currTripChainItem_setStartTime (w : World) (p : PersonId) (ms : Nat) :
    ((w.modifyPerson p (fun x => { x with startTime := ms })).person p).currTripChainItem
      = (w.person p).currTripChainItem := by
  simp [World.modifyPerson]

/-- `findStartingConflux` for a person whose first item is an activity. -/
theorem findStartingConflux_activity (ext : TripCollaborators) (cfg : Config) (w w1 : World)
    (p : PersonId) (now : Nat) (role : Role) (item : TripChainItem)
    (hcheck : callOut w (.checkTripChain p) (fun v => ext.checkTripChain v p)
      = (.ok .RS_CONTINUE, w1))
    (hrole : (w1.person p).role = some role) (hact : role.roleType = .RL_ACTIVITY)
    (hitem : (w1.person p).currTripChainItem = some item)
    (hkind : item.itemType = .IT_ACTIVITY) :
    findStartingConflux ext cfg w p now
      = (.ok (confluxForLocation ext role.location),
          (w1.modifyPerson p (fun x => { x with startTime := now })).modifyPerson p
            (fun _ => { (w1.person p) with
              startTime := now
              role := some { role with
                activityStartTime := toUInt32 (now + cfg.baseGranMS),
                activityEndTime :=
                  toUInt32 (now + cfg.baseGranMS + subUInt32 item.endTime item.startTime) } })) := by
  have ha := anchorActivity_ok cfg now item
    ((w1.modifyPerson p (fun x => { x with startTime := now })).person p) role
    (by rw [role_setStartTime]; exact hrole) hact
  simp only [findStartingConflux, hcheck, role_setStartTime, hrole,
    currTripChainItem_setStartTime, hitem, hkind, if_true, ha]
  simp [World.modifyPerson]

/-- `findStartingConflux` for a person whose first item is a trip. -/
theorem findStartingConflux_trip (ext : TripCollaborators) (cfg : Config) (w w1 w3 : World)
    (p : PersonId) (now : Nat) (role : Role) (item : TripChainItem)
    (hcheck : callOut w (.checkTripChain p) (fun v => ext.checkTripChain v p)
      = (.ok .RS_CONTINUE, w1))
    (hrole : (w1.person p).role = some role)
    (hitem : (w1.person p).currTripChainItem = some item)
    (hkind : item.itemType ≠ .IT_ACTIVITY)
    (hinit : callOut (w1.modifyPerson p (fun x => { x with startTime := now })) (.frameInit p)
      (fun v => ext.frame_init v p) = (.ok (), w3)) :
    findStartingConflux ext cfg w p now =
      if (w3.person p).toBeRemoved then (.ok none, w3)
      else (.ok (ext.getStartingConflux
          (w3.modifyPerson p (fun x => { x with initialized := true })) p),
        w3.modifyPerson p (fun x => { x with initialized := true })) := by
  simp only [findStartingConflux, hcheck, role_setStartTime, hrole,
    currTripChainItem_setStartTime, hitem, hkind, if_false, hinit]
/-- The log after the check of the trip chain in `switchTripChainItem` has no frame
initialisation that the log before did not have. -/
theorem frameInit_not_in_check (ext : TripCollaborators) (w w1 : World) (p : PersonId)
    (r : UpdateStatus)
    (hcheck : callOut (collectTravelTime w p) (.checkTripChain p)
      (fun v => ext.checkTripChain v p) = (.ok r, w1))
    (h : Event.frameInit p ∈ w1.trace) : Event.frameInit p ∈ w.trace := by
  have ht := callOut_trace (collectTravelTime w p) (.checkTripChain p)
    (fun v => ext.checkTripChain v p)
  rw [hcheck] at ht
  simp only at ht
  rw [ht] at h
  unfold collectTravelTime at h
  split at h <;> simpa [World.record] using h

/-- `assignPersonToBusStopAgent` changes no conflux and initialises no role. -/
theorem assignPersonToBusStopAgent_keeps (ext : TripCollaborators) (w : World) (p : PersonId) :
    (assignPersonToBusStopAgent ext w p).2.conflux = w.conflux ∧
    (Event.frameInit p ∈ (assignPersonToBusStopAgent ext w p).2.trace →
      Event.frameInit p ∈ w.trace) := by
  unfold assignPersonToBusStopAgent
  split
  · exact ⟨rfl, id⟩
  · split
    · split
      · exact ⟨rfl, id⟩
      · exact ⟨rfl, id⟩
      · split
        · exact ⟨rfl, fun h => by simpa [World.record] using h⟩
        · exact ⟨rfl, id⟩
    · exact ⟨rfl, id⟩

/-- `assignPersonToMRT` does not change `pedestrianList` and initialises no role. -/
theorem assignPersonToMRT_keeps (cfg : Config) (w : World) (cfx : ConfluxId) (p : PersonId) :
    ((assignPersonToMRT cfg w cfx p).2.conflux cfx).pedestrianList
      = (w.conflux cfx).pedestrianList ∧
    (Event.frameInit p ∈ (assignPersonToMRT cfg w cfx p).2.trace →
      Event.frameInit p ∈ w.trace) := by
  unfold assignPersonToMRT
  split
  · exact ⟨rfl, id⟩
  · split
    · dsimp only
      split
      · exact ⟨by simp [World.modifyPerson, World.modifyConflux, World.record],
          fun h => by simpa [World.modifyPerson, World.modifyConflux, World.record] using h⟩
      · split
        · exact ⟨by simp [World.modifyPerson, World.modifyConflux, World.record],
            fun h => by simpa [World.modifyPerson, World.modifyConflux, World.record] using h⟩
        · exact ⟨by simp [World.modifyPerson, World.modifyConflux, World.record],
            fun h => by simpa [World.modifyPerson, World.modifyConflux, World.record] using h⟩
    · exact ⟨rfl, id⟩

/-- `assignPersonToCar` does not change `pedestrianList` and initialises no role. -/
theorem assignPersonToCar_keeps (cfg : Config) (ms : Nat) (w : World) (cfx : ConfluxId)
    (p : PersonId) :
    ((assignPersonToCar cfg ms w cfx p).2.conflux cfx).pedestrianList
      = (w.conflux cfx).pedestrianList ∧
    (Event.frameInit p ∈ (assignPersonToCar cfg ms w cfx p).2.trace →
      Event.frameInit p ∈ w.trace) := by
  have hcar : ∀ v : World, ((if p ∈ (v.conflux cfx).carSharing then v
      else v.modifyConflux cfx (fun c => { c with carSharing := c.carSharing ++ [p] })).conflux
        cfx).pedestrianList = (v.conflux cfx).pedestrianList ∧
      (if p ∈ (v.conflux cfx).carSharing then v
      else v.modifyConflux cfx (fun c => { c with carSharing := c.carSharing ++ [p] })).trace
        = v.trace := by
    intro v
    split
    · exact ⟨rfl, rfl⟩
    · exact ⟨by simp [World.modifyConflux], rfl⟩
  unfold assignPersonToCar
  split
  · exact ⟨rfl, id⟩
  · split
    · dsimp only
      obtain ⟨h1, h2⟩ := hcar (w.modifyPerson p
        (fun x => { x with currWorkerProvider := (w.conflux cfx).parentWorker }))
      split
      · exact ⟨h1, fun h => by rw [h2] at h; exact h⟩
      · split
        · refine ⟨?_, fun h => ?_⟩
          · simp only [World.modifyPerson] at h1 ⊢
            exact h1
          · simp only [World.modifyPerson] at h h2
            rw [h2] at h
            exact h
        · refine ⟨?_, fun h => ?_⟩
          · simp only [World.modifyPerson, World.record] at h1 ⊢
            exact h1
          · simp only [World.modifyPerson, World.record] at h h2
            rw [h2] at h
            simpa using h
    · exact ⟨rfl, id⟩

/-- A person at most once in a list is exactly once in it after `std::find` and
`push_back` if not found. -/
theorem count_push_if_absent (l : List PersonId) (p : PersonId) (h : l.count p ≤ 1) :
    (if p ∈ l then l else l ++ [p]).count p = 1 := by
  split
  · rename_i hm
    have := List.count_pos_iff.mpr hm
    omega
  · rename_i hm
    simp [List.count_eq_zero.mpr hm]

/-- `callMovementFrameInit` for a person with a role that the parameters of the frame
tick leave with a role: the frame initialisation is called, and the answer is `false`
exactly if the person is to be removed after it. -/
theorem callMovementFrameInit_with_role (col : Collaborators) (ext : TripCollaborators)
    (ms : Nat) (w w1 w2 : World) (now : Nat) (p : PersonId) (r r1 : Role)
    (hrole : ((registerIfRequired w p).person p).role = some r)
    (hparams : callOut (registerIfRequired w p) (.makeFrameTickParams p)
      (fun v => col.make_frame_tick_params v now p) = (.ok (), w1))
    (hrole1 : (w1.person p).role = some r1)
    (hinit : callOut w1 (.frameInit p) (fun v => ext.frame_init v p) = (.ok (), w2)) :
    callMovementFrameInit col ext ms w now p = (.ok (!(w2.person p).toBeRemoved), w2) := by
  simp only [callMovementFrameInit, checkTripChainIfNoRole, hrole, initialiseRole, hparams,
    hrole1, hinit]
  cases (w2.person p).toBeRemoved <;> rfl

/-- The switch to one of the three roles off the road with a list or an agent of their
own. -/
theorem offRoadSwitch_of (r : Except Fault Unit) (w3 w w2 : World) (cfx : ConfluxId)
    (p : PersonId)
    (hlist : (w3.conflux cfx).pedestrianList = (w2.conflux cfx).pedestrianList)
    (htrace : Event.frameInit p ∈ w3.trace → Event.frameInit p ∈ w.trace)
    (honce : (w2.conflux cfx).pedestrianList.count p ≤ 1) :
    OffRoadSwitch
      (match (r, w3) with
        | (.error f, w3) => (.error f, w3)
        | (.ok _, w3) => (.ok .RS_CONTINUE, eraseFromPedestrianList w3 cfx p))
      (r, w3) w cfx p := by
  cases r with
  | error f =>
    refine ⟨fun u h => by simp at h, fun g u h => ?_, htrace⟩
    simp only [Prod.mk.injEq, Except.error.injEq] at h
    rw [h.1, h.2]
  | ok a =>
    refine ⟨fun u h => ?_, fun g u h => by simp at h, htrace⟩
    simp only [Prod.mk.injEq, true_and] at h
    subst h
    refine ⟨rfl, ?_⟩
    simp only [eraseFromPedestrianList, World.modifyConflux, Function.update_same]
    rw [hlist]
    exact not_mem_erase_of_count_le_one _ p honce
/-- The end of `killAgent` on a conflux with a worker. -/
theorem terminate_ok (w : World) (cfx : ConfluxId) (p : PersonId) (worker : WorkerId)
    (hw : (w.conflux cfx).parentWorker = some worker) :
    terminate w cfx p = (.ok (),
      ((w.modifyPerson p (fun x => { x with currWorkerProvider := none })).record
        (.remEntity worker p)).record (.scheduleForRemoval worker p)) := by
  have h : ((w.modifyPerson p (fun x => { x with currWorkerProvider := none })).conflux cfx).parentWorker
      = some worker := hw
  simp only [terminate, h]
/-- The insertion of an element into a list with a comparison that answers: the result
is a permutation, and it is sorted if the list was. -/
theorem insertSorted_spec (comp : Option PersonId → Option PersonId → Except Fault Bool)
    (r : Option PersonId → Option PersonId → Bool) (x : Option PersonId)
    (l : List (Option PersonId))
    (hcomp : ∀ y ∈ l, comp x y = .ok (r x y))
    (hirr : ∀ a ∈ x :: l, r a a = false)
    (htrans : ∀ a ∈ x :: l, ∀ b ∈ x :: l, ∀ c ∈ x :: l, r a b = true → r b c = true → r a c = true)
    (hsorted : l.Pairwise (fun a b => r b a = false)) :
    ∃ l', insertSorted comp x l = .ok l' ∧ l'.Perm (x :: l) ∧
      l'.Pairwise (fun a b => r b a = false) := by
  induction l with
  | nil => exact ⟨[x], rfl, List.Perm.refl _, by simp⟩
  | cons y ys ih =>
    have hxy := hcomp y (List.mem_cons_self _ _)
    rw [List.pairwise_cons] at hsorted
    cases hr : r x y with
    | true =>
      refine ⟨x :: y :: ys, ?_, List.Perm.refl _, ?_⟩
      · simp only [insertSorted, hxy, hr]
      · rw [List.pairwise_cons]
        refine ⟨?_, List.pairwise_cons.mpr hsorted⟩
        intro z hz
        cases hzx : r z x with
        | false => rfl
        | true =>
          have hzy : r z y = true :=
            htrans z (List.mem_cons_of_mem _ hz) x (List.mem_cons_self _ _) y
              (List.mem_cons_of_mem _ (List.mem_cons_self _ _)) hzx hr
          rcases List.mem_cons.mp hz with h | h
          · subst h
            rw [hirr z (List.mem_cons_of_mem _ (List.mem_cons_self _ _))] at hzy
            exact absurd hzy (by simp)
          · rw [hsorted.1 z h] at hzy
            exact absurd hzy (by simp)
    | false =>
      obtain ⟨l', h1, h2, h3⟩ := ih (fun z hz => hcomp z (List.mem_cons_of_mem _ hz))
        (fun a ha => hirr a (by
          rcases List.mem_cons.mp ha with h | h
          · exact h ▸ List.mem_cons_self _ _
          · exact List.mem_cons_of_mem _ (List.mem_cons_of_mem _ h)))
        (fun a ha b hb c hc => htrans a (by
            rcases List.mem_cons.mp ha with h | h
            · exact h ▸ List.mem_cons_self _ _
            · exact List.mem_cons_of_mem _ (List.mem_cons_of_mem _ h)) b (by
            rcases List.mem_cons.mp hb with h | h
            · exact h ▸ List.mem_cons_self _ _
            · exact List.mem_cons_of_mem _ (List.mem_cons_of_mem _ h)) c (by
            rcases List.mem_cons.mp hc with h | h
            · exact h ▸ List.mem_cons_self _ _
            · exact List.mem_cons_of_mem _ (List.mem_cons_of_mem _ h)))
        hsorted.2
      refine ⟨y :: l', ?_, ?_, ?_⟩
      · simp only [insertSorted, hxy, hr, h1]
      · exact (List.Perm.cons y h2).trans (List.Perm.swap x y ys)
      · rw [List.pairwise_cons]
        refine ⟨?_, h3⟩
        intro z hz
        rcases List.mem_cons.mp (h2.subset hz) with h | h
        · rw [h]; exact hr
        · exact hsorted.1 z h

/-- The insertion sort with a comparison that answers with a strict weak ordering: the
result is a sorted permutation. -/
theorem insertionSort_sorts (comp : Option PersonId → Option PersonId → Except Fault Bool)
    (r : Option PersonId → Option PersonId → Bool) (l : List (Option PersonId))
    (hcomp : ∀ x ∈ l, ∀ y ∈ l, comp x y = .ok (r x y))
    (hirr : ∀ a ∈ l, r a a = false)
    (htrans : ∀ a ∈ l, ∀ b ∈ l, ∀ c ∈ l, r a b = true → r b c = true → r a c = true) :
    ∃ sorted, insertionSort comp l = .ok sorted ∧ sorted.Perm l ∧
      sorted.Pairwise (fun a b => r b a = false) := by
  induction l with
  | nil => exact ⟨[], rfl, List.Perm.refl _, List.Pairwise.nil⟩
  | cons x xs ih =>
    obtain ⟨s, h1, h2, h3⟩ := ih
      (fun a ha b hb => hcomp a (List.mem_cons_of_mem _ ha) b (List.mem_cons_of_mem _ hb))
      (fun a ha => hirr a (List.mem_cons_of_mem _ ha))
      (fun a ha b hb c hc => htrans a (List.mem_cons_of_mem _ ha) b (List.mem_cons_of_mem _ hb)
        c (List.mem_cons_of_mem _ hc))
    have hsub : ∀ a, a ∈ x :: s → a ∈ x :: xs := by
      intro a ha
      rcases List.mem_cons.mp ha with h | h
      · exact h ▸ List.mem_cons_self _ _
      · exact List.mem_cons_of_mem _ (h2.subset h)
    obtain ⟨l', k1, k2, k3⟩ := insertSorted_spec comp r x s
      (fun y hy => hcomp x (List.mem_cons_self _ _) y (List.mem_cons_of_mem _ (h2.subset hy)))
      (fun a ha => hirr a (hsub a ha))
      (fun a ha b hb c hc => htrans a (hsub a ha) b (hsub b hb) c (hsub c hc)) h3
    refine ⟨l', ?_, k2.trans (List.Perm.cons x h2), k3⟩
    simp only [insertionSort, h1, k1]

/-- The insertion into a list keeps every element. -/
theorem insertSorted_length (comp : Option PersonId → Option PersonId → Except Fault Bool)
    (x : Option PersonId) (l l' : List (Option PersonId))
    (h : insertSorted comp x l = .ok l') : l'.length = l.length + 1 := by
  induction l generalizing l' with
  | nil =>
    simp only [insertSorted, Except.ok.injEq] at h
    subst h
    rfl
  | cons y ys ih =>
    unfold insertSorted at h
    split at h
    · simp at h
    · simp only [Except.ok.injEq] at h
      subst h
      rfl
    · split at h
      · simp at h
      · rename_i rest hrest
        simp only [Except.ok.injEq] at h
        subst h
        simp [ih rest hrest]

/-- The insertion sort keeps every element. -/
theorem insertionSort_length (comp : Option PersonId → Option PersonId → Except Fault Bool)
    (l l' : List (Option PersonId)) (h : insertionSort comp l = .ok l') :
    l'.length = l.length := by
  induction l generalizing l' with
  | nil =>
    simp only [insertionSort, Except.ok.injEq] at h
    subst h
    rfl
  | cons x xs ih =>
    unfold insertionSort at h
    split at h
    · simp at h
    · rename_i s hs
      rw [insertSorted_length comp x s l' h, ih s hs]
      rfl

/-- An exception that leaves the insertion is one that a comparison throws. -/
theorem insertSorted_error (comp : Option PersonId → Option PersonId → Except Fault Bool)
    (x : Option PersonId) (l : List (Option PersonId)) (g : Fault)
    (h : insertSorted comp x l = .error g) : ∃ a b, comp a b = .error g := by
  induction l with
  | nil => simp [insertSorted] at h
  | cons y ys ih =>
    unfold insertSorted at h
    split at h
    · rename_i f hf
      simp only [Except.error.injEq] at h
      exact ⟨x, y, h ▸ hf⟩
    · simp at h
    · split at h
      · rename_i f hf
        simp only [Except.error.injEq] at h
        exact ih (h ▸ hf)
      · simp at h

/-- An exception that leaves the insertion sort is one that a comparison throws. -/
theorem insertionSort_error (comp : Option PersonId → Option PersonId → Except Fault Bool)
    (l : List (Option PersonId)) (g : Fault)
    (h : insertionSort comp l = .error g) : ∃ a b, comp a b = .error g := by
  induction l with
  | nil => simp [insertionSort] at h
  | cons x xs ih =>
    unfold insertionSort at h
    split at h
    · rename_i f hf
      simp only [Except.error.injEq] at h
      exact ih (h ▸ hf)
    · exact insertSorted_error comp x _ g h

/-- The insertion sort compares every element of a list of more than one element: an
exception that every comparison with some element throws leaves the sort. -/
theorem insertionSort_throws (comp : Option PersonId → Option PersonId → Except Fault Bool)
    (f : Fault) (x : Option PersonId) (l : List (Option PersonId))
    (hlen : 1 < l.length) (hx : x ∈ l)
    (hbad : ∀ y, comp x y = .error f ∧ comp y x = .error f)
    (hall : ∀ a b g, comp a b = .error g → g = f) :
    insertionSort comp l = .error f := by
  induction l with
  | nil => simp at hlen
  | cons a xs ih =>
    have hins : ∀ s : List (Option PersonId), s ≠ [] → (a = x ∨ s = [x]) →
        insertSorted comp a s = .error f := by
      intro s hs hcase
      cases s with
      | nil => exact absurd rfl hs
      | cons y ys =>
        rcases hcase with h | h
        · simp only [insertSorted, h, (hbad y).1]
        · simp only [List.cons.injEq] at h
          simp only [insertSorted, h.1, (hbad a).2]
    unfold insertionSort
    rcases hs : insertionSort comp xs with g | s
    · obtain ⟨c, d, hcd⟩ := insertionSort_error comp xs g hs
      rw [hall c d g hcd]
    · dsimp only
      have hslen := insertionSort_length comp xs s hs
      by_cases hxa : a = x
      · refine hins s ?_ (Or.inl hxa)
        intro h
        rw [h] at hslen
        simp only [List.length_cons, List.length_nil] at hlen hslen
        omega
      · have hxin : x ∈ xs := by
          rcases List.mem_cons.mp hx with h | h
          · exact absurd h.symm hxa
          · exact h
        by_cases h2 : 1 < xs.length
        · rw [ih h2 hxin] at hs
          simp at hs
        · have hxs : xs = [x] := by
            cases xs with
            | nil => simp at hxin
            | cons b bs =>
              cases bs with
              | nil =>
                simp only [List.mem_singleton] at hxin
                rw [hxin]
              | cons c cs => simp at h2
          subst hxs
          simp only [insertionSort, insertSorted, Except.ok.injEq] at hs
          exact hins s (by rw [← hs]; simp) (Or.inr hs.symm)

/-- The insertion sort does what the C++ standard asks of `std::sort`. -/
theorem isStdSort_insertionSort : IsStdSort insertionSort := by
  intro comp l
  refine ⟨fun r hcomp hswo => ?_, fun f x hlen hx hbad hall => ?_⟩
  · exact insertionSort_sorts comp r l hcomp hswo.1 hswo.2.1
  · exact insertionSort_throws comp f x l hlen hx hbad hall

/-- A list of non-null pointers is the list of the persons they point to. -/
theorem map_some_filterMap (l : List (Option PersonId)) (h : ∀ x ∈ l, ∃ a, x = some a) :
    (l.filterMap id).map some = l := by
  induction l with
  | nil => rfl
  | cons x xs ih =>
    obtain ⟨a, ha⟩ := h x (List.mem_cons_self _ _)
    subst ha
    simp only [List.filterMap_cons, id, List.map_cons]
    rw [ih (fun y hy => h y (List.mem_cons_of_mem _ hy))]

/-- The persons that a list of non-null pointers points to. -/
theorem filterMap_map_some (l : List PersonId) : (l.map some).filterMap id = l := by
  induction l with
  | nil => rfl
  | cons x xs ih => simp only [List.map_cons, List.filterMap_cons, id, ih]

/-- The comparison of the remaining times of two persons, as a relation on pointers. -/
theorem greaterRemainingTime_strictWeak (w : World) (queue : List PersonId) :
    (∀ x ∈ queue.map some, ∀ y ∈ queue.map some, GreaterRemainingTimeThisTick w x y =
      .ok (match x, y with
        | some a, some b =>
          decide ((w.person a).remainingTimeThisTick > (w.person b).remainingTimeThisTick)
        | _, _ => false)) ∧
    StrictWeakOn (fun x y => match x, y with
        | some a, some b =>
          decide ((w.person a).remainingTimeThisTick > (w.person b).remainingTimeThisTick)
        | _, _ => false) (queue.map some) := by
  have hsome : ∀ x ∈ queue.map some, ∃ a, x = some a := by
    intro x hx
    obtain ⟨a, _, ha⟩ := List.mem_map.mp hx
    exact ⟨a, ha.symm⟩
  refine ⟨?_, ?_, ?_, ?_⟩
  · intro x hx y hy
    obtain ⟨a, rfl⟩ := hsome x hx
    obtain ⟨b, rfl⟩ := hsome y hy
    rfl
  · intro x hx
    obtain ⟨a, rfl⟩ := hsome x hx
    simp
  · intro x hx y hy z hz
    obtain ⟨a, rfl⟩ := hsome x hx
    obtain ⟨b, rfl⟩ := hsome y hy
    obtain ⟨c, rfl⟩ := hsome z hz
    simp only [decide_eq_true_eq]
    intro h1 h2
    exact lt_trans h2 h1
  · intro x hx y hy z hz
    obtain ⟨a, rfl⟩ := hsome x hx
    obtain ⟨b, rfl⟩ := hsome y hy
    obtain ⟨c, rfl⟩ := hsome z hz
    simp only [decide_eq_false_iff_not, not_lt, gt_iff_lt]
    intro h1 h2
    exact le_trans h1 h2

/-- The sort of a virtual queue: a permutation of the queue with the remaining times not
increasing from the front to the back. -/
theorem sortPersonsDecreasingRemTime_queue (stdSort : StdSort) (hsort : IsStdSort stdSort)
    (w : World) (queue : List PersonId) :
    ∃ sorted : List PersonId,
      sortPersonsDecreasingRemTime stdSort w (queue.map some) = .ok (sorted.map some) ∧
      sorted.Perm queue ∧
      sorted.Pairwise (fun a b =>
        (w.person a).remainingTimeThisTick ≥ (w.person b).remainingTimeThisTick) ∧
      (queue.length ≤ 1 → sorted = queue) := by
  by_cases hlen : 1 < queue.length
  · obtain ⟨hcomp, hswo⟩ := greaterRemainingTime_strictWeak w queue
    obtain ⟨s, h1, h2, h3⟩ := (hsort (GreaterRemainingTimeThisTick w) (queue.map some)).1 _
      hcomp hswo
    have hsome : ∀ x ∈ s, ∃ a, x = some a := by
      intro x hx
      obtain ⟨a, _, ha⟩ := List.mem_map.mp (h2.subset hx)
      exact ⟨a, ha.symm⟩
    have hs := map_some_filterMap s hsome
    refine ⟨s.filterMap id, ?_, ?_, ?_, fun h => absurd hlen (by omega)⟩
    · simp only [sortPersonsDecreasingRemTime, List.length_map, gt_iff_lt, hlen, if_true, h1, hs]
    · have := h2.filterMap id
      rw [filterMap_map_some] at this
      exact this
    · rw [← hs, List.pairwise_map] at h3
      refine h3.imp ?_
      intro a b hab
      simpa using hab
  · refine ⟨queue, ?_, List.Perm.refl _, ?_, fun _ => rfl⟩
    · simp only [sortPersonsDecreasingRemTime, List.length_map, gt_iff_lt, hlen, if_false]
    · cases queue with
      | nil => exact List.Pairwise.nil
      | cons a rest =>
        cases rest with
        | nil => simp
        | cons b rest2 => simp at hlen

/-- The output estimate of `resetOutputBounds` is the two-stage clamp of the empty
spaces of the segment, converted to `int`, and of the persons in lane infinity. -/
theorem outputEstimate_eq_twoStageClamp (w : World) (segStats : SegmentStats) (n : Int)
    (h : doubleToInt (numEmptySpaces w segStats) = some n) :
    outputEstimate w segStats =
      .ok (twoStageClamp n (segStats.numAgentsInLane segStats.laneInfinity : Int)) := by
  unfold outputEstimate
  rw [h]
  rfl

/-- The two-stage clamp is the single clamp when nothing negative is subtracted. -/
theorem twoStageClamp_eq (x l : Int) (hl : 0 ≤ l) :
    twoStageClamp x l = max 0 (x - l) ∧ twoStageClamp x l = max 0 (max 0 x - l) ∧
    0 ≤ twoStageClamp x l := by
  unfold twoStageClamp
  dsimp only
  refine ⟨?_, ?_, ?_⟩ <;> split <;> split <;> omega

/-- The merge across links appends persons picked at the heads of the deques, and then
what is left of the deques. -/
theorem topCMerge_decomposition (w : World) (rand : Nat → Nat) (k : Nat)
    (merged : List PersonId) (lists : List (List PersonId)) (capacity : Int)
    (hfin : FiniteDrivingTimes w lists) :
    ∃ picked leftovers, MinHeadPicks w lists picked leftovers ∧
      (topCMergeDifferentLinksInConflux w rand k merged lists capacity).1
        = merged ++ (picked ++ leftovers.flatten) := by
  obtain ⟨picked, leftovers, hpicks, _, hmerged, hiter, hret⟩ :=
    pickTopC_spec w rand (topCPasses capacity) lists merged k hfin
  refine ⟨picked, leftovers, hpicks, ?_⟩
  unfold topCMergeDifferentLinksInConflux
  dsimp only
  by_cases hr : (pickTopC w rand (topCPasses capacity) lists merged k).returned = true
  · rw [if_pos hr, hmerged, flatten_eq_nil_of_totalPersons leftovers (hret hr)]
    simp
  · rw [if_neg hr, appendLeftovers_eq, hmerged, hiter]
    simp

/-- The deques after the iterator of the deque of index `i` has moved. -/
theorem advance_get (lists : List (List PersonId)) (i j : Nat) :
    (advance lists i).get? j = if j = i then (lists.get? j).map List.tail else lists.get? j := by
  induction lists generalizing i j with
  | nil => cases i <;> simp [advance]
  | cons first more ih =>
    cases i with
    | zero =>
      cases j with
      | zero => simp [advance]
      | succ j => simp [advance]
    | succ i =>
      cases j with
      | zero => simp [advance]
      | succ j =>
        simp only [advance, List.get?_cons_succ, ih i j, Nat.succ_inj']

/-- The persons of the deques are the person taken at a head and the persons left. -/
theorem flatten_advance_perm (lists : List (List PersonId)) (i : Nat) (p : PersonId)
    (tail : List PersonId) (h : lists.get? i = some (p :: tail)) :
    (p :: (advance lists i).flatten).Perm lists.flatten := by
  induction lists generalizing i with
  | nil => simp at h
  | cons first more ih =>
    cases i with
    | zero =>
      simp only [List.get?_cons_zero, Option.some.injEq] at h
      subst h
      simp [advance]
    | succ i =>
      have h2 : more.get? i = some (p :: tail) := by simpa using h
      have := ih i h2
      simp only [advance, List.flatten_cons]
      have hm : (first ++ p :: (advance more i).flatten).Perm
          (p :: (first ++ (advance more i).flatten)) := List.perm_middle
      exact hm.symm.trans (List.Perm.append_left first this)

/-- The persons picked and the persons left are the persons of the deques. -/
theorem minHeadPicks_perm {w : World} {lists leftovers : List (List PersonId)}
    {picked : List PersonId} (h : MinHeadPicks w lists picked leftovers) :
    (picked ++ leftovers.flatten).Perm lists.flatten := by
  induction h with
  | done lists => simp
  | pick lists lists1 lists2 p ps hpick _ ih =>
    obtain ⟨i, tail, hget, hadv, _⟩ := hpick
    subst hadv
    exact (List.Perm.cons p ih).trans (flatten_advance_perm lists i p tail hget)

/-- Every deque is made of persons picked, in the order of the picks, followed by what
is left of the deque. -/
theorem minHeadPicks_taken {w : World} {lists leftovers : List (List PersonId)}
    {picked : List PersonId} (h : MinHeadPicks w lists picked leftovers) :
    ∀ i l, lists.get? i = some l →
      ∃ taken rest, leftovers.get? i = some rest ∧ l = taken ++ rest ∧ taken.Sublist picked := by
  induction h with
  | done lists =>
    intro i l hl
    exact ⟨[], l, hl, rfl, List.Sublist.refl _⟩
  | pick lists lists1 lists2 p ps hpick _ ih =>
    obtain ⟨i0, tail, hget, hadv, _⟩ := hpick
    subst hadv
    intro i l hl
    have hadv := advance_get lists i0 i
    by_cases hi : i = i0
    · subst hi
      rw [if_pos rfl, hget] at hadv
      rw [hget] at hl
      simp only [Option.some.injEq] at hl
      subst hl
      obtain ⟨taken, rest, h1, h2, h3⟩ := ih i tail (by simpa using hadv)
      refine ⟨p :: taken, rest, h1, ?_, List.Sublist.cons₂ p h3⟩
      rw [h2]
      rfl
    · rw [if_neg hi, hl] at hadv
      obtain ⟨taken, rest, h1, h2, h3⟩ := ih i l hadv
      exact ⟨taken, rest, h1, h2, List.Sublist.cons p h3⟩

/-- What is left of a deque is part of what is left of all deques. -/
theorem sublist_flatten_of_get (lists : List (List PersonId)) (i : Nat) (l : List PersonId)
    (h : lists.get? i = some l) : l.Sublist lists.flatten := by
  induction lists generalizing i with
  | nil => simp at h
  | cons first more ih =>
    cases i with
    | zero =>
      simp only [List.get?_cons_zero, Option.some.injEq] at h
      subst h
      simp
    | succ i =>
      have h2 : more.get? i = some l := by simpa using h
      exact (ih i h2).trans (by simp)

/-- The start of a person in lane infinity of the first segment stats of its road
segment. -/
theorem startInLaneInfinity_ok (w : World) (cfx : ConfluxId) (p : PersonId)
    (cur first : SegStatsId) (rest : List SegStatsId) (st : LaneStats)
    (hcur : (w.person p).currSegStats = some cur)
    (hseg : mapAt (w.conflux cfx).segmentAgents (w.segStats cur).roadSegment
      = some (first :: rest))
    (hlane : mapAt (w.segStats first).laneStatsMap (w.segStats first).laneInfinity = some st) :
    ∃ w', startInLaneInfinity w cfx p = (.ok (), w') ∧
      w'.person p = { w.person p with
        currSegStats := some first,
        currLane := some (w.segStats first).laneInfinity,
        distanceToEndOfSegment := (w.segStats first).length,
        remainingTimeThisTick := (w.conflux cfx).tickTimeInS } ∧
      (∀ q, q ≠ p → w'.person q = w.person q) ∧
      w'.laneAgents first (w.segStats first).laneInfinity = st.laneAgents ++ [p] ∧
      (∀ t ln, ¬ (t = first ∧ ln = (w.segStats first).laneInfinity) →
        w'.laneAgents t ln = w.laneAgents t ln) ∧
      w'.conflux = w.conflux := by
  have hadd : (w.segStats first).addAgent (w.segStats first).laneInfinity p (w.person p).isQueuing
      = .ok ((w.segStats first).setLaneStats (w.segStats first).laneInfinity
        { st with laneAgents := st.laneAgents ++ [p],
                  queueCount := if (w.person p).isQueuing then st.queueCount + 1
                    else st.queueCount }) := by
    simp only [SegmentStats.addAgent, hlane]
  obtain ⟨k1, k2, _, _, _⟩ := SegmentStats.addAgent_ok hadd
  have hold : (w.segStats first).getPersons (w.segStats first).laneInfinity = st.laneAgents := by
    simp only [SegmentStats.getPersons, hlane]
  have heq : startInLaneInfinity w cfx p = (.ok (),
      (w.modifyPerson p (fun x =>
        { x with currSegStats := some first,
                 currLane := some (w.segStats first).laneInfinity,
                 distanceToEndOfSegment := (w.segStats first).getLength,
                 remainingTimeThisTick := (w.conflux cfx).tickTimeInS })).modifySegStats first
        (fun _ => (w.segStats first).setLaneStats (w.segStats first).laneInfinity
          { st with laneAgents := st.laneAgents ++ [p],
                    queueCount := if (w.person p).isQueuing then st.queueCount + 1
                      else st.queueCount })) := by
    simp only [startInLaneInfinity, hcur, hseg, World.addAgent, World.onSegStats,
      World.modifyPerson, Function.update_same, hadd]
  refine ⟨_, heq, ?_, ?_, ?_, ?_, ?_⟩
  · simp [World.modifyPerson, World.modifySegStats, SegmentStats.getLength]
  · intro q hq
    simp [World.modifyPerson, World.modifySegStats, Function.update_noteq hq]
  · simp only [World.laneAgents, World.modifySegStats, World.modifyPerson, Function.update_same]
    rw [k1, hold]
  · intro t ln hne
    simp only [World.laneAgents, World.modifySegStats, World.modifyPerson]
    by_cases ht : t = first
    · subst ht
      rw [Function.update_same]
      exact k2 ln (fun h => hne ⟨rfl, h⟩)
    · rw [Function.update_noteq ht]
  · rfl

theorem personLoads_record_post (w : World) (c : ConfluxId) (p : PersonId) :
    (w.record (.postPersonLoad c p)).personLoads = w.personLoads ++ [(c, p)] := by
  simp [World.personLoads, World.record, Event.personLoad, List.filterMap_append]

/-- The loop of `loadPersons` with fuel for every person of the queue: the messages
posted are those of the record, the persons of the record are the front of the queue,
and they are the whole queue, which ends up empty, if the loop returns; it returns if
no call of `findStartingConflux` fails. -/
theorem loadPersonsLoop_spec (col : Collaborators) (cfx : ConfluxId) (nextTickMS : Nat)
    (hkeep : ∀ v p,
      ((col.findStartingConflux v p nextTickMS).2.conflux cfx).loadingQueue
        = (v.conflux cfx).loadingQueue ∧
      (col.findStartingConflux v p nextTickMS).2.personLoads = v.personLoads) :
    ∀ (fuel : Nat) (w : World), (w.conflux cfx).loadingQueue.length ≤ fuel →
      (loadPersonsLoop col cfx nextTickMS fuel w).2.personLoads
        = w.personLoads ++ (startingConfluxes col cfx nextTickMS fuel w).filterMap loadMessage ∧
      ((startingConfluxes col cfx nextTickMS fuel w).map Prod.fst)
        <+: (w.conflux cfx).loadingQueue ∧
      ((loadPersonsLoop col cfx nextTickMS fuel w).1 = .ok () →
        (startingConfluxes col cfx nextTickMS fuel w).map Prod.fst
          = (w.conflux cfx).loadingQueue ∧
        ((loadPersonsLoop col cfx nextTickMS fuel w).2.conflux cfx).loadingQueue = []) ∧
      ((∀ v p, ∃ c v', col.findStartingConflux v p nextTickMS = (.ok c, v')) →
        (loadPersonsLoop col cfx nextTickMS fuel w).1 = .ok ()) := by
  intro fuel
  induction fuel with
  | zero =>
    intro w hlen
    have hq : (w.conflux cfx).loadingQueue = [] := List.length_eq_zero.mp (Nat.le_zero.mp hlen)
    simp [loadPersonsLoop, startingConfluxes, hq]
  | succ fuel ih =>
    intro w hlen
    rcases hq : (w.conflux cfx).loadingQueue with _ | ⟨person, rest⟩
    · simp [loadPersonsLoop, startingConfluxes, hq]
    · have hrest : rest.length ≤ fuel := by
        rw [hq] at hlen
        simpa using hlen
      have hk := hkeep (w.modifyConflux cfx (fun c => { c with loadingQueue := rest })) person
      have hq1 : ((w.modifyConflux cfx
          (fun c => { c with loadingQueue := rest })).conflux cfx).loadingQueue = rest := by
        simp [World.modifyConflux]
      have hp1 : (w.modifyConflux cfx
          (fun c => { c with loadingQueue := rest })).personLoads = w.personLoads := rfl
      rw [hq1, hp1] at hk
      rcases hf : col.findStartingConflux
        (w.modifyConflux cfx (fun c => { c with loadingQueue := rest })) person nextTickMS
        with ⟨r, w2⟩
      rw [hf] at hk
      rcases r with f | c
      · simp only [loadPersonsLoop, startingConfluxes, hq, hf]
        refine ⟨by simpa using hk.2, List.nil_prefix, (fun h => nomatch h), fun hall => ?_⟩
        obtain ⟨c, v', hc⟩ := hall (w.modifyConflux cfx
          (fun c => { c with loadingQueue := rest })) person
        rw [hf] at hc
        cases hc
      · rcases c with _ | conflux
        · have hlen2 : (w2.conflux cfx).loadingQueue.length ≤ fuel := by
            rw [hk.1]; exact hrest
          obtain ⟨i1, i2, i3, i4⟩ := ih w2 hlen2
          simp only [loadPersonsLoop, startingConfluxes, hq, hf]
          refine ⟨?_, ?_, fun h => ⟨?_, (i3 h).2⟩, i4⟩
          · rw [i1, hk.2]
            simp [loadMessage]
          · rw [List.map_cons]
            rw [hk.1] at i2
            exact List.prefix_cons_inj person |>.mpr i2
          · rw [List.map_cons, (i3 h).1, hk.1]
        · have hlen2 : (((w2.record (.postPersonLoad conflux person)).conflux cfx).loadingQueue).length
              ≤ fuel := by
            show (w2.conflux cfx).loadingQueue.length ≤ fuel
            rw [hk.1]; exact hrest
          obtain ⟨i1, i2, i3, i4⟩ := ih (w2.record (.postPersonLoad conflux person)) hlen2
          have hq2 : ((w2.record (.postPersonLoad conflux person)).conflux cfx).loadingQueue
              = rest := hk.1
          simp only [loadPersonsLoop, startingConfluxes, hq, hf]
          refine ⟨?_, ?_, fun h => ⟨?_, (i3 h).2⟩, i4⟩
          · rw [i1, personLoads_record_post, hk.2]
            simp [loadMessage]
          · rw [List.map_cons]
            rw [hq2] at i2
            exact List.prefix_cons_inj person |>.mpr i2
          · rw [List.map_cons, (i3 h).1, hq2]

theorem initializeBusStopsOf_congr (col col2 : Collaborators)
    (h : col2.initializeBusStops = col.initializeBusStops) (l : List SegStatsId) (w : World) :
    initializeBusStopsOf col2 l w = initializeBusStopsOf col l w := by
  induction l generalizing w with
  | nil => rfl
  | cons s rest ih =>
    simp only [initializeBusStopsOf, h]
    rcases col.initializeBusStops w s with ⟨r, w1⟩
    cases r
    · rfl
    · exact ih w1

theorem updatePrologue_congr (col col2 : Collaborators)
    (h : col2.initializeBusStops = col.initializeBusStops) (cfx : ConfluxId) (n : Nat)
    (w : World) : updatePrologue col2 cfx n w = updatePrologue col cfx n w := by
  simp only [updatePrologue, frame_init, initializeBusStopsOf_congr col col2 h]

theorem loadPersonsLoop_congr (col col2 : Collaborators)
    (h : col2.findStartingConflux = col.findStartingConflux) (cfx : ConfluxId) (t : Nat)
    (fuel : Nat) (w : World) :
    loadPersonsLoop col2 cfx t fuel w = loadPersonsLoop col cfx t fuel w := by
  induction fuel generalizing w with
  | zero => rfl
  | succ fuel ih =>
    simp only [loadPersonsLoop, h]
    rcases (w.conflux cfx).loadingQueue with _ | ⟨person, rest⟩
    · rfl
    · dsimp only
      rcases col.findStartingConflux
        (w.modifyConflux cfx (fun c => { c with loadingQueue := rest })) person t with ⟨r, w2⟩
      rcases r with f | c
      · rfl
      · rcases c with _ | c
        · exact ih w2
        · exact ih _

/-- The update of a loader conflux is its prologue and `loadPersons`. -/
theorem update_of_loader (col : Collaborators) (cfg : Config) (fuel : Nat) (cfx : ConfluxId)
    (frameNumber : Nat) (w w1 : World)
    (hpro : updatePrologue col cfx frameNumber w = (.ok (), w1))
    (hloader : (w1.conflux cfx).isLoader = true) :
    update col cfg fuel cfx frameNumber w
      = (Except.map (fun _ => UpdateStatus.RS_CONTINUE) (loadPersons col cfg fuel cfx w1).1,
          (loadPersons col cfg fuel cfx w1).2) := by
  simp only [update, hpro, hloader, if_true]
  rcases loadPersons col cfg fuel cfx w1 with ⟨r, w2⟩
  cases r <;> rfl

/-- The procedure `findStartingConflux` of `Conflux.cpp` touches neither the loading
queue of a conflux nor the messages `MSG_PERSON_LOAD`, if the trip chain check and the
frame initialisation of the role leave the loading queue alone. -/
theorem findStartingConflux_keeps_loading (ext : TripCollaborators) (cfg : Config)
    (cfx : ConfluxId)
    (hc : ∀ v p, ((ext.checkTripChain v p).2.conflux cfx).loadingQueue
      = (v.conflux cfx).loadingQueue)
    (hf : ∀ v p, ((ext.frame_init v p).2.conflux cfx).loadingQueue
      = (v.conflux cfx).loadingQueue) (v : World) (p : PersonId) (now : Nat) :
    ((findStartingConflux ext cfg v p now).2.conflux cfx).loadingQueue
      = (v.conflux cfx).loadingQueue ∧
    (findStartingConflux ext cfg v p now).2.personLoads = v.personLoads := by
  have hcall : ∀ {α : Type} (u : World) (e : Event) (g : World → Except Fault α × World),
      e.personLoad = none →
      ((g u).2.conflux cfx).loadingQueue = (u.conflux cfx).loadingQueue →
      ((callOut u e g).2.conflux cfx).loadingQueue = (u.conflux cfx).loadingQueue ∧
      (callOut u e g).2.personLoads = u.personLoads := by
    intro α u e g he hg
    refine ⟨hg, ?_⟩
    simp [callOut, World.personLoads, List.filterMap_append, he]
  have h1 := hcall v (.checkTripChain p) (fun u => ext.checkTripChain u p) rfl (hc v p)
  unfold findStartingConflux
  generalize callOut v (.checkTripChain p) (fun u => ext.checkTripChain u p) = co at h1 ⊢
  rcases co with ⟨r, w1⟩
  dsimp only at h1 ⊢
  rcases r with f | s
  · exact h1
  · cases s
    · dsimp only
      rcases hr : (w1.person p).role with _ | personRole
      · simp only [World.modifyPerson, Function.update_same, hr]
        exact h1
      · have hr2 : ((w1.modifyPerson p (fun x => { x with startTime := now })).person p).role
            = some personRole := by
          simp [World.modifyPerson, hr]
        simp only [hr2]
        rcases (( w1.modifyPerson p (fun x => { x with startTime := now })).person
          p).currTripChainItem with _ | item
        · exact h1
        · dsimp only
          split
          · split
            · exact h1
            · exact h1
          · have h2 := hcall (w1.modifyPerson p (fun x => { x with startTime := now }))
              (.frameInit p) (fun u => ext.frame_init u p) rfl (hf _ p)
            generalize callOut (w1.modifyPerson p (fun x => { x with startTime := now }))
              (.frameInit p) (fun u => ext.frame_init u p) = co3 at h2 ⊢
            rcases co3 with ⟨r3, w3⟩
            dsimp only at h2 ⊢
            cases r3
            · exact ⟨h2.1.trans h1.1, h2.2.trans h1.2⟩
            · dsimp only
              split
              · exact ⟨h2.1.trans h1.1, h2.2.trans h1.2⟩
              · exact ⟨h2.1.trans h1.1, h2.2.trans h1.2⟩
    · exact h1

/-! ### Relations between worlds that the update of a person keeps -/

section Closed

variable {R : World → World → Prop}

end Closed

section Closed

variable {R : World → World → Prop}

end Closed

section Closed

variable {R : World → World → Prop}

end Closed

end Aux

/-! ## Theorems -/

/-- C7: `hasSpaceInVirtualQueue(l)` answers `true` exactly when `vqBounds[l] > |VQ[l]|`
if `l` is a key of both `vqBounds` and the virtual-queue map; if `l` is missing from
either map the call ends in the fatal error and returns no boolean; in both cases the
conflux is left as it was. -/
theorem hasSpaceInVirtualQueue_spec (cfx : Conflux) (lnk : LinkId) :
    (∀ bound queue, mapAt cfx.vqBounds lnk = some bound →
        mapAt cfx.virtualQueuesMap lnk = some queue →
        ∃ b, (cfx.hasSpaceInVirtualQueue lnk).1 = .ok b ∧ (b = true ↔ bound > queue.length)) ∧
    ((mapAt cfx.vqBounds lnk = none ∨ mapAt cfx.virtualQueuesMap lnk = none) →
        (cfx.hasSpaceInVirtualQueue lnk).1 = .error .vqOutOfRange) ∧
    (cfx.hasSpaceInVirtualQueue lnk).2 = cfx := by
  refine ⟨?_, ?_, ?_⟩
  · intro bound queue hb hq
    refine ⟨decide (bound > queue.length), ?_, ?_⟩
    · simp [Conflux.hasSpaceInVirtualQueue, hb, hq]
    · simp
  · intro h
    unfold Conflux.hasSpaceInVirtualQueue
    rcases h with h | h
    · simp [h]
    · cases hb : mapAt cfx.vqBounds lnk <;> simp [h]
  · unfold Conflux.hasSpaceInVirtualQueue
    split <;> rfl

/-- With a bound of 2 and one person in the virtual queue of link 11, conflux 1 of the
demo has space in that queue; it has no answer for link 12, which has neither bound nor
queue; and the conflux is as it was. -/
theorem hasSpaceInVirtualQueue_spec_witness :
    ((Demo.conflux 4 2 [9] 1).hasSpaceInVirtualQueue 11).1 = .ok true ∧
      ((Demo.conflux 4 2 [9] 1).hasSpaceInVirtualQueue 12).1 = .error .vqOutOfRange ∧
      ((Demo.conflux 4 2 [9] 1).hasSpaceInVirtualQueue 11).2 = Demo.conflux 4 2 [9] 1 := by
  obtain ⟨h1, h2, h3⟩ := hasSpaceInVirtualQueue_spec (Demo.conflux 4 2 [9] 1) 11
  obtain ⟨b, hb, hiff⟩ := h1 2 [9] rfl rfl
  have hbt : b = true := hiff.mpr (by decide)
  subst hbt
  exact ⟨hb, (hasSpaceInVirtualQueue_spec (Demo.conflux 4 2 [9] 1) 12).2.1 (Or.inl rfl), h3⟩

/-- C1: cross-link admission when the downstream conflux has not yet been updated in
tick `now` (its `lastUpdatedFrame` is below `now`). The request of person `p` for the
segment stats `nxt` is granted exactly when the bound of the virtual queue of the link
of `nxt` exceeds the length of that queue and the output counter of the lane parameters
of the person's current lane is positive. On a grant the person's current segment stats
are `nxt`, the current lane is null, the request is cleared, and the per-tick loop
returns with the state in which the admission left it: no further frame tick is made. -/
theorem admission_downstream_not_updated (w : World) (now : Nat) (p : PersonId)
    (nxt cur : SegStatsId) (ln : LaneId) (lp : LaneParams) (bound : Nat) (queue : List PersonId)
    (hreq : (w.person p).requestedNextSegStats = some nxt)
    (hlp : w.currLaneParams p = some (cur, ln, lp))
    (hframe : (w.conflux (w.segStats nxt).parentConflux).lastUpdatedFrame < (now : Int))
    (hb : mapAt (w.conflux (w.segStats nxt).parentConflux).vqBounds
      (w.roadSegment (w.segStats nxt).roadSegment).link = some bound)
    (hq : mapAt (w.conflux (w.segStats nxt).parentConflux).virtualQueuesMap
      (w.roadSegment (w.segStats nxt).roadSegment).link = some queue) :
    ∃ ctl w', admissionStage now p w = (.ok ctl, w') ∧
      ((w'.person p).canMoveToNextSegment = .GRANTED ↔
        (bound > queue.length ∧ lp.getOutputCounter > 0)) ∧
      ((w'.person p).canMoveToNextSegment = .GRANTED →
        (w'.person p).currSegStats = some nxt ∧ (w'.person p).currLane = none ∧
        (w'.person p).requestedNextSegStats = none ∧ ctl = .breakLoop ∧
        w'.trace = w.trace ∧
        ∀ (col : Collaborators) (cfx : ConfluxId) (fuel : Nat) (r r' : UpdateStatus) (w0 : World),
          0 < (w0.person p).remainingTimeThisTick →
          stagesBeforeAdmission col cfx p r w0 = (.ok (none, r'), w) →
          tickLoop col cfx now p (fuel + 1) r w0 = (.ok r', w')) := by
  have hadm := admission_not_updated w now p nxt cur ln lp bound queue hlp hframe hb hq
  by_cases hg : bound > queue.length ∧ lp.getOutputCounter > 0
  · rw [if_pos hg] at hadm
    have hst : admissionStage now p w =
        (.ok .breakLoop, (w.presumeGranted p).grantIntoVirtualQueue p nxt cur ln lp) := by
      simp only [admissionStage, hreq, hadm]
    refine ⟨.breakLoop, _, hst, ?_, ?_⟩
    · simp [World.grantIntoVirtualQueue, World.presumeGranted, hg.1, hg.2]
    · intro _
      refine ⟨?_, ?_, ?_, rfl, ?_, ?_⟩
      · simp [World.grantIntoVirtualQueue]
      · simp [World.grantIntoVirtualQueue]
      · simp [World.grantIntoVirtualQueue]
      · simp [World.grantIntoVirtualQueue, World.presumeGranted]
      · intro col cfx fuel r r' w0 hrem hstages
        rw [tickLoop_succ_of_stages col cfx now p fuel r r' w0 w hrem hstages, hst]
  · rw [if_neg hg] at hadm
    have hst : admissionStage now p w = (.ok .goOn, (w.presumeGranted p).denyAdmission p) := by
      simp only [admissionStage, hreq, hadm]
    refine ⟨.goOn, _, hst, ?_, ?_⟩
    · simp [World.denyAdmission, hg]
    · intro h
      simp [World.denyAdmission] at h

/-- In tick 5, with conflux 1 last updated in tick 4, a bound of 2 on a queue of one
person and an output counter of 3, the driver is granted and queued for segment stats 2. -/
theorem admission_downstream_not_updated_witness :
    ∃ w', admissionStage 5 7 (Demo.world 4 2 [9] 3) = (.ok .breakLoop, w') ∧
      (w'.person 7).canMoveToNextSegment = .GRANTED ∧
      (w'.person 7).currSegStats = some 2 ∧ (w'.person 7).currLane = none := by
  obtain ⟨ctl, w', h1, h2, h3⟩ :=
    admission_downstream_not_updated (Demo.world 4 2 [9] 3) 5 7 2 1 0 ⟨3⟩ 2 [9]
      rfl rfl (by decide) rfl rfl
  have hg : (w'.person 7).canMoveToNextSegment = .GRANTED := h2.mpr ⟨by decide, by decide⟩
  obtain ⟨h4, h5, _, h6, _⟩ := h3 hg
  subst h6
  exact ⟨w', h1, hg, h4, h5⟩


/-- C2: cross-link admission when the downstream conflux has already been updated in tick
`now` (its `lastUpdatedFrame` equals `now`). The request is granted exactly when the
output counter of the lane parameters of the person's current lane is positive, whatever
the bound and the virtual queue of the link are (they may even be missing). On a grant
the counter is one less, the request is cleared, and the person's current segment stats
and lane are as before. Granted or denied, the per-tick loop goes on with the state that
the admission left. -/
theorem admission_downstream_already_updated (w : World) (now : Nat) (p : PersonId)
    (nxt cur : SegStatsId) (ln : LaneId) (lp : LaneParams)
    (hreq : (w.person p).requestedNextSegStats = some nxt)
    (hlp : w.currLaneParams p = some (cur, ln, lp))
    (hframe : (w.conflux (w.segStats nxt).parentConflux).lastUpdatedFrame = (now : Int)) :
    ∃ w', admissionStage now p w = (.ok .goOn, w') ∧
      ((w'.person p).canMoveToNextSegment = .GRANTED ↔ lp.getOutputCounter > 0) ∧
      ((w'.person p).canMoveToNextSegment = .GRANTED →
        w'.outputCounter cur ln = some (lp.getOutputCounter - 1) ∧
        (w'.person p).requestedNextSegStats = none ∧
        (w'.person p).currSegStats = (w.person p).currSegStats ∧
        (w'.person p).currLane = (w.person p).currLane) ∧
      w'.conflux = w.conflux ∧
      ∀ (col : Collaborators) (cfx : ConfluxId) (fuel : Nat) (r r' : UpdateStatus) (w0 : World),
        0 < (w0.person p).remainingTimeThisTick →
        stagesBeforeAdmission col cfx p r w0 = (.ok (none, r'), w) →
        tickLoop col cfx now p (fuel + 1) r w0 = tickLoop col cfx now p fuel r' w' := by
  have hadm := admission_updated w now p nxt cur ln lp hlp hframe
  obtain ⟨_, _, hget⟩ := World.currLaneParams_spec w p cur ln lp hlp
  by_cases hg : lp.getOutputCounter > 0
  · rw [if_pos hg] at hadm
    have hst : admissionStage now p w =
        (.ok .goOn, (w.presumeGranted p).grantAndProceed p cur ln lp) := by
      simp only [admissionStage, hreq, hadm]
    refine ⟨_, hst, ?_, ?_, rfl, ?_⟩
    · simp [World.grantAndProceed, World.presumeGranted, hg]
    · intro _
      refine ⟨?_, ?_, ?_, ?_⟩
      · exact World.outputCounter_decrement_self (w.presumeGranted p) cur ln lp hget
      · simp [World.grantAndProceed]
      · simp [World.grantAndProceed, World.presumeGranted]
      · simp [World.grantAndProceed, World.presumeGranted]
    · intro col cfx fuel r r' w0 hrem hstages
      rw [tickLoop_succ_of_stages col cfx now p fuel r r' w0 w hrem hstages, hst]
  · rw [if_neg hg] at hadm
    have hst : admissionStage now p w = (.ok .goOn, (w.presumeGranted p).denyAdmission p) := by
      simp only [admissionStage, hreq, hadm]
    refine ⟨_, hst, ?_, ?_, rfl, ?_⟩
    · simp [World.denyAdmission, hg]
    · intro h
      simp [World.denyAdmission] at h
    · intro col cfx fuel r r' w0 hrem hstages
      rw [tickLoop_succ_of_stages col cfx now p fuel r r' w0 w hrem hstages, hst]

/-- In tick 5, with conflux 1 already updated in tick 5 and an output counter of 3, the
driver is granted although the virtual queue of link 11 is full; the counter becomes 2
and the driver stays on lane 0 of segment stats 1. -/
theorem admission_downstream_already_updated_witness :
    ∃ w', admissionStage 5 7 (Demo.world 5 1 [9] 3) = (.ok .goOn, w') ∧
      (w'.person 7).canMoveToNextSegment = .GRANTED ∧
      w'.outputCounter 1 0 = some 2 ∧
      (w'.person 7).currSegStats = some 1 ∧ (w'.person 7).currLane = some 0 := by
  obtain ⟨w', h1, h2, h3, _⟩ :=
    admission_downstream_already_updated (Demo.world 5 1 [9] 3) 5 7 2 1 0 ⟨3⟩ rfl rfl (by decide)
  have hg : (w'.person 7).canMoveToNextSegment = .GRANTED := h2.mpr (by decide)
  obtain ⟨h4, _, h5, h6⟩ := h3 hg
  exact ⟨w', h1, hg, h4, h5, h6⟩

/-- C3: denial of a cross-link request. In both admission cases, when the grant condition
is false the admission ends normally with the permission `DENIED`, the request cleared,
and every segment stats (so every lane output counter) and the person's current segment
stats and lane unchanged. In particular, when the downstream conflux is not yet updated
and the virtual queue of the link already holds as many persons as its bound, a further
requester is denied and stays on its upstream segment stats. -/
theorem admission_denial (w : World) (now : Nat) (p : PersonId)
    (nxt cur : SegStatsId) (ln : LaneId) (lp : LaneParams)
    (hreq : (w.person p).requestedNextSegStats = some nxt)
    (hlp : w.currLaneParams p = some (cur, ln, lp)) :
    (∀ bound queue,
      (w.conflux (w.segStats nxt).parentConflux).lastUpdatedFrame < (now : Int) →
      mapAt (w.conflux (w.segStats nxt).parentConflux).vqBounds
        (w.roadSegment (w.segStats nxt).roadSegment).link = some bound →
      mapAt (w.conflux (w.segStats nxt).parentConflux).virtualQueuesMap
        (w.roadSegment (w.segStats nxt).roadSegment).link = some queue →
      ¬ (bound > queue.length ∧ lp.getOutputCounter > 0) →
      ∃ w', admissionStage now p w = (.ok .goOn, w') ∧ IsDenial w w' p) ∧
    ((w.conflux (w.segStats nxt).parentConflux).lastUpdatedFrame = (now : Int) →
      ¬ lp.getOutputCounter > 0 →
      ∃ w', admissionStage now p w = (.ok .goOn, w') ∧ IsDenial w w' p) ∧
    (∀ bound queue,
      (w.conflux (w.segStats nxt).parentConflux).lastUpdatedFrame < (now : Int) →
      mapAt (w.conflux (w.segStats nxt).parentConflux).vqBounds
        (w.roadSegment (w.segStats nxt).roadSegment).link = some bound →
      mapAt (w.conflux (w.segStats nxt).parentConflux).virtualQueuesMap
        (w.roadSegment (w.segStats nxt).roadSegment).link = some queue →
      queue.length = bound →
      ∃ w', admissionStage now p w = (.ok .goOn, w') ∧ IsDenial w w' p ∧
        (w'.person p).currSegStats = some cur) := by
  have hden : IsDenial w ((w.presumeGranted p).denyAdmission p) p := by
    refine ⟨?_, ?_, rfl, ?_, ?_⟩ <;> simp [World.denyAdmission, World.presumeGranted]
  obtain ⟨hcur, _, _⟩ := World.currLaneParams_spec w p cur ln lp hlp
  have key : ∀ bound queue,
      (w.conflux (w.segStats nxt).parentConflux).lastUpdatedFrame < (now : Int) →
      mapAt (w.conflux (w.segStats nxt).parentConflux).vqBounds
        (w.roadSegment (w.segStats nxt).roadSegment).link = some bound →
      mapAt (w.conflux (w.segStats nxt).parentConflux).virtualQueuesMap
        (w.roadSegment (w.segStats nxt).roadSegment).link = some queue →
      ¬ (bound > queue.length ∧ lp.getOutputCounter > 0) →
      admissionStage now p w = (.ok .goOn, (w.presumeGranted p).denyAdmission p) := by
    intro bound queue hframe hb hq hg
    have hadm := admission_not_updated w now p nxt cur ln lp bound queue hlp hframe hb hq
    rw [if_neg hg] at hadm
    simp only [admissionStage, hreq, hadm]
  refine ⟨?_, ?_, ?_⟩
  · intro bound queue hframe hb hq hg
    exact ⟨_, key bound queue hframe hb hq hg, hden⟩
  · intro hframe hg
    have hadm := admission_updated w now p nxt cur ln lp hlp hframe
    rw [if_neg hg] at hadm
    exact ⟨_, by simp only [admissionStage, hreq, hadm], hden⟩
  · intro bound queue hframe hb hq hfull
    have hg : ¬ (bound > queue.length ∧ lp.getOutputCounter > 0) := by
      intro h
      exact absurd h.1 (by simp [hfull])
    refine ⟨_, key bound queue hframe hb hq hg, hden, ?_⟩
    rw [hden.2.2.2.1, hcur]

/-- In tick 5, with conflux 1 last updated in tick 4 and the virtual queue of link 11
holding as many persons (two) as its bound, the driver, whose output counter is 3, is
denied and stays on segment stats 1. -/
theorem admission_denial_witness :
    ∃ w', admissionStage 5 7 (Demo.world 4 2 [9, 8] 3) = (.ok .goOn, w') ∧
      IsDenial (Demo.world 4 2 [9, 8] 3) w' 7 ∧ (w'.person 7).currSegStats = some 1 :=
  (admission_denial (Demo.world 4 2 [9, 8] 3) 5 7 2 1 0 ⟨3⟩ rfl rfl).2.2 2 [9, 8]
    (by decide) rfl rfl rfl

/-- C4: an admission evaluation that ends normally leaves the permission either `GRANTED`
or `DENIED`; if `GRANTED` (in either case, downstream not yet updated or already
updated) the output counter of the lane parameters of the person's current lane is one
less than before; if `DENIED` no segment stats has changed; and in every case the
output counter of every other lane is what it was. -/
theorem admission_decrements_exactly_on_grant (w w' : World) (now : Nat) (p : PersonId)
    (nxt cur : SegStatsId) (ln : LaneId) (lp : LaneParams) (ctl : LoopCtl)
    (hreq : (w.person p).requestedNextSegStats = some nxt)
    (hlp : w.currLaneParams p = some (cur, ln, lp))
    (hres : admissionStage now p w = (.ok ctl, w')) :
    ((w'.person p).canMoveToNextSegment = .GRANTED ∨
      (w'.person p).canMoveToNextSegment = .DENIED) ∧
    ((w'.person p).canMoveToNextSegment = .GRANTED →
      w.outputCounter cur ln = some lp.getOutputCounter ∧
      w'.outputCounter cur ln = some (lp.getOutputCounter - 1)) ∧
    ((w'.person p).canMoveToNextSegment = .DENIED → w'.segStats = w.segStats) ∧
    (∀ s l, (s, l) ≠ (cur, ln) → w'.outputCounter s l = w.outputCounter s l) := by
  obtain ⟨_, _, hget⟩ := World.currLaneParams_spec w p cur ln lp hlp
  have hold : w.outputCounter cur ln = some lp.getOutputCounter := by
    simp [World.outputCounter, hget]
  simp only [admissionStage, hreq] at hres
  have hdeny :
      (((((w.presumeGranted p).denyAdmission p).person p).canMoveToNextSegment = .GRANTED ∨
        (((w.presumeGranted p).denyAdmission p).person p).canMoveToNextSegment = .DENIED) ∧
      ((((w.presumeGranted p).denyAdmission p).person p).canMoveToNextSegment = .GRANTED →
        w.outputCounter cur ln = some lp.getOutputCounter ∧
        ((w.presumeGranted p).denyAdmission p).outputCounter cur ln =
          some (lp.getOutputCounter - 1)) ∧
      ((((w.presumeGranted p).denyAdmission p).person p).canMoveToNextSegment = .DENIED →
        ((w.presumeGranted p).denyAdmission p).segStats = w.segStats) ∧
      (∀ s l, (s, l) ≠ (cur, ln) →
        ((w.presumeGranted p).denyAdmission p).outputCounter s l = w.outputCounter s l)) :=
    ⟨Or.inr (by simp [World.denyAdmission]),
      fun h => by simp [World.denyAdmission] at h,
      fun _ => rfl, fun s l _ => rfl⟩
  rcases lt_trichotomy (w.conflux (w.segStats nxt).parentConflux).lastUpdatedFrame (now : Int)
    with hframe | hframe | hframe
  · cases hb : mapAt (w.conflux (w.segStats nxt).parentConflux).vqBounds
        (w.roadSegment (w.segStats nxt).roadSegment).link with
    | none =>
      rw [admission_not_updated_missing w now p nxt cur ln lp hlp hframe (Or.inl hb)] at hres
      simp at hres
    | some bound =>
      cases hq : mapAt (w.conflux (w.segStats nxt).parentConflux).virtualQueuesMap
          (w.roadSegment (w.segStats nxt).roadSegment).link with
      | none =>
        rw [admission_not_updated_missing w now p nxt cur ln lp hlp hframe (Or.inr hq)] at hres
        simp at hres
      | some queue =>
        rw [admission_not_updated w now p nxt cur ln lp bound queue hlp hframe hb hq] at hres
        by_cases hg : bound > queue.length ∧ lp.getOutputCounter > 0
        · rw [if_pos hg] at hres
          simp only [Prod.mk.injEq] at hres
          obtain ⟨_, hw⟩ := hres
          subst hw
          refine ⟨Or.inl (by simp [World.grantIntoVirtualQueue, World.presumeGranted]),
            fun _ => ⟨hold, ?_⟩, fun h => ?_, fun s l hne => ?_⟩
          · exact World.outputCounter_decrement_self (w.presumeGranted p) cur ln lp hget
          · simp [World.grantIntoVirtualQueue, World.presumeGranted] at h
          · exact World.outputCounter_decrement_other (w.presumeGranted p) cur s ln l _ hne
        · rw [if_neg hg] at hres
          simp only [Prod.mk.injEq] at hres
          obtain ⟨_, hw⟩ := hres
          subst hw
          exact hdeny
  · rw [admission_updated w now p nxt cur ln lp hlp hframe] at hres
    by_cases hg : lp.getOutputCounter > 0
    · rw [if_pos hg] at hres
      simp only [Prod.mk.injEq] at hres
      obtain ⟨_, hw⟩ := hres
      subst hw
      refine ⟨Or.inl (by simp [World.grantAndProceed, World.presumeGranted]),
        fun _ => ⟨hold, ?_⟩, fun h => ?_, fun s l hne => ?_⟩
      · exact World.outputCounter_decrement_self (w.presumeGranted p) cur ln lp hget
      · simp [World.grantAndProceed, World.presumeGranted] at h
      · exact World.outputCounter_decrement_other (w.presumeGranted p) cur s ln l _ hne
    · rw [if_neg hg] at hres
      simp only [Prod.mk.injEq] at hres
      obtain ⟨_, hw⟩ := hres
      subst hw
      exact hdeny
  · rw [admission_future w now p nxt cur ln lp hlp hframe] at hres
    simp at hres


/-- In tick 5, with conflux 1 last updated in tick 4, a bound of 2 on a queue of one
person, the grant takes the output counter of lane 0 of segment stats 1 from 3 to 2. -/
theorem admission_decrements_exactly_on_grant_witness :
    (Demo.world 4 2 [9] 3).outputCounter 1 0 = some 3 ∧
      (admissionStage 5 7 (Demo.world 4 2 [9] 3)).2.outputCounter 1 0 = some (3 - 1) :=
  (admission_decrements_exactly_on_grant (Demo.world 4 2 [9] 3)
    (admissionStage 5 7 (Demo.world 4 2 [9] 3)).2 5 7 2 1 0 ⟨3⟩ .breakLoop rfl rfl rfl).2.1
    (by decide)

/-- C10: during an admission evaluation in tick `now`, if the `lastUpdatedFrame` of the
downstream conflux is greater than `now` the engine raises the fatal error
"lastUpdatedFrame of confluxes are managed incorrectly" (for a person whose current lane
has lane parameters, which are read first); and it raises that error in no case where
`lastUpdatedFrame ≤ now`. -/
theorem lastUpdatedFrame_mismanaged (w : World) (now : Nat) (p : PersonId) (nxt : SegStatsId)
    (hreq : (w.person p).requestedNextSegStats = some nxt) :
    (∀ cur ln lp, w.currLaneParams p = some (cur, ln, lp) →
      (now : Int) < (w.conflux (w.segStats nxt).parentConflux).lastUpdatedFrame →
      (admissionStage now p w).1 = .error .lastUpdatedFrameMismanaged) ∧
    ((w.conflux (w.segStats nxt).parentConflux).lastUpdatedFrame ≤ (now : Int) →
      (admissionStage now p w).1 ≠ .error .lastUpdatedFrameMismanaged) := by
  refine ⟨?_, ?_⟩
  · intro cur ln lp hlp hframe
    simp only [admissionStage, hreq, admission_future w now p nxt cur ln lp hlp hframe]
  · intro hframe
    simp only [admissionStage, hreq]
    cases hlp : w.currLaneParams p with
    | none => simp [admission_no_lane_params w now p nxt hlp]
    | some t =>
      obtain ⟨cur, ln, lp⟩ := t
      rcases lt_or_eq_of_le hframe with hlt | heq
      · cases hb : mapAt (w.conflux (w.segStats nxt).parentConflux).vqBounds
            (w.roadSegment (w.segStats nxt).roadSegment).link with
        | none =>
          simp [admission_not_updated_missing w now p nxt cur ln lp hlp hlt (Or.inl hb)]
        | some bound =>
          cases hq : mapAt (w.conflux (w.segStats nxt).parentConflux).virtualQueuesMap
              (w.roadSegment (w.segStats nxt).roadSegment).link with
          | none =>
            simp [admission_not_updated_missing w now p nxt cur ln lp hlp hlt (Or.inr hq)]
          | some queue =>
            rw [admission_not_updated w now p nxt cur ln lp bound queue hlp hlt hb hq]
            split <;> simp
      · rw [admission_updated w now p nxt cur ln lp hlp heq]
        split <;> simp

/-- In tick 5, a downstream conflux that claims to have been updated in tick 6 makes the
admission of the driver end in the fatal error. -/
theorem lastUpdatedFrame_mismanaged_witness :
    (admissionStage 5 7 (Demo.world 6 2 [9] 3)).1 = .error .lastUpdatedFrameMismanaged :=
  (lastUpdatedFrame_mismanaged (Demo.world 6 2 [9] 3) 5 7 2 rfl).1 1 0 ⟨3⟩ rfl (by decide)


/-- C5: `outputCounter ≥ 0` is an invariant of the admission step. From a state in which
every lane's output counter is at least 0, every sequence of admission evaluations leaves
every lane's output counter at least 0 (also when it ends in a fatal error), and so does
a whole run of `callMovementFrameTick` for any person, provided the collaborators it
calls (frame tick, frame-tick parameters, trip-chain switch) do not themselves take a
counter below 0. -/
theorem outputCounter_nonneg_invariant (w : World) (hw : CountersNonneg w) :
    (∀ evs : List (Nat × PersonId), CountersNonneg (admissionSequence evs w).2) ∧
    (∀ (col : Collaborators) (fuel : Nat) (cfx : ConfluxId) (now : Nat) (p : PersonId),
      col.Keep CountersNonneg →
      CountersNonneg (callMovementFrameTick col fuel cfx now p w).2) :=
  ⟨fun evs => admissionSequence_countersNonneg evs w hw,
    fun col fuel cfx now p hcol => callMovementFrameTick_countersNonneg col fuel cfx now p w hcol hw⟩

/-- The demo world has no negative output counter when the driver's lane has none. -/
theorem Demo.world_countersNonneg (lastUpdated : Int) (bound : Nat) (queue : List PersonId)
    (counter : Int) (h : 0 ≤ counter) : CountersNonneg (Demo.world lastUpdated bound queue counter) := by
  intro s ln c hc
  simp only [World.outputCounter, Demo.world, Demo.segStats, SegmentStats.getLaneParams,
    LaneParams.getOutputCounter] at hc
  by_cases hs : s = 2
  · simp only [hs, if_true, mapAt, Demo.laneOf] at hc
    by_cases h0 : 0 = ln
    · simp [h0, LaneParams.getOutputCounter] at hc; omega
    · by_cases h9 : 99 = ln
      · simp [h0, h9, LaneParams.getOutputCounter] at hc; omega
      · simp [h0, h9] at hc
  · simp only [hs, if_false, mapAt, Demo.laneOf] at hc
    by_cases h0 : 0 = ln
    · simp [h0, LaneParams.getOutputCounter] at hc; omega
    · by_cases h9 : 99 = ln
      · simp [h0, h9, LaneParams.getOutputCounter] at hc; omega
      · simp [h0, h9] at hc

/-- With an output counter of 1, two admission evaluations of the driver in tick 5 (the
downstream conflux already updated) leave the counter of lane 0 of segment stats 1 at 0,
and no counter is negative. -/
theorem outputCounter_nonneg_invariant_witness :
    CountersNonneg (admissionSequence [(5, 7), (5, 7)] (Demo.world 5 2 [9] 1)).2 ∧
      (admissionSequence [(5, 7), (5, 7)] (Demo.world 5 2 [9] 1)).2.outputCounter 1 0 = some 0 :=
  ⟨(outputCounter_nonneg_invariant (Demo.world 5 2 [9] 1)
      (Demo.world_countersNonneg 5 2 [9] 1 (by decide))).1 [(5, 7), (5, 7)], by decide⟩


/-- The capacity of the segment of 1 m with three lanes: `ceil(100 * 3 / 400) = 1`. -/
theorem Demo.threeLaneWorld_vehicleCapacity :
    vehicleCapacity Demo.threeLaneWorld (Demo.threeLaneWorld.segStats 2) = 1 := by
  have hp : roundToDouble ((100 : ℚ) * toDouble 3) = 300 := by
    rw [toDouble_one_three.2]
    have h := roundToDouble_natCast 300 (by norm_num)
    have h300 : (100 : ℚ) * 3 = ((300 : ℕ) : ℚ) := by norm_num
    rw [h300, h]
    norm_num
  have hd : roundToDouble ((300 : ℚ) / PASSENGER_CAR_UNIT) = 3 / 4 := by
    have hr : roundRatio 3 4 = (3 * 2 ^ 51, -53) := by decide
    rw [roundToDouble_eval _ 3 4 _ _ (by norm_num [PASSENGER_CAR_UNIT])
      (by norm_num [PASSENGER_CAR_UNIT]) (by norm_num [PASSENGER_CAR_UNIT]) hr]
    norm_num
  exact vehicleCapacity_eval _ _ 100 3 300 (3 / 4) 1 rfl rfl hp hd
    (by rw [Int.ceil_eq_iff]; norm_num)

theorem Demo.threeLaneWorld_outputEstimate :
    outputEstimate Demo.threeLaneWorld (Demo.threeLaneWorld.segStats 2) = .ok 1 := by
  have hm : (Demo.threeLaneWorld.segStats 2).numMovingInSegment = 0 := by decide
  have hq : (Demo.threeLaneWorld.segStats 2).numQueuingInSegment = 0 := by decide
  have hi : (Demo.threeLaneWorld.segStats 2).numAgentsInLane
      (Demo.threeLaneWorld.segStats 2).laneInfinity = 0 := by decide
  have hcap := Demo.threeLaneWorld_vehicleCapacity
  rw [outputEstimate_eq _ _ (by rw [hm]; norm_num) (by rw [hq]; norm_num)
    (by rw [hcap, hm, hq]; norm_num) (by rw [hcap, hm, hq]; norm_num), hcap, hm, hq, hi]
  rfl

theorem Demo.threeLaneWorld_bound :
    mapAt ((resetOutputBounds Demo.threeLaneWorld 1).2.conflux 1).vqBounds 11 = some 1 := by
  have h := Demo.threeLaneWorld_outputEstimate
  simp only [resetOutputBounds, World.modifyConflux, Function.update_same]
  have hvq : (Demo.threeLaneWorld.conflux 1).virtualQueuesMap = [(11, [9])] := rfl
  have hup : (Demo.threeLaneWorld.conflux 1).upstreamSegStatsMap = [(11, [2])] := rfl
  simp only [hvq, resetOutputBoundsLoop, hup, mapAt, if_true, h, mapInsert]
  rfl

/-- The capacity of the segment of `133.33333333333334` cm with three lanes: the product
`L * 3` is more than 400 and is rounded to the `double` 400, so that the capacity is
`ceil(400 / 400) = 1`, where the ceiling of the exact quotient is 2. -/
theorem Demo.roundedWorld_vehicleCapacity :
    vehicleCapacity Demo.roundedWorld (Demo.roundedWorld.segStats 2) = 1 ∧
    ⌈(Demo.roundedWorld.roadSegment (Demo.roundedWorld.segStats 2).roadSegment).polylineLength
      * ((Demo.roundedWorld.roadSegment
          (Demo.roundedWorld.segStats 2).roadSegment).lanes.length : ℚ) / 400⌉ = 2 := by
  have hp : roundToDouble ((4691249611844267 / 35184372088832 : ℚ) * toDouble 3) = 400 := by
    rw [toDouble_one_three.2]
    have hr : roundRatio 14073748835532801 35184372088832 = (7036874417766400, -44) := by
      decide
    rw [roundToDouble_eval _ 14073748835532801 35184372088832 _ _ (by norm_num)
      (by norm_num) (by norm_num) hr]
    norm_num
  have hd : roundToDouble ((400 : ℚ) / PASSENGER_CAR_UNIT) = 1 := by
    have h1 : (400 : ℚ) / PASSENGER_CAR_UNIT = ((1 : ℕ) : ℚ) := by
      norm_num [PASSENGER_CAR_UNIT]
    rw [h1, roundToDouble_natCast 1 (by norm_num)]
    norm_num
  refine ⟨vehicleCapacity_eval _ _ (4691249611844267 / 35184372088832) 3 400 1 1 rfl rfl hp hd
    (by norm_num), ?_⟩
  have hL : (Demo.roundedWorld.roadSegment
      (Demo.roundedWorld.segStats 2).roadSegment).polylineLength
      = 4691249611844267 / 35184372088832 := rfl
  have hn : (Demo.roundedWorld.roadSegment
      (Demo.roundedWorld.segStats 2).roadSegment).lanes.length = 3 := rfl
  rw [hL, hn, Int.ceil_eq_iff]
  norm_num

/-- On the segment of `133.33333333333334` cm with three lanes, empty of vehicles,
`resetOutputBounds` stores the bound 1. -/
theorem Demo.roundedWorld_bound :
    mapAt ((resetOutputBounds Demo.roundedWorld 1).2.conflux 1).vqBounds 11 = some 1 := by
  have hm : (Demo.roundedWorld.segStats 2).numMovingInSegment = 0 := by decide
  have hq : (Demo.roundedWorld.segStats 2).numQueuingInSegment = 0 := by decide
  have hi : (Demo.roundedWorld.segStats 2).numAgentsInLane
      (Demo.roundedWorld.segStats 2).laneInfinity = 0 := by decide
  have hcap := Demo.roundedWorld_vehicleCapacity.1
  have h : outputEstimate Demo.roundedWorld (Demo.roundedWorld.segStats 2) = .ok 1 := by
    rw [outputEstimate_eq _ _ (by rw [hm]; norm_num) (by rw [hq]; norm_num)
      (by rw [hcap, hm, hq]; norm_num) (by rw [hcap, hm, hq]; norm_num), hcap, hm, hq, hi]
    rfl
  simp only [resetOutputBounds, World.modifyConflux, Function.update_same]
  have hvq : (Demo.roundedWorld.conflux 1).virtualQueuesMap = [(11, [9])] := rfl
  have hup : (Demo.roundedWorld.conflux 1).upstreamSegStatsMap = [(11, [2])] := rfl
  simp only [hvq, resetOutputBoundsLoop, hup, mapAt, if_true, h, mapInsert]
  rfl


/-- C8 (amended): `resetOutputBounds` ends normally when every link that has a virtual
queue has a first segment stats whose number of empty spaces is in the range of `int`.
When it ends normally it has stored, for every link `lnk` that has a virtual queue,
`vqBounds[lnk] = max(0, spaces - |laneInfinity(first)|)`, where `first` is the first
segment stats of `lnk` and `spaces` is the `int` that the `double`
`ceil(L * lanes / 400) - numMovingInSegment(first) - numQueuingInSegment(first)` is
converted to, with `L` the polyline length of the road segment of `first` and `lanes` the
number of its lanes: the ceiling is taken of the product `L * lanes / 400`, not of
`L / 400`, and the product, the quotient and the differences are each rounded to the
nearest `double`. Where the two counts are below `2 ^ 32` and the difference is in the
range of `int`, the differences are exact and `vqBounds[lnk] = max(0, ceil(L * lanes /
400) - numMovingInSegment(first) - numQueuingInSegment(first) - |laneInfinity(first)|)`.
It has stored no bound for any other link; the virtual queues are untouched; and it
returns the total number of persons in all virtual queues. -/
theorem resetOutputBounds_spec (w : World) (c : ConfluxId) :
    ((∀ lnk ∈ (w.conflux c).virtualQueuesMap.map Prod.fst,
        ∃ first rest spaces,
          mapAt (w.conflux c).upstreamSegStatsMap lnk = some (first :: rest) ∧
          doubleToInt (numEmptySpaces w (w.segStats first)) = some spaces) →
      ∃ n w', resetOutputBounds w c = (.ok n, w')) ∧
    (∀ n w', resetOutputBounds w c = (.ok n, w') →
      (∀ lnk ∈ (w.conflux c).virtualQueuesMap.map Prod.fst, ∃ first rest b spaces,
        mapAt (w.conflux c).upstreamSegStatsMap lnk = some (first :: rest) ∧
        mapAt (w'.conflux c).vqBounds lnk = some b ∧
        doubleToInt (numEmptySpaces w (w.segStats first)) = some spaces ∧
        (b : Int) = max 0
          (spaces - ((w.segStats first).numAgentsInLane (w.segStats first).laneInfinity : Int)) ∧
        ((w.segStats first).numMovingInSegment < 2 ^ 32 →
          (w.segStats first).numQueuingInSegment < 2 ^ 32 →
          -2 ^ 31 ≤ vehicleCapacity w (w.segStats first)
              - ((w.segStats first).numMovingInSegment : Int)
              - ((w.segStats first).numQueuingInSegment : Int) →
          vehicleCapacity w (w.segStats first)
              - ((w.segStats first).numMovingInSegment : Int)
              - ((w.segStats first).numQueuingInSegment : Int) < 2 ^ 31 →
          (b : Int) = max 0
            (vehicleCapacity w (w.segStats first)
              - ((w.segStats first).numMovingInSegment : Int)
              - ((w.segStats first).numQueuingInSegment : Int)
              - ((w.segStats first).numAgentsInLane (w.segStats first).laneInfinity : Int)))) ∧
      (∀ lnk, lnk ∉ (w.conflux c).virtualQueuesMap.map Prod.fst →
        mapAt (w'.conflux c).vqBounds lnk = none) ∧
      (w'.conflux c).virtualQueuesMap = (w.conflux c).virtualQueuesMap ∧
      (((w.conflux c).virtualQueuesMap.map Prod.fst).Nodup →
        n = ((w.conflux c).virtualQueuesMap.map (fun e => e.2.length)).sum)) ∧
    (∀ segStats : SegmentStats,
      segStats.numMovingInSegment < 2 ^ 32 → segStats.numQueuingInSegment < 2 ^ 32 →
      -2 ^ 31 ≤ vehicleCapacity w segStats - (segStats.numMovingInSegment : Int)
          - (segStats.numQueuingInSegment : Int) →
      vehicleCapacity w segStats - (segStats.numMovingInSegment : Int)
          - (segStats.numQueuingInSegment : Int) < 2 ^ 31 →
      doubleToInt (numEmptySpaces w segStats) =
        some (vehicleCapacity w segStats - (segStats.numMovingInSegment : Int)
          - (segStats.numQueuingInSegment : Int))) := by
  refine ⟨?_, ?_, fun segStats hm hq hlo hhi => numEmptySpaces_exact w segStats hm hq hlo hhi⟩
  · intro hfirst
    have hup : ∀ l ∈ (w.conflux c).virtualQueuesMap.map Prod.fst,
        ∃ b, boundOfLink w (w.conflux c).upstreamSegStatsMap l = some b := by
      intro l hl
      obtain ⟨first, rest, spaces, h, hs⟩ := hfirst l hl
      refine ⟨(max 0 (spaces
        - ((w.segStats first).numAgentsInLane (w.segStats first).laneInfinity : Int))).toNat, ?_⟩
      simp only [boundOfLink, h, outputEstimate_of_spaces w _ spaces hs]
    obtain ⟨n', cfx', h⟩ := resetOutputBoundsLoop_total w (w.conflux c).virtualQueuesMap 0
      { w.conflux c with vqBounds := [] } hup
      (fun l hl => mapAt_isSome_of_mem_keys _ l hl)
    exact ⟨n', w.modifyConflux c (fun _ => cfx'), by simp only [resetOutputBounds, h]⟩
  · intro n w' hres
    simp only [resetOutputBounds, Prod.mk.injEq] at hres
    obtain ⟨h1, h2⟩ := hres
    have hloop : resetOutputBoundsLoop w (w.conflux c).virtualQueuesMap 0
        { w.conflux c with vqBounds := [] } =
        (.ok n, (resetOutputBoundsLoop w (w.conflux c).virtualQueuesMap 0
          { w.conflux c with vqBounds := [] }).2) := by
      rw [← h1]
    obtain ⟨⟨b0, hb0⟩, hbounds, hsome, hcount⟩ := resetOutputBoundsLoop_ok w _ _ _ _ _ hloop
    have hcfx : w'.conflux c = (resetOutputBoundsLoop w (w.conflux c).virtualQueuesMap 0
        { w.conflux c with vqBounds := [] }).2 := by
      rw [← h2]
      simp [World.modifyConflux]
    rw [hcfx]
    refine ⟨?_, ?_, ?_, ?_⟩
    · intro lnk hl
      obtain ⟨b, hb⟩ := hsome lnk hl
      have hbd := hbounds lnk
      simp only [mapAt, hl, if_true] at hbd
      simp only [boundOfLink] at hb
      cases hu : mapAt (w.conflux c).upstreamSegStatsMap lnk with
      | none => simp [hu] at hb
      | some lst =>
        cases lst with
        | nil => simp [hu] at hb
        | cons first rest =>
          cases hoe : outputEstimate w (w.segStats first) with
          | error f => simp [hu, hoe] at hb
          | ok est =>
            obtain ⟨spaces, hs, he⟩ := outputEstimate_ok w _ est hoe
            have hnn : 0 ≤ est := by rw [he]; exact le_max_left _ _
            refine ⟨first, rest, est.toNat, spaces, rfl, ?_, hs, ?_, ?_⟩
            · rw [hbd]
              simp [boundOfLink, hu, hoe]
            · rw [Int.toNat_of_nonneg hnn, he]
            · intro hm hq hlo hhi
              have hx := numEmptySpaces_exact w (w.segStats first) hm hq hlo hhi
              rw [hs] at hx
              rw [Int.toNat_of_nonneg hnn, he, Option.some.inj hx]
    · intro lnk hl
      have hbd := hbounds lnk
      simp only [mapAt, hl, if_false] at hbd
      exact hbd
    · rw [hb0]
    · intro hnd
      rw [hcount, Nat.zero_add]
      congr 1
      apply List.map_congr_left
      intro e he
      have := mapAt_of_mem_nodup (w.conflux c).virtualQueuesMap hnd e he
      simp [this]

/-- C8 (as stated) fails: on a link whose first road segment is 1 m long with three
lanes and holds no vehicle, `resetOutputBounds` stores the bound `ceil(100 * 3 / 400) = 1`,
while `ceil(L / PCU) * lanes = ceil(100 / 400) * 3 = 3`. -/
theorem resetOutputBounds_counterexample :
    ¬ (mapAt ((resetOutputBounds Demo.threeLaneWorld 1).2.conflux 1).vqBounds 11 =
      some (max 0
        (⌈(Demo.threeLaneWorld.roadSegment (Demo.threeLaneWorld.segStats 2).roadSegment).polylineLength
              / 400⌉
            * ((Demo.threeLaneWorld.roadSegment (Demo.threeLaneWorld.segStats 2).roadSegment).lanes.length : Int)
          - ((Demo.threeLaneWorld.segStats 2).numMovingInSegment : Int)
          - ((Demo.threeLaneWorld.segStats 2).numQueuingInSegment : Int)
          - ((Demo.threeLaneWorld.segStats 2).numAgentsInLane
              (Demo.threeLaneWorld.segStats 2).laneInfinity : Int))).toNat) := by
  have hc : ⌈(100 : ℚ) / 400⌉ = 1 := by
    rw [Int.ceil_eq_iff]; norm_num
  have hm : (Demo.threeLaneWorld.segStats 2).numMovingInSegment = 0 := by decide
  have hq : (Demo.threeLaneWorld.segStats 2).numQueuingInSegment = 0 := by decide
  have hi : (Demo.threeLaneWorld.segStats 2).numAgentsInLane
      (Demo.threeLaneWorld.segStats 2).laneInfinity = 0 := by decide
  rw [Demo.threeLaneWorld_bound, hm, hq, hi]
  simp only [Demo.threeLaneWorld, List.length_cons, List.length_nil]
  rw [hc]
  decide

/-- On the demo world (link 11 with a road segment of 10 m and one lane, empty, and one
person in its virtual queue) `resetOutputBounds` of conflux 1 returns 1 and stores
`ceil(1000 * 1 / 400) = 3` as the bound of link 11. -/
theorem resetOutputBounds_spec_witness :
    ∃ n w', resetOutputBounds (Demo.world 4 0 [9] 3) 1 = (.ok n, w') ∧ n = 1 ∧
      ∃ b, mapAt (w'.conflux 1).vqBounds 11 = some b ∧ (b : Int) = 3 := by
  have hcap : vehicleCapacity (Demo.world 4 0 [9] 3) ((Demo.world 4 0 [9] 3).segStats 2) = 3 :=
    vehicleCapacity_tenMetres _ _ rfl rfl
  have hm : ((Demo.world 4 0 [9] 3).segStats 2).numMovingInSegment = 0 := by decide
  have hq : ((Demo.world 4 0 [9] 3).segStats 2).numQueuingInSegment = 0 := by decide
  have hi : ((Demo.world 4 0 [9] 3).segStats 2).numAgentsInLane
      ((Demo.world 4 0 [9] 3).segStats 2).laneInfinity = 0 := by decide
  have hm32 : ((Demo.world 4 0 [9] 3).segStats 2).numMovingInSegment < 2 ^ 32 := by
    rw [hm]; norm_num
  have hq32 : ((Demo.world 4 0 [9] 3).segStats 2).numQueuingInSegment < 2 ^ 32 := by
    rw [hq]; norm_num
  have hlo : -2 ^ 31 ≤ vehicleCapacity (Demo.world 4 0 [9] 3) ((Demo.world 4 0 [9] 3).segStats 2)
      - (((Demo.world 4 0 [9] 3).segStats 2).numMovingInSegment : Int)
      - (((Demo.world 4 0 [9] 3).segStats 2).numQueuingInSegment : Int) := by
    rw [hcap, hm, hq]; norm_num
  have hhi : vehicleCapacity (Demo.world 4 0 [9] 3) ((Demo.world 4 0 [9] 3).segStats 2)
      - (((Demo.world 4 0 [9] 3).segStats 2).numMovingInSegment : Int)
      - (((Demo.world 4 0 [9] 3).segStats 2).numQueuingInSegment : Int) < 2 ^ 31 := by
    rw [hcap, hm, hq]; norm_num
  obtain ⟨n, w', h⟩ := (resetOutputBounds_spec (Demo.world 4 0 [9] 3) 1).1
    (by intro lnk hl
        have h11 : lnk = 11 := by simpa [Demo.world, Demo.conflux] using hl
        subst h11
        exact ⟨2, [], _, rfl,
          (resetOutputBounds_spec (Demo.world 4 0 [9] 3) 1).2.2 _ hm32 hq32 hlo hhi⟩)
  obtain ⟨hb, _, _, hn⟩ := (resetOutputBounds_spec (Demo.world 4 0 [9] 3) 1).2.1 n w' h
  obtain ⟨first, rest, b, spaces, hf, hbd, _, _, hval⟩ := hb 11 (by decide)
  have hfirst : first = 2 := by
    have : mapAt ((Demo.world 4 0 [9] 3).conflux 1).upstreamSegStatsMap 11 = some [2] := rfl
    rw [this] at hf
    simp only [Option.some.injEq, List.cons.injEq] at hf
    exact hf.1.symm
  subst hfirst
  have hval := hval hm32 hq32 hlo hhi
  rw [hcap, hm, hq, hi] at hval
  refine ⟨n, w', h, hn (by decide), b, hbd, ?_⟩
  rw [hval]
  decide



/-- C9 (amended): within one tick, in which the virtual queues are pushed onto only by
`housekeep` after a not-yet-updated admission grant (granted with `vqBounds[l] > |VQ[l]|`)
or by `housekeep` pushing back a person popped from the same queue, no bound changes and
every virtual queue stays within the larger of its bound and its length at the start of
the tick: `|VQ[l]| ≤ max(vqBounds[l], |VQ[l]| at the start)` at every point. -/
theorem virtualQueue_within_budget (w0 w : World) (h : TickReach w0 w) :
    (∀ c l, w.vqBound c l = w0.vqBound c l) ∧
    (∀ c l, w.vqLength c l ≤ max (w0.vqBound c l) (w0.vqLength c l)) := by
  induction h with
  | start => exact ⟨fun _ _ => rfl, fun _ _ => le_max_right _ _⟩
  | step w1 w2 _ hstep ih =>
    obtain ⟨hb, hl⟩ := hstep.bounded
    refine ⟨fun c l => (hb c l).trans (ih.1 c l), fun c l => ?_⟩
    have h1 := hl c l
    have h2 := ih.2 c l
    rw [ih.1 c l] at h1
    exact le_trans h1 (max_le (le_max_left _ _) h2)


theorem Demo.fullWorld_outputEstimate :
    outputEstimate Demo.fullWorld (Demo.fullWorld.segStats 2) = .ok 0 := by
  have hcap : vehicleCapacity Demo.fullWorld (Demo.fullWorld.segStats 2) = 3 :=
    vehicleCapacity_tenMetres _ _ rfl rfl
  have hm : (Demo.fullWorld.segStats 2).numMovingInSegment = 3 := by decide
  have hq : (Demo.fullWorld.segStats 2).numQueuingInSegment = 0 := by decide
  have hi : (Demo.fullWorld.segStats 2).numAgentsInLane
      (Demo.fullWorld.segStats 2).laneInfinity = 0 := by decide
  rw [outputEstimate_eq _ _ (by rw [hm]; norm_num) (by rw [hq]; norm_num)
    (by rw [hcap, hm, hq]; norm_num) (by rw [hcap, hm, hq]; norm_num), hcap, hm, hq, hi]
  rfl

theorem Demo.fullWorld_reset :
    resetOutputBounds Demo.fullWorld 1 =
      (.ok 1, Demo.fullWorld.modifyConflux 1 (fun c => { c with vqBounds := [(11, 0)] })) := by
  have h := Demo.fullWorld_outputEstimate
  have hvq : (Demo.fullWorld.conflux 1).virtualQueuesMap = [(11, [9])] := rfl
  have hup : (Demo.fullWorld.conflux 1).upstreamSegStatsMap = [(11, [2])] := rfl
  simp only [resetOutputBounds, hvq, resetOutputBoundsLoop, hup, mapAt, if_true, h, mapInsert]
  rfl

/-- C9 (as stated) fails: at the start of a tick in which the first segment of link 11 is
full and person 9 is still in the virtual queue of link 11, `resetOutputBounds` sets
`vqBounds[11] = 0`; no admission has been made in the tick, and yet `|VQ[11]| = 1` is
not at most `vqBounds[11] + 0`. -/
theorem virtualQueue_budget_counterexample :
    ∃ n w', resetOutputBounds Demo.fullWorld 1 = (.ok n, w') ∧
      w'.vqLength 1 11 = 1 ∧ w'.vqBound 1 11 = 0 ∧
      ¬ (w'.vqLength 1 11 ≤ w'.vqBound 1 11 + 0) :=
  ⟨1, _, Demo.fullWorld_reset, rfl, rfl, by decide⟩

/-- In tick 5 the driver is granted into the virtual queue of link 11, whose bound is 2
and which holds person 9, and `housekeep` pushes the driver onto it: the queue has two
persons, within the larger of its bound (2) and its length at the start (1). -/
theorem virtualQueue_within_budget_witness :
    PersonProps.capture (admissionStage 5 7 (Demo.world 4 2 [9] 3)).2 7 0 = .ok Demo.afterUpdate ∧
      (housekeep (admissionStage 5 7 (Demo.world 4 2 [9] 3)).2 0 Demo.beforeUpdate
        Demo.afterUpdate 7).2.vqLength 1 11 = 2 ∧
      (housekeep (admissionStage 5 7 (Demo.world 4 2 [9] 3)).2 0 Demo.beforeUpdate
        Demo.afterUpdate 7).2.vqLength 1 11 ≤
        max ((Demo.world 4 2 [9] 3).vqBound 1 11) ((Demo.world 4 2 [9] 3).vqLength 1 11) :=
  ⟨rfl, rfl,
    (virtualQueue_within_budget (Demo.world 4 2 [9] 3)
      (housekeep (admissionStage 5 7 (Demo.world 4 2 [9] 3)).2 0 Demo.beforeUpdate
        Demo.afterUpdate 7).2
      (TickReach.step _ _ TickReach.start
        (TickStep.grantAndEnqueue (Demo.world 4 2 [9] 3)
          (admissionStage 5 7 (Demo.world 4 2 [9] 3)).2
          (admissionStage 5 7 (Demo.world 4 2 [9] 3)).2 _ 5 7 2 0 Demo.beforeUpdate
          Demo.afterUpdate
          (housekeep (admissionStage 5 7 (Demo.world 4 2 [9] 3)).2 0 Demo.beforeUpdate
            Demo.afterUpdate 7).1
          rfl rfl (SameQueues.refl _) rfl rfl))).2 1 11⟩


/-- C14 (activity-exit rule of `housekeep`), amended: for a person that was in an
activity before the update and is not after it, `housekeep`, however it ends, has taken
the first occurrence of the person out of `activityPerformers`, so that the person is
no longer in it if it was in it at most once. If the person walks after the update,
`housekeep` returns without error, with no segment stats, no person and no virtual
queue changed; the person is put at the back of `pedestrianList` unless it is there
already, so that it is in it exactly once if it was at most once. -/
theorem housekeep_activity_exit (w : World) (cfx : ConfluxId) (b a : PersonProps)
    (p : PersonId) (hb : b.roleType = .RL_ACTIVITY) (ha : a.roleType ≠ .RL_ACTIVITY) :
    ((housekeep w cfx b a p).2.conflux cfx).activityPerformers
      = (w.conflux cfx).activityPerformers.erase p ∧
    ((w.conflux cfx).activityPerformers.count p ≤ 1 →
      p ∉ ((housekeep w cfx b a p).2.conflux cfx).activityPerformers) ∧
    (a.roleType = .RL_PEDESTRIAN →
      ∃ w', housekeep w cfx b a p = (.ok (), w') ∧
        w'.segStats = w.segStats ∧ w'.person = w.person ∧
        (∀ c, (w'.conflux c).virtualQueuesMap = (w.conflux c).virtualQueuesMap) ∧
        (w'.conflux cfx).pedestrianList =
          (if p ∈ (w.conflux cfx).pedestrianList then (w.conflux cfx).pedestrianList
            else (w.conflux cfx).pedestrianList ++ [p]) ∧
        ((w.conflux cfx).pedestrianList.count p ≤ 1 →
          (w'.conflux cfx).pedestrianList.count p = 1)) := by
  have herase : ((housekeep w cfx b a p).2.conflux cfx).activityPerformers
      = (w.conflux cfx).activityPerformers.erase p := by
    rw [(housekeep_sameLists_after_exit w cfx b a p ha cfx).1]
    simp only [housekeepActivityExit, hb, ha, ne_eq, not_false_eq_true, and_self, if_true]
    split
    · split <;> simp [World.modifyConflux]
    · simp [World.modifyConflux]
  refine ⟨herase, ?_, ?_⟩
  · intro hone
    rw [herase]
    intro hmem
    have hpos := List.count_pos_iff.mpr hmem
    rw [List.count_erase_self] at hpos
    omega
  · intro hped
    by_cases hmem : p ∈ (w.conflux cfx).pedestrianList
    · refine ⟨w.modifyConflux cfx
        (fun c => { c with activityPerformers := c.activityPerformers.erase p }), ?_, rfl, rfl,
        ?_, ?_, ?_⟩
      · simp [housekeep, housekeepActivityExit, hb, hped, World.modifyConflux, hmem]
      · intro c
        by_cases hc : c = cfx
        · subst hc
          simp [World.modifyConflux]
        · simp [World.modifyConflux, Function.update_noteq hc]
      · simp [World.modifyConflux, hmem]
      · intro hcount
        have hpos := List.count_pos_iff.mpr hmem
        simp only [World.modifyConflux, Function.update_same]
        omega
    · refine ⟨(w.modifyConflux cfx
        (fun c => { c with activityPerformers := c.activityPerformers.erase p })).modifyConflux cfx
        (fun c => { c with pedestrianList := c.pedestrianList ++ [p] }), ?_, rfl, rfl,
        ?_, ?_, ?_⟩
      · simp [housekeep, housekeepActivityExit, hb, hped, World.modifyConflux, hmem]
      · intro c
        by_cases hc : c = cfx
        · subst hc
          simp [World.modifyConflux]
        · simp [World.modifyConflux, Function.update_noteq hc]
      · simp [World.modifyConflux, hmem]
      · intro _
        simp [World.modifyConflux, List.count_eq_zero_of_not_mem hmem]

/-- C14 (as stated) fails: person 8 stands twice in `activityPerformers` of conflux 0,
was in an activity before its update and walks after it; `housekeep` returns, and the
person is still in `activityPerformers`, from which `std::find` and `erase` have taken
its first occurrence only. -/
theorem housekeep_activity_exit_counterexample :
    (Demo.offRoadProps .RL_ACTIVITY).roleType = .RL_ACTIVITY ∧
    (Demo.offRoadProps .RL_PEDESTRIAN).roleType ≠ .RL_ACTIVITY ∧
    (Demo.twicePerformerWorld.conflux 0).activityPerformers = [8, 8] ∧
    (housekeep Demo.twicePerformerWorld 0 (Demo.offRoadProps .RL_ACTIVITY)
      (Demo.offRoadProps .RL_PEDESTRIAN) 8).1 = .ok () ∧
    ((housekeep Demo.twicePerformerWorld 0 (Demo.offRoadProps .RL_ACTIVITY)
      (Demo.offRoadProps .RL_PEDESTRIAN) 8).2.conflux 0).activityPerformers = [8] ∧
    ¬ (8 ∉ ((housekeep Demo.twicePerformerWorld 0 (Demo.offRoadProps .RL_ACTIVITY)
      (Demo.offRoadProps .RL_PEDESTRIAN) 8).2.conflux 0).activityPerformers) :=
  ⟨rfl, by decide, rfl, rfl, rfl, by decide⟩

/-- Person 8 of the demo leaves its activity to walk: it is out of `activityPerformers`
and once in `pedestrianList`. -/
theorem housekeep_activity_exit_witness :
    ((housekeep Demo.performerWorld 0 (Demo.offRoadProps .RL_ACTIVITY)
        (Demo.offRoadProps .RL_PEDESTRIAN) 8).2.conflux 0).activityPerformers = [] ∧
    8 ∉ ((housekeep Demo.performerWorld 0 (Demo.offRoadProps .RL_ACTIVITY)
        (Demo.offRoadProps .RL_PEDESTRIAN) 8).2.conflux 0).activityPerformers ∧
    ∃ w', housekeep Demo.performerWorld 0 (Demo.offRoadProps .RL_ACTIVITY)
        (Demo.offRoadProps .RL_PEDESTRIAN) 8 = (.ok (), w') ∧
      w'.segStats = Demo.performerWorld.segStats ∧ w'.person = Demo.performerWorld.person ∧
      (∀ c, (w'.conflux c).virtualQueuesMap = (Demo.performerWorld.conflux c).virtualQueuesMap) ∧
      (w'.conflux 0).pedestrianList =
        (if 8 ∈ (Demo.performerWorld.conflux 0).pedestrianList
          then (Demo.performerWorld.conflux 0).pedestrianList
          else (Demo.performerWorld.conflux 0).pedestrianList ++ [8]) ∧
      ((Demo.performerWorld.conflux 0).pedestrianList.count 8 ≤ 1 →
        (w'.conflux 0).pedestrianList.count 8 = 1) := by
  have h := housekeep_activity_exit Demo.performerWorld 0 (Demo.offRoadProps .RL_ACTIVITY)
    (Demo.offRoadProps .RL_PEDESTRIAN) 8 rfl (by decide)
  exact ⟨h.1.trans (by decide), h.2.1 (by decide), h.2.2 rfl⟩

/-- C17, as stated, fails: person 8 of the demo was in an activity before its update and
waits for a bus after it. The first block of `housekeep` does not return (the person does
not walk), the `switch` returns for the role `RL_WAITBUSACTITITY`, and yet
`activityPerformers` of the conflux has changed: the first block has taken the person
out of it. -/
theorem housekeep_noop_counterexample :
    (Demo.offRoadProps .RL_WAITBUSACTITITY).roleType = .RL_WAITBUSACTITITY ∧
    (housekeepActivityExit Demo.performerWorld 0 (Demo.offRoadProps .RL_ACTIVITY)
      (Demo.offRoadProps .RL_WAITBUSACTITITY) 8).1 = false ∧
    (Demo.performerWorld.conflux 0).activityPerformers = [8] ∧
    (housekeep Demo.performerWorld 0 (Demo.offRoadProps .RL_ACTIVITY)
      (Demo.offRoadProps .RL_WAITBUSACTITITY) 8).1 = .ok () ∧
    ((housekeep Demo.performerWorld 0 (Demo.offRoadProps .RL_ACTIVITY)
      (Demo.offRoadProps .RL_WAITBUSACTITITY) 8).2.conflux 0).activityPerformers = [] := by
  refine ⟨rfl, rfl, rfl, rfl, rfl⟩

/-- C17 (no-op rules of `housekeep`), amended: if the role after the update is
`RL_WAITBUSACTITITY`, `RL_TRAINPASSENGER` or `RL_CARPASSENGER`, or if the role is
`RL_PEDESTRIAN` both before and after the update, `housekeep` returns without error; it
leaves the whole world as it was (no lane, no virtual queue, no list of a conflux, no
recorded trailing edge has changed) unless the role before the update was `RL_ACTIVITY`,
and in that case the only change is that the person has been taken out of
`activityPerformers` of the conflux by the activity-exit rule. -/
theorem housekeep_noop_rules (w : World) (cfx : ConfluxId) (b a : PersonProps) (p : PersonId)
    (h : a.roleType = .RL_WAITBUSACTITITY ∨ a.roleType = .RL_TRAINPASSENGER ∨
      a.roleType = .RL_CARPASSENGER ∨
      (b.roleType = .RL_PEDESTRIAN ∧ a.roleType = .RL_PEDESTRIAN)) :
    (b.roleType ≠ .RL_ACTIVITY → housekeep w cfx b a p = (.ok (), w)) ∧
    (b.roleType = .RL_ACTIVITY →
      housekeep w cfx b a p = (.ok (), w.modifyConflux cfx
        (fun c => { c with activityPerformers := c.activityPerformers.erase p }))) ∧
    SameTrailingEdges w (housekeep w cfx b a p).2 ∧
    (∀ s lane, (housekeep w cfx b a p).2.laneAgents s lane = w.laneAgents s lane) ∧
    (∀ c, ((housekeep w cfx b a p).2.conflux c).virtualQueuesMap = (w.conflux c).virtualQueuesMap ∧
      ((housekeep w cfx b a p).2.conflux c).pedestrianList = (w.conflux c).pedestrianList) := by
  have hna : a.roleType ≠ .RL_ACTIVITY := by
    rcases h with h | h | h | h
    · rw [h]; decide
    · rw [h]; decide
    · rw [h]; decide
    · rw [h.2]; decide
  have h1 : b.roleType ≠ .RL_ACTIVITY → housekeep w cfx b a p = (.ok (), w) := by
    intro hb
    rcases h with h | h | h | h
    · simp [housekeep, housekeepActivityExit, housekeepRole, hb, h]
    · simp [housekeep, housekeepActivityExit, housekeepRole, hb, h]
    · simp [housekeep, housekeepActivityExit, housekeepRole, hb, h]
    · simp [housekeep, housekeepActivityExit, housekeepRole, h.1, h.2]
  have h2 : b.roleType = .RL_ACTIVITY →
      housekeep w cfx b a p = (.ok (), w.modifyConflux cfx
        (fun c => { c with activityPerformers := c.activityPerformers.erase p })) := by
    intro hb
    rcases h with h | h | h | h
    · simp [housekeep, housekeepActivityExit, housekeepRole, hb, h]
    · simp [housekeep, housekeepActivityExit, housekeepRole, hb, h]
    · simp [housekeep, housekeepActivityExit, housekeepRole, hb, h]
    · rw [h.1] at hb
      exact absurd hb (by decide)
  refine ⟨h1, h2, ?_, ?_, ?_⟩
  · by_cases hb : b.roleType = .RL_ACTIVITY
    · rw [h2 hb]
      exact sameTrailingEdges_of_segStats_eq rfl
    · rw [h1 hb]
      exact sameTrailingEdges_refl w
  · intro s lane
    by_cases hb : b.roleType = .RL_ACTIVITY
    · rw [h2 hb]
      rfl
    · rw [h1 hb]
  · intro c
    by_cases hb : b.roleType = .RL_ACTIVITY
    · rw [h2 hb]
      by_cases hc : c = cfx
      · subst hc
        simp [World.modifyConflux]
      · simp [World.modifyConflux, Function.update_noteq hc]
    · rw [h1 hb]
      exact ⟨rfl, rfl⟩

/-- Person 8 of the demo waits for a bus before and after its update: `housekeep` leaves
the world as it was. -/
theorem housekeep_noop_rules_witness :
    housekeep Demo.performerWorld 0 (Demo.offRoadProps .RL_WAITBUSACTITITY)
      (Demo.offRoadProps .RL_WAITBUSACTITITY) 8 = (.ok (), Demo.performerWorld) :=
  (housekeep_noop_rules Demo.performerWorld 0 (Demo.offRoadProps .RL_WAITBUSACTITITY)
    (Demo.offRoadProps .RL_WAITBUSACTITITY) 8 (Or.inl rfl)).1 (by decide)

/-- C15 (activity-entry rule of `housekeep`): for a person that is in an activity after
the update. If it was in an activity before as well, `housekeep` returns with the world
as it was. Otherwise: if it walked before, it is taken out of `pedestrianList` and put
at the back of `activityPerformers`; if it did not walk and was in no lane, it is only
put at the back of `activityPerformers`; if it did not walk and was in lane `ln`,
`dequeue` is called on the segment stats and the lane of before the update, and then
either the dequeue fails, `housekeep` fails with it and the world is as it was, or the
person has left the deque of that lane, nothing but that deque has changed, and the
person is put at the back of `activityPerformers`. In each case the world after
`housekeep` is given in full, so nothing else has changed. -/
theorem housekeep_activity_entry (w : World) (cfx : ConfluxId) (b a : PersonProps)
    (p : PersonId) (ha : a.roleType = .RL_ACTIVITY) :
    (b.roleType = .RL_ACTIVITY → housekeep w cfx b a p = (.ok (), w)) ∧
    (b.roleType = .RL_PEDESTRIAN →
      housekeep w cfx b a p = (.ok (),
        (w.modifyConflux cfx
          (fun c => { c with pedestrianList := c.pedestrianList.erase p })).modifyConflux cfx
          (fun c => { c with activityPerformers := c.activityPerformers ++ [p] }))) ∧
    (b.roleType ≠ .RL_ACTIVITY → b.roleType ≠ .RL_PEDESTRIAN → b.lane = none →
      housekeep w cfx b a p = (.ok (), w.modifyConflux cfx
        (fun c => { c with activityPerformers := c.activityPerformers ++ [p] }))) ∧
    (b.roleType ≠ .RL_ACTIVITY → b.roleType ≠ .RL_PEDESTRIAN → ∀ ln, b.lane = some ln →
      (∀ f w1, w.dequeue b.segStats p ln b.isQueuing = (.error f, w1) →
        housekeep w cfx b a p = (.error f, w)) ∧
      (∀ w1, w.dequeue b.segStats p ln b.isQueuing = (.ok (), w1) →
        housekeep w cfx b a p = (.ok (), w1.modifyConflux cfx
          (fun c => { c with activityPerformers := c.activityPerformers ++ [p] })) ∧
        ∃ s, b.segStats = some s ∧ OnlyLane s ln ((w.laneAgents s ln).erase p) w w1)) := by
  refine ⟨?_, ?_, ?_, ?_⟩
  · intro hb
    simp [housekeep, housekeepActivityExit, housekeepRole, hb, ha]
  · intro hb
    simp [housekeep, housekeepActivityExit, housekeepRole, hb, ha]
  · intro hb hp hl
    simp [housekeep, housekeepActivityExit, housekeepRole, hb, hp, ha, hl]
  · intro hb hp ln hl
    constructor
    · intro f w1 hd
      have hw1 : w1 = w := World.dequeue_error hd
      subst hw1
      simp [housekeep, housekeepActivityExit, housekeepRole, hb, hp, ha, hl, hd]
    · intro w1 hd
      refine ⟨?_, World.dequeue_onlyLane hd⟩
      simp [housekeep, housekeepActivityExit, housekeepRole, hb, hp, ha, hl, hd]

/-- The driver of the demo, on lane 0 of segment stats 1 before its update, is in an
activity after it: it has left the deque of the lane and is the one activity performer
of conflux 0. -/
theorem housekeep_activity_entry_witness :
    ∃ w', housekeep (Demo.world 5 2 [9] 3) 0 Demo.beforeUpdate
        (Demo.offRoadProps .RL_ACTIVITY) 7 = (.ok (), w') ∧
      w'.laneAgents 1 0 = [] ∧ (w'.conflux 0).activityPerformers = [7] :=
  ⟨_, ((housekeep_activity_entry (Demo.world 5 2 [9] 3) 0 Demo.beforeUpdate
      (Demo.offRoadProps .RL_ACTIVITY) 7 rfl).2.2.2 (by decide) (by decide) 0 rfl).2 _ rfl |>.1,
    rfl, rfl⟩

/-- C16 (bus-driver rule of `housekeep`): for a person that is a bus driver after the
update, on the world `afterActivityExit` that the first block leaves (the world as it
was, unless the role before the update was `RL_ACTIVITY`).
(a) The bus was moving and is not any more: if the driver was in no lane nothing
changes; if it was in lane `ln`, `dequeue` is called on the segment stats and the lane
of before the update, and `housekeep` ends with its outcome (on success only the deque of
that lane has changed: the driver is out of it).
(b) The bus was not moving and is now: if the driver is in lane `ln` after the update,
`addAgent` is called and `housekeep` ends with its outcome (on success only the deque of
that lane has changed: the driver is at its back); if it is in no lane, it is put at the
back of the virtual queue of the link of its segment on the parent conflux of its segment
stats, with its distance to the end of the segment set to the length of the segment stats.
(c) The bus was not moving, is not moving and the segment stats differ: nothing changes.
In all three cases no trailing edge is recorded. -/
theorem housekeep_bus_driver (w : World) (cfx : ConfluxId) (b a : PersonProps) (p : PersonId)
    (ha : a.roleType = .RL_BUSDRIVER) :
    (b.roleType ≠ .RL_ACTIVITY → afterActivityExit w cfx b a p = w) ∧
    (b.isMoving = true → a.isMoving = false →
      (b.lane = none → housekeep w cfx b a p = (.ok (), afterActivityExit w cfx b a p)) ∧
      (∀ ln, b.lane = some ln →
        (∀ f w2, (afterActivityExit w cfx b a p).dequeue b.segStats p ln b.isQueuing
            = (.error f, w2) →
          housekeep w cfx b a p = (.error f, afterActivityExit w cfx b a p)) ∧
        (∀ w2, (afterActivityExit w cfx b a p).dequeue b.segStats p ln b.isQueuing
            = (.ok (), w2) →
          housekeep w cfx b a p = (.ok (), w2) ∧
          ∃ s, b.segStats = some s ∧
            OnlyLane s ln (((afterActivityExit w cfx b a p).laneAgents s ln).erase p)
              (afterActivityExit w cfx b a p) w2))) ∧
    (b.isMoving = false → a.isMoving = true →
      (∀ ln, a.lane = some ln →
        (∀ f w2, (afterActivityExit w cfx b a p).addAgent a.segStats ln p = (.error f, w2) →
          housekeep w cfx b a p = (.error f, afterActivityExit w cfx b a p)) ∧
        (∀ w2, (afterActivityExit w cfx b a p).addAgent a.segStats ln p = (.ok (), w2) →
          housekeep w cfx b a p = (.ok (), w2) ∧
          ∃ s, a.segStats = some s ∧
            OnlyLane s ln ((afterActivityExit w cfx b a p).laneAgents s ln ++ [p])
              (afterActivityExit w cfx b a p) w2)) ∧
      (a.lane = none → ∀ s seg queue, a.segStats = some s → a.segment = some seg →
        (afterActivityExit w cfx b a p).virtualQueue (w.segStats s).parentConflux
          (w.roadSegment seg).link = some queue →
        ∃ w2, housekeep w cfx b a p = (.ok (), w2) ∧
          OnlyVirtualQueue (w.segStats s).parentConflux (w.roadSegment seg).link queue p
            (w.segStats s).length (afterActivityExit w cfx b a p) w2)) ∧
    (b.isMoving = false → a.isMoving = false → b.segStats ≠ a.segStats →
      housekeep w cfx b a p = (.ok (), afterActivityExit w cfx b a p)) ∧
    ((b.isMoving = true ∧ a.isMoving = false) ∨ (b.isMoving = false ∧ a.isMoving = true) ∨
      (b.isMoving = false ∧ a.isMoving = false ∧ b.segStats ≠ a.segStats) →
      SameTrailingEdges w (housekeep w cfx b a p).2) := by
  have hexit : ¬ (b.roleType = .RL_ACTIVITY ∧ a.roleType = .RL_PEDESTRIAN) := by
    rintro ⟨_, hp⟩
    rw [ha] at hp
    exact absurd hp (by decide)
  have hk : housekeep w cfx b a p =
      match housekeepBusDriver (afterActivityExit w cfx b a p) b a p with
      | (.error f, w2) => (.error f, w2)
      | (.ok true, w2) => (.ok (), w2)
      | (.ok false, w2) =>
        match housekeepOnRoad w2 b a p with
        | (.error f, w3) => (.error f, w3)
        | (.ok _, w3) => housekeepTrailingEdge w3 a p := by
    unfold housekeep
    rw [housekeepActivityExit_not_returned w cfx b a p hexit]
    simp [housekeepRole, ha]
  have hsegStats : (afterActivityExit w cfx b a p).segStats = w.segStats := by
    unfold afterActivityExit housekeepActivityExit
    split
    · dsimp only
      split
      · split <;> rfl
      · rfl
    · rfl
  have hroad : (afterActivityExit w cfx b a p).roadSegment = w.roadSegment := by
    unfold afterActivityExit housekeepActivityExit
    split
    · dsimp only
      split
      · split <;> rfl
      · rfl
    · rfl
  refine ⟨afterActivityExit_of_not_activity w cfx b a p, ?_, ?_, ?_, ?_⟩
  · intro hbm ham
    constructor
    · intro hl
      rw [hk]
      simp [housekeepBusDriver, hbm, ham, hl]
    · intro ln hl
      constructor
      · intro f w2 hd
        have hw2 : w2 = afterActivityExit w cfx b a p := World.dequeue_error hd
        subst hw2
        rw [hk]
        simp only [housekeepBusDriver, hbm, ham, hl, hd]
        simp
      · intro w2 hd
        refine ⟨?_, World.dequeue_onlyLane hd⟩
        rw [hk]
        simp only [housekeepBusDriver, hbm, ham, hl, hd]
        simp
  · intro hbm ham
    constructor
    · intro ln hl
      constructor
      · intro f w2 hd
        have hw2 : w2 = afterActivityExit w cfx b a p := World.addAgent_error hd
        subst hw2
        rw [hk]
        simp only [housekeepBusDriver, hbm, ham, hl, hd]
        simp
      · intro w2 hd
        refine ⟨?_, World.addAgent_onlyLane hd⟩
        rw [hk]
        simp only [housekeepBusDriver, hbm, ham, hl, hd]
        simp
    · intro hl s seg queue hs hg hq
      have hspec := (World.enqueueOnVirtualQueue_spec (afterActivityExit w cfx b a p) a p s seg
        hs hg).1 queue (by rw [hsegStats, hroad]; exact hq)
      obtain ⟨w2, hpush, honly⟩ := hspec
      rw [hsegStats, hroad] at honly
      refine ⟨w2, ?_, honly⟩
      rw [hk]
      simp only [housekeepBusDriver, hbm, ham, hl, hpush]
      simp
  · intro hbm ham hs
    rw [hk]
    simp [housekeepBusDriver, hbm, ham, hs]
  · intro hcase
    rw [housekeep_busDriver_snd w cfx b a p ha hcase]
    exact sameTrailingEdges_trans (sameTrailingEdges_afterActivityExit w cfx b a p)
      (housekeepBusDriver_sameTrailingEdges _ b a p)

/-- The bus driver of the demo stops to serve a stop on lane 0 of segment stats 1: it
leaves the deque of the lane and goes to no other container. -/
theorem housekeep_bus_driver_witness :
    ∃ w2, housekeep Demo.busWorld 0 (Demo.busProps true) (Demo.busProps false) 7 = (.ok (), w2) ∧
      w2.laneAgents 1 0 = [] ∧ w2.conflux = Demo.busWorld.conflux :=
  ⟨_, ((((housekeep_bus_driver Demo.busWorld 0 (Demo.busProps true) (Demo.busProps false) 7
      rfl).2.1 rfl rfl).2 0 rfl).2 _ rfl).1, rfl, rfl⟩

/-- C12 (rule of `housekeep` for a person that goes from no lane to no lane): for a
person that `housekeep` places on the road, in no lane before and after the update.
If the segment stats of before and after differ, `housekeep` fails and the world is the
one the first block left, in which every virtual queue is as before `housekeep`; the
failure is the `runtime_error` "Person has moved from one virtual queue to another"
when both snapshots have their segment, which the message reads. If the segment stats
are the same and the link of the segment has a virtual queue on the parent conflux of
the segment stats, `housekeep` returns without error, and the person is once more at the
back of that queue, its distance to the end of the segment is the length of the segment
stats, and no other queue, no list, no segment stats and no other person has changed. -/
theorem housekeep_virtual_queue_rule (w : World) (cfx : ConfluxId) (b a : PersonProps)
    (p : PersonId) (hroad : reachesOnRoadPlacement b a = true)
    (hb : b.lane = none) (ha : a.lane = none) :
    (b.segStats ≠ a.segStats →
      (∃ f, housekeep w cfx b a p = (.error f, afterActivityExit w cfx b a p)) ∧
      (∀ g1 g2, b.segment = some g1 → a.segment = some g2 →
        housekeep w cfx b a p
          = (.error .movedBetweenVirtualQueues, afterActivityExit w cfx b a p)) ∧
      (∀ c l, (afterActivityExit w cfx b a p).virtualQueue c l = w.virtualQueue c l)) ∧
    (b.segStats = a.segStats → ∀ s seg queue, a.segStats = some s → a.segment = some seg →
      w.virtualQueue (w.segStats s).parentConflux (w.roadSegment seg).link = some queue →
      ∃ w2, housekeep w cfx b a p = (.ok (), w2) ∧
        OnlyVirtualQueue (w.segStats s).parentConflux (w.roadSegment seg).link queue p
          (w.segStats s).length (afterActivityExit w cfx b a p) w2) := by
  have hk := housekeep_of_reaches w cfx b a p hroad
  constructor
  · intro hne
    refine ⟨?_, ?_, afterActivityExit_virtualQueue w cfx b a p⟩
    · rw [hk]
      simp only [housekeepOnRoad, hb, ha, hne, ne_eq, not_false_eq_true, if_true]
      cases b.segment with
      | none => exact ⟨_, rfl⟩
      | some g1 =>
        cases a.segment with
        | none => exact ⟨_, rfl⟩
        | some g2 => exact ⟨_, rfl⟩
    · intro g1 g2 h1 h2
      rw [hk]
      simp only [housekeepOnRoad, hb, ha, hne, ne_eq, not_false_eq_true, if_true, h1, h2]
  · intro heq s seg queue hs hg hq
    have hq1 : (afterActivityExit w cfx b a p).virtualQueue
        ((afterActivityExit w cfx b a p).segStats s).parentConflux
        ((afterActivityExit w cfx b a p).roadSegment seg).link = some queue := by
      rw [afterActivityExit_virtualQueue, afterActivityExit_segStats,
        afterActivityExit_roadSegment]
      exact hq
    obtain ⟨w2, hpush, honly⟩ :=
      (World.enqueueOnVirtualQueue_spec (afterActivityExit w cfx b a p) a p s seg hs hg).1
        queue hq1
    rw [afterActivityExit_segStats, afterActivityExit_roadSegment] at honly
    refine ⟨w2, ?_, honly⟩
    rw [hk]
    simp only [housekeepOnRoad, hb, ha, heq, ne_eq, not_true_eq_false, if_false, hpush,
      housekeepTrailingEdge]

/-- The driver of the demo, waiting in the virtual queue of link 11 on segment stats 2
and not admitted to a lane in tick 5, is pushed back onto that queue, behind person 9. -/
theorem housekeep_virtual_queue_rule_witness :
    ∃ w2, housekeep (Demo.world 5 2 [9] 3) 1 Demo.afterUpdate Demo.afterUpdate 7 = (.ok (), w2) ∧
      w2.virtualQueue 1 11 = some [9, 7] ∧ (w2.person 7).distanceToEndOfSegment = 1000 :=
  (((housekeep_virtual_queue_rule (Demo.world 5 2 [9] 3) 1 Demo.afterUpdate Demo.afterUpdate 7
    rfl rfl rfl).2 rfl 2 21 [9] rfl rfl rfl).imp
    (fun _ h => ⟨h.1, h.2.2.1, by rw [h.2.2.2.2.2.2]; simp; rfl⟩))

/-- C13, as stated, fails: person 7 of the demo is in the deque of lane 0 of segment
stats 1, which its snapshot of before the update names, with the role `RL_ACTIVITY`;
after the update it drives on lane 0 of segment stats 2. `housekeep` places it on the
road, the segment stats have changed, and `housekeep` returns without error, but the
person has not been dequeued: line 523 calls `dequeue` only if the role of before the
update is not `RL_ACTIVITY`. The person is in the deques of both lanes. -/
theorem housekeep_on_road_move_counterexample :
    reachesOnRoadPlacement Demo.beforeInActivity Demo.afterOnLane = true ∧
    Demo.beforeInActivity.lane = some 0 ∧
    Demo.beforeInActivity.segStats = some 1 ∧ Demo.afterOnLane.segStats = some 2 ∧
    (Demo.world 5 2 [9] 3).laneAgents 1 0 = [7] ∧
    (housekeep (Demo.world 5 2 [9] 3) 0 Demo.beforeInActivity Demo.afterOnLane 7).1 = .ok () ∧
    (housekeep (Demo.world 5 2 [9] 3) 0 Demo.beforeInActivity Demo.afterOnLane 7).2.laneAgents
      1 0 = [7] ∧
    (housekeep (Demo.world 5 2 [9] 3) 0 Demo.beforeInActivity Demo.afterOnLane 7).2.laneAgents
      2 0 = [7] := by
  refine ⟨rfl, rfl, rfl, rfl, rfl, rfl, rfl, rfl⟩

/-- C13 (on-road move rule of `housekeep`), amended: for a person that `housekeep` places
on the road, `housekeep` is the on-road stage on the world left by the first block,
followed, if the stage ends without error, by the recording of the trailing edge.
If the person was in lane `bl` before the update and the segment stats have changed, or
`bl` was lane infinity and the lane has changed, the on-road stage is: unless the role
before the update was `RL_ACTIVITY`, `dequeue` from the segment stats and the lane of
before the update (a failure ends the stage), and then `placeAfterUpdate`, that is
`addAgent` on the segment stats and the lane of after the update if that lane is not
null, and the push onto the virtual queue of the link of after the update otherwise;
with the role `RL_ACTIVITY` before the update no dequeue is made. If the person was in no
lane before the update and is in a lane after it, the stage is the one call of
`addAgent`, with no dequeue. A successful `dequeue` takes the person out of the deque of
the lane and a successful `addAgent` puts it at the back of the deque of the lane, and
neither changes anything else. -/
theorem housekeep_on_road_move (w : World) (cfx : ConfluxId) (b a : PersonProps) (p : PersonId)
    (hroad : reachesOnRoadPlacement b a = true) :
    (housekeep w cfx b a p =
      match housekeepOnRoad (afterActivityExit w cfx b a p) b a p with
      | (.error f, w3) => (.error f, w3)
      | (.ok _, w3) => housekeepTrailingEdge w3 a p) ∧
    (∀ bl, b.lane = some bl →
      (b.segStats ≠ a.segStats ∨
        ∃ bs, b.segStats = some bs ∧ bl = (w.segStats bs).laneInfinity ∧ a.lane ≠ some bl) →
      (b.roleType ≠ .RL_ACTIVITY →
        housekeepOnRoad (afterActivityExit w cfx b a p) b a p =
          match (afterActivityExit w cfx b a p).dequeue b.segStats p bl b.isQueuing with
          | (.error f, w2) => (.error f, w2)
          | (.ok _, w2) => placeAfterUpdate w2 a p) ∧
      (b.roleType = .RL_ACTIVITY →
        housekeepOnRoad (afterActivityExit w cfx b a p) b a p =
          placeAfterUpdate (afterActivityExit w cfx b a p) a p)) ∧
    (b.lane = none → ∀ ln, a.lane = some ln →
      housekeepOnRoad (afterActivityExit w cfx b a p) b a p =
        (afterActivityExit w cfx b a p).addAgent a.segStats ln p) ∧
    (∀ (w0 w2 : World) s ln q, w0.dequeue s p ln q = (.ok (), w2) →
      ∃ sid, s = some sid ∧ OnlyLane sid ln ((w0.laneAgents sid ln).erase p) w0 w2) ∧
    (∀ (w0 w2 : World) s ln, w0.addAgent s ln p = (.ok (), w2) →
      ∃ sid, s = some sid ∧ OnlyLane sid ln (w0.laneAgents sid ln ++ [p]) w0 w2) := by
  refine ⟨housekeep_of_reaches w cfx b a p hroad, ?_, ?_, ?_, ?_⟩
  · intro bl hbl hmoved
    have hm := movedOrLeftLaneInfinity_of w cfx b a p bl hmoved
    constructor
    · intro hb
      unfold housekeepOnRoad
      rw [hbl]
      dsimp only
      rw [hm]
      dsimp only
      rw [if_pos hb]
      rcases (afterActivityExit w cfx b a p).dequeue b.segStats p bl b.isQueuing with ⟨res, w2⟩
      cases res with
      | error f => rfl
      | ok u =>
        dsimp only
        unfold placeAfterUpdate
        cases a.lane <;> rfl
    · intro hb
      unfold housekeepOnRoad
      rw [hbl]
      dsimp only
      rw [hm]
      dsimp only
      rw [if_neg (not_not.mpr hb)]
      dsimp only
      unfold placeAfterUpdate
      cases a.lane <;> rfl
  · intro hbl ln hl
    unfold housekeepOnRoad
    rw [hbl, hl]
  · intro w0 w2 s ln q h
    exact World.dequeue_onlyLane h
  · intro w0 w2 s ln h
    exact World.addAgent_onlyLane h

/-- The driver of the demo moves from lane 0 of segment stats 1 to lane 0 of segment
stats 2: it leaves the first deque and is alone in the second. -/
theorem housekeep_on_road_move_witness :
    ∃ w', housekeep (Demo.world 5 2 [9] 3) 0 Demo.beforeUpdate Demo.afterOnLane 7 = (.ok (), w') ∧
      w'.laneAgents 1 0 = [] ∧ w'.laneAgents 2 0 = [7] :=
  ⟨_, (housekeep_on_road_move (Demo.world 5 2 [9] 3) 0 Demo.beforeUpdate Demo.afterOnLane 7
    rfl).1.trans rfl, rfl, rfl⟩

/-- C19 (merge across the links of a conflux), amended: for a capacity that is not
negative and deques whose persons have finite driving times (no `+∞`, no NaN),
`topCMergeDifferentLinksInConflux` appends to `mergedPersonDeque` first the persons
`picked`, as many as the lesser of the
capacity and the number of persons in all deques, each being, at its turn, at the head
of a deque and of least `drivingTimeToEndOfLink` among the heads of the deques that are
not exhausted; and after them what is left of every deque, in the order of the deques,
where what is left of a deque is a tail of it. -/
theorem topCMerge_picks_least_heads (w : World) (rand : Nat → Nat) (k : Nat)
    (mergedPersonDeque : List PersonId) (allPersonLists : List (List PersonId))
    (capacity : Int) (hcap : 0 ≤ capacity) (hint : capacity < 2 ^ 31)
    (hfin : FiniteDrivingTimes w allPersonLists) :
    ∃ picked leftovers,
      MinHeadPicks w allPersonLists picked leftovers ∧
      picked.length = min capacity.toNat (totalPersons allPersonLists) ∧
      List.Forall₂ (fun rest l => rest <:+ l) leftovers allPersonLists ∧
      (topCMergeDifferentLinksInConflux w rand k mergedPersonDeque allPersonLists capacity).1
        = mergedPersonDeque ++ picked ++ leftovers.flatten := by
  obtain ⟨picked, leftovers, hpicks, hlen, hmerged, hiter, hret⟩ :=
    pickTopC_spec w rand (topCPasses capacity) allPersonLists mergedPersonDeque k hfin
  rw [topCPasses_of_nonneg capacity hcap hint] at hlen
  refine ⟨picked, leftovers, hpicks, hlen, hpicks.suffix, ?_⟩
  unfold topCMergeDifferentLinksInConflux
  dsimp only
  by_cases hr : (pickTopC w rand (topCPasses capacity) allPersonLists mergedPersonDeque
      k).returned = true
  · rw [if_pos hr, hmerged, flatten_eq_nil_of_totalPersons leftovers (hret hr)]
    simp
  · rw [if_neg hr, appendLeftovers_eq, hmerged, hiter]

/-- With the deques [1, 4] and [2, 3], driving times equal to the numbers of the persons
and a capacity of 2, the merge gives 1, 2 (picked) and then 4, 3 (left over). -/
theorem topCMerge_picks_least_heads_witness :
    (topCMergeDifferentLinksInConflux Demo.mergeWorld (fun _ => 0) 0 [] [[1, 4], [2, 3]] 2).1
      = [1, 2, 4, 3] ∧
    ∃ picked leftovers,
      MinHeadPicks Demo.mergeWorld [[1, 4], [2, 3]] picked leftovers ∧
      picked.length = min (2 : Int).toNat (totalPersons [[1, 4], [2, 3]]) ∧
      List.Forall₂ (fun rest l => rest <:+ l) leftovers [[1, 4], [2, 3]] ∧
      (topCMergeDifferentLinksInConflux Demo.mergeWorld (fun _ => 0) 0 [] [[1, 4], [2, 3]] 2).1
        = [] ++ picked ++ leftovers.flatten :=
  ⟨by decide, topCMerge_picks_least_heads Demo.mergeWorld (fun _ => 0) 0 [] [[1, 4], [2, 3]] 2
    (by decide) (by decide) (by
      intro l hl p hp
      simp only [List.mem_cons, List.mem_singleton, List.not_mem_nil, or_false] at hl
      rcases hl with rfl | rfl <;>
        simp only [List.mem_cons, List.mem_singleton, List.not_mem_nil, or_false] at hp <;>
        rcases hp with rfl | rfl <;>
        simp [World.drivingTime, Demo.mergeWorld, Demo.driver, MAX_DOUBLE] <;> norm_num)⟩

/-- C19 (as stated) fails: with the single deque `[1]`, person 1 having an infinite
driving time, and a capacity of 1, the head of the deque is neither equal to nor less
than `MAX_DOUBLE`, `equiTimeList` stays empty and the function returns at line 1481:
nobody is picked, although `min(capacity, total) = 1`, and the tail `[1]` of the deque
is not appended. -/
theorem topCMerge_picks_least_heads_counterexample :
    (topCMergeDifferentLinksInConflux Demo.stalledWorld (fun _ => 0) 0 [] [[1]] 1).1 = [] ∧
    min (1 : Int).toNat (totalPersons [[1]]) = 1 ∧
    ¬ ∃ picked leftovers,
      MinHeadPicks Demo.stalledWorld [[1]] picked leftovers ∧
      picked.length = min (1 : Int).toNat (totalPersons [[1]]) ∧
      List.Forall₂ (fun rest l => rest <:+ l) leftovers [[1]] ∧
      (topCMergeDifferentLinksInConflux Demo.stalledWorld (fun _ => 0) 0 [] [[1]] 1).1
        = [] ++ picked ++ leftovers.flatten := by
  have hres : (topCMergeDifferentLinksInConflux Demo.stalledWorld (fun _ => 0) 0 [] [[1]] 1).1
      = [] := by decide
  refine ⟨hres, by decide, ?_⟩
  rintro ⟨picked, leftovers, _, hlen, _, h⟩
  rw [hres] at h
  have hp : picked = [] := by
    cases picked with
    | nil => rfl
    | cons x xs => simp at h
  rw [hp] at hlen
  revert hlen
  decide

/-- C20 (determinism of the merge): if in no pass of the loop "pick the Top C" two heads
of deques have the same `drivingTimeToEndOfLink`, the merged deque is the same for
every random sequence, and `rand()` is not called (the count of calls stays at `k`). In
general the outcome depends on the random sequence only through the calls made, which
are made in passes with several heads of least driving time: two random sequences that
agree on the calls made by the run with the first give the same outcome, so that with
one random sequence and the same inputs the outcome is the same. -/
theorem topCMerge_deterministic (w : World) (mergedPersonDeque : List PersonId)
    (allPersonLists : List (List PersonId)) (capacity : Int) :
    (NoEqualHeadsEver w (topCPasses capacity) allPersonLists →
      ∃ out, ∀ (rand : Nat → Nat) (k : Nat),
        topCMergeDifferentLinksInConflux w rand k mergedPersonDeque allPersonLists capacity
          = (out, k)) ∧
    (∀ (rand1 rand2 : Nat → Nat) (k : Nat),
      (∀ j, k ≤ j →
        j < (topCMergeDifferentLinksInConflux w rand1 k mergedPersonDeque allPersonLists
          capacity).2 → rand1 j = rand2 j) →
      topCMergeDifferentLinksInConflux w rand2 k mergedPersonDeque allPersonLists capacity
        = topCMergeDifferentLinksInConflux w rand1 k mergedPersonDeque allPersonLists
            capacity) := by
  constructor
  · intro h
    obtain ⟨out, lists', r, hall⟩ :=
      pickTopC_noEqualHeads w (topCPasses capacity) allPersonLists mergedPersonDeque h
    refine ⟨if r then out else appendLeftovers out lists', fun rand k => ?_⟩
    unfold topCMergeDifferentLinksInConflux
    dsimp only
    rw [hall rand k]
    cases r <;> simp
  · intro rand1 rand2 k h
    have hdraws : (topCMergeDifferentLinksInConflux w rand1 k mergedPersonDeque allPersonLists
        capacity).2 = (pickTopC w rand1 (topCPasses capacity) allPersonLists mergedPersonDeque
        k).draws := by
      unfold topCMergeDifferentLinksInConflux
      dsimp only
      split <;> rfl
    rw [hdraws] at h
    have hrun := pickTopC_congr w rand1 rand2 (topCPasses capacity) allPersonLists
      mergedPersonDeque k h
    unfold topCMergeDifferentLinksInConflux
    dsimp only
    rw [hrun]

/-- With the deques [1, 4] and [2, 3] and driving times equal to the numbers of the
persons no two heads ever have the same driving time, and the merge with capacity 3
gives 1, 2, 3, 4 whatever the random sequence. -/
theorem topCMerge_deterministic_witness :
    NoEqualHeadsEver Demo.mergeWorld (topCPasses 3) [[1, 4], [2, 3]] ∧
    ∃ out, ∀ (rand : Nat → Nat) (k : Nat),
      topCMergeDifferentLinksInConflux Demo.mergeWorld rand k [] [[1, 4], [2, 3]] 3 = (out, k) :=
  ⟨by decide, (topCMerge_deterministic Demo.mergeWorld [] [[1, 4], [2, 3]] 3).1 (by decide)⟩

/-- C11 does not hold of the code. Person 8 of the demo is on foot, in `pedestrianList`
of conflux 0 and in no lane; in the tick its walk ends and its next sub-trip makes it a
driver on lane infinity of segment stats 1. `updateAgent` returns without error, and the
person is then both in `pedestrianList` of conflux 0 and in the deque of lane infinity of
segment stats 1: the on-road stage of `housekeep` adds it to the lane (line 497), and
nothing takes it out of `pedestrianList`, which `housekeep` does only for a person that
enters an activity (lines 411 to 418) and `switchTripChainItem` only for the roles off
the road (lines 1002 to 1033). The same is true of `housekeep` alone on the two
snapshots. -/
theorem updateAgent_pedestrian_to_driver :
    (Demo.walkerWorld.conflux 0).pedestrianList = [8] ∧
    Demo.walkerWorld.laneAgents 1 99 = [] ∧
    (updateAgent Demo.tripCollaborators 3 0 8 Demo.walkerWorld).1 = .ok () ∧
    ((updateAgent Demo.tripCollaborators 3 0 8 Demo.walkerWorld).2.conflux 0).pedestrianList
      = [8] ∧
    (updateAgent Demo.tripCollaborators 3 0 8 Demo.walkerWorld).2.laneAgents 1 99 = [8] ∧
    (housekeep Demo.walkerWorld 0 (Demo.offRoadProps .RL_PEDESTRIAN)
      { segment := some 20, lane := some 99, isQueuing := false, isMoving := true,
        roleType := .RL_DRIVER, vehicleLength := 400, segStats := some 1, conflux := some 0 }
      8).1 = .ok () ∧
    8 ∈ ((housekeep Demo.walkerWorld 0 (Demo.offRoadProps .RL_PEDESTRIAN)
      { segment := some 20, lane := some 99, isQueuing := false, isMoving := true,
        roleType := .RL_DRIVER, vehicleLength := 400, segStats := some 1, conflux := some 0 }
      8).2.conflux 0).pedestrianList ∧
    8 ∈ (housekeep Demo.walkerWorld 0 (Demo.offRoadProps .RL_PEDESTRIAN)
      { segment := some 20, lane := some 99, isQueuing := false, isMoving := true,
        roleType := .RL_DRIVER, vehicleLength := 400, segStats := some 1, conflux := some 0 }
      8).2.laneAgents 1 99 := by
  refine ⟨rfl, rfl, rfl, rfl, rfl, rfl, ?_, ?_⟩
  · decide
  · decide

/-- C27: a failure of the initialisation of the role is recovered in the update of the
person. For a person that is not initialised and for which `callMovementFrameInit`
answers `false`, leaving the world `w3`: the person had no role and its trip chain is
done, or the frame initialisation of its role has run and the person is to be removed;
`movePerson` returns `RS_DONE` with the world `w3` as it is, so without a frame tick and
without a write to `initialized`; and `updateAgent` is then `killAgent` on `w3` with the
snapshot of before the update, and nothing after it: neither `housekeep` nor the
re-registration of the handler. The calls made during the update are the registration of
the person, the check of its trip chain, the parameters of the frame tick, the frame
initialisation and the removal of the person from its worker, and no other. -/
theorem init_failure_kills (col : Collaborators) (ext : TripCollaborators) (cfg : Config)
    (ms fuel : Nat) (cfx : ConfluxId) (p : PersonId) (w w3 : World) (before : PersonProps)
    (hni : (w.person p).initialized = false)
    (hcap : PersonProps.capture (enterUpdate cfx p w) p cfx = .ok before)
    (hfail : callMovementFrameInit col ext ms (enterUpdate cfx p w) (w.conflux cfx).currFrame p
      = (.ok false, w3)) :
    ((∃ u v, (u.person p).role = none ∧
        callOut u (.checkTripChain p) (fun x => ext.checkTripChain x p) = (.ok .RS_DONE, v) ∧
        w3 = v.modifyPerson p (fun x => { x with startTime := ms })) ∨
      (∃ u, callOut u (.frameInit p) (fun x => ext.frame_init x p) = (.ok (), w3) ∧
        (w3.person p).toBeRemoved = true)) ∧
    movePerson (withProcedures col ext cfg ms) fuel cfx (w.conflux cfx).currFrame p
      (enterUpdate cfx p w) = (.ok .RS_DONE, w3) ∧
    updateAgent (withProcedures col ext cfg ms) fuel cfx p w = killAgent w3 cfx p before ∧
    (∀ e ∈ (updateAgent (withProcedures col ext cfg ms) fuel cfx p w).2.trace,
      e ∈ w.trace ∨
      e ∈ [Event.registerPerson p, Event.checkTripChain p, Event.makeFrameTickParams p,
        Event.frameInit p] ∨
      ∃ worker, e = Event.remEntity worker p ∨ e = Event.scheduleForRemoval worker p) := by
  have hcf : (enterUpdate cfx p w).conflux = w.conflux := (enterUpdate_arenas cfx p w).2.1
  have hmove : movePerson (withProcedures col ext cfg ms) fuel cfx (w.conflux cfx).currFrame p
      (enterUpdate cfx p w) = (.ok .RS_DONE, w3) := by
    have hi : ((enterUpdate cfx p w).person p).initialized = false := by
      rw [enterUpdate_person]
      exact hni
    simp only [movePerson, hi, withProcedures, hfail, Bool.false_eq_true, if_false]
  have hupd : updateAgent (withProcedures col ext cfg ms) fuel cfx p w
      = killAgent w3 cfx p before := by
    rw [updateAgent_eq, hcap, hcf]
    simp only [hmove]
    rfl
  refine ⟨callMovementFrameInit_false col ext ms _ w3 _ p hfail, hmove, hupd, ?_⟩
  intro e he
  rw [hupd] at he
  rcases killAgent_trace w3 cfx p before e he with h | h
  · have h3 := callMovementFrameInit_trace col ext ms (enterUpdate cfx p w)
      (w.conflux cfx).currFrame p e
    rw [hfail] at h3
    rcases h3 h with h4 | h4
    · exact Or.inl ((enterUpdate_arenas cfx p w).2.2.2.2 ▸ h4)
    · exact Or.inr (Or.inl h4)
  · exact Or.inr (Or.inr h)

/-- Person 8 of the demo, new to the simulation and without a role, has a trip chain
that is done: its update removes it from its worker, and makes no other call but the
check of the trip chain. -/
theorem init_failure_kills_witness :
    updateAgent (withProcedures Demo.collaborators (Demo.tripChain .RS_DONE) Demo.config 5000)
        2 0 8 Demo.newcomerWorld
      = killAgent
          (callMovementFrameInit Demo.collaborators (Demo.tripChain .RS_DONE) 5000
            (enterUpdate 0 8 Demo.newcomerWorld) 5 8).2 0 8
          { Demo.offRoadProps .RL_UNKNOWN with isMoving := true } ∧
    (updateAgent (withProcedures Demo.collaborators (Demo.tripChain .RS_DONE) Demo.config 5000)
        2 0 8 Demo.newcomerWorld).2.trace
      = [Event.checkTripChain 8, Event.remEntity 0 8, Event.scheduleForRemoval 0 8] :=
  ⟨(init_failure_kills Demo.collaborators (Demo.tripChain .RS_DONE) Demo.config 5000 2 0 8
      Demo.newcomerWorld _ _ rfl rfl rfl).2.2.1, rfl⟩

/-- C29: `resetPersonRemTimes` gives the whole tick, `tickTimeInS`, to the persons that are
in the deque of lane infinity of a segment stats of the conflux or in one of its virtual
queues and whose `lastUpdatedFrame` is before the current frame, and writes nothing else:
every other person is as it was, no other member of a person that is reset changes, and
the segment stats and the confluxes, with the members and the order of every container,
are as they were. -/
theorem resetPersonRemTimes_spec (cfx : ConfluxId) (w : World) :
    (∀ q, InResetScope cfx w q →
      (w.person q).lastUpdatedFrame < ((w.conflux cfx).currFrame : Int) →
      (resetPersonRemTimes cfx w).person q =
        { w.person q with remainingTimeThisTick := (w.conflux cfx).tickTimeInS }) ∧
    (∀ q, ¬ (InResetScope cfx w q ∧
        (w.person q).lastUpdatedFrame < ((w.conflux cfx).currFrame : Int)) →
      (resetPersonRemTimes cfx w).person q = w.person q) ∧
    (resetPersonRemTimes cfx w).segStats = w.segStats ∧
    (resetPersonRemTimes cfx w).conflux = w.conflux ∧
    (resetPersonRemTimes cfx w).roadSegment = w.roadSegment ∧
    (resetPersonRemTimes cfx w).link = w.link ∧
    (resetPersonRemTimes cfx w).trace = w.trace := by
  obtain ⟨h1, h2, h3, h4, h5, h6⟩ := foldl_resetRemTime cfx
    ((w.conflux cfx).allSegStats.flatMap
        (fun s => (w.segStats s).getPersons (w.segStats s).laneInfinity) ++
      (w.conflux cfx).virtualQueuesMap.flatMap (fun e => e.2)) w
  refine ⟨?_, ?_, h1, h2, h3, h4, h5⟩
  · intro q hs hl
    have := h6 q
    rw [if_pos ⟨(mem_resetScope cfx w q).mpr hs, hl⟩] at this
    exact this
  · intro q hn
    have := h6 q
    rw [if_neg (fun h => hn ⟨(mem_resetScope cfx w q).mp h.1, h.2⟩)] at this
    exact this

/-- C30: `movePerson` writes `resetParamsRequired = true` exactly when the status that
`callMovementFrameTick` returned is not `RS_DONE` and the remaining time of the person is
at most 0 then. For a person that is initialised, or that `callMovementFrameInit`
initialises, and for the result `(r, w2)` of `callMovementFrameTick`: in that case
`movePerson` returns `r` and `w2` with the flag set, the remaining time being what it
was in `w2`; in every other case it returns `r` and `w2` untouched, so the flag is as
`callMovementFrameTick` left it. In particular with a remaining time above 0, as after
a loop broken off by a grant into a virtual queue or after the hand-off of a pedestrian
with time left, and with the status `RS_DONE`, the flag is not written. -/
theorem movePerson_resetParamsRequired (col : Collaborators) (fuel : Nat) (cfx : ConfluxId)
    (now : Nat) (p : PersonId) (w w1 w2 : World) (r : UpdateStatus)
    (hinit : ((w.person p).initialized = true ∧ w1 = w) ∨
      ((w.person p).initialized = false ∧ ∃ w0,
        col.callMovementFrameInit w cfx now p = (.ok true, w0) ∧
        w1 = w0.modifyPerson p (fun x => { x with initialized := true })))
    (htick : callMovementFrameTick col fuel cfx now p w1 = (.ok r, w2)) :
    (r ≠ .RS_DONE ∧ (w2.person p).remainingTimeThisTick ≤ 0 →
      movePerson col fuel cfx now p w =
        (.ok r, w2.modifyPerson p (fun x => { x with resetParamsRequired := true })) ∧
      ((movePerson col fuel cfx now p w).2.person p).resetParamsRequired = true ∧
      ((movePerson col fuel cfx now p w).2.person p).remainingTimeThisTick =
        (w2.person p).remainingTimeThisTick) ∧
    (¬ (r ≠ .RS_DONE ∧ (w2.person p).remainingTimeThisTick ≤ 0) →
      movePerson col fuel cfx now p w = (.ok r, w2)) ∧
    (0 < (w2.person p).remainingTimeThisTick → movePerson col fuel cfx now p w = (.ok r, w2)) ∧
    (r = .RS_DONE → movePerson col fuel cfx now p w = (.ok r, w2)) := by
  have hmove : movePerson col fuel cfx now p w =
      if r ≠ .RS_DONE ∧ (w2.person p).remainingTimeThisTick ≤ 0 then
        (.ok r, w2.modifyPerson p (fun x => { x with resetParamsRequired := true }))
      else (.ok r, w2) := by
    rcases hinit with ⟨hi, rfl⟩ | ⟨hi, w0, h0, rfl⟩
    · simp only [movePerson, hi, if_true, htick]
    · simp only [movePerson, hi, h0, Bool.false_eq_true, if_false]
      rw [htick]
  refine ⟨?_, ?_, ?_, ?_⟩
  · intro hc
    rw [hmove, if_pos hc]
    simp [World.modifyPerson]
  · intro hc
    rw [hmove, if_neg hc]
  · intro hpos
    rw [hmove, if_neg (fun hc => absurd hc.2 (not_le.mpr hpos))]
  · intro hd
    rw [hmove, if_neg (fun hc => hc.1 hd)]

/-- The driver of the demo, whose frame tick uses up the tick, leaves `movePerson` with
the status `RS_CONTINUE` and the flag set. -/
theorem movePerson_resetParamsRequired_witness :
    (movePerson Demo.collaborators 2 0 5 7 (Demo.world 5 2 [] 3)).1 = .ok .RS_CONTINUE ∧
    ((movePerson Demo.collaborators 2 0 5 7 (Demo.world 5 2 [] 3)).2.person 7).resetParamsRequired
      = true := by
  have h := (movePerson_resetParamsRequired Demo.collaborators 2 0 5 7 (Demo.world 5 2 [] 3)
    (Demo.world 5 2 [] 3)
    (callMovementFrameTick Demo.collaborators 2 0 5 7 (Demo.world 5 2 [] 3)).2 .RS_CONTINUE
    (Or.inl ⟨rfl, rfl⟩) rfl).1 ⟨by decide, by decide⟩
  exact ⟨by rw [h.1], h.2.1⟩

/-- C21: with `std::sort` as the C++ standard has it, `sortPersonsDecreasingRemTime` on
a virtual queue (a deque of persons, none null) returns a permutation of the queue in
which the remaining time of the tick does not increase from the front to the back, and
a queue of no or one person is returned as it is; so is every deque of at most one
pointer. The comparison of a null pointer with anything raises an error, and so does the
sort of a deque of more than one pointer with a null pointer in it. In
`processVirtualQueues`, each virtual queue is replaced by its sorted permutation before
as many persons as it holds are popped from its front and updated. -/
theorem sortPersonsDecreasingRemTime_spec (stdSort : StdSort) (hsort : IsStdSort stdSort)
    (w : World) :
    (∀ queue : List PersonId, ∃ sorted : List PersonId,
      sortPersonsDecreasingRemTime stdSort w (queue.map some) = .ok (sorted.map some) ∧
      sorted.Perm queue ∧
      sorted.Pairwise (fun a b =>
        (w.person a).remainingTimeThisTick ≥ (w.person b).remainingTimeThisTick) ∧
      (queue.length ≤ 1 → sorted = queue)) ∧
    (∀ personList : List (Option PersonId), personList.length ≤ 1 →
      sortPersonsDecreasingRemTime stdSort w personList = .ok personList) ∧
    (∀ x, GreaterRemainingTimeThisTick w none x = .error .comparisonWithNull ∧
      GreaterRemainingTimeThisTick w x none = .error .comparisonWithNull) ∧
    (∀ personList : List (Option PersonId), 1 < personList.length → none ∈ personList →
      sortPersonsDecreasingRemTime stdSort w personList = .error .comparisonWithNull) ∧
    (∀ (col : Collaborators) (fuel : Nat) (cfx : ConfluxId) (l : LinkId) (queue : List PersonId),
      mapAt (w.conflux cfx).virtualQueuesMap l = some queue →
      ∃ sorted : List PersonId, sorted.Perm queue ∧
        sorted.Pairwise (fun a b =>
          (w.person a).remainingTimeThisTick ≥ (w.person b).remainingTimeThisTick) ∧
        processVirtualQueue stdSort col fuel cfx l w =
          drainVirtualQueue col fuel cfx l queue.length
            (w.modifyConflux cfx
              (fun c => { c with virtualQueuesMap := mapSet c.virtualQueuesMap l sorted }))) := by
  have hnull : ∀ x, GreaterRemainingTimeThisTick w none x = .error .comparisonWithNull ∧
      GreaterRemainingTimeThisTick w x none = .error .comparisonWithNull := by
    intro x
    cases x <;> exact ⟨rfl, rfl⟩
  refine ⟨sortPersonsDecreasingRemTime_queue stdSort hsort w, ?_, hnull, ?_, ?_⟩
  · intro personList hlen
    have : ¬ personList.length > 1 := by omega
    simp only [sortPersonsDecreasingRemTime, this, if_false]
  · intro personList hlen hmem
    simp only [sortPersonsDecreasingRemTime, gt_iff_lt, hlen, if_true]
    refine (hsort (GreaterRemainingTimeThisTick w) personList).2 .comparisonWithNull none hlen
      hmem hnull ?_
    intro a b g h
    cases a <;> cases b <;> simp [GreaterRemainingTimeThisTick] at h <;> exact h.symm
  · intro col fuel cfx l queue hq
    obtain ⟨sorted, h1, h2, h3, _⟩ := sortPersonsDecreasingRemTime_queue stdSort hsort w queue
    refine ⟨sorted, h2, h3, ?_⟩
    simp only [processVirtualQueue, hq, h1, filterMap_map_some]

/-- With the insertion sort for `std::sort`, the virtual queue of the persons 1, 3 and 2
of the demo, person `q` having `q` seconds left, is sorted into a permutation with
remaining times that do not increase: the persons 3, 2 and 1. -/
theorem sortPersonsDecreasingRemTime_spec_witness :
    (∃ sorted : List PersonId,
      sortPersonsDecreasingRemTime insertionSort Demo.queueWorld ([1, 3, 2].map some)
        = .ok (sorted.map some) ∧
      sorted.Perm [1, 3, 2] ∧
      sorted.Pairwise (fun a b =>
        (Demo.queueWorld.person a).remainingTimeThisTick
          ≥ (Demo.queueWorld.person b).remainingTimeThisTick) ∧
      (([1, 3, 2] : List PersonId).length ≤ 1 → sorted = [1, 3, 2])) ∧
    sortPersonsDecreasingRemTime insertionSort Demo.queueWorld [some 1, some 3, some 2]
      = .ok [some 3, some 2, some 1] :=
  ⟨(sortPersonsDecreasingRemTime_spec insertionSort isStdSort_insertionSort Demo.queueWorld).1
    [1, 3, 2], rfl⟩

/-- The hand-off of a pedestrian between confluxes, for a person that walks before and
after its update: for a person that walks, is
initialised, has time left in the tick and is not to be removed, and whose role asks for
the next link `l` in the first frame tick of its update (the frame tick leaves the world
`v`, in which the person is at most once in `pedestrianList` of the conflux). In any
pass of the loop of `callMovementFrameTick` in which the frame tick asks for the next
link, the loop is left at once with `RS_CONTINUE`, one transfer request posted, the
request cleared and the person erased from `pedestrianList`. So
`callMovementFrameTick` returns `RS_CONTINUE` after that one frame tick, having posted
one `MSG_PEDESTRIAN_TRANSFER_REQUEST` for the person to the parent conflux of the first
segment of `l` and cleared `nextLinkRequired`; and `updateAgent` returns normally with
the person not in `pedestrianList` of the conflux, with no frame tick and no transfer
request beyond those two calls: what it adds to the log after them is at most the
re-registration of the handler of the person. -/
theorem pedestrian_handoff (col : Collaborators) (fuel : Nat) (cfx : ConfluxId) (p : PersonId)
    (w v : World) (l : LinkId) (seg : SegmentId) (rest : List SegmentId)
    (before after : PersonProps)
    (hinit : (w.person p).initialized = true)
    (hreset : (w.person p).resetParamsRequired = false)
    (hpos : 0 < ((enterUpdate cfx p w).person p).remainingTimeThisTick)
    (hkeep : (w.person p).toBeRemoved = false)
    (hft : col.frame_tick ((enterUpdate cfx p w).modifyPerson p
      (fun x => { x with lastUpdatedFrame := ((w.conflux cfx).currFrame : Int) })) p = (.ok (), v))
    (hstay : (v.person p).toBeRemoved = false)
    (hnext : (v.person p).nextLinkRequired = some l)
    (hseg : (v.link l).segments = seg :: rest)
    (honce : (v.conflux cfx).pedestrianList.count p ≤ 1)
    (hbefore : PersonProps.capture (enterUpdate cfx p w) p cfx = .ok before)
    (hafter : PersonProps.capture (movePerson col (fuel + 1) cfx (w.conflux cfx).currFrame p
      (enterUpdate cfx p w)).2 p cfx = .ok after)
    (hb : before.roleType = .RL_PEDESTRIAN) (ha : after.roleType = .RL_PEDESTRIAN) :
    (∀ (u u1 : World) (passes now : Nat) (retVal : UpdateStatus) (l2 : LinkId) (seg2 : SegmentId)
        (rest2 : List SegmentId),
      0 < (u.person p).remainingTimeThisTick → (u.person p).toBeRemoved = false →
      col.frame_tick u p = (.ok (), u1) → (u1.person p).toBeRemoved = false →
      (u1.person p).nextLinkRequired = some l2 → (u1.link l2).segments = seg2 :: rest2 →
      ∃ u2, tickLoop col cfx now p (passes + 1) retVal u = (.ok .RS_CONTINUE, u2) ∧
        u2.trace = u.trace ++ [Event.frameTick p,
          Event.postPedestrianTransferRequest (u1.roadSegment seg2).parentConflux p] ∧
        (u2.person p).nextLinkRequired = none ∧
        (u2.conflux cfx).pedestrianList = (u1.conflux cfx).pedestrianList.erase p) ∧
    ∃ handed final calls,
      callMovementFrameTick col (fuel + 1) cfx (w.conflux cfx).currFrame p (enterUpdate cfx p w)
        = (.ok .RS_CONTINUE, handed) ∧
      handed.trace = w.trace ++ [Event.frameTick p,
        Event.postPedestrianTransferRequest (v.roadSegment seg).parentConflux p] ∧
      (handed.person p).nextLinkRequired = none ∧
      updateAgent col (fuel + 1) cfx p w = (.ok (), final) ∧
      p ∉ (final.conflux cfx).pedestrianList ∧
      (final.person p).nextLinkRequired = none ∧
      final.trace = handed.trace ++ calls ∧
      ∀ e ∈ calls, ∃ c, e = Event.reRegisterHandler p c := by
  obtain ⟨a1, a2, a3, a4, a5⟩ := enterUpdate_arenas cfx p w
  have hp := enterUpdate_person cfx p w
  have hi : ((enterUpdate cfx p w).person p).initialized = true := by rw [hp]; exact hinit
  have hr : ((enterUpdate cfx p w).person p).resetParamsRequired = false := by rw [hp]; exact hreset
  have hk : ((enterUpdate cfx p w).person p).toBeRemoved = false := by rw [hp]; exact hkeep
  obtain ⟨handed, t1, t2, t3, t4, t5⟩ := tickLoop_handoff col cfx (w.conflux cfx).currFrame p fuel
    .RS_CONTINUE ((enterUpdate cfx p w).modifyPerson p
      (fun x => { x with lastUpdatedFrame := ((w.conflux cfx).currFrame : Int) })) v l seg rest
    (by simpa [World.modifyPerson] using hpos) (by simpa [World.modifyPerson] using hk)
    hft hstay hnext hseg
  have htick : callMovementFrameTick col (fuel + 1) cfx (w.conflux cfx).currFrame p
      (enterUpdate cfx p w) = (.ok .RS_CONTINUE, handed) := by
    simp only [callMovementFrameTick, hr, Bool.false_eq_true, if_false, a2]
    exact t1
  have htrace : handed.trace = w.trace ++ [Event.frameTick p,
      Event.postPedestrianTransferRequest (v.roadSegment seg).parentConflux p] := by
    rw [t2]
    simp [World.modifyPerson, a5]
  have hout : p ∉ (handed.conflux cfx).pedestrianList := by
    rw [t5]
    exact not_mem_erase_of_count_le_one _ p honce
  have hmove : ∃ w3, movePerson col (fuel + 1) cfx (w.conflux cfx).currFrame p
      (enterUpdate cfx p w) = (.ok .RS_CONTINUE, w3) ∧ w3.conflux = handed.conflux ∧
      w3.trace = handed.trace ∧ (w3.person p).nextLinkRequired = none := by
    simp only [movePerson, hi, if_true, htick]
    split
    · exact ⟨_, rfl, rfl, rfl, by simpa [World.modifyPerson] using t3⟩
    · exact ⟨_, rfl, rfl, rfl, t3⟩
  obtain ⟨w3, m1, m2, m3, m4⟩ := hmove
  rw [m1] at hafter
  have hupd : updateAgent col (fuel + 1) cfx p w
      = (.ok (), updateAgentContext w3 before after p) := by
    rw [updateAgent_eq, hbefore, a2]
    simp only [m1, hafter, housekeep_pedestrian_stable w3 cfx before after p hb ha]
  have hctx : (updateAgentContext w3 before after p).conflux = w3.conflux ∧
      (updateAgentContext w3 before after p).person = w3.person ∧
      ∃ calls, (updateAgentContext w3 before after p).trace = w3.trace ++ calls ∧
        ∀ e ∈ calls, ∃ c, e = Event.reRegisterHandler p c := by
    unfold updateAgentContext
    split
    · split
      · exact ⟨rfl, rfl, [_], rfl, by simp⟩
      · exact ⟨rfl, rfl, [], by simp, by simp⟩
    · exact ⟨rfl, rfl, [], by simp, by simp⟩
  obtain ⟨c1, c2, calls, c3, c4⟩ := hctx
  refine ⟨?_, handed, updateAgentContext w3 before after p, calls, htick, htrace, t3, hupd, ?_,
    ?_, ?_, c4⟩
  · intro u u1 passes now retVal l2 seg2 rest2 g1 g2 g3 g4 g5 g6
    obtain ⟨u2, k1, k2, k3, _, k5⟩ := tickLoop_handoff col cfx now p passes retVal u u1 l2 seg2
      rest2 g1 g2 g3 g4 g5 g6
    exact ⟨u2, k1, k2, k3, k5⟩
  · rw [c1, m2]
    exact hout
  · rw [c2]
    exact m4
  · rw [c3, m3]

/-- Person 8 of the demo walks on conflux 0 and reaches the end of its link in tick 5:
its update posts one transfer request to conflux 1, the conflux of link 11, and leaves
`pedestrianList` of conflux 0 empty. -/
theorem pedestrian_handoff_witness :
    ∃ final, updateAgent Demo.crossingCollaborators 1 0 8 Demo.walkerWorld = (.ok (), final) ∧
      (final.conflux 0).pedestrianList = [] ∧
      final.trace = [Event.frameTick 8, Event.postPedestrianTransferRequest 1 8] := by
  obtain ⟨_, handed, final, calls, _, _, _, h4, _, _, _, _⟩ :=
    pedestrian_handoff Demo.crossingCollaborators 0 0 8 Demo.walkerWorld
      (Demo.crossingCollaborators.frame_tick ((enterUpdate 0 8 Demo.walkerWorld).modifyPerson 8
        (fun x => { x with lastUpdatedFrame := 5 })) 8).2 11 21 []
      (Demo.offRoadProps .RL_PEDESTRIAN) (Demo.offRoadProps .RL_PEDESTRIAN)
      rfl rfl (by decide) rfl rfl rfl rfl rfl (by decide) rfl rfl rfl rfl
  refine ⟨final, h4, ?_, ?_⟩
  · have h := congrArg (fun r => (r.2.conflux 0).pedestrianList) h4
    exact h.symm.trans rfl
  · have h := congrArg (fun r => r.2.trace) h4
    exact h.symm.trans rfl

/-- C22 does not hold of the code. Person 8 of the demo is in an activity on conflux 0;
in tick 5 the activity ends, `switchTripChainItem` makes the person a pedestrian and
puts it into `pedestrianList` (line 1040), and the frame tick of the pedestrian, in the
next pass of the loop, asks for link 11 as the next link. `callMovementFrameTick` posts
one `MSG_PEDESTRIAN_TRANSFER_REQUEST` to conflux 1, the conflux of the first segment of
link 11, clears `nextLinkRequired`, erases the person from `pedestrianList` and returns
(lines 1120 to 1131), and `movePerson` returns `RS_CONTINUE`. But `updateAgent` then
calls `housekeep` with the snapshot of an activity before and of a pedestrian after the
update, and the activity-exit block (lines 379 to 386), not finding the person in
`pedestrianList`, pushes it there again: on return from `updateAgent` the person that
was handed over to conflux 1 is in `pedestrianList` of conflux 0. -/
theorem updateAgent_activity_to_handoff :
    (Demo.activityEndWorld.conflux 0).activityPerformers = [8] ∧
    (Demo.activityEndWorld.conflux 0).pedestrianList = [] ∧
    (movePerson Demo.activityEndCollaborators 3 0 5 8 (enterUpdate 0 8 Demo.activityEndWorld)).1
      = .ok .RS_CONTINUE ∧
    ((movePerson Demo.activityEndCollaborators 3 0 5 8
      (enterUpdate 0 8 Demo.activityEndWorld)).2.conflux 0).pedestrianList = [] ∧
    (updateAgent Demo.activityEndCollaborators 3 0 8 Demo.activityEndWorld).1 = .ok () ∧
    (updateAgent Demo.activityEndCollaborators 3 0 8 Demo.activityEndWorld).2.trace
      = [Event.frameTick 8, Event.collectTravelTime 8, Event.checkTripChain 8,
          Event.frameTick 8, Event.postPedestrianTransferRequest 1 8] ∧
    ((updateAgent Demo.activityEndCollaborators 3 0 8 Demo.activityEndWorld).2.person
      8).nextLinkRequired = none ∧
    ((updateAgent Demo.activityEndCollaborators 3 0 8 Demo.activityEndWorld).2.conflux
      0).activityPerformers = [] ∧
    ((updateAgent Demo.activityEndCollaborators 3 0 8 Demo.activityEndWorld).2.conflux
      0).pedestrianList = [8] := by
  refine ⟨rfl, rfl, rfl, rfl, rfl, ?_, rfl, rfl, rfl⟩
  decide

/-- C23 (teleport of a train passenger): with a tick of `baseGranMS` milliseconds
(positive, an `unsigned int`), `assignPersonToMRT` for a train passenger with a current
sub-trip re-registers the handler of the person on the conflux, puts the person at the
back of `mrt` and posts `MSG_WAKE_UP` to the same conflux with the offset `endTime /
baseGranMS` in ticks (integer division of the end time of the sub-trip in milliseconds),
and changes no other list of the conflux. The handler of `MSG_WAKE_UP` for a person in
`mrt` erases the person from `mrt` and then calls `switchTripChainItem`, whose status it
drops; for a person that is not in `mrt` it raises an error and leaves the world as it
is. -/
theorem train_passenger_teleport (col : Collaborators) (ext : TripCollaborators) (cfg : Config)
    (ms : Nat) (w : World) (cfx : ConfluxId) (p : PersonId) (role : Role) (subTrip : SubTrip)
    (hrole : (w.person p).role = some role) (htrain : role.roleType = .RL_TRAINPASSENGER)
    (hsub : (w.person p).currSubTrip = some subTrip)
    (hpos : 0 < cfg.baseGranMS) (hfits : cfg.baseGranMS < 2 ^ 32) :
    (∃ w', assignPersonToMRT cfg w cfx p = (.ok (), w') ∧
      w'.trace = w.trace ++ [Event.reRegisterHandler p cfx,
        Event.postWakeUp cfx p (subTrip.endTime / cfg.baseGranMS)] ∧
      (w'.conflux cfx).mrt = (w.conflux cfx).mrt ++ [p] ∧
      (w'.conflux cfx).pedestrianList = (w.conflux cfx).pedestrianList ∧
      (w'.conflux cfx).activityPerformers = (w.conflux cfx).activityPerformers ∧
      (w'.conflux cfx).carSharing = (w.conflux cfx).carSharing ∧
      (w'.person p).currWorkerProvider = (w.conflux cfx).parentWorker) ∧
    (∀ u : World, p ∈ (u.conflux cfx).mrt →
      handleWakeUp col ext cfg ms u cfx p =
        (Except.map (fun _ => ()) (switchTripChainItem col ext cfg ms
            (u.modifyConflux cfx (fun c => { c with mrt := c.mrt.erase p })) cfx p).1,
          (switchTripChainItem col ext cfg ms
            (u.modifyConflux cfx (fun c => { c with mrt := c.mrt.erase p })) cfx p).2)) ∧
    (∀ u : World, p ∉ (u.conflux cfx).mrt →
      handleWakeUp col ext cfg ms u cfx p = (.error .personNotInMrt, u)) := by
  have htick : toUInt32 cfg.baseGranMS = cfg.baseGranMS := Nat.mod_eq_of_lt hfits
  refine ⟨?_, ?_, ?_⟩
  · have hne : ¬ cfg.baseGranMS = 0 := by omega
    have heq : assignPersonToMRT cfg w cfx p = (.ok (),
        (((((w.modifyPerson p
          (fun x => { x with currWorkerProvider := (w.conflux cfx).parentWorker })).record
          (.reRegisterHandler p cfx)).modifyConflux cfx
          (fun c => { c with mrt := c.mrt ++ [p] })).modifyPerson p
          (fun x => setTravelTime x subTrip.endTime)).record
          (.postWakeUp cfx p (subTrip.endTime / cfg.baseGranMS)))) := by
      simp only [assignPersonToMRT, hrole, htrain, if_true]
      simp only [World.modifyPerson, World.modifyConflux, World.record, Function.update_same,
        hsub, htick, hne, if_false]
    refine ⟨_, heq, ?_, ?_, ?_, ?_, ?_, ?_⟩
    · simp [World.modifyPerson, World.modifyConflux, World.record]
    · simp [World.modifyPerson, World.modifyConflux, World.record]
    · simp [World.modifyPerson, World.modifyConflux, World.record]
    · simp [World.modifyPerson, World.modifyConflux, World.record]
    · simp [World.modifyPerson, World.modifyConflux, World.record]
    · simp [World.modifyPerson, World.modifyConflux, World.record, setTravelTime]
  · intro u hu
    simp only [handleWakeUp, hu, if_true]
    rcases switchTripChainItem col ext cfg ms
      (u.modifyConflux cfx (fun c => { c with mrt := c.mrt.erase p })) cfx p with ⟨r, u2⟩
    cases r <;> rfl
  · intro u hu
    simp only [handleWakeUp, hu, if_false]

/-- Person 8 of the demo, a train passenger whose sub-trip ends after 120 s, is woken up
120 ticks of 1000 ms later. -/
theorem train_passenger_teleport_witness :
    ∃ w', assignPersonToMRT Demo.config Demo.passengerWorld 0 8 = (.ok (), w') ∧
      w'.trace = [Event.reRegisterHandler 8 0, Event.postWakeUp 0 8 120] ∧
      (w'.conflux 0).mrt = [8] := by
  obtain ⟨w', h1, h2, h3, _⟩ := (train_passenger_teleport Demo.collaborators
    (Demo.tripChain .RS_DONE) Demo.config 5000 Demo.passengerWorld 0 8
    { roleType := .RL_TRAINPASSENGER, resource := none }
    { endTime := 120000, origin := { isBusStop := false, busStop_ := none } }
    rfl rfl rfl (by decide) (by decide)).1
  exact ⟨w', h1, h2, h3⟩

/-- C24 (anchoring of an activity): for a person to which `checkTripChain` has given the
role of an activity performer and an activity as the current item. `findStartingConflux`
at the time `now` sets the start of the activity to `now + baseGranMS` and its end to
`now + baseGranMS + (endTime - startTime)` of the item, and `switchTripChainItem` does
the same at the time `currFrame.ms()` (and sets the location) before it initialises
the role. The sums and the difference are those of `unsigned int`, in which the end
minus the start is the configured duration `endTime - startTime` of the item for every
`now`; when the item ends after it starts and no sum exceeds an `unsigned int`, the
start, the end and their difference are these natural numbers themselves. -/
theorem activity_anchoring (col : Collaborators) (ext : TripCollaborators) (cfg : Config)
    (w1 : World) (p : PersonId) (role : Role) (item : TripChainItem) (now : Nat)
    (hrole : (w1.person p).role = some role) (hact : role.roleType = .RL_ACTIVITY)
    (hitem : (w1.person p).currTripChainItem = some item)
    (hkind : item.itemType = .IT_ACTIVITY) :
    (∀ w, callOut w (.checkTripChain p) (fun v => ext.checkTripChain v p)
        = (.ok .RS_CONTINUE, w1) →
      (findStartingConflux ext cfg w p now).1 = .ok (confluxForLocation ext role.location) ∧
      ((findStartingConflux ext cfg w p now).2.person p).role = some { role with
        activityStartTime := toUInt32 (now + cfg.baseGranMS),
        activityEndTime :=
          toUInt32 (now + cfg.baseGranMS + subUInt32 item.endTime item.startTime) }) ∧
    (∀ w cfx, callOut (collectTravelTime w p) (.checkTripChain p)
        (fun v => ext.checkTripChain v p) = (.ok .RS_CONTINUE, w1) →
      ∃ anchored, switchTripChainItem col ext cfg now w cfx p
          = initialiseAfterSwitch col ext now anchored cfx p .RS_CONTINUE ∧
        (anchored.person p).role = some { role with
          activityStartTime := toUInt32 (now + cfg.baseGranMS),
          activityEndTime :=
            toUInt32 (now + cfg.baseGranMS + subUInt32 item.endTime item.startTime),
          location := item.destination }) ∧
    subUInt32 (toUInt32 (now + cfg.baseGranMS + subUInt32 item.endTime item.startTime))
      (toUInt32 (now + cfg.baseGranMS)) = subUInt32 item.endTime item.startTime ∧
    (item.startTime ≤ item.endTime → item.endTime < 2 ^ 32 →
      now + cfg.baseGranMS + (item.endTime - item.startTime) < 2 ^ 32 →
      toUInt32 (now + cfg.baseGranMS) = now + cfg.baseGranMS ∧
      toUInt32 (now + cfg.baseGranMS + subUInt32 item.endTime item.startTime)
        = now + cfg.baseGranMS + (item.endTime - item.startTime) ∧
      toUInt32 (now + cfg.baseGranMS + subUInt32 item.endTime item.startTime)
        - toUInt32 (now + cfg.baseGranMS) = item.endTime - item.startTime) := by
  refine ⟨?_, ?_, ?_, ?_⟩
  · intro w hcheck
    rw [findStartingConflux_activity ext cfg w w1 p now role item hcheck hrole hact hitem hkind]
    exact ⟨rfl, by simp [World.modifyPerson]⟩
  · intro w cfx hcheck
    have hne : ∀ t : RoleType, t ≠ .RL_ACTIVITY → (w1.person p).role.map Role.roleType ≠ some t := by
      intro t ht h
      rw [hrole, Option.map_some', Option.some.injEq, hact] at h
      exact ht h.symm
    rw [switchTripChainItem_moving col ext cfg now w w1 cfx p hcheck (hne _ (by decide))
      (hne _ (by decide)) (hne _ (by decide)) (hne _ (by decide))]
    rw [switchToMovingRole_activity col ext cfg now _ cfx p .RS_CONTINUE role item
      (by rw [role_setStartTime]; exact hrole) hact
      (by rw [currTripChainItem_setStartTime]; exact hitem) hkind]
    exact ⟨_, rfl, by simp [World.modifyPerson, setLocation]⟩
  · exact subUInt32_add_left _ _ (subUInt32_lt _ _)
  · intro hle hend hsum
    have hsub := subUInt32_of_le item.endTime item.startTime hle hend
    rw [hsub]
    have h1 : toUInt32 (now + cfg.baseGranMS) = now + cfg.baseGranMS :=
      Nat.mod_eq_of_lt (by omega)
    have h2 : toUInt32 (now + cfg.baseGranMS + (item.endTime - item.startTime))
        = now + cfg.baseGranMS + (item.endTime - item.startTime) := Nat.mod_eq_of_lt hsum
    refine ⟨h1, h2, ?_⟩
    rw [h1, h2]
    omega

/-- Person 8 of the demo starts with an activity configured from 1 s to 61 s: loaded for
the time 6 s with ticks of 1 s, it is active from 7 s to 67 s. -/
theorem activity_anchoring_witness :
    ((findStartingConflux (Demo.tripChain .RS_CONTINUE) Demo.config Demo.activityWorld 8
        6000).2.person 8).role
      = some { roleType := .RL_ACTIVITY, resource := none,
               location := some { id := 0, isMultiNode := true },
               activityStartTime := 7000, activityEndTime := 67000 } :=
  ((activity_anchoring Demo.collaborators (Demo.tripChain .RS_CONTINUE) Demo.config
    (callOut Demo.activityWorld (.checkTripChain 8)
      (fun v => (Demo.tripChain .RS_CONTINUE).checkTripChain v 8)).2 8
    { roleType := .RL_ACTIVITY, resource := none,
      location := some { id := 0, isMultiNode := true } }
    { itemType := .IT_ACTIVITY, startTime := 1000, endTime := 61000,
      destination := some { id := 1, isMultiNode := true } } 6000 rfl rfl rfl rfl).1
    Demo.activityWorld rfl).2

/-- C25, as stated, fails: the trip chain of person 8 of the demo, a train passenger,
goes on with a walk. `switchTripChainItem` gives the person the role of a pedestrian,
puts it in `pedestrianList` and returns `RS_CONTINUE` (line 1042); it has called
`collectTravelTime` and `checkTripChain`, and not the frame initialisation of the new
role, which line 1059 reaches only for a role that is none of `RL_WAITBUSACTITITY`,
`RL_TRAINPASSENGER`, `RL_CARPASSENGER` and `RL_PEDESTRIAN`. -/
theorem switchTripChainItem_dispatch_counterexample :
    (switchTripChainItem Demo.collaborators (Demo.nextRole .RL_PEDESTRIAN) Demo.config 5000
      Demo.passengerWorld 0 8).1 = .ok .RS_CONTINUE ∧
    ((switchTripChainItem Demo.collaborators (Demo.nextRole .RL_PEDESTRIAN) Demo.config 5000
      Demo.passengerWorld 0 8).2.person 8).role
      = some { roleType := .RL_PEDESTRIAN, resource := none } ∧
    ((switchTripChainItem Demo.collaborators (Demo.nextRole .RL_PEDESTRIAN) Demo.config 5000
      Demo.passengerWorld 0 8).2.conflux 0).pedestrianList = [8] ∧
    (switchTripChainItem Demo.collaborators (Demo.nextRole .RL_PEDESTRIAN) Demo.config 5000
      Demo.passengerWorld 0 8).2.trace = [Event.collectTravelTime 8, Event.checkTripChain 8] ∧
    Event.frameInit 8 ∉ (switchTripChainItem Demo.collaborators (Demo.nextRole .RL_PEDESTRIAN)
      Demo.config 5000 Demo.passengerWorld 0 8).2.trace := by
  refine ⟨rfl, rfl, rfl, rfl, by decide⟩

/-- C25 (role dispatch of `switchTripChainItem`), amended. If `checkTripChain` finds the
trip chain done, `switchTripChainItem` returns `RS_DONE` with the world as
`checkTripChain` left it: it touches no list. If the trip chain goes on, with the person
at most once in `pedestrianList`: for the roles `RL_WAITBUSACTITITY`, `RL_TRAINPASSENGER`
and `RL_CARPASSENGER` the person is assigned to the bus stop agent, to `mrt` or to
`carSharing`, and then (unless the assignment fails, and `switchTripChainItem` with it)
it is erased from `pedestrianList` and is not in it, and `RS_CONTINUE` is returned; for
the role `RL_PEDESTRIAN` the person is put in `pedestrianList` unless it is there, is in
it exactly once, and `RS_CONTINUE` is returned; for these four roles no frame
initialisation is called. For every other role the activity, if the item is one, is set
up and `callMovementFrameInit` is called: if it answers `false`, `RS_DONE` is returned;
if it answers `true`, the person is marked initialised and `RS_CONTINUE` is returned;
and for a person with a role that the parameters of the frame tick leave with a role,
`callMovementFrameInit` calls the frame initialisation of the role and answers `false`
exactly if the person is to be removed after it. -/
theorem switchTripChainItem_dispatch (col : Collaborators) (ext : TripCollaborators)
    (cfg : Config) (ms : Nat) (w : World) (cfx : ConfluxId) (p : PersonId) :
    (∀ w1, callOut (collectTravelTime w p) (.checkTripChain p)
        (fun v => ext.checkTripChain v p) = (.ok .RS_DONE, w1) →
      switchTripChainItem col ext cfg ms w cfx p = (.ok .RS_DONE, w1) ∧
      w1.conflux = (ext.checkTripChain (collectTravelTime w p) p).2.conflux ∧
      w1.segStats = (ext.checkTripChain (collectTravelTime w p) p).2.segStats ∧
      w1.person = (ext.checkTripChain (collectTravelTime w p) p).2.person) ∧
    (∀ w1, callOut (collectTravelTime w p) (.checkTripChain p)
        (fun v => ext.checkTripChain v p) = (.ok .RS_CONTINUE, w1) →
      (w1.conflux cfx).pedestrianList.count p ≤ 1 →
      ((w1.person p).role.map Role.roleType = some .RL_WAITBUSACTITITY →
        OffRoadSwitch (switchTripChainItem col ext cfg ms w cfx p)
          (assignPersonToBusStopAgent ext
            (w1.modifyPerson p (fun x => { x with startTime := ms })) p) w cfx p) ∧
      ((w1.person p).role.map Role.roleType = some .RL_TRAINPASSENGER →
        OffRoadSwitch (switchTripChainItem col ext cfg ms w cfx p)
          (assignPersonToMRT cfg
            (w1.modifyPerson p (fun x => { x with startTime := ms })) cfx p) w cfx p) ∧
      ((w1.person p).role.map Role.roleType = some .RL_CARPASSENGER →
        OffRoadSwitch (switchTripChainItem col ext cfg ms w cfx p)
          (assignPersonToCar cfg ms
            (w1.modifyPerson p (fun x => { x with startTime := ms })) cfx p) w cfx p) ∧
      ((w1.person p).role.map Role.roleType = some .RL_PEDESTRIAN →
        (switchTripChainItem col ext cfg ms w cfx p).1 = .ok .RS_CONTINUE ∧
        ((switchTripChainItem col ext cfg ms w cfx p).2.conflux cfx).pedestrianList
          = (if p ∈ (w1.conflux cfx).pedestrianList then (w1.conflux cfx).pedestrianList
              else (w1.conflux cfx).pedestrianList ++ [p]) ∧
        ((switchTripChainItem col ext cfg ms w cfx p).2.conflux cfx).pedestrianList.count p = 1 ∧
        (Event.frameInit p ∈ (switchTripChainItem col ext cfg ms w cfx p).2.trace →
          Event.frameInit p ∈ w.trace)) ∧
      ((w1.person p).role.map Role.roleType ≠ some .RL_WAITBUSACTITITY →
        (w1.person p).role.map Role.roleType ≠ some .RL_TRAINPASSENGER →
        (w1.person p).role.map Role.roleType ≠ some .RL_CARPASSENGER →
        (w1.person p).role.map Role.roleType ≠ some .RL_PEDESTRIAN →
        switchTripChainItem col ext cfg ms w cfx p =
          switchToMovingRole col ext cfg ms
            (w1.modifyPerson p (fun x => { x with startTime := ms })) cfx p .RS_CONTINUE ∧
        ∀ item, (w1.person p).currTripChainItem = some item → item.itemType ≠ .IT_ACTIVITY →
          switchTripChainItem col ext cfg ms w cfx p =
            initialiseAfterSwitch col ext ms
              (w1.modifyPerson p (fun x => { x with startTime := ms })) cfx p .RS_CONTINUE)) ∧
    (∀ u u3 : World, callMovementFrameInit col ext ms u (u.conflux cfx).currFrame p = (.ok false, u3) →
      initialiseAfterSwitch col ext ms u cfx p .RS_CONTINUE = (.ok .RS_DONE, u3)) ∧
    (∀ u u3 : World, callMovementFrameInit col ext ms u (u.conflux cfx).currFrame p = (.ok true, u3) →
      initialiseAfterSwitch col ext ms u cfx p .RS_CONTINUE
        = (.ok .RS_CONTINUE, u3.modifyPerson p (fun x => { x with initialized := true }))) ∧
    (∀ (u u1 u2 : World) (now : Nat) (r r1 : Role),
      ((registerIfRequired u p).person p).role = some r →
      callOut (registerIfRequired u p) (.makeFrameTickParams p)
        (fun v => col.make_frame_tick_params v now p) = (.ok (), u1) →
      (u1.person p).role = some r1 →
      callOut u1 (.frameInit p) (fun v => ext.frame_init v p) = (.ok (), u2) →
      callMovementFrameInit col ext ms u now p = (.ok (!(u2.person p).toBeRemoved), u2)) := by
  refine ⟨?_, ?_, ?_, ?_, ?_⟩
  · intro w1 hcheck
    refine ⟨switchTripChainItem_done col ext cfg ms w w1 cfx p hcheck, ?_, ?_, ?_⟩
    · exact (congrArg (fun r => r.2.conflux) hcheck).symm
    · exact (congrArg (fun r => r.2.segStats) hcheck).symm
    · exact (congrArg (fun r => r.2.person) hcheck).symm
  · intro w1 hcheck honce
    have heq := switchTripChainItem_continue col ext cfg ms w w1 cfx p hcheck
    rw [role_setStartTime] at heq
    have hlist : ((w1.modifyPerson p (fun x => { x with startTime := ms })).conflux cfx).pedestrianList
        = (w1.conflux cfx).pedestrianList := rfl
    have htr : Event.frameInit p ∈ (w1.modifyPerson p (fun x => { x with startTime := ms })).trace →
        Event.frameInit p ∈ w.trace := frameInit_not_in_check ext w w1 p _ hcheck
    refine ⟨?_, ?_, ?_, ?_, ?_⟩
    · intro hr
      rw [hr] at heq
      rw [heq]
      obtain ⟨k1, k2⟩ := assignPersonToBusStopAgent_keeps ext
        (w1.modifyPerson p (fun x => { x with startTime := ms })) p
      exact offRoadSwitch_of _ _ w _ cfx p (congrArg (fun c => (c cfx).pedestrianList) k1)
        (fun h => htr (k2 h)) honce
    · intro hr
      rw [hr] at heq
      rw [heq]
      obtain ⟨k1, k2⟩ := assignPersonToMRT_keeps cfg
        (w1.modifyPerson p (fun x => { x with startTime := ms })) cfx p
      exact offRoadSwitch_of _ _ w _ cfx p k1 (fun h => htr (k2 h)) honce
    · intro hr
      rw [hr] at heq
      rw [heq]
      obtain ⟨k1, k2⟩ := assignPersonToCar_keeps cfg ms
        (w1.modifyPerson p (fun x => { x with startTime := ms })) cfx p
      exact offRoadSwitch_of _ _ w _ cfx p k1 (fun h => htr (k2 h)) honce
    · intro hr
      rw [hr] at heq
      rw [heq]
      dsimp only
      rw [hlist]
      have hc := count_push_if_absent _ p honce
      split
      · rename_i hm
        rw [if_pos hm] at hc
        exact ⟨rfl, hlist, hc, htr⟩
      · rename_i hm
        rw [if_neg hm] at hc
        refine ⟨rfl, by simp [World.modifyConflux, World.modifyPerson], ?_, htr⟩
        simpa [World.modifyConflux, World.modifyPerson] using hc
    · intro h1 h2 h3 h4
      have hm := switchTripChainItem_moving col ext cfg ms w w1 cfx p hcheck h1 h2 h3 h4
      refine ⟨hm, fun item hitem hkind => ?_⟩
      rw [hm]
      simp only [switchToMovingRole, currTripChainItem_setStartTime, hitem, hkind, if_false]
  · intro u u3 h
    simp only [initialiseAfterSwitch, h]
  · intro u u3 h
    simp only [initialiseAfterSwitch, h]
  · intro u u1 u2 now r r1 h1 h2 h3 h4
    exact callMovementFrameInit_with_role col ext ms u u1 u2 now p r r1 h1 h2 h3 h4

/-- C26: `findStartingConflux` returns null (`none`) when `checkTripChain` finds the trip
chain done, when the person has no role after it, and when the person is to be removed
after the frame initialisation of its role. When the first item is an activity (and the
role an activity performer) it returns the conflux of the location of the activity
without a frame initialisation, the person being no more initialised than it was: the
conflux that `getConfluxForNode` gives for a location that is a multi-node, and null for
a location that is none. Otherwise it calls the frame initialisation, marks the person
as initialised and returns the starting conflux of the movement facet of the role. -/
theorem findStartingConflux_spec (ext : TripCollaborators) (cfg : Config) (w : World)
    (p : PersonId) (now : Nat) :
    (∀ w1, callOut w (.checkTripChain p) (fun v => ext.checkTripChain v p) = (.ok .RS_DONE, w1) →
      findStartingConflux ext cfg w p now = (.ok none, w1)) ∧
    (∀ w1, callOut w (.checkTripChain p) (fun v => ext.checkTripChain v p)
        = (.ok .RS_CONTINUE, w1) →
      ((w1.person p).role = none →
        findStartingConflux ext cfg w p now
          = (.ok none, w1.modifyPerson p (fun x => { x with startTime := now }))) ∧
      (∀ role item, (w1.person p).role = some role → role.roleType = .RL_ACTIVITY →
        (w1.person p).currTripChainItem = some item → item.itemType = .IT_ACTIVITY →
        (findStartingConflux ext cfg w p now).1 = .ok (confluxForLocation ext role.location) ∧
        (∀ node, role.location = some node → node.isMultiNode = true →
          (findStartingConflux ext cfg w p now).1 = .ok (ext.getConfluxForNode node.id)) ∧
        (∀ node, role.location = some node → node.isMultiNode = false →
          (findStartingConflux ext cfg w p now).1 = .ok none) ∧
        (role.location = none → (findStartingConflux ext cfg w p now).1 = .ok none) ∧
        (findStartingConflux ext cfg w p now).2.trace = w.trace ++ [Event.checkTripChain p] ∧
        ((findStartingConflux ext cfg w p now).2.person p).initialized
          = (w1.person p).initialized) ∧
      (∀ role item w3, (w1.person p).role = some role →
        (w1.person p).currTripChainItem = some item → item.itemType ≠ .IT_ACTIVITY →
        callOut (w1.modifyPerson p (fun x => { x with startTime := now })) (.frameInit p)
          (fun v => ext.frame_init v p) = (.ok (), w3) →
        ((w3.person p).toBeRemoved = true →
          findStartingConflux ext cfg w p now = (.ok none, w3)) ∧
        ((w3.person p).toBeRemoved = false →
          findStartingConflux ext cfg w p now =
            (.ok (ext.getStartingConflux
                (w3.modifyPerson p (fun x => { x with initialized := true })) p),
              w3.modifyPerson p (fun x => { x with initialized := true })) ∧
          ((findStartingConflux ext cfg w p now).2.person p).initialized = true ∧
          (findStartingConflux ext cfg w p now).2.trace
            = w.trace ++ [Event.checkTripChain p, Event.frameInit p]))) := by
  refine ⟨fun w1 h => findStartingConflux_done ext cfg w w1 p now h, fun w1 hcheck => ?_⟩
  have ht : w1.trace = w.trace ++ [Event.checkTripChain p] := by
    have := callOut_trace w (.checkTripChain p) (fun v => ext.checkTripChain v p)
    rw [hcheck] at this
    exact this
  refine ⟨fun h => findStartingConflux_noRole ext cfg w w1 p now hcheck h, ?_, ?_⟩
  · intro role item hrole hact hitem hkind
    have heq := findStartingConflux_activity ext cfg w w1 p now role item hcheck hrole hact
      hitem hkind
    rw [heq]
    refine ⟨rfl, ?_, ?_, ?_, ?_, ?_⟩
    · intro node hn hm
      simp [confluxForLocation, hn, hm]
    · intro node hn hm
      simp [confluxForLocation, hn, hm]
    · intro hn
      simp [confluxForLocation, hn]
    · simpa [World.modifyPerson] using ht
    · simp [World.modifyPerson]
  · intro role item w3 hrole hitem hkind hinit
    have heq := findStartingConflux_trip ext cfg w w1 w3 p now role item hcheck hrole hitem
      hkind hinit
    have ht3 : w3.trace = w.trace ++ [Event.checkTripChain p, Event.frameInit p] := by
      have := callOut_trace (w1.modifyPerson p (fun x => { x with startTime := now }))
        (.frameInit p) (fun v => ext.frame_init v p)
      rw [hinit] at this
      simp only [World.modifyPerson] at this
      rw [this, ht]
      simp
    refine ⟨fun hr => ?_, fun hr => ?_⟩
    · rw [heq, if_pos hr]
    · rw [heq, hr]
      refine ⟨by simp, by simp [World.modifyPerson], ?_⟩
      simpa [World.modifyPerson] using ht3

/-- C28 (removal errors of `killAgent`): for a person whose snapshot of before the update
has the lane `ln` and for which `removeAgent` on that lane answers that the person was
not there. If the role of the person is none of `RL_ACTIVITY` and `RL_PEDESTRIAN`, and
the person, if a driver, is not among the activity performers, then `killAgent` raises
the error "attempt to remove non-existent person in lane" for every such role but
`RL_BUSDRIVER`; for `RL_BUSDRIVER` it goes on to the end without error: the person
loses its provider and is removed from the worker of the conflux and scheduled for
removal. A driver that is found in `activityPerformers` is erased from that list, no
removal from a lane is made (no segment stats changes), and the end is the same. -/
theorem killAgent_removal_errors (w w1 : World) (cfx : ConfluxId) (p : PersonId)
    (before : PersonProps) (ln : LaneId)
    (hlane : before.lane = some ln)
    (hrem : w.removeAgent before.segStats ln p before.isQueuing = (.ok false, w1)) :
    (∀ t, ((w.person p).role.map Role.roleType).getD .RL_UNKNOWN = t →
      t ≠ .RL_ACTIVITY → t ≠ .RL_PEDESTRIAN →
      (t = .RL_DRIVER → p ∉ (w.conflux cfx).activityPerformers) →
      (t ≠ .RL_BUSDRIVER → killAgent w cfx p before = (.error .removeNonExistentPerson, w1)) ∧
      (t = .RL_BUSDRIVER → killAgent w cfx p before = terminate w1 cfx p ∧
        ∀ worker, (w1.conflux cfx).parentWorker = some worker →
          killAgent w cfx p before = (.ok (),
            ((w1.modifyPerson p (fun x => { x with currWorkerProvider := none })).record
              (.remEntity worker p)).record (.scheduleForRemoval worker p)))) ∧
    (((w.person p).role.map Role.roleType).getD .RL_UNKNOWN = .RL_DRIVER →
      p ∈ (w.conflux cfx).activityPerformers →
      killAgent w cfx p before =
        terminate (w.modifyConflux cfx
          (fun c => { c with activityPerformers := c.activityPerformers.erase p })) cfx p ∧
      (killAgent w cfx p before).2.segStats = w.segStats ∧
      ((killAgent w cfx p before).2.conflux cfx).activityPerformers
        = (w.conflux cfx).activityPerformers.erase p) := by
  refine ⟨?_, ?_⟩
  · intro t ht hna hnp hdrv
    have hkill : ∀ tolerated, killFromLane w before ln p tolerated =
        if !false && !tolerated then (.error .removeNonExistentPerson, w1) else (.ok (), w1) := by
      intro tolerated
      simp only [killFromLane, hrem]
    refine ⟨fun hnb => ?_, fun hb => ?_⟩
    · unfold killAgent
      simp only [ht]
      cases t <;> simp_all
    · subst hb
      have hk : killAgent w cfx p before = terminate w1 cfx p := by
        unfold killAgent
        simp only [ht, hlane, hkill]
        simp
      exact ⟨hk, fun worker hw => by rw [hk, terminate_ok w1 cfx p worker hw]⟩
  · intro ht hmem
    have hk : killAgent w cfx p before =
        terminate (w.modifyConflux cfx
          (fun c => { c with activityPerformers := c.activityPerformers.erase p })) cfx p := by
      unfold killAgent
      simp only [ht, hmem, if_true]
    refine ⟨hk, ?_, ?_⟩
    · rw [hk]
      unfold terminate
      dsimp only
      split <;> rfl
    · rw [hk]
      unfold terminate
      dsimp only
      split <;> simp [World.modifyConflux, World.modifyPerson, World.record]

/-- The bus driver of the demo, killed with a snapshot that names lane infinity of
segment stats 1, where it is not: `killAgent` ends without error, and the driver is
removed from worker 0. -/
theorem killAgent_removal_errors_witness :
    (killAgent Demo.busWorld 0 7 { Demo.busProps true with lane := some 99 }).1 = .ok () ∧
    (killAgent Demo.busWorld 0 7 { Demo.busProps true with lane := some 99 }).2.trace
      = [Event.remEntity 0 7, Event.scheduleForRemoval 0 7] := by
  have h := ((killAgent_removal_errors Demo.busWorld
    (Demo.busWorld.removeAgent (some 1) 99 7 false).2 0 7
    { Demo.busProps true with lane := some 99 } 99 rfl rfl).1 .RL_BUSDRIVER rfl (by decide)
    (by decide) (by decide)).2 rfl
  rw [h.1]
  exact ⟨rfl, rfl⟩

/-- C37: the two-stage clamp of `resetOutputBounds` is a single clamp. For all integers
`cap`, `moving` and `queuing` and every `laneInf` that is at least 0, what lines 666 to
669 compute from `num_emptySpaces = cap - moving - queuing` and `laneInf`, which is
`max(0, max(0, cap - moving - queuing) - laneInf)`, equals
`max(0, cap - moving - queuing - laneInf)`, and is at least 0. An output estimate of a
segment stats that is computed is this value for the `int num_emptySpaces` of lines 664
and 665 and the persons in its lane infinity, so that it is at least 0 and its
conversion to `unsigned int` keeps its value; and where the counts are below `2 ^ 32`
and the difference is in the range of `int` the output estimate is computed and is the
single clamp of the capacity of the segment in passenger car units, its moving and
queuing persons and the persons in its lane infinity. -/
theorem twoStageClamp_is_single_clamp (cap moving queuing laneInf : Int) (hl : 0 ≤ laneInf) :
    twoStageClamp (cap - moving - queuing) laneInf = singleClamp cap moving queuing laneInf ∧
    twoStageClamp (cap - moving - queuing) laneInf
      = max 0 (max 0 (cap - moving - queuing) - laneInf) ∧
    0 ≤ twoStageClamp (cap - moving - queuing) laneInf ∧
    (∀ (w : World) (segStats : SegmentStats),
      (∀ e, outputEstimate w segStats = .ok e →
        (∃ num_emptySpaces, doubleToInt (numEmptySpaces w segStats) = some num_emptySpaces ∧
          e = twoStageClamp num_emptySpaces
            (segStats.numAgentsInLane segStats.laneInfinity : Int)) ∧
        0 ≤ e ∧ ((e.toNat : Nat) : Int) = e) ∧
      (segStats.numMovingInSegment < 2 ^ 32 → segStats.numQueuingInSegment < 2 ^ 32 →
        -2 ^ 31 ≤ vehicleCapacity w segStats - (segStats.numMovingInSegment : Int)
            - (segStats.numQueuingInSegment : Int) →
        vehicleCapacity w segStats - (segStats.numMovingInSegment : Int)
            - (segStats.numQueuingInSegment : Int) < 2 ^ 31 →
        outputEstimate w segStats =
          .ok (singleClamp (vehicleCapacity w segStats)
            (segStats.numMovingInSegment : Int) (segStats.numQueuingInSegment : Int)
            (segStats.numAgentsInLane segStats.laneInfinity : Int)))) := by
  obtain ⟨h1, h2, h3⟩ := twoStageClamp_eq (cap - moving - queuing) laneInf hl
  refine ⟨h1, h2, h3, ?_⟩
  intro w segStats
  refine ⟨?_, ?_⟩
  · intro e he
    obtain ⟨n, hn, _⟩ := outputEstimate_ok w segStats e he
    have hc := outputEstimate_eq_twoStageClamp w segStats n hn
    rw [he] at hc
    have hev : e = twoStageClamp n (segStats.numAgentsInLane segStats.laneInfinity : Int) := by
      cases hc; rfl
    obtain ⟨_, _, k3⟩ := twoStageClamp_eq n
      (segStats.numAgentsInLane segStats.laneInfinity : Int) (Int.natCast_nonneg _)
    rw [← hev] at k3
    exact ⟨⟨n, hn, hev⟩, k3, Int.toNat_of_nonneg k3⟩
  · intro hm hq hlo hhi
    exact outputEstimate_eq w segStats hm hq hlo hhi

/-- With 3 places, 5 moving persons and 2 persons in lane infinity both clamps give 0;
with 7 places, 1 moving and 1 queuing person and 2 persons in lane infinity both give 3. -/
theorem twoStageClamp_is_single_clamp_witness :
    (twoStageClamp (3 - 5 - 0) 2 = singleClamp 3 5 0 2 ∧ twoStageClamp (3 - 5 - 0) 2 = 0) ∧
    (twoStageClamp (7 - 1 - 1) 2 = singleClamp 7 1 1 2 ∧ twoStageClamp (7 - 1 - 1) 2 = 3) :=
  ⟨⟨(twoStageClamp_is_single_clamp 3 5 0 2 (by decide)).1, by decide⟩,
   ⟨(twoStageClamp_is_single_clamp 7 1 1 2 (by decide)).1, by decide⟩⟩

/-- C36: `findSegStats(rdSeg, statsNum)` returns null for a null road segment and for
the stats number 0. For a road segment registered in `segmentAgents` with the list
`statsList`, it returns null when the stats number exceeds the length of the list, and
otherwise the element at the 1-based position `statsNum` of the list. So for a segment
stats `s` of that segment whose stats number is its 1-based position in the list,
`findSegStats(s.roadSegment, s.statsNumberInSegment)` is `s`, and the snapshot of a
person on `s`, taken on the parent conflux of `s`, has `s` as its segment stats. -/
theorem findSegStats_spec (cfx : Conflux) (seg : SegmentId) (statsList : List SegStatsId)
    (hreg : mapAt cfx.segmentAgents seg = some statsList) :
    (∀ n, cfx.findSegStats none n = .ok none) ∧
    (∀ rdSeg, cfx.findSegStats rdSeg 0 = .ok none) ∧
    (∀ n, statsList.length < n → cfx.findSegStats (some seg) n = .ok none) ∧
    (∀ n, 0 < n → n ≤ statsList.length →
      ∃ s, statsList.get? (n - 1) = some s ∧ cfx.findSegStats (some seg) n = .ok (some s)) ∧
    (∀ (w : World) (s : SegStatsId), (w.segStats s).roadSegment = seg →
      0 < (w.segStats s).statsNumberInSegment →
      statsList.get? ((w.segStats s).statsNumberInSegment - 1) = some s →
      cfx.findSegStats (some (w.segStats s).roadSegment) (w.segStats s).statsNumberInSegment
        = .ok (some s) ∧
      (∀ (p : PersonId) (c : ConfluxId), (w.person p).currSegStats = some s →
        w.conflux (w.segStats s).parentConflux = cfx →
        ∃ props, PersonProps.capture w p c = .ok props ∧ props.segStats = some s ∧
          props.segment = some seg ∧ props.conflux = some (w.segStats s).parentConflux)) := by
  have hpos : ∀ n, 0 < n → n ≤ statsList.length →
      cfx.findSegStats (some seg) n = .ok (statsList.get? (n - 1)) := by
    intro n h0 hn
    have h1 : ¬ n = 0 := by omega
    have h2 : ¬ statsList.length < n := by omega
    simp only [Conflux.findSegStats, h1, if_false, hreg, h2]
  refine ⟨fun n => rfl, ?_, ?_, ?_, ?_⟩
  · intro rdSeg
    cases rdSeg with
    | none => rfl
    | some g => simp [Conflux.findSegStats]
  · intro n hn
    have h1 : ¬ n = 0 := by omega
    simp only [Conflux.findSegStats, h1, if_false, hreg, hn, if_true]
  · intro n h0 hn
    have hlt : n - 1 < statsList.length := by omega
    have hget : statsList.get? (n - 1) = some statsList[n - 1] := by
      rw [List.get?_eq_getElem?, List.getElem?_eq_getElem hlt]
    exact ⟨statsList[n - 1], hget, by rw [hpos n h0 hn, hget]⟩
  · intro w s hseg h0 hget
    have hlen : (w.segStats s).statsNumberInSegment ≤ statsList.length := by
      have := List.get?_eq_some.mp hget
      obtain ⟨h, _⟩ := this
      omega
    have hfind : cfx.findSegStats (some (w.segStats s).roadSegment)
        (w.segStats s).statsNumberInSegment = .ok (some s) := by
      rw [hseg, hpos _ h0 hlen, hget]
    refine ⟨hfind, ?_⟩
    intro p c hcur hcfx
    simp only [PersonProps.capture, hcur, hcfx, hfind]
    exact ⟨_, rfl, rfl, by rw [← hseg], rfl⟩

/-- Conflux 0 of the demo has registered road segment 20 with the segment stats 1, whose
stats number is 1: `findSegStats` finds it. -/
theorem findSegStats_spec_witness :
    (Demo.conflux 5 2 [9] 0).findSegStats (some 20) 1 = .ok (some 1) := by
  obtain ⟨s, h1, h2⟩ := (findSegStats_spec (Demo.conflux 5 2 [9] 0) 20 [1] rfl).2.2.2.1 1
    (by decide) (by decide)
  rw [h2]
  exact congrArg Except.ok h1.symm

/-- C34 (amended): `topCMergeDifferentLinksInConflux` loses and duplicates nobody if
the driving times are finite (no `+∞`, no NaN). For deques whose persons have finite
driving times and for every capacity, what the merge appends to
`mergedPersonDeque` is a permutation of the concatenation of the deques, and every deque
is a subsequence of it: two persons of the same deque come in the output in the order
they have in the deque. -/
theorem topCMerge_is_permutation (w : World) (rand : Nat → Nat) (k : Nat)
    (mergedPersonDeque : List PersonId) (allPersonLists : List (List PersonId))
    (capacity : Int) (hfin : FiniteDrivingTimes w allPersonLists) :
    ∃ appended,
      (topCMergeDifferentLinksInConflux w rand k mergedPersonDeque allPersonLists capacity).1
        = mergedPersonDeque ++ appended ∧
      appended.Perm allPersonLists.flatten ∧
      (∀ i l, allPersonLists.get? i = some l → l.Sublist appended) ∧
      appended.length = totalPersons allPersonLists := by
  obtain ⟨picked, leftovers, hpicks, hres⟩ :=
    topCMerge_decomposition w rand k mergedPersonDeque allPersonLists capacity hfin
  have hperm := minHeadPicks_perm hpicks
  refine ⟨picked ++ leftovers.flatten, hres, hperm, ?_, ?_⟩
  · intro i l hl
    obtain ⟨taken, rest, h1, h2, h3⟩ := minHeadPicks_taken hpicks i l hl
    rw [h2]
    exact List.Sublist.append h3 (sublist_flatten_of_get leftovers i rest h1)
  · rw [hperm.length_eq]
    simp [totalPersons, List.length_flatten]

/-- With the deques [1, 4] and [2, 3], driving times equal to the numbers of the persons
and a capacity of 2, the merge gives 1, 2, 4, 3: the four persons, 1 before 4 and 2
before 3. -/
theorem topCMerge_is_permutation_witness :
    (topCMergeDifferentLinksInConflux Demo.mergeWorld (fun _ => 0) 0 [] [[1, 4], [2, 3]] 2).1
      = [1, 2, 4, 3] ∧
    ∃ appended,
      (topCMergeDifferentLinksInConflux Demo.mergeWorld (fun _ => 0) 0 [] [[1, 4], [2, 3]] 2).1
        = [] ++ appended ∧
      appended.Perm [[1, 4], [2, 3]].flatten ∧
      (∀ i l, [[1, 4], [2, 3]].get? i = some l → l.Sublist appended) ∧
      appended.length = totalPersons [[1, 4], [2, 3]] :=
  ⟨by decide, topCMerge_is_permutation Demo.mergeWorld (fun _ => 0) 0 [] [[1, 4], [2, 3]] 2
    (by
      intro l hl p hp
      simp only [List.mem_cons, List.mem_singleton, List.not_mem_nil, or_false] at hl
      rcases hl with rfl | rfl <;>
        simp only [List.mem_cons, List.mem_singleton, List.not_mem_nil, or_false] at hp <;>
        rcases hp with rfl | rfl <;>
        simp [World.drivingTime, Demo.mergeWorld, Demo.driver, MAX_DOUBLE] <;> norm_num)⟩

/-- C34 (as stated) fails: with the deques `[1]` and `[2]`, person 1 having an infinite
driving time and person 2 a time of 2 s, and a capacity of 2, the first pass picks
person 2, the second pass finds no head to pick and the function returns at line 1481
without appending what is left: the output `[2]` is not a permutation of the persons
`[1, 2]` of the deques, person 1 is lost. -/
theorem topCMerge_is_permutation_counterexample :
    (topCMergeDifferentLinksInConflux Demo.stalledWorld (fun _ => 0) 0 [] [[1], [2]] 2).1
      = [2] ∧
    ¬ ∃ appended,
      (topCMergeDifferentLinksInConflux Demo.stalledWorld (fun _ => 0) 0 [] [[1], [2]] 2).1
        = [] ++ appended ∧
      appended.Perm [[1], [2]].flatten := by
  have hres : (topCMergeDifferentLinksInConflux Demo.stalledWorld (fun _ => 0) 0 []
      [[1], [2]] 2).1 = [2] := by decide
  refine ⟨hres, ?_⟩
  rintro ⟨appended, h, hperm⟩
  rw [hres, List.nil_append] at h
  rw [← h] at hperm
  have := hperm.length_eq
  simp at this

/-- C32: `addAgent` on a loader conflux puts the person at the back of `loadingQueue`
and does nothing else. On a conflux that is no loader: a person without a role is added
to no container, the world being as it was; a person with the role `RL_PASSENGER` raises
an error; and a person with the role `RL_DRIVER`, `RL_BUSDRIVER` or `RL_BIKER` whose
road segment (that of its current segment stats) the conflux has in `segmentAgents`,
with a first segment stats whose lane infinity has its statistics, is put at the back
of the deque of lane infinity of the first segment stats of that segment, with that
segment stats as its current one, lane infinity as its current lane, the length of that
segment stats as its distance to the end of the segment and the duration of the tick as
its remaining time; no other deque, no other person and no container of a conflux
changes. -/
theorem addAgent_spec (ext : TripCollaborators) (cfg : Config) (ms : Nat) (w : World)
    (cfx : ConfluxId) (p : PersonId) :
    ((w.conflux cfx).isLoader = true →
      addAgent ext cfg ms w cfx p = (.ok (), w.modifyConflux cfx
        (fun c => { c with loadingQueue := c.loadingQueue ++ [p] }))) ∧
    ((w.conflux cfx).isLoader = false →
      ((w.person p).role = none → addAgent ext cfg ms w cfx p = (.ok (), w)) ∧
      (∀ role, (w.person p).role = some role → role.roleType = .RL_PASSENGER →
        addAgent ext cfg ms w cfx p = (.error .startAsPassenger, w)) ∧
      (∀ role cur first rest st, (w.person p).role = some role →
        (role.roleType = .RL_DRIVER ∨ role.roleType = .RL_BUSDRIVER ∨
          role.roleType = .RL_BIKER) →
        (w.person p).currSegStats = some cur →
        mapAt (w.conflux cfx).segmentAgents (w.segStats cur).roadSegment
          = some (first :: rest) →
        mapAt (w.segStats first).laneStatsMap (w.segStats first).laneInfinity = some st →
        ∃ w', addAgent ext cfg ms w cfx p = (.ok (), w') ∧
          w'.person p = { w.person p with
            currSegStats := some first,
            currLane := some (w.segStats first).laneInfinity,
            distanceToEndOfSegment := (w.segStats first).length,
            remainingTimeThisTick := (w.conflux cfx).tickTimeInS } ∧
          (∀ q, q ≠ p → w'.person q = w.person q) ∧
          w'.laneAgents first (w.segStats first).laneInfinity = st.laneAgents ++ [p] ∧
          (∀ t ln, ¬ (t = first ∧ ln = (w.segStats first).laneInfinity) →
            w'.laneAgents t ln = w.laneAgents t ln) ∧
          w'.conflux = w.conflux)) := by
  refine ⟨fun hl => ?_, fun hl => ⟨fun hr => ?_, fun role hr ht => ?_, ?_⟩⟩
  · simp only [addAgent, hl, if_true]
  · simp only [addAgent, hl, hr, Bool.false_eq_true, if_false]
  · simp only [addAgent, hl, hr, ht, Bool.false_eq_true, if_false]
  · intro role cur first rest st hr ht hcur hseg hlane
    have heq : addAgent ext cfg ms w cfx p = startInLaneInfinity w cfx p := by
      rcases ht with ht | ht | ht <;>
        simp only [addAgent, hl, hr, ht, Bool.false_eq_true, if_false]
    rw [heq]
    exact startInLaneInfinity_ok w cfx p cur first rest st hcur hseg hlane

/-- The driver of the demo network, added as person 3 to conflux 0, starts at the back
of lane infinity (lane 99) of segment stats 1 with 10 m to go and a whole tick left. -/
theorem addAgent_spec_witness :
    ∃ w', addAgent (Demo.tripChain .RS_CONTINUE) Demo.config 5000 (Demo.world 5 0 [] 0) 0 3
        = (.ok (), w') ∧
      w'.laneAgents 1 99 = [3] ∧ (w'.person 3).currSegStats = some 1 ∧
      (w'.person 3).currLane = some 99 ∧ (w'.person 3).distanceToEndOfSegment = 1000 ∧
      (w'.person 3).remainingTimeThisTick = 1 := by
  obtain ⟨w', h1, h2, _, h4, _, _⟩ :=
    (addAgent_spec (Demo.tripChain .RS_CONTINUE) Demo.config 5000 (Demo.world 5 0 [] 0) 0 3).2 rfl
      |>.2.2 _ 1 1 [] (Demo.laneOf [] 0) rfl (Or.inl rfl) rfl rfl rfl
  exact ⟨w', h1, h4, by rw [h2], by rw [h2]; rfl, by rw [h2]; rfl, by rw [h2]; rfl⟩

/-- C31: the update of a loader conflux. Let `update(T)` pass its prologue (the conflux
is initialised, `currFrame` is `T`) and find `isLoader` set, with fuel for every person
of `loadingQueue`, and let `findStartingConflux` touch neither `loadingQueue` nor the
messages `MSG_PERSON_LOAD`. Then the update is the prologue followed by `loadPersons`
and nothing else: it is the same whatever the collaborators of the processing of agents
are. The messages `MSG_PERSON_LOAD` it posts are, in the order of the queue, one for
every person taken from the queue for which `findStartingConflux` gave a conflux,
addressed to that conflux, and none for a person for which it gave null; the persons
taken are the front of the queue. When the update returns, it returns `RS_CONTINUE`,
every person of the queue has been taken once and `loadingQueue` is empty; and the
update does return if no call of `findStartingConflux` fails. -/
theorem loader_update_spec (col : Collaborators) (cfg : Config) (fuel : Nat) (cfx : ConfluxId)
    (frameNumber : Nat) (w w1 : World)
    (hpro : updatePrologue col cfx frameNumber w = (.ok (), w1))
    (hloader : (w1.conflux cfx).isLoader = true)
    (hfuel : (w1.conflux cfx).loadingQueue.length ≤ fuel)
    (hkeep : ∀ v p now,
      ((col.findStartingConflux v p now).2.conflux cfx).loadingQueue
        = (v.conflux cfx).loadingQueue ∧
      (col.findStartingConflux v p now).2.personLoads = v.personLoads) :
    (update col cfg fuel cfx frameNumber w).2.personLoads
      = w1.personLoads ++
        (startingConfluxes col cfx
          ((((w1.conflux cfx).currFrame + cfg.granPersonTicks) * cfg.baseGranMS) % 2 ^ 32)
          fuel w1).filterMap loadMessage ∧
    ((startingConfluxes col cfx
        ((((w1.conflux cfx).currFrame + cfg.granPersonTicks) * cfg.baseGranMS) % 2 ^ 32)
        fuel w1).map Prod.fst) <+: (w1.conflux cfx).loadingQueue ∧
    (∀ s, (update col cfg fuel cfx frameNumber w).1 = .ok s →
      s = .RS_CONTINUE ∧
      (startingConfluxes col cfx
        ((((w1.conflux cfx).currFrame + cfg.granPersonTicks) * cfg.baseGranMS) % 2 ^ 32)
        fuel w1).map Prod.fst = (w1.conflux cfx).loadingQueue ∧
      ((update col cfg fuel cfx frameNumber w).2.conflux cfx).loadingQueue = []) ∧
    ((∀ v p now, ∃ c v', col.findStartingConflux v p now = (.ok c, v')) →
      (update col cfg fuel cfx frameNumber w).1 = .ok .RS_CONTINUE) ∧
    (∀ col2 : Collaborators, col2.findStartingConflux = col.findStartingConflux →
      col2.initializeBusStops = col.initializeBusStops →
      update col2 cfg fuel cfx frameNumber w = update col cfg fuel cfx frameNumber w) := by
  have hupd := update_of_loader col cfg fuel cfx frameNumber w w1 hpro hloader
  obtain ⟨i1, i2, i3, i4⟩ := loadPersonsLoop_spec col cfx
    ((((w1.conflux cfx).currFrame + cfg.granPersonTicks) * cfg.baseGranMS) % 2 ^ 32)
    (fun v p => hkeep v p _) fuel w1 hfuel
  have h1 : (update col cfg fuel cfx frameNumber w).1
      = Except.map (fun _ => UpdateStatus.RS_CONTINUE) (loadPersons col cfg fuel cfx w1).1 :=
    congrArg Prod.fst hupd
  have h2 : (update col cfg fuel cfx frameNumber w).2 = (loadPersons col cfg fuel cfx w1).2 :=
    congrArg Prod.snd hupd
  refine ⟨?_, i2, ?_, ?_, ?_⟩
  · rw [h2]; exact i1
  · intro s hs
    rw [h1] at hs
    have hok : (loadPersons col cfg fuel cfx w1).1 = .ok () := by
      rcases hr : (loadPersons col cfg fuel cfx w1).1 with f | u
      · rw [hr] at hs; cases hs
      · rfl
    rw [hok] at hs
    refine ⟨?_, (i3 hok).1, ?_⟩
    · cases hs; rfl
    · rw [h2]; exact (i3 hok).2
  · intro hall
    rw [h1]
    have hok : (loadPersons col cfg fuel cfx w1).1 = .ok () := i4 (fun v p => hall v p _)
    rw [hok]; rfl
  · intro col2 hf hb
    have hpro2 : updatePrologue col2 cfx frameNumber w = (.ok (), w1) := by
      rw [updatePrologue_congr col col2 hb]; exact hpro
    rw [update_of_loader col2 cfg fuel cfx frameNumber w w1 hpro2 hloader, hupd]
    simp only [loadPersons, loadPersonsLoop_congr col col2 hf]

/-- The loader conflux 3 of the demo network with the persons 7, 8 and 9 in its
queue, of whom 8 has no starting conflux: the update in tick 5 posts the message for 7
to conflux 0 and the message for 9 to conflux 1, and leaves the queue empty. -/
theorem loader_update_spec_witness :
    (update Demo.loadingCollaborators Demo.config 10 3 5 Demo.loadingWorld).1
      = .ok .RS_CONTINUE ∧
    (update Demo.loadingCollaborators Demo.config 10 3 5 Demo.loadingWorld).2.personLoads
      = [(0, 7), (1, 9)] ∧
    ((update Demo.loadingCollaborators Demo.config 10 3 5 Demo.loadingWorld).2.conflux
      3).loadingQueue = [] := by
  have h := loader_update_spec Demo.loadingCollaborators Demo.config 10 3 5 Demo.loadingWorld
    (Demo.loadingWorld.modifyConflux 3 (fun c => { c with currFrame := 5 }))
    rfl rfl (by decide) (fun v p now => ⟨rfl, rfl⟩)
  obtain ⟨h1, _, h3, h4, _⟩ := h
  have hok := h4 (fun v p now => ⟨_, _, rfl⟩)
  exact ⟨hok, h1.trans (by decide), (h3 _ hok).2.2⟩

end SimMobility
